import Mathlib

/-! # BSDBootImageBuilder: a shallow embedding of the image layout engine

The definitions below follow `Image.cpp`, `Image.h` and `Blueprint.h`.

Conventions of the embedding:

* a `uint32_t` is a `Nat`, every 32-bit operation reduced `% 4294967296` where the
  C++ code can wrap;
* a byte is a `Fin 256`; `std::string`, `std::vector<uint8_t>` and file contents
  are `List Byte`; `std::vector<uint32_t>` is `List Nat`;
* `size_t` and pointer arithmetic are exact (a 64-bit host, little-endian);
* a C++ exception is an `Except.error`; so is every access outside a buffer,
  which the C++ code leaves undefined, so that an accepted build is one that
  neither throws nor runs into undefined behaviour;
* `printf` output is not modelled.
-/

namespace BSDBootImageBuilder

/-! ## Machine words and byte buffers -/

/-- One octet. -/
abbrev Byte := Fin 256

/-- The modulus of `uint32_t` arithmetic. -/
abbrev U32 : Nat := 4294967296

/-- The low octet of a number. -/
def byteOf (n : Nat) : Byte := ⟨n % 256, Nat.mod_lt n (by decide)⟩

/-- The bytes of an ASCII string literal, as `std::string` holds them. -/
def str (s : String) : List Byte := s.toList.map (fun c => byteOf c.toNat)

/-- The four bytes of a little-endian `uint32_t` in memory. -/
def le32 (v : Nat) : List Byte :=
  [byteOf v, byteOf (v / 256), byteOf (v / 65536), byteOf (v / 16777216)]

/-- The two bytes of a little-endian `uint16_t` in memory. -/
def le16 (v : Nat) : List Byte := [byteOf v, byteOf (v / 256)]

/-- `memcpy` of a byte string into zero-initialised `uint32_t` storage on a
little-endian host: four bytes to a word, the last word zero-padded. -/
def packWords : List Byte → List Nat
  | [] => []
  | [a] => [a.val]
  | [a, b] => [a.val + 256 * b.val]
  | [a, b, c] => [a.val + 256 * b.val + 65536 * c.val]
  | a :: b :: c :: d :: rest =>
    (a.val + 256 * b.val + 65536 * c.val + 16777216 * d.val) :: packWords rest

/-- The bytes of a `std::vector<uint32_t>` in memory (little-endian host). -/
def wordsToBytes (ws : List Nat) : List Byte := ws.flatMap le32

/-- A little-endian `uint16_t` read from the first two bytes of `bs`. -/
def u16le (bs : List Byte) : Nat :=
  (bs.getD 0 0).val + 256 * (bs.getD 1 0).val

/-- A little-endian `uint32_t` read from the first four bytes of `bs`. -/
def u32le (bs : List Byte) : Nat :=
  (bs.getD 0 0).val + 256 * (bs.getD 1 0).val + 65536 * (bs.getD 2 0).val
    + 16777216 * (bs.getD 3 0).val

/-- Corresponds to `std::vector<uint8_t>::resize(n)`: truncate, or extend with zero bytes. -/
def resize (v : List Byte) (n : Nat) : List Byte :=
  v.take n ++ List.replicate (n - v.length) 0

/-- Overwrite `bs.length` bytes of `v` starting at index `off`. -/
def writeAt (v : List Byte) (off : Nat) (bs : List Byte) : List Byte :=
  v.take off ++ bs ++ v.drop (off + bs.length)

/-! ## Errors -/

/-- The ways a build stops. The first six are the exceptions the C++ code
throws; `outOfBounds` and `divisionByZero` stand for undefined behaviour. -/
inductive Error where
  /-- A stream with `failbit | eofbit | badbit` exceptions failed: missing file, short read. -/
  | ioError
  /-- The `std::runtime_error` text "Unknown module type '...'" with the type string. -/
  | unknownModuleType (type : List Byte)
  /-- The text "Bad ELF identification". -/
  | badElf
  /-- The text "bad relocation section size". -/
  | badRelocationSection
  /-- The text "Unsupported relocation type N". -/
  | unsupportedRelocation (type : Nat)
  /-- An exception of `std::stoul`: `std::invalid_argument` or `std::out_of_range`. -/
  | stoulError
  /-- An LZ4F call reported an error. -/
  | compressorError
  /-- A read or write outside a buffer. -/
  | outOfBounds
  /-- The integer division by the payload size in the progress message, on an empty payload. -/
  | divisionByZero
  deriving DecidableEq, Repr

deriving instance DecidableEq for Except

/-- A copy of `bs` to the address `data + target - origin` of the buffer `v`
(`data` its first byte): the offset is exact pointer arithmetic, and bytes are
only touched when `bs` is not empty. -/
def storeAt (v : List Byte) (target origin : Nat) (bs : List Byte) : Except Error (List Byte) :=
  if bs = [] then .ok v
  else if origin ≤ target ∧ (target - origin) + bs.length ≤ v.length then
    .ok (writeAt v (target - origin) bs)
  else .error .outOfBounds

/-! ## Blueprint (`Blueprint.h`) -/

/-- Mirrors `enum class ModuleMetadataType`. -/
inductive ModuleMetadataType where
  | DTB
  | KERNEND
  | HOWTO
  | ENVIRONMENT
  deriving DecidableEq, Repr

/-- Mirrors `struct ModuleMetadata`. -/
structure ModuleMetadata where
  type : ModuleMetadataType
  singleValue : List Byte := []
  keyValuePairs : List (List Byte × List Byte) := []
  deriving DecidableEq, Repr

/-- Mirrors `struct Module`. -/
structure Module where
  name : List Byte
  type : List Byte
  fileName : List Byte
  metadata : List ModuleMetadata := []
  deriving DecidableEq, Repr

/-- The public data members of `class Blueprint`. -/
structure Blueprint where
  modules : List Module
  imageBase : Nat
  kickstart : List Byte
  initModules : List (List Byte) := []
  compress : Bool := false
  deriving DecidableEq, Repr

/-! ## What the build reads from outside -/

/-- The surroundings of a build: the file system, the LZ4 frame encoder (a
black box from a payload to its compressed frame), and the constant
`KERNEL_VADDR` of `FreeBSDTypes.h`, which is not part of the sources. -/
structure Host where
  files : List Byte → Option (List Byte)
  lz4 : List Byte → Except Error (List Byte)
  KERNEL_VADDR : Nat

/-- Opening a file for reading with exceptions enabled. -/
def Host.openFile (host : Host) (path : List Byte) : Except Error (List Byte) :=
  match host.files path with
  | some f => .ok f
  | none => .error .ioError

/-- Corresponds to `seekg(off)` followed by `read(_, n)` on a stream with exceptions enabled:
the `n` bytes at `off`, an exception when the file is too short. A read of
no bytes succeeds. -/
def readAt (f : List Byte) (off n : Nat) : Except Error (List Byte) :=
  if n = 0 then .ok []
  else if off + n ≤ f.length then .ok ((f.drop off).take n)
  else .error .ioError

/-! ## Constants -/

/-- Modelled from the spec: `MODINFO_END` of `FreeBSDTypes.h`, which is not part of the sources. -/
def MODINFO_END : Nat := 0
/-- Modelled from the spec: `MODINFO_NAME` of `FreeBSDTypes.h`, which is not part of the sources. -/
def MODINFO_NAME : Nat := 1
/-- Modelled from the spec: `MODINFO_TYPE` of `FreeBSDTypes.h`, which is not part of the sources. -/
def MODINFO_TYPE : Nat := 2
/-- Modelled from the spec: `MODINFO_ADDR` of `FreeBSDTypes.h`, which is not part of the sources. -/
def MODINFO_ADDR : Nat := 3
/-- Modelled from the spec: `MODINFO_SIZE` of `FreeBSDTypes.h`, which is not part of the sources. -/
def MODINFO_SIZE : Nat := 4
/-- Modelled from the spec: `MODINFO_METADATA` of `FreeBSDTypes.h`, which is not part of the sources. -/
def MODINFO_METADATA : Nat := 0x8000
/-- Modelled from the spec: `MODINFOMD_HOWTO` of `FreeBSDTypes.h`, which is not part of the sources. -/
def MODINFOMD_HOWTO : Nat := 0x0001
/-- Modelled from the spec: `MODINFOMD_ENVP` of `FreeBSDTypes.h`, which is not part of the sources. -/
def MODINFOMD_ENVP : Nat := 0x0002
/-- Modelled from the spec: `MODINFOMD_KERNEND` of `FreeBSDTypes.h`, which is not part of the sources. -/
def MODINFOMD_KERNEND : Nat := 0x0004
/-- Modelled from the spec: `MODINFOMD_DTBP` of `FreeBSDTypes.h`, which is not part of the sources. -/
def MODINFOMD_DTBP : Nat := 0x0010

/-! ## The layout state (`Image.h`) -/

/-- The deferred writers that `build` registers. The C++ code stores a closure
over the `Image`; the only closure it ever creates is the KERNEND one. -/
inductive FixupHandler where
  | kernend
  deriving DecidableEq, Repr

/-- Mirrors `struct MetadataFixup`. -/
structure MetadataFixup where
  offset : Nat
  handler : FixupHandler
  deriving DecidableEq, Repr

/-- One assignment to `m_allocationPointer`, as an observer of the build would
record it: the value before, the exact (unreduced) number the 32-bit
computation stands for, and the value stored. -/
structure CursorEvent where
  before : Nat
  raw : Nat
  after : Nat
  deriving DecidableEq, Repr

/-- The data members of `class Image`. `cursorLog` is a ghost field: the
history of `m_allocationPointer` since the start of `build`, oldest first. No
operation reads it. -/
structure Image where
  m_metadata : List Nat := []
  m_imageBase : Nat := 0
  m_allocationPointer : Nat := 0
  m_kernelDelta : Nat := 0
  m_kernelEntryPoint : Nat := 0
  m_metadataBase : Nat := 0
  m_kickstartBase : Nat := 0
  m_kickstartEntry : Nat := 0
  m_imageDisplacement : Nat := 0
  m_image : List Byte := []
  m_kickstart : List Byte := []
  m_metadataFixups : List MetadataFixup := []
  cursorLog : List CursorEvent := []
  deriving DecidableEq, Repr

/-- An assignment `m_allocationPointer = raw` (32-bit), recorded in the ghost log. -/
def Image.setCursor (st : Image) (raw : Nat) : Image :=
  { st with
    m_allocationPointer := raw % U32
    cursorLog := st.cursorLog ++ [⟨st.m_allocationPointer, raw, raw % U32⟩] }

/-! ## Metadata writer -/

/-- Mirrors `Image::writeMetadata(type, data, dataSize)`, `data` holding `dataSize` bytes. -/
def writeMetadata (type : Nat) (data : List Byte) (st : Image) : Image :=
  { st with m_metadata := st.m_metadata ++ [type % U32, data.length % U32] ++ packWords data }

/-- Mirrors `Image::writeMetadata32(type, value)`. -/
def writeMetadata32 (type value : Nat) (st : Image) : Image :=
  writeMetadata type (le32 value) st

/-- Mirrors `Image::writeMetadataFixup(type, fixup, dataSize)`. -/
def writeMetadataFixup (type : Nat) (fixup : FixupHandler) (dataSize : Nat) (st : Image) : Image :=
  let words := (dataSize + 3) / 4
  let header := st.m_metadata ++ [type % U32, dataSize % U32]
  if dataSize > 0 then
    { st with
      m_metadata := header ++ List.replicate words 0
      m_metadataFixups := st.m_metadataFixups ++ [⟨header.length, fixup⟩] }
  else
    { st with m_metadata := header }

/-- Mirrors `Image::alignAllocationPointer(alignment)`:
`m_allocationPointer = (m_allocationPointer + (alignment - 1)) & ~(alignment - 1)`. -/
def alignAllocationPointer (alignment : Nat) (st : Image) : Image :=
  let mask := (alignment + (U32 - 1)) % U32
  let raw := st.m_allocationPointer + mask
  { st with
    m_allocationPointer := (raw % U32) &&& (U32 - 1 - mask)
    cursorLog := st.cursorLog ++
      [⟨st.m_allocationPointer, raw, (raw % U32) &&& (U32 - 1 - mask)⟩] }

/-- 32-bit addition. -/
def add32 (a b : Nat) : Nat := (a + b) % U32

/-- 32-bit subtraction. -/
def sub32 (a b : Nat) : Nat := (a + (U32 - b % U32)) % U32

/-! ## ELF structures (`elf32.h`, standard ELF32 layouts) -/

/-- The fields of `Elf32_Ehdr` (52 bytes in the file). -/
structure Elf32_Ehdr where
  e_ident : List Byte
  e_type : Nat
  e_machine : Nat
  e_version : Nat
  e_entry : Nat
  e_phoff : Nat
  e_shoff : Nat
  e_flags : Nat
  e_ehsize : Nat
  e_phentsize : Nat
  e_phnum : Nat
  e_shentsize : Nat
  e_shnum : Nat
  e_shstrndx : Nat
  deriving DecidableEq, Repr

/-- The fields of `Elf32_Phdr` (32 bytes in the file). -/
structure Elf32_Phdr where
  p_type : Nat
  p_offset : Nat
  p_vaddr : Nat
  p_paddr : Nat
  p_filesz : Nat
  p_memsz : Nat
  p_flags : Nat
  p_align : Nat
  deriving DecidableEq, Repr

/-- The fields of `Elf32_Shdr` (40 bytes in the file). -/
structure Elf32_Shdr where
  sh_name : Nat
  sh_type : Nat
  sh_flags : Nat
  sh_addr : Nat
  sh_offset : Nat
  sh_size : Nat
  sh_link : Nat
  sh_info : Nat
  sh_addralign : Nat
  sh_entsize : Nat
  deriving DecidableEq, Repr

/-- The two fields of `Elf32_Rel` and `Elf32_Rela` that the relocator reads. -/
structure Reloc where
  r_offset : Nat
  r_info : Nat
  deriving DecidableEq, Repr

def sizeofEhdr : Nat := 52
def sizeofPhdr : Nat := 32
def sizeofShdr : Nat := 40
def sizeofRel : Nat := 8
def sizeofRela : Nat := 12

def ET_EXEC : Nat := 2
def EM_ARM : Nat := 40
def EV_CURRENT : Nat := 1
def PT_LOAD : Nat := 1
def SHT_RELA : Nat := 4
def SHT_REL : Nat := 9
def R_ARM_ABS32 : Nat := 2
def R_ARM_REL32 : Nat := 3
def R_ARM_CALL : Nat := 28
def R_ARM_PREL31 : Nat := 42
def PF_X : Nat := 1
def PF_W : Nat := 2
def PF_R : Nat := 4

/-- Modelled from the spec: `EI_PAD` of `elf32.h`, which is not part of the sources; the spec
compares the first 7 bytes of `e_ident`. -/
def EI_PAD : Nat := 7

/-- The array `ElfIdentification` of `Image.cpp`: `EI_NIDENT` bytes, seven of them set. -/
def ElfIdentification : List Byte :=
  [0x7F, 0x45, 0x4C, 0x46, 1, 1, 1, 0, 0, 0, 0, 0, 0, 0, 0, 0]

/-- The in-memory `Elf32_Ehdr` read from its 52 file bytes. -/
def parseEhdr (bs : List Byte) : Elf32_Ehdr where
  e_ident := bs.take 16
  e_type := u16le (bs.drop 16)
  e_machine := u16le (bs.drop 18)
  e_version := u32le (bs.drop 20)
  e_entry := u32le (bs.drop 24)
  e_phoff := u32le (bs.drop 28)
  e_shoff := u32le (bs.drop 32)
  e_flags := u32le (bs.drop 36)
  e_ehsize := u16le (bs.drop 40)
  e_phentsize := u16le (bs.drop 42)
  e_phnum := u16le (bs.drop 44)
  e_shentsize := u16le (bs.drop 46)
  e_shnum := u16le (bs.drop 48)
  e_shstrndx := u16le (bs.drop 50)

/-- The in-memory `Elf32_Phdr` read from its 32 file bytes. -/
def parsePhdr (bs : List Byte) : Elf32_Phdr where
  p_type := u32le bs
  p_offset := u32le (bs.drop 4)
  p_vaddr := u32le (bs.drop 8)
  p_paddr := u32le (bs.drop 12)
  p_filesz := u32le (bs.drop 16)
  p_memsz := u32le (bs.drop 20)
  p_flags := u32le (bs.drop 24)
  p_align := u32le (bs.drop 28)

/-- The in-memory `Elf32_Shdr` read from its 40 file bytes. -/
def parseShdr (bs : List Byte) : Elf32_Shdr where
  sh_name := u32le bs
  sh_type := u32le (bs.drop 4)
  sh_flags := u32le (bs.drop 8)
  sh_addr := u32le (bs.drop 12)
  sh_offset := u32le (bs.drop 16)
  sh_size := u32le (bs.drop 20)
  sh_link := u32le (bs.drop 24)
  sh_info := u32le (bs.drop 28)
  sh_addralign := u32le (bs.drop 32)
  sh_entsize := u32le (bs.drop 36)

/-- The in-memory relocation record read from its file bytes. -/
def parseReloc (bs : List Byte) : Reloc where
  r_offset := u32le bs
  r_info := u32le (bs.drop 4)

/-- The `count` consecutive records of `size` bytes each that `bs` starts with. -/
def records (size count : Nat) (bs : List Byte) : List (List Byte) :=
  (List.range count).map (fun i => (bs.drop (i * size)).take size)

/-- The header test that both loaders apply before throwing "Bad ELF identification". -/
def badElfHeader (ehdr : Elf32_Ehdr) : Bool :=
  ehdr.e_ident.take EI_PAD != ElfIdentification.take EI_PAD ||
  ehdr.e_type != ET_EXEC ||
  ehdr.e_machine != EM_ARM ||
  ehdr.e_version != EV_CURRENT ||
  ehdr.e_phentsize != sizeofPhdr

/-- Mirrors `ELF32_R_TYPE(info)`. -/
def ELF32_R_TYPE (info : Nat) : Nat := info % 256

/-! ## Module types -/

/-- Mirrors `enum class Image::ModuleType`. -/
inductive ModuleType where
  | ElfKernel
  | Binary
  deriving DecidableEq, Repr

/-- The table `Image::m_moduleTypes`. -/
def m_moduleTypes (type : List Byte) : Option ModuleType :=
  if type = str ("elf kernel") then some .ElfKernel
  else if type = str ("md_image") then some .Binary
  else none

/-! ## `std::stoul` -/

/-- Mirrors `isspace` in the "C" locale. -/
def isSpace (b : Byte) : Bool := b.val = 32 || (9 ≤ b.val && b.val ≤ 13)

/-- Mirrors `isdigit`. -/
def isDigit (b : Byte) : Bool := 48 ≤ b.val && b.val ≤ 57

/-- The largest `unsigned long` (64 bits). -/
def ULONG_MAX : Nat := 18446744073709551615

/-- The value of a string of decimal digits. -/
def decimalValue (ds : List Byte) : Nat :=
  ds.foldl (fun acc d => 10 * acc + (d.val - 48)) 0

/-- The call `std::stoul(s)` as `Image.cpp` writes it, with the default base 10:
leading white space, an optional sign, then decimal digits up to the first
other character. No digit, or a value above `ULONG_MAX`, throws. -/
def stoul (s : List Byte) : Except Error Nat :=
  let s := s.dropWhile isSpace
  let negative := s.head? = some 45
  let s := if s.head? = some 45 ∨ s.head? = some 43 then s.tail else s
  let digits := s.takeWhile isDigit
  if digits = [] then .error .stoulError
  else if decimalValue digits > ULONG_MAX then .error .stoulError
  else if negative then .ok ((ULONG_MAX + 1 - decimalValue digits) % (ULONG_MAX + 1))
  else .ok (decimalValue digits)

/-! ## The layout engine (`Image::build`, first part) -/

/-- The file read of one segment, `if (segment.p_filesz > 0) { seekg; read }`, into the
buffer `image` at the address `data + physaddr - origin`. -/
def readSegment (f : List Byte) (segment : Elf32_Phdr) (image : List Byte)
    (physaddr origin : Nat) : Except Error (List Byte) :=
  if segment.p_filesz > 0 then do
    let bytes ← readAt f segment.p_offset segment.p_filesz
    storeAt image physaddr origin bytes
  else pure image

/-- The loop over the program headers of an "elf kernel" module (lines 90-104):
`image` is `m_image`, `limit` the running end of the kernel. -/
def loadKernelSegments (f : List Byte) (imageBase kernelDelta : Nat) :
    List Elf32_Phdr → List Byte → Nat → Except Error (List Byte × Nat)
  | [], image, limit => .ok (image, limit)
  | segment :: rest, image, limit =>
    if segment.p_type = PT_LOAD then do
      let physaddr := add32 segment.p_vaddr kernelDelta
      let limit := max limit (add32 physaddr segment.p_memsz)
      let image :=
        if image.length < sub32 limit imageBase then resize image (sub32 limit imageBase)
        else image
      let image ← readSegment f segment image physaddr imageBase
      loadKernelSegments f imageBase kernelDelta rest image limit
    else loadKernelSegments f imageBase kernelDelta rest image limit

/-- The `case ModuleType::ElfKernel` block (lines 70-107): returns the state and `size`. -/
def loadKernelBody (f : List Byte) (base : Nat) (st : Image) : Except Error (Image × Nat) := do
  let ehdr := parseEhdr (← readAt f 0 sizeofEhdr)
  if badElfHeader ehdr then throw .badElf
  let st := { st with m_kernelEntryPoint := ehdr.e_entry }
  let phdr := (records sizeofPhdr ehdr.e_phnum
    (← readAt f ehdr.e_phoff (ehdr.e_phnum * sizeofPhdr))).map parsePhdr
  let (image, limit) ← loadKernelSegments f st.m_imageBase st.m_kernelDelta phdr st.m_image base
  pure ({ st with m_image := image }, sub32 limit base)

/-- The `case ModuleType::Binary` block (lines 111-118): returns the state and `size`. -/
def loadBinaryBody (f : List Byte) (base : Nat) (st : Image) : Except Error (Image × Nat) := do
  let size := f.length % U32
  let image := resize st.m_image (sub32 (add32 base size) st.m_imageBase)
  let bytes ← readAt f 0 size
  let image ← storeAt image base st.m_imageBase bytes
  pure ({ st with m_image := image }, size)

/-- The lookup `m_moduleTypes.find(mod.type)` and the exception of lines 47-52. -/
def lookupModuleType (type : List Byte) : Except Error ModuleType :=
  match m_moduleTypes type with
  | some info => .ok info
  | none => .error (.unknownModuleType type)

/-- The kernel alignment and the `m_kernelDelta` assignment (lines 55-59). -/
def alignKernel (host : Host) (info : ModuleType) (st : Image) : Image :=
  if info = .ElfKernel then
    { alignAllocationPointer 0x00100000 st with
      m_kernelDelta :=
        sub32 (alignAllocationPointer 0x00100000 st).m_allocationPointer host.KERNEL_VADDR }
  else st

/-- The `switch (info.type)` of lines 68-120: returns the state and `size`. -/
def loadModuleBody (info : ModuleType) (f : List Byte) (base : Nat) (st : Image) :
    Except Error (Image × Nat) :=
  match info with
  | .ElfKernel => loadKernelBody f base st
  | .Binary => loadBinaryBody f base st

/-- The part of the module loop before the metadata entries (lines 44-126):
the NAME and TYPE records, the type lookup, the kernel alignment, the body,
the advance and 4 KiB alignment, the ADDR and SIZE records. -/
def placeModuleBody (host : Host) (mod : Module) (st : Image) : Except Error Image := do
  let st := writeMetadata MODINFO_NAME (mod.name ++ [0]) st
  let st := writeMetadata MODINFO_TYPE (mod.type ++ [0]) st
  let info ← lookupModuleType mod.type
  let st := alignKernel host info st
  let base := st.m_allocationPointer
  let f ← host.openFile mod.fileName
  let (st, size) ← loadModuleBody info f base st
  let st := st.setCursor (base + size)
  let st := alignAllocationPointer 4096 st
  let st := writeMetadata32 MODINFO_ADDR (sub32 base st.m_kernelDelta) st
  let st := writeMetadata32 MODINFO_SIZE size st
  pure st

/-- The environment block of an ENVIRONMENT entry (lines 172-179). -/
def environmentBlock (keyValuePairs : List (List Byte × List Byte)) : List Byte :=
  keyValuePairs.flatMap (fun kv => kv.1 ++ [61] ++ kv.2 ++ [0]) ++ [0]

/-- One iteration of the loop over a module's metadata entries (lines 131-199). -/
def placeMetadataEntry (host : Host) (metadata : ModuleMetadata) (st : Image) :
    Except Error Image :=
  match metadata.type with
  | .DTB => do
    let dtbBase := st.m_allocationPointer
    let f ← host.openFile metadata.singleValue
    let dtbSize := f.length % U32
    let image := resize st.m_image (sub32 (add32 dtbBase dtbSize) st.m_imageBase)
    let bytes ← readAt f 0 dtbSize
    let image ← storeAt image dtbBase st.m_imageBase bytes
    let st := { st with m_image := image }
    let st := st.setCursor (st.m_allocationPointer + dtbSize)
    let st := alignAllocationPointer 4096 st
    pure (writeMetadata32 (MODINFO_METADATA ||| MODINFOMD_DTBP) (sub32 dtbBase st.m_kernelDelta) st)
  | .KERNEND =>
    pure (writeMetadataFixup (MODINFO_METADATA ||| MODINFOMD_KERNEND) .kernend 4 st)
  | .ENVIRONMENT => do
    let block := environmentBlock metadata.keyValuePairs
    let envBase := st.m_allocationPointer
    let envSize := block.length % U32
    let image := resize st.m_image (sub32 (add32 envBase envSize) st.m_imageBase)
    let image ← storeAt image envBase st.m_imageBase (block.take envSize)
    let st := { st with m_image := image }
    let st := st.setCursor (st.m_allocationPointer + envSize)
    let st := alignAllocationPointer 4096 st
    pure (writeMetadata32 (MODINFO_METADATA ||| MODINFOMD_ENVP) (sub32 envBase st.m_kernelDelta) st)
  | .HOWTO => do
    let value ← stoul metadata.singleValue
    pure (writeMetadata32 (MODINFO_METADATA ||| MODINFOMD_HOWTO) value st)

/-- The loop over a module's metadata entries (line 130). -/
def placeMetadataEntries (host : Host) : List ModuleMetadata → Image → Except Error Image
  | [], st => .ok st
  | metadata :: rest, st => do
    let st ← placeMetadataEntry host metadata st
    placeMetadataEntries host rest st

/-- One iteration of the module loop (lines 43-201). -/
def placeModule (host : Host) (mod : Module) (st : Image) : Except Error Image := do
  let st ← placeModuleBody host mod st
  placeMetadataEntries host mod.metadata st

/-- The module loop (line 43). -/
def placeModules (host : Host) : List Module → Image → Except Error Image
  | [], st => .ok st
  | mod :: rest, st => do
    let st ← placeModule host mod st
    placeModules host rest st

/-- The END record and the placement of the metadata block (lines 203-216). -/
def placeMetadataBlock (st : Image) : Except Error Image := do
  let st := writeMetadata MODINFO_END [] st
  let st := { st with m_metadataBase := st.m_allocationPointer }
  let metadataSize := (st.m_metadata.length * 4) % U32
  let image := resize st.m_image (sub32 (add32 st.m_metadataBase metadataSize) st.m_imageBase)
  let image ← storeAt image st.m_metadataBase st.m_imageBase
    ((wordsToBytes st.m_metadata).take metadataSize)
  let st := { st with m_image := image }
  let st := st.setCursor (st.m_allocationPointer + metadataSize)
  let st := alignAllocationPointer 4096 st
  pure { st with m_image := resize st.m_image (sub32 st.m_allocationPointer st.m_imageBase) }

/-- The four bytes a fixup handler writes, given the layout state at the time it runs.
The KERNEND closure writes `m_allocationPointer - m_kernelDelta`. -/
def FixupHandler.bytes (h : FixupHandler) (st : Image) : List Byte :=
  match h with
  | .kernend => le32 (sub32 st.m_allocationPointer st.m_kernelDelta)

/-- The fixup pass (lines 224-226), over the remaining fixups. -/
def applyFixups : List MetadataFixup → Image → Except Error Image
  | [], st => .ok st
  | fixup :: rest, st => do
    let image ← storeAt st.m_image (st.m_metadataBase + fixup.offset * 4) st.m_imageBase
      (fixup.handler.bytes st)
    applyFixups rest { st with m_image := image }

/-- The first part of `Image::build` (lines 36-226): everything up to and including
the fixup pass, which leaves the uncompressed payload in `m_image`. -/
def layout (host : Host) (blueprint : Blueprint) (st : Image) : Except Error Image := do
  let st := { st with
    m_imageBase := blueprint.imageBase % U32
    m_allocationPointer := blueprint.imageBase % U32
    m_image := []
    cursorLog := [] }
  let st ← placeModules host blueprint.modules st
  let st ← placeMetadataBlock st
  applyFixups st.m_metadataFixups st

/-! ## Relocatable executables (`Image::loadExecutable`) -/

/-- Mirrors `Image::processImageRelocations(image, base, relocations)`. -/
def processImageRelocations (base : Nat) : List Reloc → List Byte → Except Error (List Byte)
  | [], image => .ok image
  | reloc :: rest, image =>
    if ELF32_R_TYPE reloc.r_info = R_ARM_ABS32 then
      if reloc.r_offset + 4 ≤ image.length then
        processImageRelocations base rest
          (writeAt image reloc.r_offset (le32 (add32 (u32le (image.drop reloc.r_offset)) base)))
      else .error .outOfBounds
    else if ELF32_R_TYPE reloc.r_info = R_ARM_REL32 ∨ ELF32_R_TYPE reloc.r_info = R_ARM_CALL
        ∨ ELF32_R_TYPE reloc.r_info = R_ARM_PREL31 then
      processImageRelocations base rest image
    else .error (.unsupportedRelocation (ELF32_R_TYPE reloc.r_info))

/-- The loop over the program headers in `loadExecutable` (lines 377-392). -/
def loadExecutableSegments (f : List Byte) (base : Nat) :
    List Elf32_Phdr → List Byte → Nat → Nat → Except Error (List Byte × Nat × Nat)
  | [], image, limit, allocationLimit => .ok (image, limit, allocationLimit)
  | segment :: rest, image, limit, allocationLimit =>
    if segment.p_type = PT_LOAD then do
      let physaddr := add32 segment.p_paddr base
      let allocationLimit := max limit (add32 physaddr segment.p_memsz)
      let limit := max limit (add32 physaddr segment.p_filesz)
      let image :=
        if image.length < sub32 limit base then resize image (sub32 limit base) else image
      let image ← readSegment f segment image physaddr base
      loadExecutableSegments f base rest image limit allocationLimit
    else loadExecutableSegments f base rest image limit allocationLimit

/-- The loop over the section headers in `loadExecutable` (lines 402-423). -/
def processSections (f : List Byte) (base : Nat) :
    List Elf32_Shdr → List Byte → Except Error (List Byte)
  | [], image => .ok image
  | sec :: rest, image =>
    if sec.sh_type = SHT_REL then
      if sec.sh_entsize ≠ sizeofRel ∨ sec.sh_size % sizeofRel ≠ 0 then
        .error .badRelocationSection
      else do
        let count := sec.sh_size / sizeofRel
        let bytes ← readAt f sec.sh_offset (count * sizeofRel)
        let image ← processImageRelocations base ((records sizeofRel count bytes).map parseReloc) image
        processSections f base rest image
    else if sec.sh_type = SHT_RELA then
      if sec.sh_entsize ≠ sizeofRela ∨ sec.sh_size % sizeofRela ≠ 0 then
        .error .badRelocationSection
      else do
        let count := sec.sh_size / sizeofRela
        let bytes ← readAt f sec.sh_offset (count * sizeofRela)
        let image ← processImageRelocations base ((records sizeofRela count bytes).map parseReloc) image
        processSections f base rest image
    else processSections f base rest image

/-- The body of `Image::loadExecutable` up to the final assignment (lines 352-423). It reads
the layout state only through `m_allocationPointer`, here `base`; it returns
`allocationLimit`, the image buffer and the entry. -/
def loadExecutableAt (host : Host) (executable : List Byte) (image : List Byte) (base : Nat) :
    Except Error (Nat × List Byte × Nat) := do
  let f ← host.openFile executable
  let ehdr := parseEhdr (← readAt f 0 sizeofEhdr)
  if badElfHeader ehdr then throw .badElf
  let entry := add32 ehdr.e_entry base
  let phdr := (records sizeofPhdr ehdr.e_phnum
    (← readAt f ehdr.e_phoff (ehdr.e_phnum * sizeofPhdr))).map parsePhdr
  let (image, _, allocationLimit) ← loadExecutableSegments f base phdr image base base
  let shdr := (records sizeofShdr ehdr.e_shnum
    (← readAt f ehdr.e_shoff (ehdr.e_shnum * sizeofShdr))).map parseShdr
  let image ← processSections f base shdr image
  pure (allocationLimit, image, entry)

/-- Mirrors `Image::loadExecutable(executable, image, entry)`: returns the state, the
image buffer and the entry. The last statement is `m_allocationPointer = allocationLimit`. -/
def loadExecutable (host : Host) (executable : List Byte) (image : List Byte) (st : Image) :
    Except Error (Image × List Byte × Nat) := do
  let (allocationLimit, image, entry) ←
    loadExecutableAt host executable image st.m_allocationPointer
  pure (st.setCursor allocationLimit, image, entry)

/-! ## Compression and kickstart (`Image::build`, second part) -/

/-- The compression pass (lines 228-299). The output buffer holds
`m_image.size() + 4096` bytes; the encoder fails when that is not enough. -/
def compressPayload (host : Host) (st : Image) : Except Error Image := do
  let outputBuffer ← host.lz4 st.m_image
  if outputBuffer.length > st.m_image.length + 4096 then .error .compressorError
  else if st.m_image.length = 0 then .error .divisionByZero
  else
    pure { st with
      m_imageDisplacement := sub32 st.m_image.length outputBuffer.length
      m_image := outputBuffer }

/-- The loop over the init modules (lines 327-344): `index` counts the table slots written. -/
def stageInitModules (host : Host) (moduleTable : Nat) :
    List (List Byte) → Nat → Image → Except Error (Image × Nat)
  | [], index, st => .ok (st, index)
  | initModule :: rest, index, st => do
    let st := alignAllocationPointer 8 st
    let moduleBase := st.m_allocationPointer
    let (st, imageData, imageEntry) ← loadExecutable host initModule [] st
    let moduleLimit := st.m_allocationPointer
    let kickstart := resize st.m_kickstart (sub32 moduleLimit st.m_kickstartBase)
    let kickstart ← storeAt kickstart (sub32 moduleBase st.m_kickstartBase) 0 imageData
    let kickstart ← storeAt kickstart (moduleTable + 4 * index) st.m_kickstartBase (le32 imageEntry)
    stageInitModules host moduleTable rest (index + 1) { st with m_kickstart := kickstart }

/-- The kickstart executable is loaded at the cursor (lines 302-303). -/
def loadKickstart (host : Host) (blueprint : Blueprint) (st : Image) : Except Error Image := do
  let st := { st with m_kickstartBase := st.m_allocationPointer }
  let (st, kickstart, entry) ← loadExecutable host blueprint.kickstart st.m_kickstart st
  pure { st with m_kickstart := kickstart, m_kickstartEntry := entry }

/-- The words `kickstartInfo[0]` to `kickstartInfo[3]` (lines 305-309). -/
def writeKickstartInfo (st : Image) : Except Error Image := do
  let kickstart ← storeAt st.m_kickstart 0 0 (le32 (sub32 st.m_metadataBase st.m_kernelDelta))
  let kickstart ← storeAt kickstart 4 0 (le32 (add32 st.m_kernelEntryPoint st.m_kernelDelta))
  let kickstart ← storeAt kickstart 8 0 (le32 (add32 st.m_imageBase st.m_imageDisplacement))
  let kickstart ← storeAt kickstart 12 0 (le32 st.m_imageBase)
  pure { st with m_kickstart := kickstart }

/-- The module table is announced in `kickstartInfo[4]` and reserved behind the kickstart
(lines 317-322); `st` is the state after `alignAllocationPointer(4)`. -/
def reserveModuleTable (blueprint : Blueprint) (st : Image) : Except Error Image := do
  let moduleTable := st.m_allocationPointer
  let kickstart ← storeAt st.m_kickstart 16 0 (le32 moduleTable)
  let tableSize := 4 * (blueprint.initModules.length + 1)
  let st := { st with
    m_kickstart := resize kickstart (sub32 st.m_allocationPointer st.m_kickstartBase + tableSize) }
  pure (st.setCursor (st.m_allocationPointer + tableSize))

/-- The kickstart stage (lines 302-347). -/
def stageKickstart (host : Host) (blueprint : Blueprint) (st : Image) : Except Error Image := do
  let st ← loadKickstart host blueprint st
  let st ← writeKickstartInfo st
  if blueprint.initModules = [] then do
    let kickstart ← storeAt st.m_kickstart 16 0 (le32 0)
    pure { st with m_kickstart := kickstart }
  else do
    let st := alignAllocationPointer 4 st
    let moduleTable := st.m_allocationPointer
    let st ← reserveModuleTable blueprint st
    let (st, index) ← stageInitModules host moduleTable blueprint.initModules 0 st
    let kickstart ← storeAt st.m_kickstart (moduleTable + 4 * index) st.m_kickstartBase (le32 0)
    pure { st with m_kickstart := kickstart }

/-- Mirrors `Image::build(blueprint)`, run on an `Image` in state `st`. -/
def build (host : Host) (blueprint : Blueprint) (st : Image) : Except Error Image := do
  let st ← layout host blueprint st
  let st ← compressPayload host st
  stageKickstart host blueprint st

/-! ## The output file (`Image::writeElf`) -/

/-- The 52 bytes of an `Elf32_Ehdr` in memory (little-endian host). -/
def ehdrImage (e : Elf32_Ehdr) : List Byte :=
  (e.e_ident ++ List.replicate 16 0).take 16 ++ le16 e.e_type ++ le16 e.e_machine
    ++ le32 e.e_version ++ le32 e.e_entry ++ le32 e.e_phoff ++ le32 e.e_shoff ++ le32 e.e_flags
    ++ le16 e.e_ehsize ++ le16 e.e_phentsize ++ le16 e.e_phnum ++ le16 e.e_shentsize
    ++ le16 e.e_shnum ++ le16 e.e_shstrndx

/-- The 32 bytes of an `Elf32_Phdr` in memory (little-endian host). -/
def phdrImage (p : Elf32_Phdr) : List Byte :=
  le32 p.p_type ++ le32 p.p_offset ++ le32 p.p_vaddr ++ le32 p.p_paddr ++ le32 p.p_filesz
    ++ le32 p.p_memsz ++ le32 p.p_flags ++ le32 p.p_align

/-- Corresponds to `seekp(pos)` followed by `write(bs)` on an output file stream whose
content is `out`: the bytes between the end of the file and `pos` are zero, and a write of
no bytes leaves the file alone. -/
def writeStream (out : List Byte) (pos : Nat) (bs : List Byte) : List Byte :=
  if bs = [] then out
  else writeAt (if out.length < pos + bs.length then resize out (pos + bs.length) else out) pos bs

/-- The local variable `dataPos` (a `size_t`) of `writeElf` after
`dataPos += (imagePhdr.p_filesz + 4095) & ~4095`, a 32-bit computation. -/
def kickstartDataPos (st : Image) : Nat :=
  4096 + (((st.m_image.length % U32 + 4095) % U32) &&& (U32 - 1 - 4095))

/-- The program header `phdrs[0]` of `writeElf`, for the payload. -/
def imagePhdr (st : Image) : Elf32_Phdr where
  p_type := PT_LOAD
  p_offset := 4096
  p_vaddr := add32 st.m_imageBase st.m_imageDisplacement
  p_paddr := add32 st.m_imageBase st.m_imageDisplacement
  p_filesz := st.m_image.length % U32
  p_memsz := st.m_image.length % U32
  p_flags := PF_R ||| PF_W ||| PF_X
  p_align := 4096

/-- The program header `phdrs[1]` of `writeElf`, for the kickstart. -/
def kickstartPhdr (st : Image) : Elf32_Phdr where
  p_type := PT_LOAD
  p_offset := kickstartDataPos st % U32
  p_vaddr := st.m_kickstartBase % U32
  p_paddr := st.m_kickstartBase % U32
  p_filesz := st.m_kickstart.length % U32
  p_memsz := sub32 st.m_allocationPointer st.m_kickstartBase
  p_flags := PF_R ||| PF_W ||| PF_X
  p_align := 4096

/-- The ELF header of `writeElf`: zeroed, then the identification and the fields set. -/
def outputEhdr (st : Image) : Elf32_Ehdr where
  e_ident := ElfIdentification
  e_type := ET_EXEC
  e_machine := EM_ARM
  e_version := EV_CURRENT
  e_entry := st.m_kickstartEntry % U32
  e_phoff := sizeofEhdr
  e_shoff := 0
  e_flags := 0
  e_ehsize := sizeofEhdr
  e_phentsize := sizeofPhdr
  e_phnum := 2
  e_shentsize := 0
  e_shnum := 0
  e_shstrndx := 0

/-- Mirrors `Image::writeElf(std::ostream &)`: the content of the stream, empty before. -/
def writeElf (st : Image) : List Byte :=
  let out := ehdrImage (outputEhdr st)
  let out := out ++ (phdrImage (imagePhdr st) ++ phdrImage (kickstartPhdr st))
  let out := writeStream out (imagePhdr st).p_offset (st.m_image.take (imagePhdr st).p_filesz)
  writeStream out (kickstartPhdr st).p_offset (st.m_kickstart.take (kickstartPhdr st).p_filesz)

/-! ## The blueprint lexer (`Blueprint::parse(std::istream &)`) -/

/-- The exceptions that leave `Blueprint::parse(std::istream &)`. -/
inductive BlueprintError where
  /-- The text "End of file reached before closing quote". -/
  | unterminatedQuote
  /-- The text "No newline at the end of file". -/
  | noNewlineAtEnd
  /-- An exception thrown by `processLine`, with its text. -/
  | badLine (message : List Byte)
  deriving DecidableEq, Repr

/-- Mirrors the anonymous enum of `lexerState`. -/
inductive LexerState where
  | Normal
  | String
  | Escaped
  | Comment
  deriving DecidableEq, Repr

/-- The local variables of `Blueprint::parse(std::istream &)`. `ctx` stands for everything
`processLine` reads and writes: the `ParsingContext` and the members of the `Blueprint`. -/
structure Lexer (σ : Type) where
  lexerState : LexerState := .Normal
  tokens : List (List Byte) := []
  tokenBuffer : List Byte := []
  tokenBufferActive : Bool := false
  ctx : σ

/-- The statement `if (tokenBufferActive) { tokens.push_back(tokenBuffer); tokenBuffer.clear();
tokenBufferActive = false; }` (lines 57-61 and 93-97). -/
def flushToken {σ : Type} (lx : Lexer σ) : Lexer σ :=
  if lx.tokenBufferActive then
    { lx with
      tokens := lx.tokens ++ [lx.tokenBuffer]
      tokenBuffer := []
      tokenBufferActive := false }
  else lx

/-- The statement `if (tokens.size() != 0) { processLine(std::move(tokens), ctx); tokens =
std::vector<std::string>(); }` (lines 63-66 and 99-102). -/
def endLine {σ : Type} (processLine : List (List Byte) → σ → Except BlueprintError σ)
    (lx : Lexer σ) : Except BlueprintError (Lexer σ) :=
  if lx.tokens ≠ [] then do
    let ctx ← processLine lx.tokens lx.ctx
    pure { lx with tokens := [], ctx := ctx }
  else pure lx

/-- One turn of the `while (true)` loop of `parse` on the character read (lines 47-108). -/
def lexStep {σ : Type} (processLine : List (List Byte) → σ → Except BlueprintError σ)
    (character : Byte) (lx : Lexer σ) : Except BlueprintError (Lexer σ) :=
  match lx.lexerState with
  | .Normal =>
    if character = 34 then
      pure { lx with tokenBufferActive := true, lexerState := .String }
    else if character = 59 then
      pure { lx with lexerState := .Comment }
    else if isSpace character then
      if character = 10 then endLine processLine (flushToken lx)
      else pure (flushToken lx)
    else
      pure { lx with tokenBuffer := lx.tokenBuffer ++ [character], tokenBufferActive := true }
  | .String =>
    if character = 92 then
      pure { lx with lexerState := .Escaped }
    else if character = 34 then
      pure { lx with lexerState := .Normal }
    else
      pure { lx with tokenBuffer := lx.tokenBuffer ++ [character] }
  | .Escaped =>
    pure { lx with tokenBuffer := lx.tokenBuffer ++ [character], lexerState := .String }
  | .Comment =>
    if character = 10 then do
      let lx ← endLine processLine (flushToken lx)
      pure { lx with lexerState := .Normal }
    else pure lx

/-- The `while (true)` loop of `parse` over the characters that are left in the stream. -/
def lexLoop {σ : Type} (processLine : List (List Byte) → σ → Except BlueprintError σ) :
    List Byte → Lexer σ → Except BlueprintError (Lexer σ)
  | [], lx => pure lx
  | character :: rest, lx => do
    let lx ← lexStep processLine character lx
    lexLoop processLine rest lx

/-- Mirrors `Blueprint::parse(std::istream &)` on a stream that holds `text`, with the
line handler `processLine` started on `ctx`. -/
def parse {σ : Type} (processLine : List (List Byte) → σ → Except BlueprintError σ)
    (text : List Byte) (ctx : σ) : Except BlueprintError σ := do
  let lx ← lexLoop processLine text { ctx := ctx }
  if lx.lexerState ≠ .Normal then
    throw .unterminatedQuote
  else if lx.tokenBufferActive ∨ lx.tokens ≠ [] then
    throw .noNewlineAtEnd
  else
    pure lx.ctx

/-! ## Sample inputs -/

/-- The 52 bytes of a well-formed ELF32/ARM `ET_EXEC` header. -/
def ehdrBytes (e_entry e_phoff e_phnum e_shoff e_shnum : Nat) : List Byte :=
  ElfIdentification ++ le16 ET_EXEC ++ le16 EM_ARM ++ le32 EV_CURRENT ++ le32 e_entry
    ++ le32 e_phoff ++ le32 e_shoff ++ le32 0 ++ le16 sizeofEhdr ++ le16 sizeofPhdr
    ++ le16 e_phnum ++ le16 sizeofShdr ++ le16 e_shnum ++ le16 0

/-- The 32 bytes of a program header with flags `PF_R | PF_W | PF_X` and alignment 4096. -/
def phdrBytes (p_type p_offset p_vaddr p_paddr p_filesz p_memsz : Nat) : List Byte :=
  le32 p_type ++ le32 p_offset ++ le32 p_vaddr ++ le32 p_paddr ++ le32 p_filesz
    ++ le32 p_memsz ++ le32 (PF_R ||| PF_W ||| PF_X) ++ le32 4096

/-- A kernel ELF with one `PT_LOAD` segment at vaddr `0xC0000000`, filesz = memsz = `0x100`. -/
def sampleKernel : List Byte :=
  ehdrBytes 0xC0000000 52 1 0 0 ++ phdrBytes PT_LOAD 84 0xC0000000 0xC0000000 0x100 0x100
    ++ List.replicate 0x100 0xAA

/-- A kickstart ELF whose one segment is the first 20 bytes of the file. -/
def sampleKickstart : List Byte :=
  ehdrBytes 0 52 1 0 0 ++ phdrBytes PT_LOAD 0 0 0 20 20

/-- A host with the two sample files, a stand-in encoder and `KERNEL_VADDR = 0xC0000000`. -/
def sampleHost : Host where
  files := fun path =>
    if path = str ("k.elf") then some sampleKernel
    else if path = str ("ks.elf") then some sampleKickstart
    else none
  lz4 := fun payload => .ok (payload.take 16)
  KERNEL_VADDR := 0xC0000000

/-- The module of scenario S1. -/
def sampleModule : Module :=
  { name := str ("k"), type := str ("elf kernel"), fileName := str ("k.elf") }

/-- A state of the module loop: image base and cursor at `0x800FFC00`, nothing placed yet. -/
def sampleState : Image :=
  { m_imageBase := 0x800FFC00, m_allocationPointer := 0x800FFC00 }

/-- Scenario S1: image base `0x80000000`, one "elf kernel" module. -/
def blueprintS1 : Blueprint where
  modules := [sampleModule]
  imageBase := 0x80000000
  kickstart := str ("ks.elf")

/-- Scenario S2: S1 with a KERNEND metadata entry. -/
def blueprintS2 : Blueprint where
  modules := [{ name := str ("k"), type := str ("elf kernel"), fileName := str ("k.elf"),
                metadata := [{ type := .KERNEND }] }]
  imageBase := 0x80000000
  kickstart := str ("ks.elf")

/-- The state an accepted run ends in (the empty state for a run that fails). -/
def resultOf (r : Except Error Image) : Image :=
  match r with
  | .ok st => st
  | .error _ => {}

/-- Whether a run is accepted. -/
def accepted (r : Except Error Image) : Bool :=
  match r with
  | .ok _ => true
  | .error _ => false

/-! ## Reading an environment block back -/

/-- The NUL-separated pieces of a byte string (`"a\0b\0"` has the pieces `a`, `b` and an empty one). -/
def splitNul : List Byte → List (List Byte)
  | [] => [[]]
  | b :: rest =>
    if b = 0 then [] :: splitNul rest
    else
      match splitNul rest with
      | [] => [[b]]
      | piece :: pieces => (b :: piece) :: pieces

/-- A piece split on its first `'='`: what stands before it, and what stands after it. -/
def splitFirstEq (piece : List Byte) : List Byte × List Byte :=
  (piece.takeWhile (fun b => b != 61), (piece.dropWhile (fun b => b != 61)).drop 1)

/-- Reading an environment block back, following the spec's words: split on NUL, stop at the
empty piece that ends the block, split each piece on its first `'='`. -/
def decodeEnvironment (block : List Byte) : List (List Byte × List Byte) :=
  ((splitNul block).takeWhile (fun piece => piece != [])).map splitFirstEq

/-! ## Reading a metadata stream back -/

/-- One record of a metadata stream: the index of its type word in the stream, the type
word, the size word, and the `ceil(size/4)` payload words. -/
structure Record where
  offset : Nat
  type : Nat
  size : Nat
  payload : List Nat
  deriving DecidableEq, Repr

/-- Decoding a word stream as records (type word, size word, `ceil(size/4)` payload words),
at most `fuel` records; `none` when the stream does not end at a record boundary. Every
record takes at least two words, so `fuel = ws.length` is always enough. -/
def decodeRecordsFrom : Nat → Nat → List Nat → Option (List Record)
  | _, _, [] => some []
  | 0, _, _ :: _ => none
  | _ + 1, _, [_] => none
  | fuel + 1, offset, type :: size :: rest =>
    if rest.length < (size + 3) / 4 then none
    else
      (decodeRecordsFrom fuel (offset + 2 + (size + 3) / 4) (rest.drop ((size + 3) / 4))).map
        (fun records => ⟨offset, type, size, rest.take ((size + 3) / 4)⟩ :: records)

/-- Decoding a whole metadata stream. -/
def decodeRecords (ws : List Nat) : Option (List Record) :=
  decodeRecordsFrom ws.length 0 ws

/-- The record type the spec gives for each kind of metadata entry. -/
def entryRecordType : ModuleMetadataType → Nat
  | .DTB => 0x8010
  | .KERNEND => 0x8004
  | .ENVIRONMENT => 0x8002
  | .HOWTO => 0x8001

/-- The record types the spec gives for one module: NAME, TYPE, ADDR, SIZE, then one per
metadata entry. -/
def moduleRecordTypes (mod : Module) : List Nat :=
  [ MODINFO_NAME, MODINFO_TYPE, MODINFO_ADDR, MODINFO_SIZE]
    ++ mod.metadata.map (fun metadata => entryRecordType metadata.type)

/-- The record types the spec gives for a blueprint: those of its modules, then END. -/
def blueprintRecordTypes (blueprint : Blueprint) : List Nat :=
  blueprint.modules.flatMap moduleRecordTypes ++ [ MODINFO_END]

/-- One call of the metadata writer: the record type and the data bytes. -/
structure Write where
  type : Nat
  data : List Byte

/-- The words one call of the metadata writer appends. -/
def encodeWrite (w : Write) : List Nat :=
  [w.type % U32, w.data.length % U32] ++ packWords w.data

/-- The records a sequence of writes stands for, the first at word `offset`. -/
def recordsOf (offset : Nat) : List Write → List Record
  | [] => []
  | w :: ws =>
    ⟨offset, w.type, w.data.length, packWords w.data⟩
      :: recordsOf (offset + 2 + (w.data.length + 3) / 4) ws

/-- The fixups a sequence of writes registers when the first goes to word `start`: one for
the payload word of each KERNEND record. -/
def fixupsOf (start : Nat) : List Write → List MetadataFixup
  | [] => []
  | w :: ws =>
    (if w.type = 0x8004 then [⟨start + 2, .kernend⟩] else [])
      ++ fixupsOf (start + (encodeWrite w).length) ws

/-- The cursor history `evs` leads from the value `p` to the value `q`: each event starts
where the one before ended, stores a 32-bit value, and does not decrease the cursor unless
its 32-bit computation wraps. -/
def Trace : Nat → List CursorEvent → Nat → Prop
  | p, [], q => p = q
  | p, e :: evs, q =>
    e.before = p ∧ e.after < U32 ∧ (e.raw < U32 → e.before ≤ e.after) ∧ Trace e.after evs q

/-- What a part of the layout engine does to the metadata stream, the fixup list, the
cursor and the image base: it takes `st` to `st'`, writing `ws` and moving the cursor by `evs`. -/
structure Step (st st' : Image) (ws : List Write) (evs : List CursorEvent) : Prop where
  metadata : st'.m_metadata = st.m_metadata ++ ws.flatMap encodeWrite
  fixups : st'.m_metadataFixups = st.m_metadataFixups ++ fixupsOf st.m_metadata.length ws
  log : st'.cursorLog = st.cursorLog ++ evs
  trace : Trace st.m_allocationPointer evs st'.m_allocationPointer
  imageBase : st'.m_imageBase = st.m_imageBase

/-- The value a MODINFO_ADDR, DTBP or ENVP write carries is `b - kd` for a physical address
`b` between `lo` and `hi`. Writes of other types are not constrained. -/
def AddrOk (lo hi kd : Nat) (w : Write) : Prop :=
  (w.type = MODINFO_ADDR ∨ w.type = 0x8010 ∨ w.type = 0x8002) →
    ∃ b, lo ≤ b ∧ b ≤ hi ∧ w.data = le32 (sub32 b kd)

/-- The size in bytes of the metadata block that `placeMetadataBlock` copies, as the
`uint32_t metadataSize` of the C++ code. -/
def metadataSizeOf (st : Image) : Nat :=
  ((writeMetadata MODINFO_END [] st).m_metadata.length * 4) % U32

/-- The state of `placeMetadataBlock` before the final `resize`, given the image after the copy. -/
def metadataPlaced (st : Image) (img : List Byte) : Image :=
  alignAllocationPointer 4096
    (Image.setCursor
      { writeMetadata MODINFO_END [] st with
        m_metadataBase := st.m_allocationPointer, m_image := img }
      (st.m_allocationPointer + metadataSizeOf st))

/-! ## A build whose cursor wraps -/

/-- An init module whose only segment is 0xFDFDC bytes of zero-initialised memory. -/
def sampleInitModule1 : List Byte :=
  ehdrBytes 0 52 1 0 0 ++ phdrBytes PT_LOAD 0 0 0 0 0xFDFDC

/-- An init module without segments. -/
def sampleInitModule2 : List Byte := ehdrBytes 0 52 0 0 0

def wrapHost : Host where
  files := fun path =>
    if path = str ("k.elf") then some sampleKernel
    else if path = str ("ks.elf") then some sampleKickstart
    else if path = str ("m1.elf") then some sampleInitModule1
    else if path = str ("m2.elf") then some sampleInitModule2
    else none
  lz4 := fun payload => .ok (payload.take 16)
  KERNEL_VADDR := 0xC0000000

def wrapBlueprint : Blueprint where
  modules := [sampleModule]
  imageBase := 0xFFF00000
  kickstart := str ("ks.elf")
  initModules := [str ("m1.elf"), str ("m2.elf")]

/-- The state of the wrapping build when its payload is laid out. -/
def wrapLayout : Image := resultOf (layout wrapHost wrapBlueprint {})

/-- The state of the wrapping build when its payload is encoded. -/
def wrapPayload : Image := resultOf (compressPayload wrapHost wrapLayout)

/-- The state of the wrapping build when the kickstart is loaded. -/
def wrapLoaded : Image := resultOf (loadKickstart wrapHost wrapBlueprint wrapPayload)

/-- The state of the wrapping build when the kickstart header is written. -/
def wrapInfo : Image := resultOf (writeKickstartInfo wrapLoaded)

/-- The state of the wrapping build when the module table is reserved. -/
def wrapTable : Image :=
  resultOf (reserveModuleTable wrapBlueprint (alignAllocationPointer 4 wrapInfo))

/-! ## The metadata block of the payload -/

/-- What the fixup pass makes of a write: the payload of a KERNEND record becomes `v`. -/
def patchKernend (v : Nat) (w : Write) : Write :=
  if w.type = 0x8004 then ⟨w.type, le32 v⟩ else w

/-- The metadata block of the uncompressed payload: the `4 * m_metadata.size()` bytes of
`m_image` at `m_metadataBase - m_imageBase`, read as little-endian words. -/
def payloadMetadata (st : Image) : List Nat :=
  packWords ((st.m_image.drop (st.m_metadataBase - st.m_imageBase)).take
    (4 * st.m_metadata.length))

/-! ## Further sample inputs -/

/-- The fields of the layout state other than the allocation pointer and its ghost history. -/
def Image.frame (st : Image) : Image :=
  { st with m_allocationPointer := 0, cursorLog := [] }

/-- A state with the cursor at `0x80000100`. -/
def sampleAlignState : Image := { m_allocationPointer := 0x80000100 }

/-- A blueprint whose only module has the type "zzz". -/
def blueprintZ : Blueprint where
  modules := [{ name := str ("k"), type := str ("zzz"), fileName := str ("no such file") }]
  imageBase := 0x80000000
  kickstart := str ("ks.elf")

/-- What one relocation record of a supported type does to an image: an `R_ARM_ABS32`
record adds `base` to the little-endian word at `r_offset`, every other one changes nothing. -/
def relocate (base : Nat) (image : List Byte) (r : Reloc) : List Byte :=
  if ELF32_R_TYPE r.r_info = R_ARM_ABS32 then
    writeAt image r.r_offset (le32 (add32 (u32le (image.drop r.r_offset)) base))
  else image

/-- The relocation types that `processImageRelocations` accepts. -/
def supportedReloc (r : Reloc) : Prop :=
  ELF32_R_TYPE r.r_info = R_ARM_ABS32 ∨ ELF32_R_TYPE r.r_info = R_ARM_REL32
    ∨ ELF32_R_TYPE r.r_info = R_ARM_CALL ∨ ELF32_R_TYPE r.r_info = R_ARM_PREL31

/-- Two relocation records do not interfere: when both are `R_ARM_ABS32`, their words are
the same word or do not overlap. -/
def compatibleReloc (r1 r2 : Reloc) : Prop :=
  ELF32_R_TYPE r1.r_info = R_ARM_ABS32 → ELF32_R_TYPE r2.r_info = R_ARM_ABS32 →
    r1.r_offset = r2.r_offset ∨ r1.r_offset + 4 ≤ r2.r_offset ∨ r2.r_offset + 4 ≤ r1.r_offset

instance (r : Reloc) : Decidable (supportedReloc r) := by
  unfold supportedReloc
  infer_instance

instance : DecidableRel compatibleReloc := fun r1 r2 => by
  unfold compatibleReloc
  infer_instance

/-- The payload buffer ends at or below the cursor, which is at or above the image base. -/
def PayloadFits (st : Image) : Prop :=
  st.m_imageBase ≤ st.m_allocationPointer
    ∧ st.m_image.length ≤ st.m_allocationPointer - st.m_imageBase

/-- The program headers of an ELF file, as both loaders read them: `e_phnum` records of
`sizeof(Elf32_Phdr)` bytes at the file offset `e_phoff`. -/
def programHeadersOf (f : List Byte) : List Elf32_Phdr :=
  (records sizeofPhdr (parseEhdr (f.take sizeofEhdr)).e_phnum
    ((f.drop (parseEhdr (f.take sizeofEhdr)).e_phoff).take
      ((parseEhdr (f.take sizeofEhdr)).e_phnum * sizeofPhdr))).map parsePhdr

/-- The running end of a kernel after the program headers `phdr`: the largest
`p_vaddr + kernelDelta + p_memsz` (32-bit sums) over the `PT_LOAD` segments, and `limit`. -/
def kernelLimit (kernelDelta : Nat) (phdr : List Elf32_Phdr) (limit : Nat) : Nat :=
  phdr.foldl (fun l s =>
    if s.p_type = PT_LOAD then max l (add32 (add32 s.p_vaddr kernelDelta) s.p_memsz) else l)
    limit

/-- The state before the body of a module is loaded: the NAME and TYPE records are written
and the cursor of a kernel is aligned. -/
def beforeBody (host : Host) (mod : Module) (info : ModuleType) (st : Image) : Image :=
  alignKernel host info
    (writeMetadata MODINFO_TYPE (mod.type ++ [0])
      (writeMetadata MODINFO_NAME (mod.name ++ [0]) st))

/-- The first state of the module loop in scenario S1. -/
def startS1 : Image :=
  { ({} : Image) with
    m_imageBase := blueprintS1.imageBase % U32
    m_allocationPointer := blueprintS1.imageBase % U32
    m_image := []
    cursorLog := [] }

/-- The state of scenario S1 when the body of the kernel is placed. -/
def kernelPlacedS1 : Image := resultOf (placeModuleBody sampleHost sampleModule startS1)

/-- Two segments do not overlap: when both are `PT_LOAD` segments, the address ranges
`[p_vaddr, p_vaddr + max(p_filesz, p_memsz))` are disjoint. -/
def segmentsDisjoint (a b : Elf32_Phdr) : Prop :=
  a.p_type = PT_LOAD → b.p_type = PT_LOAD →
    a.p_vaddr + max a.p_filesz a.p_memsz ≤ b.p_vaddr
      ∨ b.p_vaddr + max b.p_filesz b.p_memsz ≤ a.p_vaddr

instance : DecidableRel segmentsDisjoint := fun a b => by
  unfold segmentsDisjoint
  exact inferInstance

/-- The byte offset `i` of a buffer lies in the file range of the segment `p` placed at
`physaddr`, the buffer starting at the address `origin`: `p` is a `PT_LOAD` segment with
`p_filesz > 0`, and `i` is one of the `p_filesz` offsets from `physaddr - origin` on. -/
def inFileRange (p : Elf32_Phdr) (physaddr origin i : Nat) : Prop :=
  p.p_type = PT_LOAD ∧ 0 < p.p_filesz ∧ physaddr - origin ≤ i
    ∧ i < physaddr - origin + p.p_filesz

/-- A kernel ELF with two `PT_LOAD` segments: `0x10` file bytes `0xAA` and `0x20` bytes of
memory at vaddr `0xC0000000`, and 8 file bytes `0xBB` at vaddr `0xC0000100`. -/
def sampleKernel2 : List Byte :=
  ehdrBytes 0xC0000000 52 2 0 0
    ++ phdrBytes PT_LOAD 116 0xC0000000 0xC0000000 0x10 0x20
    ++ phdrBytes PT_LOAD 132 0xC0000100 0xC0000100 8 8
    ++ List.replicate 0x10 0xAA ++ List.replicate 8 0xBB

/-- A host with the two-segment kernel and the sample kickstart. -/
def hostS4 : Host where
  files := fun path =>
    if path = str ("k2.elf") then some sampleKernel2
    else if path = str ("ks.elf") then some sampleKickstart
    else none
  lz4 := fun payload => .ok (payload.take 16)
  KERNEL_VADDR := 0xC0000000

/-- The module of scenario S4. -/
def moduleS4 : Module :=
  { name := str ("k"), type := str ("elf kernel"), fileName := str ("k2.elf") }

/-- Scenario S4: image base `0x80000000`, the two-segment kernel. -/
def blueprintS4 : Blueprint where
  modules := [moduleS4]
  imageBase := 0x80000000
  kickstart := str ("ks.elf")

/-- The first state of the module loop in scenario S4. -/
def startS4 : Image :=
  { ({} : Image) with
    m_imageBase := blueprintS4.imageBase % U32
    m_allocationPointer := blueprintS4.imageBase % U32
    m_image := []
    cursorLog := [] }

/-- The state of scenario S4 when the body of the kernel is placed. -/
def kernelPlacedS4 : Image := resultOf (placeModuleBody hostS4 moduleS4 startS4)

/-- The section headers of an ELF file, as `loadExecutable` reads them: `e_shnum` records of
`sizeof(Elf32_Shdr)` bytes at the file offset `e_shoff`. -/
def sectionHeadersOf (f : List Byte) : List Elf32_Shdr :=
  (records sizeofShdr (parseEhdr (f.take sizeofEhdr)).e_shnum
    ((f.drop (parseEhdr (f.take sizeofEhdr)).e_shoff).take
      ((parseEhdr (f.take sizeofEhdr)).e_shnum * sizeofShdr))).map parseShdr

/-- The running end of the file data of an executable loaded at `base` after the program
headers `phdr`: the largest `p_paddr + base + p_filesz` (32-bit sums) over the `PT_LOAD`
segments, and `limit`. -/
def fileLimit (base : Nat) (phdr : List Elf32_Phdr) (limit : Nat) : Nat :=
  phdr.foldl (fun l s =>
    if s.p_type = PT_LOAD then max l (add32 (add32 s.p_paddr base) s.p_filesz) else l)
    limit

/-- The 40 bytes of a section header of the type `sh_type` whose data are the `sh_size`
bytes at `sh_offset`, in entries of `sh_entsize` bytes. -/
def shdrBytes (sh_type sh_offset sh_size sh_entsize : Nat) : List Byte :=
  le32 0 ++ le32 sh_type ++ le32 0 ++ le32 0 ++ le32 sh_offset ++ le32 sh_size
    ++ le32 0 ++ le32 0 ++ le32 0 ++ le32 sh_entsize

/-- An executable with one `PT_LOAD` segment, the word `0x10` at `p_paddr = 0`, and one
`SHT_REL` section with one `R_ARM_ABS32` record for the offset 0. -/
def relocExecutable : List Byte :=
  ehdrBytes 0 52 1 84 1 ++ phdrBytes PT_LOAD 124 0 0 4 4 ++ shdrBytes SHT_REL 128 8 8
    ++ le32 0x10 ++ (le32 0 ++ le32 R_ARM_ABS32)

/-- An executable with two `PT_LOAD` segments and no section: `0x10` file bytes `0xAA` at
`p_paddr = 0`, and 8 file bytes `0xBB` with `0x18` bytes of memory at `p_paddr = 0x20`. -/
def sampleExecutable : List Byte :=
  ehdrBytes 8 52 2 0 0 ++ phdrBytes PT_LOAD 116 0 0 0x10 0x10
    ++ phdrBytes PT_LOAD 132 0x20 0x20 8 0x18
    ++ List.replicate 0x10 0xAA ++ List.replicate 8 0xBB

/-- An executable with two `PT_LOAD` segments without file bytes: `0x1000` bytes of memory at
`p_paddr = 0`, then 4 bytes of memory at `p_paddr = 0x20`. -/
def bssExecutable : List Byte :=
  ehdrBytes 0 52 2 0 0 ++ phdrBytes PT_LOAD 0 0 0 0 0x1000 ++ phdrBytes PT_LOAD 0 0x20 0x20 0 4

/-- A host with the three sample executables. -/
def hostS5 : Host where
  files := fun path =>
    if path = str ("r.elf") then some relocExecutable
    else if path = str ("x.elf") then some sampleExecutable
    else if path = str ("b.elf") then some bssExecutable
    else none
  lz4 := fun payload => .ok (payload.take 16)
  KERNEL_VADDR := 0xC0000000

/-- A state with the cursor at `0x80002000`. -/
def stateS5 : Image := { m_allocationPointer := 0x80002000 }

/-- The fields of the state other than the cursor, its ghost history and the kickstart
buffer. -/
def Image.fixed (st : Image) : Image :=
  { st with m_allocationPointer := 0, cursorLog := [], m_kickstart := [] }

/-- The 20 bytes of the kickstart header of the state `st` whose fifth word is `w4`. -/
def kickstartHeader (st : Image) (w4 : Nat) : List Byte :=
  le32 (sub32 st.m_metadataBase st.m_kernelDelta)
    ++ le32 (add32 st.m_kernelEntryPoint st.m_kernelDelta)
    ++ le32 (add32 st.m_imageBase st.m_imageDisplacement)
    ++ le32 st.m_imageBase ++ le32 w4

/-- The state after the kickstart is loaded and the first four words are written: `s2` is
the state `loadExecutable` leaves, `loaded` its buffer, `entry` its entry. -/
def headerWritten (st s2 : Image) (loaded : List Byte) (entry : Nat) : Image :=
  { s2 with
    m_kickstart := (kickstartHeader st 0).take 16 ++ loaded.drop 16
    m_kickstartEntry := entry }

/-- The state that scenario S1 ends in. -/
def builtS1 : Image := resultOf (build sampleHost blueprintS1 {})

/-- A kickstart ELF whose one segment is the first 20 bytes of the file, with a memory size
of 0. -/
def shortKickstart : List Byte :=
  ehdrBytes 0 52 1 0 0 ++ phdrBytes PT_LOAD 0 0 0 20 0

/-- A host with the sample kernel, the two kickstarts and an init module without segments. -/
def hostS6 : Host where
  files := fun path =>
    if path = str ("k.elf") then some sampleKernel
    else if path = str ("ks0.elf") then some shortKickstart
    else if path = str ("ks.elf") then some sampleKickstart
    else if path = str ("m2.elf") then some sampleInitModule2
    else none
  lz4 := fun payload => .ok (payload.take 16)
  KERNEL_VADDR := 0xC0000000

/-- Scenario S6: S1 with the kickstart of memory size 0 and one init module. -/
def blueprintS6 : Blueprint where
  modules := [sampleModule]
  imageBase := 0x80000000
  kickstart := str ("ks0.elf")
  initModules := [str ("m2.elf")]

/-- Scenario S7: S1 with one init module. -/
def blueprintS7 : Blueprint where
  modules := [sampleModule]
  imageBase := 0x80000000
  kickstart := str ("ks.elf")
  initModules := [str ("m2.elf")]

/-- The state that scenario S6 ends in. -/
def builtS6 : Image := resultOf (build hostS6 blueprintS6 {})

/-- The state that scenario S7 ends in. -/
def builtS7 : Image := resultOf (build hostS6 blueprintS7 {})

/-- The state of scenario S7 when the payload is laid out. -/
def layoutS7 : Image := resultOf (layout hostS6 blueprintS7 {})

/-- The state of scenario S7 when the payload is encoded. -/
def payloadS7 : Image := resultOf (compressPayload hostS6 layoutS7)

/-- The state, the buffer and the entry that loading the kickstart of scenario S7 gives. -/
def kickLoadS7 : Image × List Byte × Nat :=
  match loadExecutable hostS6 blueprintS7.kickstart payloadS7.m_kickstart
      { payloadS7 with m_kickstartBase := payloadS7.m_allocationPointer } with
  | .ok r => r
  | .error _ => ({}, [], 0)

/-- The characters of a token as they stand between the quotes: every `'"'` and `'\'` is
preceded by a `'\'`. -/
def escapeToken (t : List Byte) : List Byte :=
  t.flatMap (fun b => if b = 34 ∨ b = 92 then [92, b] else [b])

/-- A token wrapped in double quotes. -/
def quoteToken (t : List Byte) : List Byte := [34] ++ escapeToken t ++ [34]

/-- The quoted tokens joined by single spaces. -/
def quoteTokens (ts : List (List Byte)) : List Byte := List.intercalate [32] (ts.map quoteToken)

/-- The line of the quoted tokens: joined by single spaces, ended by a newline. -/
def quoteLine (ts : List (List Byte)) : List Byte := quoteTokens ts ++ [10]

/-- A line handler that records the lines it is given. -/
def recordLine (line : List (List Byte)) (ctx : List (List (List Byte))) :
    Except BlueprintError (List (List (List Byte))) := .ok (ctx ++ [line])

/-- The index in the payload of the first byte that the fixup `f` writes: the code forms
`m_image.data() + m_metadataBase - m_imageBase + fixup.offset * sizeof(uint32_t)` by pointer
arithmetic, which is the index `m_metadataBase + 4 * offset - m_imageBase`. -/
def fixupPos (st : Image) (f : MetadataFixup) : Nat :=
  st.m_metadataBase + f.offset * 4 - st.m_imageBase

/-- The fixup pass as one write per registered fixup, in registration order. -/
def fixupWrites (st : Image) (fixups : List MetadataFixup) : List Byte :=
  fixups.foldl
    (fun img f => writeAt img (fixupPos st f) (le32 (sub32 st.m_allocationPointer st.m_kernelDelta)))
    st.m_image

/-- The state in which the payload layout of scenario S2 ends. -/
def layoutS2 : Image := resultOf (layout sampleHost blueprintS2 {})

/-- The state in which the build of scenario S2 ends. -/
def builtS2 : Image := resultOf (build sampleHost blueprintS2 {})

/-- A host with an empty module file, the sample kickstart and an encoder that stores the
payload as it is. -/
def hostS9 : Host where
  files := fun path =>
    if path = str ("m.bin") then some []
    else if path = str ("ks.elf") then some sampleKickstart
    else none
  lz4 := fun payload => .ok payload
  KERNEL_VADDR := 0xC0000000

/-- Scenario S9: image base `0x80000000`, one "md_image" module with a KERNEND entry, no
"elf kernel" module. -/
def blueprintS9 : Blueprint where
  modules := [{ name := str ("m"), type := str ("md_image"), fileName := str ("m.bin"),
                metadata := [{ type := .KERNEND }] }]
  imageBase := 0x80000000
  kickstart := str ("ks.elf")

/-- The state in which the build of scenario S9 by an `Image` whose fields are zero ends. -/
def builtS9 : Image := resultOf (build hostS9 blueprintS9 {})

/-- The state in which a second build of scenario S9 by the same `Image` ends. -/
def rebuiltS9 : Image := resultOf (build hostS9 blueprintS9 builtS9)

/-- An `Image` whose `m_kernelDelta` holds `0x1000` and whose other fields are zero. -/
def staleS9 : Image := { m_kernelDelta := 0x1000 }

/-- The state in which the build of scenario S9 by `staleS9` ends. -/
def builtS9b : Image := resultOf (build hostS9 blueprintS9 staleS9)

/-- The address `a` lies in the memory range of the segment `p`, from `p_paddr` up to
`p_paddr + p_memsz`. -/
def inSegment (p : Elf32_Phdr) (a : Nat) : Prop := p.p_paddr ≤ a ∧ a < p.p_paddr + p.p_memsz

instance (p : Elf32_Phdr) (a : Nat) : Decidable (inSegment p a) :=
  inferInstanceAs (Decidable (p.p_paddr ≤ a ∧ a < p.p_paddr + p.p_memsz))

/-- A kickstart ELF whose one segment has 20 file bytes and a memory size of `0xFFFFEFFF`. -/
def wideKickstart : List Byte :=
  ehdrBytes 0 52 1 0 0 ++ phdrBytes PT_LOAD 0 0 0 20 0xFFFFEFFF

/-- A host with that kickstart and an encoder whose output is 16 bytes longer than its
input. -/
def hostS8 : Host where
  files := fun path => if path = str ("ks.elf") then some wideKickstart else none
  lz4 := fun payload => .ok (payload ++ List.replicate 16 0)
  KERNEL_VADDR := 0xC0000000

/-- Scenario S8: image base 0, no module. -/
def blueprintS8 : Blueprint where
  modules := []
  imageBase := 0
  kickstart := str ("ks.elf")

/-- The state in which the build of scenario S8 ends. -/
def builtS8 : Image := resultOf (build hostS8 blueprintS8 {})

/-! # Lemmas -/

/-! ## Lemmas on words and bytes -/

theorem byteOf_val (n : Nat) : (byteOf n).val = n % 256 := rfl

theorem le32_pack (a b c d : Byte) :
    le32 (a.val + 256 * b.val + 65536 * c.val + 16777216 * d.val) = [a, b, c, d] := by
  simp only [le32, List.cons.injEq, and_true]
  refine ⟨?_, ?_, ?_, ?_⟩ <;> apply Fin.ext <;> simp only [byteOf_val] <;> omega

theorem packWords_length (d : List Byte) : (packWords d).length = (d.length + 3) / 4 := by
  induction d using packWords.induct with
  | case1 => rfl
  | case2 a => simp [packWords]
  | case3 a b => simp [packWords]
  | case4 a b c => simp [packWords]
  | case5 a b c d rest ih =>
    simp only [packWords, List.length_cons, ih]
    omega

theorem wordsToBytes_packWords (d : List Byte) :
    wordsToBytes (packWords d) = d ++ List.replicate ((d.length + 3) / 4 * 4 - d.length) 0 := by
  induction d using packWords.induct with
  | case1 => rfl
  | case2 a =>
    have := le32_pack a 0 0 0
    simp only [Fin.val_zero, Nat.mul_zero, Nat.add_zero] at this
    simp [packWords, wordsToBytes, this, List.replicate]
  | case3 a b =>
    have := le32_pack a b 0 0
    simp only [Fin.val_zero, Nat.mul_zero, Nat.add_zero] at this
    simp [packWords, wordsToBytes, this, List.replicate]
  | case4 a b c =>
    have := le32_pack a b c 0
    simp only [Fin.val_zero, Nat.mul_zero, Nat.add_zero] at this
    simp [packWords, wordsToBytes, this, List.replicate]
  | case5 a b c d rest ih =>
    have h4 : (rest.length + 1 + 1 + 1 + 1 + 3) / 4 * 4 - (rest.length + 1 + 1 + 1 + 1)
        = (rest.length + 3) / 4 * 4 - rest.length := by omega
    simp only [wordsToBytes] at ih
    simp only [packWords, wordsToBytes, List.flatMap_cons, le32_pack, ih, List.length_cons, h4]
    simp

theorem le32_of_lt (v : Nat) (h : v < U32) : packWords (le32 v) = [v] := by
  have h1 : v / 65536 = v / 256 / 256 := by rw [Nat.div_div_eq_div_mul]
  have h2 : v / 16777216 = v / 256 / 256 / 256 := by
    rw [Nat.div_div_eq_div_mul, Nat.div_div_eq_div_mul]
  simp only [U32] at h
  simp only [le32, packWords, byteOf_val, List.cons.injEq, and_true]
  omega


/-! ## Lemmas on `Except` -/

theorem bind_ok {α β : Type} (x : Except Error α) (f : α → Except Error β) (b : β) :
    (x >>= f) = .ok b ↔ ∃ a, x = .ok a ∧ f a = .ok b := by
  cases x <;> simp [bind, Except.bind]

theorem pure_ok {α : Type} (a b : α) : (pure a : Except Error α) = .ok b ↔ a = b := by
  simp [pure, Except.pure]

theorem throw_ok {α : Type} (e : Error) (b : α) : (throw e : Except Error α) = .ok b ↔ False := by
  simp [throw, throwThe, MonadExceptOf.throw]

theorem loadBinaryBody_ok {f : List Byte} {base : Nat} {st st' : Image} {size : Nat}
    (h : loadBinaryBody f base st = .ok (st', size)) :
    size = f.length % U32 ∧ ∃ img, st' = { st with m_image := img } := by
  simp only [loadBinaryBody, bind_ok, pure_ok, Prod.mk.injEq] at h
  obtain ⟨bytes, -, img, -, h1, h2⟩ := h
  exact ⟨h2.symm, img, h1.symm⟩

theorem loadKernelBody_ok {f : List Byte} {base : Nat} {st st' : Image} {size : Nat}
    (h : loadKernelBody f base st = .ok (st', size)) :
    size < U32 ∧ ∃ img ep, st' = { st with m_image := img, m_kernelEntryPoint := ep } := by
  simp only [loadKernelBody, bind_ok, pure_ok, Prod.mk.injEq] at h
  obtain ⟨hdr, -, h⟩ := h
  split at h
  · simp [throw_ok, bind_ok] at h
  · simp only [bind_ok, pure_ok, Prod.mk.injEq] at h
    obtain ⟨_, -, ph, -, ⟨img, limit⟩, -, h1, h2⟩ := h
    refine ⟨?_, img, _, h1.symm⟩
    rw [← h2]
    exact Nat.mod_lt _ (by decide)

theorem placeModuleBody_ok {host : Host} {mod : Module} {st st' : Image}
    (h : placeModuleBody host mod st = .ok st') :
    ∃ info img ep size, m_moduleTypes mod.type = some info ∧ size < U32 ∧
      (info = .Binary → ∃ f, host.files mod.fileName = some f ∧ size = f.length % U32) ∧
      st' = writeMetadata32 MODINFO_SIZE size
        (writeMetadata32 MODINFO_ADDR
          (sub32 (alignKernel host info
              (writeMetadata MODINFO_TYPE (mod.type ++ [0])
                (writeMetadata MODINFO_NAME (mod.name ++ [0]) st))).m_allocationPointer
            (alignKernel host info
              (writeMetadata MODINFO_TYPE (mod.type ++ [0])
                (writeMetadata MODINFO_NAME (mod.name ++ [0]) st))).m_kernelDelta)
          (alignAllocationPointer 4096
            (Image.setCursor
              { alignKernel host info
                  (writeMetadata MODINFO_TYPE (mod.type ++ [0])
                    (writeMetadata MODINFO_NAME (mod.name ++ [0]) st)) with
                m_image := img, m_kernelEntryPoint := ep }
              ((alignKernel host info
                  (writeMetadata MODINFO_TYPE (mod.type ++ [0])
                    (writeMetadata MODINFO_NAME (mod.name ++ [0]) st))).m_allocationPointer
                + size)))) := by
  simp only [placeModuleBody, bind_ok] at h
  obtain ⟨info, hinfo, f, hf, ⟨st1, size⟩, hbody, h⟩ := h
  have hty : m_moduleTypes mod.type = some info := by
    simp only [lookupModuleType] at hinfo
    split at hinfo <;> simp_all
  have hfile : host.files mod.fileName = some f := by
    simp only [Host.openFile] at hf
    split at hf <;> simp_all
  simp only [pure_ok] at h
  cases info with
  | ElfKernel =>
    simp only [loadModuleBody] at hbody
    obtain ⟨hsz, img, ep, hst⟩ := loadKernelBody_ok hbody
    refine ⟨_, img, ep, size, hty, hsz, by simp, ?_⟩
    subst hst
    rw [← h]
    simp [alignKernel, Image.setCursor, alignAllocationPointer, writeMetadata32, writeMetadata]
  | Binary =>
    simp only [loadModuleBody] at hbody
    obtain ⟨hsz, img, hst⟩ := loadBinaryBody_ok hbody
    refine ⟨_, img, st.m_kernelEntryPoint, size, hty, ?_, fun _ => ⟨f, hfile, hsz⟩, ?_⟩
    · rw [hsz]; exact Nat.mod_lt _ (by decide)
    · subst hst
      rw [← h]
      simp [alignKernel, Image.setCursor, alignAllocationPointer, writeMetadata32, writeMetadata]


/-! ## Projections of the primitive state updates -/

@[simp] theorem writeMetadata_m_imageBase (type : Nat) (data : List Byte) (st : Image) :
    (writeMetadata type data st).m_imageBase = st.m_imageBase := rfl

@[simp] theorem writeMetadata_m_allocationPointer (type : Nat) (data : List Byte) (st : Image) :
    (writeMetadata type data st).m_allocationPointer = st.m_allocationPointer := rfl

@[simp] theorem writeMetadata_m_kernelDelta (type : Nat) (data : List Byte) (st : Image) :
    (writeMetadata type data st).m_kernelDelta = st.m_kernelDelta := rfl

@[simp] theorem writeMetadata_m_kernelEntryPoint (type : Nat) (data : List Byte) (st : Image) :
    (writeMetadata type data st).m_kernelEntryPoint = st.m_kernelEntryPoint := rfl

@[simp] theorem writeMetadata_m_metadataBase (type : Nat) (data : List Byte) (st : Image) :
    (writeMetadata type data st).m_metadataBase = st.m_metadataBase := rfl

@[simp] theorem writeMetadata_m_kickstartBase (type : Nat) (data : List Byte) (st : Image) :
    (writeMetadata type data st).m_kickstartBase = st.m_kickstartBase := rfl

@[simp] theorem writeMetadata_m_kickstartEntry (type : Nat) (data : List Byte) (st : Image) :
    (writeMetadata type data st).m_kickstartEntry = st.m_kickstartEntry := rfl

@[simp] theorem writeMetadata_m_imageDisplacement (type : Nat) (data : List Byte) (st : Image) :
    (writeMetadata type data st).m_imageDisplacement = st.m_imageDisplacement := rfl

@[simp] theorem writeMetadata_m_image (type : Nat) (data : List Byte) (st : Image) :
    (writeMetadata type data st).m_image = st.m_image := rfl

@[simp] theorem writeMetadata_m_kickstart (type : Nat) (data : List Byte) (st : Image) :
    (writeMetadata type data st).m_kickstart = st.m_kickstart := rfl

@[simp] theorem writeMetadata_m_metadataFixups (type : Nat) (data : List Byte) (st : Image) :
    (writeMetadata type data st).m_metadataFixups = st.m_metadataFixups := rfl

@[simp] theorem writeMetadata_cursorLog (type : Nat) (data : List Byte) (st : Image) :
    (writeMetadata type data st).cursorLog = st.cursorLog := rfl

@[simp] theorem writeMetadata32_m_imageBase (type value : Nat) (st : Image) :
    (writeMetadata32 type value st).m_imageBase = st.m_imageBase := rfl

@[simp] theorem writeMetadata32_m_allocationPointer (type value : Nat) (st : Image) :
    (writeMetadata32 type value st).m_allocationPointer = st.m_allocationPointer := rfl

@[simp] theorem writeMetadata32_m_kernelDelta (type value : Nat) (st : Image) :
    (writeMetadata32 type value st).m_kernelDelta = st.m_kernelDelta := rfl

@[simp] theorem writeMetadata32_m_kernelEntryPoint (type value : Nat) (st : Image) :
    (writeMetadata32 type value st).m_kernelEntryPoint = st.m_kernelEntryPoint := rfl

@[simp] theorem writeMetadata32_m_metadataBase (type value : Nat) (st : Image) :
    (writeMetadata32 type value st).m_metadataBase = st.m_metadataBase := rfl

@[simp] theorem writeMetadata32_m_kickstartBase (type value : Nat) (st : Image) :
    (writeMetadata32 type value st).m_kickstartBase = st.m_kickstartBase := rfl

@[simp] theorem writeMetadata32_m_kickstartEntry (type value : Nat) (st : Image) :
    (writeMetadata32 type value st).m_kickstartEntry = st.m_kickstartEntry := rfl

@[simp] theorem writeMetadata32_m_imageDisplacement (type value : Nat) (st : Image) :
    (writeMetadata32 type value st).m_imageDisplacement = st.m_imageDisplacement := rfl

@[simp] theorem writeMetadata32_m_image (type value : Nat) (st : Image) :
    (writeMetadata32 type value st).m_image = st.m_image := rfl

@[simp] theorem writeMetadata32_m_kickstart (type value : Nat) (st : Image) :
    (writeMetadata32 type value st).m_kickstart = st.m_kickstart := rfl

@[simp] theorem writeMetadata32_m_metadataFixups (type value : Nat) (st : Image) :
    (writeMetadata32 type value st).m_metadataFixups = st.m_metadataFixups := rfl

@[simp] theorem writeMetadata32_cursorLog (type value : Nat) (st : Image) :
    (writeMetadata32 type value st).cursorLog = st.cursorLog := rfl

@[simp] theorem writeMetadataFixup_m_imageBase (type : Nat) (fixup : FixupHandler) (st : Image) :
    (writeMetadataFixup type fixup 4 st).m_imageBase = st.m_imageBase := rfl

@[simp] theorem writeMetadataFixup_m_allocationPointer (type : Nat) (fixup : FixupHandler) (st : Image) :
    (writeMetadataFixup type fixup 4 st).m_allocationPointer = st.m_allocationPointer := rfl

@[simp] theorem writeMetadataFixup_m_kernelDelta (type : Nat) (fixup : FixupHandler) (st : Image) :
    (writeMetadataFixup type fixup 4 st).m_kernelDelta = st.m_kernelDelta := rfl

@[simp] theorem writeMetadataFixup_m_kernelEntryPoint (type : Nat) (fixup : FixupHandler) (st : Image) :
    (writeMetadataFixup type fixup 4 st).m_kernelEntryPoint = st.m_kernelEntryPoint := rfl

@[simp] theorem writeMetadataFixup_m_metadataBase (type : Nat) (fixup : FixupHandler) (st : Image) :
    (writeMetadataFixup type fixup 4 st).m_metadataBase = st.m_metadataBase := rfl

@[simp] theorem writeMetadataFixup_m_kickstartBase (type : Nat) (fixup : FixupHandler) (st : Image) :
    (writeMetadataFixup type fixup 4 st).m_kickstartBase = st.m_kickstartBase := rfl

@[simp] theorem writeMetadataFixup_m_kickstartEntry (type : Nat) (fixup : FixupHandler) (st : Image) :
    (writeMetadataFixup type fixup 4 st).m_kickstartEntry = st.m_kickstartEntry := rfl

@[simp] theorem writeMetadataFixup_m_imageDisplacement (type : Nat) (fixup : FixupHandler) (st : Image) :
    (writeMetadataFixup type fixup 4 st).m_imageDisplacement = st.m_imageDisplacement := rfl

@[simp] theorem writeMetadataFixup_m_image (type : Nat) (fixup : FixupHandler) (st : Image) :
    (writeMetadataFixup type fixup 4 st).m_image = st.m_image := rfl

@[simp] theorem writeMetadataFixup_m_kickstart (type : Nat) (fixup : FixupHandler) (st : Image) :
    (writeMetadataFixup type fixup 4 st).m_kickstart = st.m_kickstart := rfl

@[simp] theorem writeMetadataFixup_cursorLog (type : Nat) (fixup : FixupHandler) (st : Image) :
    (writeMetadataFixup type fixup 4 st).cursorLog = st.cursorLog := rfl

@[simp] theorem alignAllocationPointer_m_metadata (alignment : Nat) (st : Image) :
    (alignAllocationPointer alignment st).m_metadata = st.m_metadata := by
  unfold alignAllocationPointer
  rfl

@[simp] theorem alignAllocationPointer_m_imageBase (alignment : Nat) (st : Image) :
    (alignAllocationPointer alignment st).m_imageBase = st.m_imageBase := by
  unfold alignAllocationPointer
  rfl

@[simp] theorem alignAllocationPointer_m_kernelDelta (alignment : Nat) (st : Image) :
    (alignAllocationPointer alignment st).m_kernelDelta = st.m_kernelDelta := by
  unfold alignAllocationPointer
  rfl

@[simp] theorem alignAllocationPointer_m_kernelEntryPoint (alignment : Nat) (st : Image) :
    (alignAllocationPointer alignment st).m_kernelEntryPoint = st.m_kernelEntryPoint := by
  unfold alignAllocationPointer
  rfl

@[simp] theorem alignAllocationPointer_m_metadataBase (alignment : Nat) (st : Image) :
    (alignAllocationPointer alignment st).m_metadataBase = st.m_metadataBase := by
  unfold alignAllocationPointer
  rfl

@[simp] theorem alignAllocationPointer_m_kickstartBase (alignment : Nat) (st : Image) :
    (alignAllocationPointer alignment st).m_kickstartBase = st.m_kickstartBase := by
  unfold alignAllocationPointer
  rfl

@[simp] theorem alignAllocationPointer_m_kickstartEntry (alignment : Nat) (st : Image) :
    (alignAllocationPointer alignment st).m_kickstartEntry = st.m_kickstartEntry := by
  unfold alignAllocationPointer
  rfl

@[simp] theorem alignAllocationPointer_m_imageDisplacement (alignment : Nat) (st : Image) :
    (alignAllocationPointer alignment st).m_imageDisplacement = st.m_imageDisplacement := by
  unfold alignAllocationPointer
  rfl

@[simp] theorem alignAllocationPointer_m_image (alignment : Nat) (st : Image) :
    (alignAllocationPointer alignment st).m_image = st.m_image := by
  unfold alignAllocationPointer
  rfl

@[simp] theorem alignAllocationPointer_m_kickstart (alignment : Nat) (st : Image) :
    (alignAllocationPointer alignment st).m_kickstart = st.m_kickstart := by
  unfold alignAllocationPointer
  rfl

@[simp] theorem alignAllocationPointer_m_metadataFixups (alignment : Nat) (st : Image) :
    (alignAllocationPointer alignment st).m_metadataFixups = st.m_metadataFixups := by
  unfold alignAllocationPointer
  rfl

@[simp] theorem setCursor_m_metadata (st : Image) (raw : Nat) :
    (st.setCursor raw).m_metadata = st.m_metadata := rfl

@[simp] theorem setCursor_m_imageBase (st : Image) (raw : Nat) :
    (st.setCursor raw).m_imageBase = st.m_imageBase := rfl

@[simp] theorem setCursor_m_kernelDelta (st : Image) (raw : Nat) :
    (st.setCursor raw).m_kernelDelta = st.m_kernelDelta := rfl

@[simp] theorem setCursor_m_kernelEntryPoint (st : Image) (raw : Nat) :
    (st.setCursor raw).m_kernelEntryPoint = st.m_kernelEntryPoint := rfl

@[simp] theorem setCursor_m_metadataBase (st : Image) (raw : Nat) :
    (st.setCursor raw).m_metadataBase = st.m_metadataBase := rfl

@[simp] theorem setCursor_m_kickstartBase (st : Image) (raw : Nat) :
    (st.setCursor raw).m_kickstartBase = st.m_kickstartBase := rfl

@[simp] theorem setCursor_m_kickstartEntry (st : Image) (raw : Nat) :
    (st.setCursor raw).m_kickstartEntry = st.m_kickstartEntry := rfl

@[simp] theorem setCursor_m_imageDisplacement (st : Image) (raw : Nat) :
    (st.setCursor raw).m_imageDisplacement = st.m_imageDisplacement := rfl

@[simp] theorem setCursor_m_image (st : Image) (raw : Nat) :
    (st.setCursor raw).m_image = st.m_image := rfl

@[simp] theorem setCursor_m_kickstart (st : Image) (raw : Nat) :
    (st.setCursor raw).m_kickstart = st.m_kickstart := rfl

@[simp] theorem setCursor_m_metadataFixups (st : Image) (raw : Nat) :
    (st.setCursor raw).m_metadataFixups = st.m_metadataFixups := rfl

@[simp] theorem setCursor_m_allocationPointer (st : Image) (raw : Nat) :
    (st.setCursor raw).m_allocationPointer = raw % U32 := rfl

@[simp] theorem setCursor_cursorLog (st : Image) (raw : Nat) :
    (st.setCursor raw).cursorLog
      = st.cursorLog ++ [⟨st.m_allocationPointer, raw, raw % U32⟩] := rfl

@[simp] theorem alignAllocationPointer_cursorLog (alignment : Nat) (st : Image) :
    (alignAllocationPointer alignment st).cursorLog
      = st.cursorLog ++ [⟨st.m_allocationPointer,
          st.m_allocationPointer + (alignment + (U32 - 1)) % U32,
          (alignAllocationPointer alignment st).m_allocationPointer⟩] := by
  unfold alignAllocationPointer
  rfl

@[simp] theorem writeMetadata_m_metadata (type : Nat) (data : List Byte) (st : Image) :
    (writeMetadata type data st).m_metadata
      = st.m_metadata ++ ([type % U32, data.length % U32] ++ packWords data) := by
  simp [writeMetadata]

theorem writeMetadata32_m_metadata (type value : Nat) (st : Image) (hv : value < U32) :
    (writeMetadata32 type value st).m_metadata = st.m_metadata ++ [type % U32, 4, value] := by
  simp [writeMetadata32, le32_of_lt value hv]
  simp [le32]

@[simp] theorem writeMetadataFixup_m_metadata (type : Nat) (fixup : FixupHandler) (st : Image) :
    (writeMetadataFixup type fixup 4 st).m_metadata = st.m_metadata ++ [type % U32, 4, 0] := by
  simp [writeMetadataFixup]

@[simp] theorem writeMetadataFixup_m_metadataFixups (type : Nat) (fixup : FixupHandler)
    (st : Image) :
    (writeMetadataFixup type fixup 4 st).m_metadataFixups
      = st.m_metadataFixups ++ [⟨st.m_metadata.length + 2, fixup⟩] := by
  simp [writeMetadataFixup]

theorem sub32_lt (a b : Nat) : sub32 a b < U32 := Nat.mod_lt _ (by decide)

theorem add32_lt (a b : Nat) : add32 a b < U32 := Nat.mod_lt _ (by decide)

/-! ## Alignment -/

/-- Clearing the low `k` bits of a 32-bit number with the mask `~(2^k - 1)`. -/
theorem land_mask (k x : Nat) (hk : k ≤ 32) (hx : x < 4294967296) :
    x &&& (4294967296 - 1 - (2 ^ k - 1)) = x / 2 ^ k * 2 ^ k := by
  have hpos : 0 < 2 ^ k := Nat.two_pow_pos k
  have hle : 2 ^ k ≤ 2 ^ 32 := Nat.pow_le_pow_right (by decide) hk
  have e : 4294967296 - 1 - (2 ^ k - 1) = 2 ^ 32 - (2 ^ k - 1 + 1) := by
    have : (4294967296 : Nat) = 2 ^ 32 := by norm_num
    omega
  rw [e]
  apply Nat.eq_of_testBit_eq
  intro i
  have hlt : 2 ^ k - 1 < 2 ^ 32 := by omega
  rw [Nat.testBit_and, Nat.testBit_two_pow_sub_succ hlt, Nat.testBit_two_pow_sub_one,
    Nat.mul_comm, Nat.testBit_mul_pow_two, ← Nat.shiftRight_eq_div_pow, Nat.testBit_shiftRight]
  by_cases h1 : i < 32 <;> by_cases h2 : i < k
  · simp [h1, h2]
  · have : k ≤ i := by omega
    simp [h1, h2, this, Nat.add_sub_cancel' this]
  · omega
  · have : k ≤ i := by omega
    have hx' : x < 2 ^ i := lt_of_lt_of_le hx (by
      have : (4294967296 : Nat) = 2 ^ 32 := by norm_num
      rw [this]; exact Nat.pow_le_pow_right (by decide) (by omega))
    simp [h1, h2, Nat.add_sub_cancel' this, Nat.testBit_lt_two_pow hx']

/-- The value `alignAllocationPointer` stores for a power-of-two alignment. -/
theorem alignAllocationPointer_pointer (k : Nat) (hk : k < 32) (st : Image) :
    (alignAllocationPointer (2 ^ k) st).m_allocationPointer
      = (st.m_allocationPointer + (2 ^ k - 1)) % U32 / 2 ^ k * 2 ^ k := by
  have hpos : 0 < 2 ^ k := Nat.two_pow_pos k
  have hlt : 2 ^ k < 2 ^ 32 := Nat.pow_lt_pow_right (by decide) hk
  have h32 : (2 : Nat) ^ 32 = 4294967296 := by norm_num
  have hmask : (2 ^ k + (U32 - 1)) % U32 = 2 ^ k - 1 := by
    simp only [U32]
    omega
  simp only [alignAllocationPointer, hmask]
  exact land_mask k _ (by omega) (Nat.mod_lt _ (by decide))

theorem align4096_pointer (st : Image) :
    (alignAllocationPointer 4096 st).m_allocationPointer
      = (st.m_allocationPointer + 4095) % U32 / 4096 * 4096 := by
  have := alignAllocationPointer_pointer 12 (by decide) st
  norm_num at this
  exact this

theorem align1M_pointer (st : Image) :
    (alignAllocationPointer 0x00100000 st).m_allocationPointer
      = (st.m_allocationPointer + 1048575) % U32 / 1048576 * 1048576 := by
  have := alignAllocationPointer_pointer 20 (by decide) st
  norm_num at this
  exact this

/-! ## Environment blocks -/

theorem splitNul_ne_nil (bs : List Byte) : splitNul bs ≠ [] := by
  cases bs with
  | nil => simp [splitNul]
  | cons b rest =>
    simp only [splitNul]
    split
    · simp
    · split <;> simp

theorem splitNul_append (p rest : List Byte) (hp : ∀ b ∈ p, b ≠ 0) :
    splitNul (p ++ 0 :: rest) = p :: splitNul rest := by
  induction p with
  | nil => simp [splitNul]
  | cons b p ih =>
    have hb : b ≠ 0 := hp b (by simp)
    have ih' := ih (fun c hc => hp c (by simp [hc]))
    simp [splitNul, hb, ih']

theorem splitFirstEq_append (k v : List Byte) (hk : ∀ b ∈ k, b ≠ 61) :
    splitFirstEq (k ++ 61 :: v) = (k, v) := by
  induction k with
  | nil => simp [splitFirstEq]
  | cons b k ih =>
    have hb : b ≠ 61 := hk b (by simp)
    have ih' := ih (fun c hc => hk c (by simp [hc]))
    simp only [splitFirstEq, Prod.mk.injEq] at ih' ⊢
    simp [hb, ih'.1, ih'.2]

theorem decodeEnvironment_block (pairs : List (List Byte × List Byte))
    (h : ∀ kv ∈ pairs, (∀ b ∈ kv.1, b ≠ 61 ∧ b ≠ 0) ∧ ∀ b ∈ kv.2, b ≠ 0) :
    decodeEnvironment (environmentBlock pairs) = pairs := by
  induction pairs with
  | nil => simp [decodeEnvironment, environmentBlock, splitNul]
  | cons kv rest ih =>
    have hkv := h kv (by simp)
    have ih' := ih (fun x hx => h x (by simp [hx]))
    have hp : ∀ b ∈ kv.1 ++ 61 :: kv.2, b ≠ 0 := by
      intro b hb
      rcases List.mem_append.mp hb with hb | hb
      · exact (hkv.1 b hb).2
      · rcases List.mem_cons.mp hb with hb | hb
        · subst hb; decide
        · exact hkv.2 b hb
    have hblock : environmentBlock (kv :: rest)
        = (kv.1 ++ 61 :: kv.2) ++ 0 :: environmentBlock rest := by
      simp [environmentBlock]
    have hne : (kv.1 ++ 61 :: kv.2) ≠ [] := by simp
    simp only [decodeEnvironment] at ih' ⊢
    rw [hblock, splitNul_append _ _ hp]
    simp only [List.takeWhile_cons, bne_iff_ne, ne_eq, hne, not_false_eq_true, decide_True,
      ↓reduceIte, List.map_cons, ih', List.cons.injEq, and_true]
    rw [splitFirstEq_append _ _ (fun b hb => (hkv.1 b hb).1)]

theorem accepted_eq (r : Except Error Image) (h : accepted r = true) : r = .ok (resultOf r) := by
  cases r with
  | ok st => rfl
  | error e => simp [accepted] at h

/-! ## Steps of the layout engine -/

theorem Trace.append {p q r : Nat} {a b : List CursorEvent} (h1 : Trace p a q)
    (h2 : Trace q b r) : Trace p (a ++ b) r := by
  induction a generalizing p with
  | nil => simp only [Trace] at h1; subst h1; simpa using h2
  | cons e a ih =>
    simp only [Trace, List.cons_append] at h1 ⊢
    exact ⟨h1.1, h1.2.1, h1.2.2.1, ih h1.2.2.2⟩

theorem Trace.le {p q : Nat} {evs : List CursorEvent} (h : Trace p evs q)
    (hw : ∀ e ∈ evs, e.raw < U32) : p ≤ q := by
  induction evs generalizing p with
  | nil => simp only [Trace] at h; omega
  | cons e evs ih =>
    simp only [Trace] at h
    have h1 := h.2.2.1 (hw e (by simp))
    have h2 := ih h.2.2.2 (fun x hx => hw x (by simp [hx]))
    omega

theorem Trace.good {p q : Nat} {evs : List CursorEvent} (h : Trace p evs q) :
    ∀ e ∈ evs, e.after < U32 ∧ (e.raw < U32 → e.before ≤ e.after) := by
  induction evs generalizing p with
  | nil => simp
  | cons e evs ih =>
    simp only [Trace] at h
    intro x hx
    rcases List.mem_cons.mp hx with rfl | hx
    · exact ⟨h.2.1, h.2.2.1⟩
    · exact ih h.2.2.2 x hx

theorem fixupsOf_append (start : Nat) (a b : List Write) :
    fixupsOf start (a ++ b)
      = fixupsOf start a ++ fixupsOf (start + (a.flatMap encodeWrite).length) b := by
  induction a generalizing start with
  | nil => simp [fixupsOf]
  | cons w a ih =>
    have h := ih (start + (encodeWrite w).length)
    simp only [List.cons_append, fixupsOf, List.flatMap_cons, List.length_append,
      List.append_eq, h, Nat.add_assoc, List.append_assoc]

theorem Step.refl (st : Image) : Step st st [] [] :=
  ⟨by simp, by simp [fixupsOf], by simp, by simp [Trace], rfl⟩

theorem Step.trans {st st1 st2 : Image} {ws1 ws2 : List Write} {evs1 evs2 : List CursorEvent}
    (h1 : Step st st1 ws1 evs1) (h2 : Step st1 st2 ws2 evs2) :
    Step st st2 (ws1 ++ ws2) (evs1 ++ evs2) := by
  refine ⟨?_, ?_, ?_, h1.trace.append h2.trace, ?_⟩
  · rw [h2.metadata, h1.metadata]; simp
  · rw [h2.fixups, h1.fixups, fixupsOf_append, h1.metadata]; simp
  · rw [h2.log, h1.log]; simp
  · rw [h2.imageBase, h1.imageBase]

/-- The event of a 4 KiB or 1 MiB alignment bump is a sound step of the cursor. -/
theorem align_good (k : Nat) (hk : k < 32) (st : Image) :
    (alignAllocationPointer (2 ^ k) st).m_allocationPointer < U32
    ∧ (st.m_allocationPointer + (2 ^ k + (U32 - 1)) % U32 < U32 →
        st.m_allocationPointer ≤ (alignAllocationPointer (2 ^ k) st).m_allocationPointer) := by
  have hpos : 0 < 2 ^ k := Nat.two_pow_pos k
  have hlt : 2 ^ k < 2 ^ 32 := Nat.pow_lt_pow_right (by decide) hk
  have h32 : (2 : Nat) ^ 32 = 4294967296 := by norm_num
  have hmask : (2 ^ k + (U32 - 1)) % U32 = 2 ^ k - 1 := by
    simp only [U32]
    omega
  rw [alignAllocationPointer_pointer k hk, hmask]
  constructor
  · exact lt_of_le_of_lt (Nat.div_mul_le_self _ _) (Nat.mod_lt _ (by decide))
  · intro h
    rw [Nat.mod_eq_of_lt h]
    have := Nat.lt_div_mul_add (a := st.m_allocationPointer + (2 ^ k - 1)) hpos
    omega

theorem Step.align (k : Nat) (hk : k < 32) (st : Image) :
    Step st (alignAllocationPointer (2 ^ k) st) []
      [⟨st.m_allocationPointer, st.m_allocationPointer + (2 ^ k + (U32 - 1)) % U32,
        (alignAllocationPointer (2 ^ k) st).m_allocationPointer⟩] := by
  have hg := align_good k hk st
  refine ⟨by simp, by simp [fixupsOf], by simp, ?_, by simp⟩
  simp only [Trace, true_and]
  exact ⟨hg.1, hg.2, trivial⟩

theorem Step.setCursor (st : Image) (raw : Nat) (h : st.m_allocationPointer ≤ raw) :
    Step st (st.setCursor raw) [] [⟨st.m_allocationPointer, raw, raw % U32⟩] := by
  refine ⟨by simp, by simp [fixupsOf], by simp, ?_, by simp⟩
  simp only [Trace, true_and, setCursor_m_allocationPointer, and_true]
  refine ⟨Nat.mod_lt _ (by decide), fun hr => ?_⟩
  rw [Nat.mod_eq_of_lt hr]
  exact h

theorem Step.writeMetadata (type : Nat) (data : List Byte) (st : Image)
    (h : type ≠ 0x8004) :
    Step st (writeMetadata type data st) [⟨type, data⟩] [] :=
  ⟨by simp [encodeWrite], by simp [fixupsOf, h], by simp, by simp [Trace], by simp⟩

theorem Step.writeMetadata32 (type value : Nat) (st : Image) (h : type ≠ 0x8004) :
    Step st (writeMetadata32 type value st) [⟨type, le32 value⟩] [] :=
  Step.writeMetadata type (le32 value) st h

theorem Step.writeMetadataFixup (st : Image) :
    Step st (writeMetadataFixup 0x8004 .kernend 4 st) [⟨0x8004, [0, 0, 0, 0]⟩] [] :=
  ⟨by simp [encodeWrite, packWords, U32], by simp [fixupsOf], by simp, by simp [Trace], by simp⟩

/-- A change of fields other than the stream, the fixups, the cursor and the image base. -/
theorem Step.frame {st st' : Image} (h1 : st'.m_metadata = st.m_metadata)
    (h2 : st'.m_metadataFixups = st.m_metadataFixups) (h3 : st'.cursorLog = st.cursorLog)
    (h4 : st'.m_allocationPointer = st.m_allocationPointer)
    (h5 : st'.m_imageBase = st.m_imageBase) : Step st st' [] [] :=
  ⟨by simp [h1], by simp [h2, fixupsOf], by simp [h3], by simp [Trace, h4], h5⟩

/-! ## The module loop -/

theorem moduleType_cases {type : List Byte} {info : ModuleType}
    (h : m_moduleTypes type = some info) :
    (info = .ElfKernel ∧ type = str ("elf kernel")) ∨ (info = .Binary ∧ type = str ("md_image")) := by
  simp only [m_moduleTypes] at h
  split at h
  · left; exact ⟨(Option.some.inj h).symm, by assumption⟩
  · split at h
    · right; exact ⟨(Option.some.inj h).symm, by assumption⟩
    · exact absurd h (by simp)

theorem alignAllocationPointer_congr (alignment : Nat) (st st' : Image)
    (h : st.m_allocationPointer = st'.m_allocationPointer) :
    (alignAllocationPointer alignment st).m_allocationPointer
      = (alignAllocationPointer alignment st').m_allocationPointer := by
  unfold alignAllocationPointer
  simp only [h]

theorem alignKernel_step (host : Host) (info : ModuleType) (st : Image) :
    ∃ evs, Step st (alignKernel host info st) [] evs
      ∧ (info = .ElfKernel →
          (alignKernel host info st).m_kernelDelta
            = sub32 (alignAllocationPointer 0x00100000 st).m_allocationPointer host.KERNEL_VADDR
          ∧ (alignKernel host info st).m_allocationPointer
            = (alignAllocationPointer 0x00100000 st).m_allocationPointer
          ∧ evs = [⟨st.m_allocationPointer, st.m_allocationPointer + 1048575,
              (alignAllocationPointer 0x00100000 st).m_allocationPointer⟩])
      ∧ (info ≠ .ElfKernel → alignKernel host info st = st ∧ evs = []) := by
  cases info with
  | ElfKernel =>
    have hs := Step.align 20 (by decide) st
    have e : (2 : Nat) ^ 20 = 0x00100000 := by norm_num
    have e2 : (1048576 + (U32 - 1)) % U32 = 1048575 := by decide
    rw [e] at hs
    simp only [e2] at hs
    refine ⟨_, ?_, fun _ => ⟨by simp [alignKernel], by simp [alignKernel], rfl⟩, fun h => absurd rfl h⟩
    exact ⟨by simp [alignKernel], by simp [alignKernel, fixupsOf],
      by simpa [alignKernel] using hs.log, by simpa [alignKernel] using hs.trace,
      by simp [alignKernel]⟩
  | Binary =>
    exact ⟨[], by simpa [alignKernel] using Step.refl st, fun h => by simp at h,
      fun _ => ⟨by simp [alignKernel], rfl⟩⟩

/-- What `placeModuleBody` does, in terms of the writes and cursor events. `base` is the
local variable `base` of the C++ code, `size` the local variable `size`. -/
theorem placeModuleBody_step {host : Host} {mod : Module} {st st' : Image}
    (h : placeModuleBody host mod st = .ok st') :
    ∃ info base size evs1 evs2, m_moduleTypes mod.type = some info ∧ size < U32 ∧
      Step st st'
        [⟨MODINFO_NAME, mod.name ++ [0]⟩, ⟨MODINFO_TYPE, mod.type ++ [0]⟩,
          ⟨MODINFO_ADDR, le32 (sub32 base st'.m_kernelDelta)⟩, ⟨MODINFO_SIZE, le32 size⟩]
        (evs1 ++ evs2)
      ∧ Trace st.m_allocationPointer evs1 base
      ∧ Trace base evs2 st'.m_allocationPointer
      ∧ st'.m_allocationPointer % 4096 = 0
      ∧ (info = .ElfKernel →
          st'.m_kernelDelta = sub32 base host.KERNEL_VADDR
          ∧ base = (alignAllocationPointer 0x00100000 st).m_allocationPointer
          ∧ evs1 = [⟨st.m_allocationPointer, st.m_allocationPointer + 1048575, base⟩])
      ∧ (info ≠ .ElfKernel → st'.m_kernelDelta = st.m_kernelDelta ∧ base = st.m_allocationPointer
          ∧ evs1 = []) := by
  obtain ⟨info, img, ep, size, hty, hsz, -, rfl⟩ := placeModuleBody_ok h
  have hn : MODINFO_NAME ≠ 0x8004 := by decide
  have ht : MODINFO_TYPE ≠ 0x8004 := by decide
  have ha : MODINFO_ADDR ≠ 0x8004 := by decide
  have hs : MODINFO_SIZE ≠ 0x8004 := by decide
  have e12 : (2 : Nat) ^ 12 = 4096 := by norm_num
  -- the five parts of the block, in order
  let s1 := writeMetadata MODINFO_NAME (mod.name ++ [0]) st
  let s2 := writeMetadata MODINFO_TYPE (mod.type ++ [0]) s1
  let s3 := alignKernel host info s2
  let s4 : Image := { s3 with m_image := img, m_kernelEntryPoint := ep }
  let s5 := s4.setCursor (s3.m_allocationPointer + size)
  let s6 := alignAllocationPointer 4096 s5
  let s7 := writeMetadata32 MODINFO_ADDR (sub32 s3.m_allocationPointer s3.m_kernelDelta) s6
  have h1 := Step.writeMetadata MODINFO_NAME (mod.name ++ [0]) st hn
  have h2 := Step.writeMetadata MODINFO_TYPE (mod.type ++ [0]) s1 ht
  obtain ⟨evs1, h3, h3k, h3b⟩ := alignKernel_step host info s2
  have h4 : Step s3 s4 [] [] := Step.frame rfl rfl rfl rfl rfl
  have h5 := Step.setCursor s4 (s3.m_allocationPointer + size) (Nat.le_add_right _ _)
  have h6 := Step.align 12 (by decide) s5
  rw [e12] at h6
  have h7 := Step.writeMetadata32 MODINFO_ADDR (sub32 s3.m_allocationPointer s3.m_kernelDelta) s6 ha
  have h8 := Step.writeMetadata32 MODINFO_SIZE size s7 hs
  have hall := (((((((h1.trans h2).trans h3).trans h4).trans h5).trans h6).trans h7).trans h8)
  have hkd : (writeMetadata32 MODINFO_SIZE size s7).m_kernelDelta = s3.m_kernelDelta := by
    simp [s7, s6, s5, s4]
  have hap : (writeMetadata32 MODINFO_SIZE size s7).m_allocationPointer
      = s6.m_allocationPointer := by simp [s7]
  refine ⟨info, s3.m_allocationPointer, size, evs1,
    [⟨s4.m_allocationPointer, s3.m_allocationPointer + size,
        (s3.m_allocationPointer + size) % U32⟩,
      ⟨s5.m_allocationPointer, s5.m_allocationPointer + (4096 + (U32 - 1)) % U32,
        s6.m_allocationPointer⟩],
    hty, hsz, ?_, ?_, ?_, ?_, ?_, ?_⟩
  · rw [hkd]
    simpa using hall
  · simpa [s2, s1] using h3.trace
  · rw [hap]
    simpa using h5.trace.append h6.trace
  · rw [hap, align4096_pointer]
    exact Nat.mul_mod_left _ _
  · intro hk
    obtain ⟨k1, k2, k3⟩ := h3k hk
    rw [hkd]
    refine ⟨?_, ?_, ?_⟩
    · rw [k1, k2]
    · rw [k2]; exact alignAllocationPointer_congr _ _ _ (by simp [s2, s1])
    · rw [k3, k2]; simp [s2, s1]
  · intro hk
    obtain ⟨k1, k2⟩ := h3b hk
    rw [hkd]
    refine ⟨?_, ?_, k2⟩
    · show s3.m_kernelDelta = _
      rw [show s3 = s2 from k1]; simp [s2, s1]
    · show s3.m_allocationPointer = _
      rw [show s3 = s2 from k1]; simp [s2, s1]

theorem entryType_dtb : MODINFO_METADATA ||| MODINFOMD_DTBP = 0x8010 := by decide
theorem entryType_kernend : MODINFO_METADATA ||| MODINFOMD_KERNEND = 0x8004 := by decide
theorem entryType_envp : MODINFO_METADATA ||| MODINFOMD_ENVP = 0x8002 := by decide
theorem entryType_howto : MODINFO_METADATA ||| MODINFOMD_HOWTO = 0x8001 := by decide

/-- The part of a DTB or ENVIRONMENT entry after the copy into the payload: advance, align,
write the address record. -/
theorem placeBlob_step (st : Image) (img : List Byte) (n type : Nat) (ht : type ≠ 0x8004) :
    ∃ evs, Step st
        (writeMetadata32 type (sub32 st.m_allocationPointer st.m_kernelDelta)
          (alignAllocationPointer 4096
            (Image.setCursor { st with m_image := img } (st.m_allocationPointer + n))))
        [⟨type, le32 (sub32 st.m_allocationPointer st.m_kernelDelta)⟩] evs
      ∧ (writeMetadata32 type (sub32 st.m_allocationPointer st.m_kernelDelta)
          (alignAllocationPointer 4096
            (Image.setCursor { st with m_image := img }
              (st.m_allocationPointer + n)))).m_allocationPointer % 4096 = 0 := by
  have e12 : (2 : Nat) ^ 12 = 4096 := by norm_num
  let s1 : Image := { st with m_image := img }
  let s2 := s1.setCursor (st.m_allocationPointer + n)
  let s3 := alignAllocationPointer 4096 s2
  have h1 : Step st s1 [] [] := Step.frame rfl rfl rfl rfl rfl
  have h2 := Step.setCursor s1 (st.m_allocationPointer + n) (Nat.le_add_right _ _)
  have h3 := Step.align 12 (by decide) s2
  rw [e12] at h3
  have h4 := Step.writeMetadata32 type (sub32 st.m_allocationPointer st.m_kernelDelta) s3 ht
  refine ⟨_, by simpa using ((h1.trans h2).trans h3).trans h4, ?_⟩
  rw [writeMetadata32_m_allocationPointer, align4096_pointer]
  exact Nat.mul_mod_left _ _

/-- What one metadata entry does, in terms of the writes and cursor events. -/
theorem placeMetadataEntry_step {host : Host} {md : ModuleMetadata} {st st' : Image}
    (h : placeMetadataEntry host md st = .ok st') :
    ∃ data evs, Step st st' [⟨entryRecordType md.type, data⟩] evs
      ∧ data.length = 4
      ∧ st'.m_kernelDelta = st.m_kernelDelta
      ∧ (md.type = .DTB ∨ md.type = .ENVIRONMENT →
          data = le32 (sub32 st.m_allocationPointer st.m_kernelDelta)
          ∧ st'.m_allocationPointer % 4096 = 0)
      ∧ (md.type = .KERNEND → data = [0, 0, 0, 0])
      ∧ (md.type = .KERNEND ∨ md.type = .HOWTO →
          st'.m_allocationPointer = st.m_allocationPointer) := by
  cases hmt : md.type with
  | DTB =>
    simp only [placeMetadataEntry, hmt, bind_ok, pure_ok] at h
    obtain ⟨f, -, bytes, -, img, -, rfl⟩ := h
    rw [entryType_dtb]
    obtain ⟨evs, hs, hal⟩ := placeBlob_step st img (f.length % U32) 0x8010 (by decide)
    exact ⟨_, evs, hs, by simp [le32], by simp, fun _ => ⟨rfl, hal⟩, fun h => by simp at h,
      fun h => by simp at h⟩
  | KERNEND =>
    simp only [placeMetadataEntry, hmt, pure_ok] at h
    subst h
    rw [entryType_kernend]
    exact ⟨_, [], Step.writeMetadataFixup st, by simp, by simp, fun h => by simp at h,
      fun _ => rfl, fun _ => by simp⟩
  | ENVIRONMENT =>
    simp only [placeMetadataEntry, hmt, bind_ok, pure_ok] at h
    obtain ⟨img, -, rfl⟩ := h
    rw [entryType_envp]
    obtain ⟨evs, hs, hal⟩ := placeBlob_step st img
      ((environmentBlock md.keyValuePairs).length % U32) 0x8002 (by decide)
    exact ⟨_, evs, hs, by simp [le32], by simp, fun _ => ⟨rfl, hal⟩, fun h => by simp at h,
      fun h => by simp at h⟩
  | HOWTO =>
    simp only [placeMetadataEntry, hmt, bind_ok, pure_ok] at h
    obtain ⟨v, -, rfl⟩ := h
    rw [entryType_howto]
    exact ⟨_, [], Step.writeMetadata32 0x8001 v st (by decide), by simp [le32], by simp,
      fun h => by simp at h, fun h => by simp at h, fun _ => by simp⟩

theorem AddrOk.mono {lo hi lo' hi' kd : Nat} {w : Write} (h : AddrOk lo hi kd w)
    (h1 : lo' ≤ lo) (h2 : hi ≤ hi') : AddrOk lo' hi' kd w := by
  intro ht
  obtain ⟨b, hb1, hb2, hb3⟩ := h ht
  exact ⟨b, by omega, by omega, hb3⟩

/-- What the loop over a module's metadata entries does. -/
theorem placeMetadataEntries_step {host : Host} {mds : List ModuleMetadata} {st st' : Image}
    (h : placeMetadataEntries host mds st = .ok st') :
    ∃ ws evs, Step st st' ws evs
      ∧ ws.map (fun w => w.type) = mds.map (fun md => entryRecordType md.type)
      ∧ (∀ w ∈ ws, w.data.length = 4)
      ∧ (∀ w ∈ ws, w.type = 0x8004 → w.data = [0, 0, 0, 0])
      ∧ st'.m_kernelDelta = st.m_kernelDelta
      ∧ ((∀ e ∈ evs, e.raw < U32) →
          ∀ w ∈ ws, AddrOk st.m_allocationPointer st'.m_allocationPointer st.m_kernelDelta w)
      ∧ (st.m_allocationPointer % 4096 = 0 → st'.m_allocationPointer % 4096 = 0) := by
  induction mds generalizing st with
  | nil =>
    simp only [placeMetadataEntries, Except.ok.injEq] at h
    subst h
    exact ⟨[], [], Step.refl st, by simp, by simp, by simp, rfl, by simp, id⟩
  | cons md rest ih =>
    simp only [placeMetadataEntries, bind_ok] at h
    obtain ⟨st1, h1, h2⟩ := h
    obtain ⟨data, evs1, hs1, hlen, hkd1, haddr, hzero, hsame⟩ := placeMetadataEntry_step h1
    obtain ⟨ws2, evs2, hs2, hty2, hlen2, hzero2, hkd2, haddr2, hal2⟩ := ih h2
    refine ⟨_, _, hs1.trans hs2, by simp [hty2], ?_, ?_, by rw [hkd2, hkd1], ?_, ?_⟩
    · intro w hw
      rcases List.mem_append.mp hw with hw | hw
      · simp only [List.mem_singleton] at hw; subst hw; exact hlen
      · exact hlen2 w hw
    · intro w hw ht
      rcases List.mem_append.mp hw with hw | hw
      · simp only [List.mem_singleton] at hw
        subst hw
        have : md.type = .KERNEND := by
          cases hmt : md.type <;> simp [hmt, entryRecordType] at ht ⊢
        exact hzero this
      · exact hzero2 w hw ht
    · intro hw w hmem
      have hw1 : ∀ e ∈ evs1, e.raw < U32 := fun e he => hw e (by simp [he])
      have hw2 : ∀ e ∈ evs2, e.raw < U32 := fun e he => hw e (by simp [he])
      have hle1 := hs1.trace.le hw1
      have hle2 := hs2.trace.le hw2
      rcases List.mem_append.mp hmem with hmem | hmem
      · simp only [List.mem_singleton] at hmem
        subst hmem
        intro ht
        have : md.type = .DTB ∨ md.type = .ENVIRONMENT := by
          cases hmt : md.type <;> simp [hmt, entryRecordType, MODINFO_ADDR] at ht ⊢
        exact ⟨st.m_allocationPointer, le_refl _, by omega, (haddr this).1⟩
      · have := haddr2 hw2 w hmem
        rw [hkd1] at this
        exact this.mono hle1 (le_refl _)
    · intro hst
      apply hal2
      cases hmt : md.type with
      | DTB => exact (haddr (Or.inl hmt)).2
      | ENVIRONMENT => exact (haddr (Or.inr hmt)).2
      | KERNEND => rw [hsame (Or.inl hmt)]; exact hst
      | HOWTO => rw [hsame (Or.inr hmt)]; exact hst

/-- What one iteration of the module loop does. -/
theorem placeModule_step {host : Host} {mod : Module} {st st' : Image}
    (h : placeModule host mod st = .ok st') :
    ∃ ws evs, Step st st' ws evs
      ∧ ws.map (fun w => w.type) = moduleRecordTypes mod
      ∧ (mod.name.length + 1 < U32 → ∀ w ∈ ws, w.data.length < U32)
      ∧ (∀ w ∈ ws, w.type = 0x8004 → w.data = [0, 0, 0, 0])
      ∧ (m_moduleTypes mod.type ≠ some .ElfKernel → st'.m_kernelDelta = st.m_kernelDelta)
      ∧ ((∀ e ∈ evs, e.raw < U32) →
          ∀ w ∈ ws, AddrOk st.m_allocationPointer st'.m_allocationPointer st'.m_kernelDelta w)
      ∧ st'.m_allocationPointer % 4096 = 0 := by
  simp only [placeModule, bind_ok] at h
  obtain ⟨st1, h1, h2⟩ := h
  obtain ⟨info, base, size, evs1, evs2, hty, hsz, hs1, htr1, htr2, hal1, hk, hnk⟩ :=
    placeModuleBody_step h1
  obtain ⟨ws2, evs3, hs2, hty2, hlen2, hzero2, hkd2, haddr2, hal2⟩ :=
    placeMetadataEntries_step h2
  have htype : mod.type.length + 1 < U32 := by
    rcases moduleType_cases hty with ⟨-, e⟩ | ⟨-, e⟩ <;> rw [e] <;> decide
  refine ⟨_, _, hs1.trans hs2, ?_, ?_, ?_, ?_, ?_, hal2 hal1⟩
  · simp [moduleRecordTypes, hty2]
  · intro hname w hw
    rcases List.mem_append.mp hw with hw | hw
    · simp only [List.mem_cons, List.mem_singleton, List.not_mem_nil, or_false] at hw
      rcases hw with rfl | rfl | rfl | rfl
      · simpa using hname
      · simpa using htype
      · simp [le32, U32]
      · simp [le32, U32]
    · rw [hlen2 w hw]; decide
  · intro w hw ht
    rcases List.mem_append.mp hw with hw | hw
    · simp only [List.mem_cons, List.mem_singleton, List.not_mem_nil, or_false] at hw
      rcases hw with rfl | rfl | rfl | rfl <;>
        simp [ MODINFO_NAME, MODINFO_TYPE, MODINFO_ADDR, MODINFO_SIZE] at ht
    · exact hzero2 w hw ht
  · intro hne
    have : info ≠ .ElfKernel := fun e => hne (by rw [hty, e])
    rw [hkd2, (hnk this).1]
  · intro hw w hmem
    have hw1 : ∀ e ∈ evs1, e.raw < U32 := fun e he => hw e (by simp [he])
    have hw2 : ∀ e ∈ evs2, e.raw < U32 := fun e he => hw e (by simp [he])
    have hw3 : ∀ e ∈ evs3, e.raw < U32 := fun e he => hw e (by simp [he])
    have hle1 := htr1.le hw1
    have hle2 := htr2.le hw2
    have hle3 := hs2.trace.le hw3
    rcases List.mem_append.mp hmem with hmem | hmem
    · simp only [List.mem_cons, List.mem_singleton, List.not_mem_nil, or_false] at hmem
      rcases hmem with rfl | rfl | rfl | rfl
      · intro ht; simp [ MODINFO_NAME, MODINFO_ADDR] at ht
      · intro ht; simp [ MODINFO_TYPE, MODINFO_ADDR] at ht
      · intro _
        exact ⟨base, hle1, by omega, by rw [hkd2]⟩
      · intro ht; simp [ MODINFO_SIZE, MODINFO_ADDR] at ht
    · have := haddr2 hw3 w hmem
      rw [← hkd2] at this
      exact this.mono (by omega) (le_refl _)

/-- What the module loop does. -/
theorem placeModules_step {host : Host} {mods : List Module} {st st' : Image}
    (h : placeModules host mods st = .ok st') :
    ∃ ws evs, Step st st' ws evs
      ∧ ws.map (fun w => w.type) = mods.flatMap moduleRecordTypes
      ∧ ((∀ m ∈ mods, m.name.length + 1 < U32) → ∀ w ∈ ws, w.data.length < U32)
      ∧ (∀ w ∈ ws, w.type = 0x8004 → w.data = [0, 0, 0, 0])
      ∧ ((∀ m ∈ mods, m_moduleTypes m.type ≠ some .ElfKernel) →
          st'.m_kernelDelta = st.m_kernelDelta)
      ∧ ((∀ m ∈ mods.tail, m_moduleTypes m.type ≠ some .ElfKernel) →
          (∀ e ∈ evs, e.raw < U32) →
          ∀ w ∈ ws, AddrOk st.m_allocationPointer st'.m_allocationPointer st'.m_kernelDelta w)
      ∧ (mods ≠ [] → st'.m_allocationPointer % 4096 = 0) := by
  induction mods generalizing st with
  | nil =>
    simp only [placeModules, Except.ok.injEq] at h
    subst h
    exact ⟨[], [], Step.refl st, by simp, by simp, by simp, fun _ => rfl, by simp, by simp⟩
  | cons mod rest ih =>
    simp only [placeModules, bind_ok] at h
    obtain ⟨st1, h1, h2⟩ := h
    obtain ⟨ws1, evs1, hs1, hty1, hlen1, hzero1, hkd1, haddr1, hal1⟩ := placeModule_step h1
    obtain ⟨ws2, evs2, hs2, hty2, hlen2, hzero2, hkd2, haddr2, hal2⟩ := ih h2
    refine ⟨_, _, hs1.trans hs2, by simp [hty1, hty2], ?_, ?_, ?_, ?_, ?_⟩
    · intro hn w hw
      rcases List.mem_append.mp hw with hw | hw
      · exact hlen1 (hn mod (by simp)) w hw
      · exact hlen2 (fun m hm => hn m (by simp [hm])) w hw
    · intro w hw ht
      rcases List.mem_append.mp hw with hw | hw
      · exact hzero1 w hw ht
      · exact hzero2 w hw ht
    · intro hk
      rw [hkd2 (fun m hm => hk m (by simp [hm])), hkd1 (hk mod (by simp))]
    · intro hk hw w hmem
      simp only [List.tail_cons] at hk
      have hw1 : ∀ e ∈ evs1, e.raw < U32 := fun e he => hw e (by simp [he])
      have hw2 : ∀ e ∈ evs2, e.raw < U32 := fun e he => hw e (by simp [he])
      have hle1 := hs1.trace.le hw1
      have hle2 := hs2.trace.le hw2
      have hkd := hkd2 hk
      rcases List.mem_append.mp hmem with hmem | hmem
      · have := haddr1 hw1 w hmem
        rw [hkd]
        exact this.mono (le_refl _) hle2
      · have := haddr2 (fun m hm => hk m (List.mem_of_mem_tail hm)) hw2 w hmem
        exact this.mono hle1 (le_refl _)
    · intro _
      cases rest with
      | nil =>
        simp only [placeModules, Except.ok.injEq] at h2
        subst h2
        exact hal1
      | cons m r => exact hal2 (by simp)

/-! ## The metadata block and the fixup pass -/

theorem placeMetadataBlock_ok {st st' : Image} (h : placeMetadataBlock st = .ok st') :
    ∃ img,
      storeAt
          (resize st.m_image
            (sub32 (add32 st.m_allocationPointer (metadataSizeOf st)) st.m_imageBase))
          st.m_allocationPointer st.m_imageBase
          ((wordsToBytes (writeMetadata MODINFO_END [] st).m_metadata).take (metadataSizeOf st))
        = .ok img
      ∧ st' = { metadataPlaced st img with
          m_image := resize img
            (sub32 (metadataPlaced st img).m_allocationPointer st.m_imageBase) } := by
  simp only [placeMetadataBlock, bind_ok, pure_ok] at h
  obtain ⟨img, himg, rfl⟩ := h
  exact ⟨img, himg, rfl⟩

theorem placeMetadataBlock_step {st st' : Image} (h : placeMetadataBlock st = .ok st') :
    ∃ evs, Step st st' [⟨MODINFO_END, []⟩] evs
      ∧ st'.m_kernelDelta = st.m_kernelDelta
      ∧ st'.m_metadataBase = st.m_allocationPointer
      ∧ st'.m_allocationPointer % 4096 = 0
      ∧ st'.m_image.length = sub32 st'.m_allocationPointer st'.m_imageBase
      ∧ evs = [⟨st.m_allocationPointer, st.m_allocationPointer + metadataSizeOf st,
            (st.m_allocationPointer + metadataSizeOf st) % U32⟩,
          ⟨(st.m_allocationPointer + metadataSizeOf st) % U32,
            (st.m_allocationPointer + metadataSizeOf st) % U32 + 4095,
            st'.m_allocationPointer⟩] := by
  obtain ⟨img, -, rfl⟩ := placeMetadataBlock_ok h
  have e12 : (2 : Nat) ^ 12 = 4096 := by norm_num
  let s1 := writeMetadata MODINFO_END [] st
  let s2 : Image := { s1 with m_metadataBase := st.m_allocationPointer, m_image := img }
  let s3 := s2.setCursor (st.m_allocationPointer + metadataSizeOf st)
  let s4 := alignAllocationPointer 4096 s3
  let s5 : Image := { s4 with m_image := resize img (sub32 s4.m_allocationPointer st.m_imageBase) }
  have h1 := Step.writeMetadata MODINFO_END [] st (by decide)
  have h2 : Step s1 s2 [] [] := Step.frame rfl rfl rfl rfl rfl
  have h3 := Step.setCursor s2 (st.m_allocationPointer + metadataSizeOf st)
    (Nat.le_add_right _ _)
  have h4 := Step.align 12 (by decide) s3
  rw [e12] at h4
  have h5 : Step s4 s5 [] [] := Step.frame rfl rfl rfl rfl rfl
  have hall := (((h1.trans h2).trans h3).trans h4).trans h5
  have e2 : (4096 + (U32 - 1)) % U32 = 4095 := by decide
  refine ⟨_, by simpa using hall, by simp [metadataPlaced], by simp [metadataPlaced], ?_, ?_, ?_⟩
  · show (metadataPlaced st img).m_allocationPointer % 4096 = 0
    rw [metadataPlaced, align4096_pointer]
    exact Nat.mul_mod_left _ _
  · simp [resize, metadataPlaced]
    omega
  · simp only [e2]
    rfl

theorem applyFixups_frame {fixups : List MetadataFixup} {st st' : Image}
    (h : applyFixups fixups st = .ok st') :
    ∃ img, st' = { st with m_image := img } ∧ img.length = st.m_image.length := by
  induction fixups generalizing st with
  | nil =>
    simp only [applyFixups, Except.ok.injEq] at h
    exact ⟨st.m_image, h.symm, rfl⟩
  | cons f rest ih =>
    simp only [applyFixups, bind_ok] at h
    obtain ⟨img1, h1, h2⟩ := h
    obtain ⟨img, rfl, hlen⟩ := ih h2
    refine ⟨img, rfl, ?_⟩
    rw [hlen]
    simp only [storeAt] at h1
    split at h1
    · simp only [Except.ok.injEq] at h1; rw [← h1]
    · split at h1
      · simp only [Except.ok.injEq] at h1
        rw [← h1]
        simp [writeAt]
        omega
      · exact absurd h1 (by simp)

/-! ## Compression and the kickstart stage -/

theorem loadExecutableSegments_le {f : List Byte} {base : Nat} {phdr : List Elf32_Phdr}
    {image image' : List Byte} {limit allocationLimit limit' allocationLimit' : Nat}
    (h : loadExecutableSegments f base phdr image limit allocationLimit
      = .ok (image', limit', allocationLimit'))
    (h1 : base ≤ limit) (h2 : base ≤ allocationLimit) :
    base ≤ limit' ∧ base ≤ allocationLimit' := by
  induction phdr generalizing image limit allocationLimit with
  | nil =>
    simp only [loadExecutableSegments, Except.ok.injEq, Prod.mk.injEq] at h
    omega
  | cons segment rest ih =>
    simp only [loadExecutableSegments] at h
    split at h
    · simp only [bind_ok] at h
      obtain ⟨img1, -, h⟩ := h
      exact ih h (le_trans h1 (le_max_left _ _)) (le_trans h1 (le_max_left _ _))
    · exact ih h h1 h2

theorem loadExecutableAt_le {host : Host} {executable image image' : List Byte}
    {base allocationLimit entry : Nat}
    (h : loadExecutableAt host executable image base = .ok (allocationLimit, image', entry)) :
    base ≤ allocationLimit := by
  simp only [loadExecutableAt, bind_ok] at h
  obtain ⟨f, -, hdr, -, h⟩ := h
  split at h
  · simp [throw_ok, bind_ok] at h
  · simp only [bind_ok, pure_ok, Prod.mk.injEq] at h
    obtain ⟨_, -, ph, -, ⟨img, limit, allocationLimit'⟩, hseg, sh, -, img2, -, h1, -, -⟩ := h
    subst h1
    exact (loadExecutableSegments_le hseg (le_refl _) (le_refl _)).2

theorem loadExecutable_ok {host : Host} {executable image image' : List Byte} {st st' : Image}
    {entry : Nat} (h : loadExecutable host executable image st = .ok (st', image', entry)) :
    ∃ allocationLimit, st.m_allocationPointer ≤ allocationLimit
      ∧ loadExecutableAt host executable image st.m_allocationPointer
          = .ok (allocationLimit, image', entry)
      ∧ st' = st.setCursor allocationLimit := by
  simp only [loadExecutable, bind_ok, pure_ok, Prod.mk.injEq] at h
  obtain ⟨⟨allocationLimit, img, e⟩, h1, h2, h3, h4⟩ := h
  subst h3 h4
  exact ⟨allocationLimit, loadExecutableAt_le h1, h1, h2.symm⟩

theorem loadExecutable_step {host : Host} {executable image image' : List Byte}
    {st st' : Image} {entry : Nat}
    (h : loadExecutable host executable image st = .ok (st', image', entry)) :
    ∃ evs, Step st st' [] evs ∧ st'.m_kernelDelta = st.m_kernelDelta
      ∧ st'.m_kickstartBase = st.m_kickstartBase ∧ st'.m_kickstart = st.m_kickstart := by
  obtain ⟨allocationLimit, hle, -, rfl⟩ := loadExecutable_ok h
  exact ⟨_, Step.setCursor st allocationLimit hle, by simp, by simp, by simp⟩

theorem Step.align4 (st : Image) :
    Step st (alignAllocationPointer 4 st) []
      [⟨st.m_allocationPointer, st.m_allocationPointer + 3,
        (alignAllocationPointer 4 st).m_allocationPointer⟩] := by
  have h := Step.align 2 (by decide) st
  have e : (2 : Nat) ^ 2 = 4 := by norm_num
  have e2 : (4 + (U32 - 1)) % U32 = 3 := by decide
  rw [e] at h
  simpa only [e2] using h

theorem Step.align8 (st : Image) :
    Step st (alignAllocationPointer 8 st) []
      [⟨st.m_allocationPointer, st.m_allocationPointer + 7,
        (alignAllocationPointer 8 st).m_allocationPointer⟩] := by
  have h := Step.align 3 (by decide) st
  have e : (2 : Nat) ^ 3 = 8 := by norm_num
  have e2 : (8 + (U32 - 1)) % U32 = 7 := by decide
  rw [e] at h
  simpa only [e2] using h

theorem Step.setKickstart (st : Image) (k : List Byte) :
    Step st { st with m_kickstart := k } [] [] := Step.frame rfl rfl rfl rfl rfl

theorem Step.setKickstartEntry (st : Image) (k : List Byte) (entry : Nat) :
    Step st { st with m_kickstart := k, m_kickstartEntry := entry } [] [] :=
  Step.frame rfl rfl rfl rfl rfl

theorem Step.setKickstartBase (st : Image) (base : Nat) :
    Step st { st with m_kickstartBase := base } [] [] := Step.frame rfl rfl rfl rfl rfl

theorem stageInitModules_step {host : Host} {moduleTable : Nat} {mods : List (List Byte)}
    {index index' : Nat} {st st' : Image}
    (h : stageInitModules host moduleTable mods index st = .ok (st', index')) :
    ∃ evs, Step st st' [] evs ∧ st'.m_kernelDelta = st.m_kernelDelta := by
  induction mods generalizing index st with
  | nil =>
    simp only [stageInitModules, Except.ok.injEq, Prod.mk.injEq] at h
    obtain ⟨rfl, -⟩ := h
    exact ⟨[], Step.refl st, rfl⟩
  | cons m rest ih =>
    simp only [stageInitModules, bind_ok] at h
    obtain ⟨⟨st1, imageData, imageEntry⟩, h1, k1, -, k2, -, h2⟩ := h
    obtain ⟨evs1, hs1, hkd1, -, -⟩ := loadExecutable_step h1
    obtain ⟨evs2, hs2, hkd2⟩ := ih h2
    refine ⟨_, (((Step.align8 st).trans hs1).trans (Step.setKickstart _ _)).trans hs2, ?_⟩
    rw [hkd2]
    simpa using hkd1

theorem compressPayload_step {host : Host} {st st' : Image}
    (h : compressPayload host st = .ok st') :
    Step st st' [] [] ∧ st'.m_kernelDelta = st.m_kernelDelta
      ∧ st'.m_metadataBase = st.m_metadataBase := by
  simp only [compressPayload, bind_ok] at h
  obtain ⟨out, -, h⟩ := h
  split at h
  · exact absurd h (by simp)
  · split at h
    · exact absurd h (by simp)
    · simp only [pure_ok] at h
      subst h
      exact ⟨Step.frame rfl rfl rfl rfl rfl, rfl, rfl⟩

theorem stageKickstart_step {host : Host} {blueprint : Blueprint} {st st' : Image}
    (h : stageKickstart host blueprint st = .ok st') :
    ∃ evs, Step st st' [] evs ∧ st'.m_kernelDelta = st.m_kernelDelta := by
  simp only [stageKickstart, bind_ok] at h
  obtain ⟨sa, ha, sb, hb, h⟩ := h
  simp only [loadKickstart, bind_ok, pure_ok] at ha
  obtain ⟨⟨st1, kickstart, entry⟩, h1, rfl⟩ := ha
  simp only [writeKickstartInfo, bind_ok, pure_ok] at hb
  obtain ⟨k0, -, k1, -, k2, -, k3, -, rfl⟩ := hb
  obtain ⟨evs1, hs1, hkd1, -, -⟩ := loadExecutable_step h1
  have hs1' := ((Step.setKickstartBase st st.m_allocationPointer).trans hs1).trans
    (Step.setKickstartEntry _ kickstart entry)
  have hs2' := hs1'.trans (Step.setKickstart _ k3)
  simp only at hkd1
  split at h
  · simp only [bind_ok, pure_ok] at h
    obtain ⟨k4, -, rfl⟩ := h
    exact ⟨_, hs2'.trans (Step.setKickstart _ _), hkd1⟩
  · simp only [bind_ok, pure_ok] at h
    obtain ⟨sc, hc, ⟨st2, index⟩, h2, k5, -, rfl⟩ := h
    simp only [reserveModuleTable, bind_ok, pure_ok] at hc
    obtain ⟨k4, -, rfl⟩ := hc
    obtain ⟨evs2, hs2, hkd2⟩ := stageInitModules_step h2
    refine ⟨_, ((((hs2'.trans (Step.align4 _)).trans
      (Step.setKickstart _ _)).trans (Step.setCursor _ _ (Nat.le_add_right _ _))).trans hs2).trans
      (Step.setKickstart _ _), ?_⟩
    simp only [hkd2]
    simpa using hkd1

/-! ## The whole layout and the whole build -/

/-- The state in which `layout` enters the module loop. -/
theorem layout_ok {host : Host} {blueprint : Blueprint} {st st' : Image}
    (h : layout host blueprint st = .ok st') :
    ∃ st1 st2,
      placeModules host blueprint.modules
          { st with
            m_imageBase := blueprint.imageBase % U32
            m_allocationPointer := blueprint.imageBase % U32
            m_image := []
            cursorLog := [] } = .ok st1
      ∧ placeMetadataBlock st1 = .ok st2
      ∧ applyFixups st2.m_metadataFixups st2 = .ok st' := by
  simp only [layout, bind_ok] at h
  obtain ⟨st1, h1, st2, h2, h3⟩ := h
  exact ⟨st1, st2, h1, h2, h3⟩

/-- What `layout` does to the metadata stream, the fixup list and the cursor. -/
theorem layout_step {host : Host} {blueprint : Blueprint} {st st' : Image}
    (h : layout host blueprint st = .ok st') :
    ∃ ws evs,
      st'.m_metadata = st.m_metadata ++ (ws ++ [⟨MODINFO_END, []⟩]).flatMap encodeWrite
      ∧ st'.m_metadataFixups = st.m_metadataFixups ++ fixupsOf st.m_metadata.length ws
      ∧ st'.cursorLog = evs
      ∧ Trace (blueprint.imageBase % U32) evs st'.m_allocationPointer
      ∧ st'.m_imageBase = blueprint.imageBase % U32
      ∧ ws.map (fun w => w.type) = blueprint.modules.flatMap moduleRecordTypes
      ∧ ((∀ m ∈ blueprint.modules, m.name.length + 1 < U32) → ∀ w ∈ ws, w.data.length < U32)
      ∧ (∀ w ∈ ws, w.type = 0x8004 → w.data = [0, 0, 0, 0])
      ∧ st'.m_allocationPointer % 4096 = 0
      ∧ st'.m_image.length = sub32 st'.m_allocationPointer st'.m_imageBase
      ∧ ((∀ m ∈ blueprint.modules.tail, m_moduleTypes m.type ≠ some .ElfKernel) →
          (∀ e ∈ evs, e.raw < U32) →
          blueprint.imageBase % U32 ≤ st'.m_metadataBase
          ∧ st'.m_metadataBase + (4 * st'.m_metadata.length) % U32 ≤ st'.m_allocationPointer
          ∧ ∀ w ∈ ws, AddrOk (blueprint.imageBase % U32) st'.m_metadataBase st'.m_kernelDelta w) := by
  obtain ⟨st1, st2, h1, h2, h3⟩ := layout_ok h
  obtain ⟨ws, evs1, hs1, hty, hlen, hzero, -, haddr, -⟩ := placeModules_step h1
  obtain ⟨evs2, hs2, hkd2, hmb2, hal2, himg2, hevs2⟩ := placeMetadataBlock_step h2
  obtain ⟨img, rfl, hlen3⟩ := applyFixups_frame h3
  have hs := hs1.trans hs2
  have hfix : fixupsOf (st.m_metadata.length) (ws ++ [⟨MODINFO_END, []⟩])
      = fixupsOf st.m_metadata.length ws := by
    rw [fixupsOf_append]
    simp [fixupsOf, MODINFO_END]
  refine ⟨ws, evs1 ++ evs2, by simpa using hs.metadata, ?_, by simpa using hs.log,
    by simpa using hs.trace, by simpa using hs.imageBase, hty, hlen, hzero, hal2,
    by simpa [hlen3] using himg2, ?_⟩
  · have := hs.fixups
    simp only [hfix] at this
    simpa using this
  · intro hk hw
    have hw1 : ∀ e ∈ evs1, e.raw < U32 := fun e he => hw e (by simp [he])
    have hw2 : ∀ e ∈ evs2, e.raw < U32 := fun e he => hw e (by simp [he])
    have hle1 := hs1.trace.le hw1
    have ha := haddr hk hw1
    simp only at hle1 ha
    refine ⟨by simpa [hmb2] using hle1, ?_, ?_⟩
    · have hlen4 : st2.m_metadata.length = st1.m_metadata.length + 2 := by
        rw [hs2.metadata]; simp [encodeWrite, packWords]
      have hsz : (4 * st2.m_metadata.length) % U32 = metadataSizeOf st1 := by
        simp only [metadataSizeOf, hlen4, writeMetadata_m_metadata, List.length_append]
        simp [packWords, Nat.mul_comm]
      have hr1 := hw2 ⟨st1.m_allocationPointer, st1.m_allocationPointer + metadataSizeOf st1,
        (st1.m_allocationPointer + metadataSizeOf st1) % U32⟩ (by rw [hevs2]; simp)
      have htr := hs2.trace
      rw [hevs2] at htr
      simp only [Trace] at htr
      have hr2 := hw2 ⟨(st1.m_allocationPointer + metadataSizeOf st1) % U32,
        (st1.m_allocationPointer + metadataSizeOf st1) % U32 + 4095,
        st2.m_allocationPointer⟩ (by rw [hevs2]; simp)
      have k1 := htr.2.2.2.2.2.1 hr2
      simp only at hr1 hr2 k1
      rw [Nat.mod_eq_of_lt hr1] at k1
      simp only [hmb2, hsz]
      exact k1
    · intro w hmem
      have := ha w hmem
      simp only [hmb2]
      rw [hkd2]
      exact this

/-! ## Decoding what the writer wrote -/

theorem encodeWrite_length (w : Write) :
    (encodeWrite w).length = 2 + (w.data.length + 3) / 4 := by
  simp [encodeWrite, packWords_length]
  omega

theorem decode_writes (ws : List Write) (fuel offset : Nat)
    (hwf : ∀ w ∈ ws, w.type < U32 ∧ w.data.length < U32)
    (hfuel : (ws.flatMap encodeWrite).length ≤ fuel) :
    decodeRecordsFrom fuel offset (ws.flatMap encodeWrite) = some (recordsOf offset ws) := by
  induction ws generalizing fuel offset with
  | nil => cases fuel <;> simp [decodeRecordsFrom, recordsOf]
  | cons w ws ih =>
    obtain ⟨ht, hn⟩ := hwf w (by simp)
    have hlen := encodeWrite_length w
    simp only [List.flatMap_cons, List.length_append, hlen] at hfuel
    cases fuel with
    | zero => omega
    | succ fuel =>
      have ih' := ih fuel (offset + 2 + (w.data.length + 3) / 4)
        (fun x hx => hwf x (by simp [hx])) (by omega)
      have hstream : (w :: ws).flatMap encodeWrite
          = w.type :: w.data.length :: (packWords w.data ++ ws.flatMap encodeWrite) := by
        simp [encodeWrite, Nat.mod_eq_of_lt ht, Nat.mod_eq_of_lt hn]
      have hdrop : List.drop ((w.data.length + 3) / 4) (packWords w.data ++ ws.flatMap encodeWrite)
          = ws.flatMap encodeWrite := by
        rw [List.drop_append_of_le_length (by rw [packWords_length])]
        rw [List.drop_of_length_le (by rw [packWords_length])]
        simp
      have htake : List.take ((w.data.length + 3) / 4) (packWords w.data ++ ws.flatMap encodeWrite)
          = packWords w.data := by
        rw [List.take_append_of_le_length (by rw [packWords_length])]
        rw [List.take_of_length_le (by rw [packWords_length])]
      have hnot : ¬ (packWords w.data ++ ws.flatMap encodeWrite).length
          < (w.data.length + 3) / 4 := by
        rw [List.length_append, packWords_length]
        omega
      rw [hstream, decodeRecordsFrom, if_neg hnot, hdrop, htake, ih']
      simp [recordsOf]

theorem recordsOf_append (offset : Nat) (a b : List Write) :
    recordsOf offset (a ++ b)
      = recordsOf offset a ++ recordsOf (offset + (a.flatMap encodeWrite).length) b := by
  induction a generalizing offset with
  | nil => simp [recordsOf]
  | cons w a ih =>
    have h := ih (offset + 2 + (w.data.length + 3) / 4)
    simp only [List.cons_append, recordsOf, List.flatMap_cons, List.length_append,
      List.append_eq, h, encodeWrite_length, List.cons.injEq, true_and,
      List.append_cancel_left_eq]
    congr 1
    omega

theorem recordsOf_types (offset : Nat) (ws : List Write) :
    (recordsOf offset ws).map (fun r => r.type) = ws.map (fun w => w.type) := by
  induction ws generalizing offset with
  | nil => simp [recordsOf]
  | cons w ws ih => simp [recordsOf, ih]

theorem recordsOf_mem {offset : Nat} {ws : List Write} {r : Record}
    (h : r ∈ recordsOf offset ws) :
    ∃ w ∈ ws, r.type = w.type ∧ r.size = w.data.length ∧ r.payload = packWords w.data := by
  induction ws generalizing offset with
  | nil => simp [recordsOf] at h
  | cons w ws ih =>
    simp only [recordsOf, List.mem_cons] at h
    rcases h with rfl | h
    · exact ⟨w, by simp, rfl, rfl, rfl⟩
    · obtain ⟨w', hw', h'⟩ := ih h
      exact ⟨w', by simp [hw'], h'⟩

theorem moduleRecordTypes_mem {mods : List Module} {t : Nat}
    (h : t ∈ mods.flatMap moduleRecordTypes) : t ≠ MODINFO_END ∧ t < U32 := by
  simp only [List.mem_flatMap, moduleRecordTypes, List.mem_append, List.mem_cons,
    List.mem_singleton, List.not_mem_nil, or_false, List.mem_map] at h
  obtain ⟨m, -, h⟩ := h
  rcases h with (rfl | rfl | rfl | rfl) | ⟨md, -, rfl⟩
  · decide
  · decide
  · decide
  · decide
  · cases md.type <;> decide

/-! ## The whole build -/

theorem build_ok {host : Host} {blueprint : Blueprint} {st st' : Image}
    (h : build host blueprint st = .ok st') :
    ∃ st1 st2, layout host blueprint st = .ok st1 ∧ compressPayload host st1 = .ok st2
      ∧ stageKickstart host blueprint st2 = .ok st' := by
  simp only [build, bind_ok] at h
  obtain ⟨st1, h1, st2, h2, h3⟩ := h
  exact ⟨st1, st2, h1, h2, h3⟩

/-- After the layout, `build` leaves the stream, the fixup list and `m_kernelDelta` alone and
only extends the cursor history. -/
theorem build_after_layout {host : Host} {blueprint : Blueprint} {st st1 st' : Image}
    (h1 : layout host blueprint st = .ok st1) (h : build host blueprint st = .ok st') :
    ∃ evs, Step st1 st' [] evs ∧ st'.m_kernelDelta = st1.m_kernelDelta := by
  obtain ⟨s1, s2, k1, k2, k3⟩ := build_ok h
  rw [h1] at k1
  obtain rfl := Except.ok.inj k1
  obtain ⟨hs2, hkd2, -⟩ := compressPayload_step k2
  obtain ⟨evs, hs3, hkd3⟩ := stageKickstart_step k3
  exact ⟨_, hs2.trans hs3, by rw [hkd3, hkd2]⟩

/-- The metadata stream of an accepted layout that started from an empty stream decodes to the
records of its writes. -/
theorem decode_stream {ws : List Write} {mods : List Module}
    (hty : ws.map (fun w => w.type) = mods.flatMap moduleRecordTypes)
    (hlen : ∀ w ∈ ws, w.data.length < U32) :
    decodeRecords ((ws ++ [(⟨MODINFO_END, []⟩ : Write)]).flatMap encodeWrite)
      = some (recordsOf 0 (ws ++ [(⟨MODINFO_END, []⟩ : Write)])) := by
  apply decode_writes _ _ _ _ (le_refl _)
  intro w hw
  rcases List.mem_append.mp hw with hw | hw
  · refine ⟨?_, hlen w hw⟩
    have : w.type ∈ ws.map (fun w => w.type) := List.mem_map_of_mem _ hw
    rw [hty] at this
    exact (moduleRecordTypes_mem this).2
  · simp only [List.mem_singleton] at hw
    subst hw
    exact ⟨by decide, by decide⟩

theorem loadExecutableSegments_lt {f : List Byte} {base : Nat} {phdr : List Elf32_Phdr}
    {image image' : List Byte} {limit allocationLimit limit' allocationLimit' : Nat}
    (h : loadExecutableSegments f base phdr image limit allocationLimit
      = .ok (image', limit', allocationLimit'))
    (h1 : limit < U32) (h2 : allocationLimit < U32) :
    limit' < U32 ∧ allocationLimit' < U32 := by
  induction phdr generalizing image limit allocationLimit with
  | nil =>
    simp only [loadExecutableSegments, Except.ok.injEq, Prod.mk.injEq] at h
    obtain ⟨-, rfl, rfl⟩ := h
    exact ⟨h1, h2⟩
  | cons segment rest ih =>
    simp only [loadExecutableSegments] at h
    split at h
    · simp only [bind_ok] at h
      obtain ⟨img1, -, h⟩ := h
      exact ih h (max_lt h1 (add32_lt _ _)) (max_lt h1 (add32_lt _ _))
    · exact ih h h1 h2

/-- An executable load never moves a 32-bit cursor down. -/
theorem loadExecutable_monotone {host : Host} {executable image image' : List Byte}
    {st st' : Image} {entry : Nat} (hst : st.m_allocationPointer < U32)
    (h : loadExecutable host executable image st = .ok (st', image', entry)) :
    st.m_allocationPointer ≤ st'.m_allocationPointer := by
  obtain ⟨allocationLimit, hle, hat, rfl⟩ := loadExecutable_ok h
  simp only [loadExecutableAt, bind_ok] at hat
  obtain ⟨f, -, hdr, -, hat⟩ := hat
  split at hat
  · simp [throw_ok, bind_ok] at hat
  · simp only [bind_ok, pure_ok, Prod.mk.injEq] at hat
    obtain ⟨_, -, ph, -, ⟨img, limit, allocationLimit'⟩, hseg, sh, -, img2, -, h1, -, -⟩ := hat
    subst h1
    have := (loadExecutableSegments_lt hseg hst hst).2
    simp only [setCursor_m_allocationPointer, Nat.mod_eq_of_lt this]
    exact hle

theorem moduleTypes_kernel {type : List Byte} :
    m_moduleTypes type = some .ElfKernel ↔ type = str ("elf kernel") := by
  constructor
  · intro h
    rcases moduleType_cases h with ⟨-, e⟩ | ⟨e, -⟩
    · exact e
    · exact absurd e (by simp)
  · intro h
    rw [h]
    decide

/-! ## The init-module loop at the top of the address space -/

theorem resize_length (v : List Byte) (n : Nat) : (resize v n).length = n := by
  simp [resize]
  omega

theorem writeAt_length (v : List Byte) (off : Nat) (bs : List Byte)
    (h : off + bs.length ≤ v.length) : (writeAt v off bs).length = v.length := by
  simp [writeAt]
  omega

theorem storeAt_ok (v : List Byte) (target origin : Nat) (bs : List Byte)
    (h1 : origin ≤ target) (h2 : target - origin + bs.length ≤ v.length) :
    ∃ v', storeAt v target origin bs = .ok v' ∧ v'.length = v.length := by
  simp only [storeAt]
  split
  · exact ⟨v, rfl, rfl⟩
  · rw [if_pos ⟨h1, h2⟩]
    refine ⟨_, rfl, ?_⟩
    simp [writeAt]
    omega

/-- One iteration of the init-module loop for a module that loads without file bytes. -/
theorem stageInitModules_cons (host : Host) (moduleTable : Nat) (m : List Byte)
    (rest : List (List Byte)) (index : Nat) (s : Image) (limit entry : Nat)
    (hload : loadExecutableAt host m [] (alignAllocationPointer 8 s).m_allocationPointer
      = .ok (limit, [], entry))
    (h1 : s.m_kickstartBase ≤ moduleTable + 4 * index)
    (h2 : moduleTable + 4 * index - s.m_kickstartBase + 4
      ≤ sub32 (limit % U32) s.m_kickstartBase) :
    stageInitModules host moduleTable (m :: rest) index s
      = stageInitModules host moduleTable rest (index + 1)
          { (alignAllocationPointer 8 s).setCursor limit with
            m_kickstart := writeAt (resize s.m_kickstart (sub32 (limit % U32) s.m_kickstartBase))
              (moduleTable + 4 * index - s.m_kickstartBase) (le32 entry) } := by
  have hl : loadExecutable host m [] (alignAllocationPointer 8 s)
      = .ok ((alignAllocationPointer 8 s).setCursor limit, [], entry) := by
    simp only [loadExecutable, hload, bind, Except.bind, pure, Except.pure]
  have hs1 : ∀ v : List Byte, ∀ t : Nat, storeAt v t 0 [] = .ok v := by
    intro v t
    simp [storeAt]
  have hs2 : storeAt (resize s.m_kickstart (sub32 (limit % U32) s.m_kickstartBase))
      (moduleTable + 4 * index) s.m_kickstartBase (le32 entry)
      = .ok (writeAt (resize s.m_kickstart (sub32 (limit % U32) s.m_kickstartBase))
          (moduleTable + 4 * index - s.m_kickstartBase) (le32 entry)) := by
    have hne : le32 entry ≠ [] := by simp [le32]
    have hlen : (le32 entry).length = 4 := by simp [le32]
    simp only [storeAt, if_neg hne, hlen, resize_length]
    rw [if_pos ⟨h1, h2⟩]
  rw [stageInitModules]
  simp only [hl, bind, Except.bind, hs1, setCursor_m_allocationPointer,
    setCursor_m_kickstartBase, alignAllocationPointer_m_kickstartBase, setCursor_m_kickstart,
    alignAllocationPointer_m_kickstart, hs2]

theorem stageInitModules_wrap (s : Image) (hap : s.m_allocationPointer = 0xFFF02020)
    (hkb : s.m_kickstartBase = 0xFFF02000) :
    ∃ s' index, stageInitModules wrapHost 0xFFF02014 [str ("m1.elf"), str ("m2.elf")] 0 s
        = .ok (s', index)
      ∧ (⟨0xFFFFFFFC, 0x100000003, 0⟩ : CursorEvent) ∈ s'.cursorLog
      ∧ 32 ≤ s'.m_kickstart.length ∧ s'.m_kickstartBase = 0xFFF02000
      ∧ s'.m_allocationPointer = 0 ∧ index = 2 := by
  have e3 : (2 : Nat) ^ 3 = 8 := by norm_num
  have l1 : loadExecutableAt wrapHost (str ("m1.elf")) [] 0xFFF02020
      = .ok (0xFFFFFFFC, [], 0xFFF02020) := by decide!
  have l2 : loadExecutableAt wrapHost (str ("m2.elf")) [] 0 = .ok (0, [], 0) := by decide!
  have a1 : (alignAllocationPointer 8 s).m_allocationPointer = 0xFFF02020 := by
    have := alignAllocationPointer_pointer 3 (by decide) s
    rw [e3, hap] at this
    rw [this]
    decide
  have c1 := stageInitModules_cons wrapHost 0xFFF02014 (str ("m1.elf")) [str ("m2.elf")] 0 s
    0xFFFFFFFC 0xFFF02020 (by rw [a1]; exact l1) (by rw [hkb]; decide) (by rw [hkb]; decide)
  rw [c1]
  obtain ⟨s1, hs1⟩ : ∃ s1 : Image, s1 = { (alignAllocationPointer 8 s).setCursor 0xFFFFFFFC with
      m_kickstart := writeAt (resize s.m_kickstart (sub32 (0xFFFFFFFC % U32) s.m_kickstartBase))
        (0xFFF02014 + 4 * 0 - s.m_kickstartBase) (le32 0xFFF02020) } := ⟨_, rfl⟩
  rw [← hs1]
  have hap1 : s1.m_allocationPointer = 0xFFFFFFFC := by rw [hs1]; rfl
  have hkb1 : s1.m_kickstartBase = 0xFFF02000 := by
    rw [hs1]
    simp only [setCursor_m_kickstartBase, alignAllocationPointer_m_kickstartBase, hkb]
  have a2 : (alignAllocationPointer 8 s1).m_allocationPointer = 0 := by
    have := alignAllocationPointer_pointer 3 (by decide) s1
    rw [e3, hap1] at this
    rw [this]
    decide
  have c2 := stageInitModules_cons wrapHost 0xFFF02014 (str ("m2.elf")) [] (0 + 1) s1
    0 0 (by rw [a2]; exact l2) (by rw [hkb1]; decide) (by rw [hkb1]; decide)
  rw [c2]
  refine ⟨_, _, rfl, ?_, ?_, ?_, rfl, rfl⟩
  · simp only [setCursor_cursorLog, alignAllocationPointer_cursorLog, a2, hap1,
      List.mem_append, List.mem_singleton]
    left; right
    decide
  · simp only [hkb1]
    rw [writeAt_length _ _ _ (by rw [resize_length]; decide), resize_length]
    decide
  · simp only [setCursor_m_kickstartBase, alignAllocationPointer_m_kickstartBase, hkb1]

theorem storeAt_le32 (v : List Byte) (target origin x : Nat)
    (h1 : origin ≤ target) (h2 : target - origin + 4 ≤ v.length) :
    storeAt v target origin (le32 x) = .ok (writeAt v (target - origin) (le32 x)) := by
  have hne : le32 x ≠ [] := by simp [le32]
  have hlen : (le32 x).length = 4 := by simp [le32]
  simp only [storeAt, if_neg hne, hlen]
  rw [if_pos ⟨h1, h2⟩]

theorem ok_bind {α β : Type} (a : α) (f : α → Except Error β) :
    (Except.ok a >>= f) = f a := rfl

/-- The stages of the wrapping build up to the module table are accepted. -/
theorem wrapStages :
    accepted (layout wrapHost wrapBlueprint {}) = true
    ∧ accepted (compressPayload wrapHost wrapLayout) = true
    ∧ accepted (loadKickstart wrapHost wrapBlueprint wrapPayload) = true
    ∧ accepted (writeKickstartInfo wrapLoaded) = true
    ∧ (alignAllocationPointer 4 wrapInfo).m_allocationPointer = 0xFFF02014
    ∧ accepted (reserveModuleTable wrapBlueprint (alignAllocationPointer 4 wrapInfo)) = true
    ∧ wrapTable.m_allocationPointer = 0xFFF02020
    ∧ wrapTable.m_kickstartBase = 0xFFF02000 := by
  decide!

/-- The build of `wrapBlueprint` is accepted, and its cursor history holds the alignment to 8
that leads from `0xFFFFFFFC` to `0`. -/
theorem wrap_build :
    ∃ s', build wrapHost wrapBlueprint {} = .ok s'
      ∧ (⟨0xFFFFFFFC, 0x100000003, 0⟩ : CursorEvent) ∈ s'.cursorLog
      ∧ s'.m_allocationPointer = 0 := by
  obtain ⟨a1, a2, a3, a4, f5, a6, f7, f8⟩ := wrapStages
  have f1 : layout wrapHost wrapBlueprint {} = .ok wrapLayout := accepted_eq _ a1
  have f2 : compressPayload wrapHost wrapLayout = .ok wrapPayload := accepted_eq _ a2
  have f3 : loadKickstart wrapHost wrapBlueprint wrapPayload = .ok wrapLoaded :=
    accepted_eq _ a3
  have f4 : writeKickstartInfo wrapLoaded = .ok wrapInfo := accepted_eq _ a4
  have f6 : reserveModuleTable wrapBlueprint (alignAllocationPointer 4 wrapInfo) = .ok wrapTable :=
    accepted_eq _ a6
  have f9 : wrapBlueprint.initModules = [str ("m1.elf"), str ("m2.elf")] := rfl
  have f10 : ¬ wrapBlueprint.initModules = [] := by decide
  obtain ⟨s1, index, h1, hlog, hlen, hkb, hap, rfl⟩ := stageInitModules_wrap wrapTable f7 f8
  have f11 := storeAt_le32 s1.m_kickstart (0xFFF02014 + 4 * 2) s1.m_kickstartBase 0
    (by rw [hkb]; decide) (by rw [hkb]; exact hlen)
  refine ⟨{ s1 with m_kickstart := (writeAt s1.m_kickstart
      (0xFFF02014 + 4 * 2 - s1.m_kickstartBase) (le32 0)) }, ?_, hlog, hap⟩
  rw [build, f1, ok_bind, f2, ok_bind, stageKickstart, f3, ok_bind, f4, ok_bind, if_neg f10]
  simp only []
  rw [f6, ok_bind, f5, f9, h1, ok_bind]
  simp only []
  rw [f11, ok_bind]
  rfl

/-! ## A kernel module that stands first -/

/-- What an accepted build does with an "elf kernel" module that stands first in the
blueprint: the first cursor step is the 1 MiB alignment at the image base, which gives the
physical base of the kernel; the stream starts with the four records of the module. -/
theorem first_kernel_build {host : Host} {blueprint : Blueprint} {m : Module}
    {rest : List Module} {st st' : Image} (hmods : blueprint.modules = m :: rest)
    (hk : m_moduleTypes m.type = some .ElfKernel) (h : build host blueprint st = .ok st') :
    ∃ base size evs ws,
      base = (blueprint.imageBase % U32 + 1048575) % U32 / 1048576 * 1048576
      ∧ size < U32
      ∧ st'.cursorLog
          = ⟨blueprint.imageBase % U32, blueprint.imageBase % U32 + 1048575, base⟩ :: evs
      ∧ st'.m_metadata = st.m_metadata
          ++ ([⟨MODINFO_NAME, m.name ++ [0]⟩, ⟨MODINFO_TYPE, m.type ++ [0]⟩,
                ⟨MODINFO_ADDR, le32 (sub32 base (sub32 base host.KERNEL_VADDR))⟩,
                ⟨MODINFO_SIZE, le32 size⟩] ++ ws).flatMap encodeWrite
      ∧ (∃ s1,
          placeModuleBody host m
            { st with
              m_imageBase := blueprint.imageBase % U32
              m_allocationPointer := blueprint.imageBase % U32
              m_image := []
              cursorLog := [] } = .ok s1
          ∧ s1.m_kernelDelta = sub32 base host.KERNEL_VADDR)
      ∧ ((∀ m' ∈ rest, m_moduleTypes m'.type ≠ some .ElfKernel) →
          st'.m_kernelDelta = sub32 base host.KERNEL_VADDR) := by
  obtain ⟨l1, l2, hl, -, -⟩ := build_ok h
  obtain ⟨evs5, hs5, hkd5⟩ := build_after_layout hl h
  obtain ⟨st1, st2, h1, h2, h3⟩ := layout_ok hl
  rw [hmods] at h1
  simp only [placeModules, bind_ok] at h1
  obtain ⟨sA, hA, hR⟩ := h1
  simp only [placeModule, bind_ok] at hA
  obtain ⟨sB, hB, hE⟩ := hA
  obtain ⟨info, base, size, evs1, evs2, hty, hsz, hsB, -, -, -, hker, -⟩ :=
    placeModuleBody_step hB
  rw [hk] at hty
  obtain rfl := Option.some.inj hty
  obtain ⟨hkdB, hbase, hevs1⟩ := hker rfl
  obtain ⟨wsE, evsE, hsE, -, -, -, hkdE, -, -⟩ := placeMetadataEntries_step hE
  obtain ⟨wsR, evsR, hsR, -, -, -, hkdR, -, -⟩ := placeModules_step hR
  obtain ⟨evsM, hsM, hkdM, -, -, -, -⟩ := placeMetadataBlock_step h2
  obtain ⟨img, rfl, -⟩ := applyFixups_frame h3
  have hs4 : Step st2 { st2 with m_image := img } [] [] := Step.frame rfl rfl rfl rfl rfl
  have hs := ((((hsB.trans hsE).trans hsR).trans hsM).trans hs4).trans hs5
  have hb : base = (blueprint.imageBase % U32 + 1048575) % U32 / 1048576 * 1048576 := by
    rw [hbase, align1M_pointer]
  refine ⟨base, size, evs2 ++ evsE ++ evsR ++ evsM ++ evs5, wsE ++ wsR ++ [⟨MODINFO_END, []⟩],
    hb, hsz, ?_, ?_, ⟨sB, hB, hkdB⟩, ?_⟩
  · have := hs.log
    rw [hevs1] at this
    simpa using this
  · have := hs.metadata
    rw [hkdB] at this
    simpa using this
  · intro hno
    rw [hkd5]
    show st2.m_kernelDelta = _
    rw [hkdM, hkdR hno, hkdE, hkdB]

/-! ## The metadata block inside the payload -/

theorem le32_length (v : Nat) : (le32 v).length = 4 := rfl

theorem wordsToBytes_length (ws : List Nat) : (wordsToBytes ws).length = 4 * ws.length := by
  induction ws with
  | nil => rfl
  | cons w ws ih =>
    simp only [wordsToBytes, List.flatMap_cons, List.length_append, le32_length,
      List.length_cons] at ih ⊢
    omega

theorem wordsToBytes_cons (w : Nat) (ws : List Nat) :
    wordsToBytes (w :: ws) = le32 w ++ wordsToBytes ws := by
  simp [wordsToBytes]

theorem wordsToBytes_append (a b : List Nat) :
    wordsToBytes (a ++ b) = wordsToBytes a ++ wordsToBytes b := by
  simp [wordsToBytes]

/-- Storing a word into the bytes of a word vector is `List.set` on the vector. -/
theorem writeAt_wordsToBytes (ws : List Nat) (i v : Nat) (h : i < ws.length) :
    writeAt (wordsToBytes ws) (4 * i) (le32 v) = wordsToBytes (ws.set i v) := by
  induction ws generalizing i with
  | nil => simp at h
  | cons w ws ih =>
    cases i with
    | zero =>
      simp only [writeAt, List.set_cons_zero, wordsToBytes_cons, Nat.mul_zero, List.take_zero,
        List.nil_append, le32_length, Nat.zero_add]
      rw [List.drop_append_of_le_length (by simp [le32_length])]
      simp [le32]
    | succ i =>
      have hi : i < ws.length := by simpa using h
      have := ih i hi
      simp only [writeAt, le32_length] at this ⊢
      simp only [List.set_cons_succ, wordsToBytes_cons]
      rw [← this]
      have e1 : 4 * (i + 1) = (le32 w).length + 4 * i := by simp [le32_length]; omega
      rw [e1, List.take_append, Nat.add_assoc, List.drop_append]
      simp

/-- A store inside the middle part of a buffer. -/
theorem writeAt_middle (pre mid post bs : List Byte) (k : Nat) (h : k + bs.length ≤ mid.length) :
    writeAt (pre ++ mid ++ post) (pre.length + k) bs = pre ++ writeAt mid k bs ++ post := by
  simp only [writeAt]
  have e1 : (pre ++ mid ++ post).take (pre.length + k) = pre ++ mid.take k := by
    rw [List.append_assoc, List.take_append]
    rw [List.take_append_of_le_length (by omega)]
  have e2 : (pre ++ mid ++ post).drop (pre.length + k + bs.length)
      = mid.drop (k + bs.length) ++ post := by
    rw [List.append_assoc, Nat.add_assoc, List.drop_append]
    rw [List.drop_append_of_le_length h]
  rw [e1, e2]
  simp

theorem packWords_wordsToBytes (ws : List Nat) (h : ∀ w ∈ ws, w < U32) :
    packWords (wordsToBytes ws) = ws := by
  induction ws with
  | nil => rfl
  | cons w ws ih =>
    have hw := h w (by simp)
    have h1 := le32_of_lt w hw
    rw [wordsToBytes_cons]
    simp only [le32, packWords, List.cons_append, List.nil_append, List.cons.injEq] at h1 ⊢
    exact ⟨h1.1, ih (fun x hx => h x (by simp [hx]))⟩


/-- The fixup pass on a payload whose metadata block holds the words `M`. -/
theorem applyFixups_payload {fixups : List MetadataFixup} {st st' : Image}
    {pre post : List Byte} {M : List Nat}
    (h : applyFixups fixups st = .ok st')
    (himg : st.m_image = pre ++ wordsToBytes M ++ post)
    (hpre : pre.length = st.m_metadataBase - st.m_imageBase)
    (hle : st.m_imageBase ≤ st.m_metadataBase)
    (hoff : ∀ f ∈ fixups, f.offset < M.length) :
    st'.m_image = pre ++ wordsToBytes (fixups.foldl
      (fun M f => M.set f.offset (sub32 st.m_allocationPointer st.m_kernelDelta)) M) ++ post := by
  induction fixups generalizing st M with
  | nil =>
    simp only [applyFixups, Except.ok.injEq] at h
    subst h
    simpa using himg
  | cons f rest ih =>
    simp only [applyFixups, bind_ok] at h
    obtain ⟨img1, h1, h2⟩ := h
    have hf := hoff f (by simp)
    have hbytes : f.handler.bytes st
        = le32 (sub32 st.m_allocationPointer st.m_kernelDelta) := by
      cases f.handler
      rfl
    have hne : le32 (sub32 st.m_allocationPointer st.m_kernelDelta) ≠ [] := by simp [le32]
    rw [hbytes] at h1
    simp only [storeAt, if_neg hne] at h1
    split at h1
    · simp only [Except.ok.injEq] at h1
      have hidx : st.m_metadataBase + f.offset * 4 - st.m_imageBase = pre.length + 4 * f.offset := by
        omega
      rw [himg, hidx, writeAt_middle _ _ _ _ _
        (by rw [wordsToBytes_length, le32_length]; omega), writeAt_wordsToBytes _ _ _ hf] at h1
      have := ih h2 h1.symm hpre hle
        (fun g hg => by rw [List.length_set]; exact hoff g (by simp [hg]))
      simpa using this
    · simp at h1

theorem fixupsOf_offset_lt {start : Nat} {ws : List Write} {f : MetadataFixup}
    (hk : ∀ w ∈ ws, w.type = 0x8004 → w.data = [0, 0, 0, 0])
    (h : f ∈ fixupsOf start ws) : f.offset < start + (ws.flatMap encodeWrite).length := by
  induction ws generalizing start with
  | nil => simp [fixupsOf] at h
  | cons w ws ih =>
    simp only [fixupsOf, List.mem_append] at h
    have hlen := encodeWrite_length w
    simp only [List.flatMap_cons, List.length_append]
    rcases h with h | h
    · by_cases ht : w.type = 0x8004
      · have hd := hk w (by simp) ht
        rw [if_pos ht] at h
        simp only [List.mem_singleton] at h
        subst h
        rw [hd] at hlen
        simp only [List.length_cons, List.length_nil] at hlen
        simp only
        omega
      · simp [if_neg ht] at h
    · have := ih (fun x hx => hk x (by simp [hx])) h
      omega

/-- The stream after the fixup pass: the payload word of every KERNEND record is `v`. -/
theorem foldl_set_fixupsOf (v : Nat) (hv : v < U32) (ws : List Write) (pre post : List Nat)
    (hk : ∀ w ∈ ws, w.type = 0x8004 → w.data = [0, 0, 0, 0]) :
    (fixupsOf pre.length ws).foldl (fun M f => M.set f.offset v)
        (pre ++ ws.flatMap encodeWrite ++ post)
      = pre ++ (ws.map (patchKernend v)).flatMap encodeWrite ++ post := by
  induction ws generalizing pre with
  | nil => simp [fixupsOf]
  | cons w ws ih =>
    have hk' : ∀ x ∈ ws, x.type = 0x8004 → x.data = [0, 0, 0, 0] :=
      fun x hx => hk x (by simp [hx])
    by_cases ht : w.type = 0x8004
    · have hd := hk w (by simp) ht
      have hp : encodeWrite (patchKernend v w) = [w.type % U32, 4, v] := by
        simp [patchKernend, ht, encodeWrite, le32_of_lt v hv, le32_length, U32]
      have he : encodeWrite w = [w.type % U32, 4, 0] := by
        simp [encodeWrite, hd, packWords, U32]
      have hset : (pre ++ (w :: ws).flatMap encodeWrite ++ post).set (pre.length + 2) v
          = (pre ++ [w.type % U32, 4, v]) ++ ws.flatMap encodeWrite ++ post := by
        simp only [List.flatMap_cons, he, List.append_assoc]
        rw [List.set_append_right _ _ (by omega)]
        simp
      have := ih (pre ++ [w.type % U32, 4, v]) hk'
      simp only [List.length_append, List.length_cons, List.length_nil] at this
      simp only [fixupsOf, if_pos ht, List.singleton_append, List.foldl_cons, hset, he,
        List.length_cons, List.length_nil, List.map_cons, List.flatMap_cons, hp]
      simpa using this
    · have hp : patchKernend v w = w := by simp [patchKernend, ht]
      have := ih (pre ++ encodeWrite w) hk'
      simp only [List.length_append] at this
      simp only [fixupsOf, if_neg ht, List.nil_append, List.map_cons, List.flatMap_cons, hp]
      simpa using this


theorem sub32_of_le {a b : Nat} (h : b ≤ a) (ha : a < U32) : sub32 a b = a - b := by
  have hb : b % U32 = b := Nat.mod_eq_of_lt (by omega)
  rw [sub32, hb]
  simp only [U32] at *
  omega

/-- After `placeMetadataBlock` the payload holds the bytes of the whole stream at
`m_metadataBase - m_imageBase`, when the stream is shorter than 4 GiB and the cursor does not
wrap. -/
theorem placeMetadataBlock_payload {st st' : Image} (h : placeMetadataBlock st = .ok st')
    (hib : st.m_imageBase ≤ st.m_allocationPointer)
    (hsmall : 4 * st'.m_metadata.length < U32)
    (hraw : ∀ e ∈ st'.cursorLog.drop st.cursorLog.length, e.raw < U32) :
    ∃ pre post, st'.m_image = pre ++ wordsToBytes st'.m_metadata ++ post
      ∧ pre.length = st'.m_metadataBase - st'.m_imageBase := by
  obtain ⟨evs, hs, -, hmb, -, -, hevs⟩ := placeMetadataBlock_step h
  obtain ⟨img, himg, hst⟩ := placeMetadataBlock_ok h
  have hM : st'.m_metadata = (writeMetadata MODINFO_END [] st).m_metadata := by rw [hst]; rfl
  have him : st'.m_image = resize img (sub32 st'.m_allocationPointer st.m_imageBase) := by
    rw [hst]
  have hsz : metadataSizeOf st = 4 * st'.m_metadata.length := by
    rw [metadataSizeOf, ← hM, Nat.mul_comm, Nat.mod_eq_of_lt hsmall]
  have hlog : st'.cursorLog.drop st.cursorLog.length = evs := by rw [hs.log]; simp
  rw [hlog, hevs] at hraw
  have hraw1 := hraw ⟨st.m_allocationPointer, st.m_allocationPointer + metadataSizeOf st,
    (st.m_allocationPointer + metadataSizeOf st) % U32⟩ (by simp)
  have hraw2 := hraw ⟨(st.m_allocationPointer + metadataSizeOf st) % U32,
    (st.m_allocationPointer + metadataSizeOf st) % U32 + 4095, st'.m_allocationPointer⟩ (by simp)
  have htr := hs.trace
  rw [hevs] at htr
  simp only [Trace] at htr
  have hle := htr.2.2.2.2.2.1 hraw2
  have hlt := htr.2.2.2.2.1
  simp only at hraw1 hraw2 hle hlt
  rw [Nat.mod_eq_of_lt hraw1] at hle
  rw [hsz] at hraw1 hle himg
  rw [← hM] at himg
  have hB : (wordsToBytes st'.m_metadata).take (4 * st'.m_metadata.length)
      = wordsToBytes st'.m_metadata := by
    rw [List.take_of_length_le (by rw [wordsToBytes_length])]
  have hBl := wordsToBytes_length st'.m_metadata
  have hMpos : 0 < st'.m_metadata.length := by
    rw [hM]; simp [writeMetadata]
  have hne : wordsToBytes st'.m_metadata ≠ [] := by
    intro hnil
    rw [hnil] at hBl
    simp only [List.length_nil] at hBl
    omega
  have ha : add32 st.m_allocationPointer (4 * st'.m_metadata.length)
      = st.m_allocationPointer + 4 * st'.m_metadata.length := by
    rw [add32, Nat.mod_eq_of_lt hraw1]
  rw [hB, ha, sub32_of_le (by omega) hraw1] at himg
  simp only [storeAt, if_neg hne] at himg
  split at himg
  · simp only [Except.ok.injEq] at himg
    rw [sub32_of_le (by omega) hlt] at him
    refine ⟨(resize st.m_image (st.m_allocationPointer + 4 * st'.m_metadata.length
        - st.m_imageBase)).take (st.m_allocationPointer - st.m_imageBase),
      List.replicate (st'.m_allocationPointer - st.m_imageBase - img.length) 0, ?_, ?_⟩
    · rw [him, ← himg]
      simp only [resize, writeAt]
      rw [List.drop_of_length_le (by simp [hBl]; omega)]
      rw [List.take_of_length_le (by simp [hBl]; omega)]
      simp
    · rw [hmb, hs.imageBase]
      simp [resize]
      omega
  · simp at himg


theorem packWords_lt {d : List Byte} {x : Nat} (h : x ∈ packWords d) : x < U32 := by
  induction d using packWords.induct with
  | case1 => simp [packWords] at h
  | case2 a =>
    simp only [packWords, List.mem_singleton] at h
    have := a.isLt
    simp only [U32]; omega
  | case3 a b =>
    simp only [packWords, List.mem_singleton] at h
    have := a.isLt
    have := b.isLt
    simp only [U32]; omega
  | case4 a b c =>
    simp only [packWords, List.mem_singleton] at h
    have := a.isLt
    have := b.isLt
    have := c.isLt
    simp only [U32]; omega
  | case5 a b c d rest ih =>
    simp only [packWords, List.mem_cons] at h
    rcases h with h | h
    · have := a.isLt
      have := b.isLt
      have := c.isLt
      have := d.isLt
      simp only [U32]; omega
    · exact ih h

theorem encodeWrite_lt {ws : List Write} {x : Nat} (h : x ∈ ws.flatMap encodeWrite) :
    x < U32 := by
  simp only [List.mem_flatMap, encodeWrite, List.mem_append, List.mem_cons,
    List.mem_singleton, List.not_mem_nil, or_false] at h
  obtain ⟨w, -, (rfl | rfl) | h⟩ := h
  · exact Nat.mod_lt _ (by decide)
  · exact Nat.mod_lt _ (by decide)
  · exact packWords_lt h

theorem foldl_set_length (v : Nat) (fixups : List MetadataFixup) (M : List Nat) :
    (fixups.foldl (fun M f => M.set f.offset v) M).length = M.length := by
  induction fixups generalizing M with
  | nil => rfl
  | cons f rest ih => simp [ih]

/-- The metadata block of the payload that `layout` leaves: the stream, with the payload word
of every KERNEND record set to `m_allocationPointer - m_kernelDelta`. -/
theorem layout_payload {host : Host} {blueprint : Blueprint} {st st' : Image}
    (h : layout host blueprint st = .ok st')
    (hraw : ∀ e ∈ st'.cursorLog, e.raw < U32) (hsmall : 4 * st'.m_metadata.length < U32)
    (ws : List Write)
    (hws : st'.m_metadata = (ws ++ [(⟨MODINFO_END, []⟩ : Write)]).flatMap encodeWrite)
    (hfix : st'.m_metadataFixups = fixupsOf 0 ws)
    (hzero : ∀ w ∈ ws, w.type = 0x8004 → w.data = [0, 0, 0, 0]) :
    payloadMetadata st'
      = (ws.map (patchKernend (sub32 st'.m_allocationPointer st'.m_kernelDelta))
          ++ [(⟨MODINFO_END, []⟩ : Write)]).flatMap encodeWrite := by
  obtain ⟨st1, st2, h1, h2, h3⟩ := layout_ok h
  obtain ⟨ws1, evs1, hs1, -⟩ := placeModules_step h1
  obtain ⟨evs2, hs2, -, hmb2, -⟩ := placeMetadataBlock_step h2
  obtain ⟨img, hst', -⟩ := applyFixups_frame h3
  have hM : st'.m_metadata = st2.m_metadata := by rw [hst']
  have hF : st'.m_metadataFixups = st2.m_metadataFixups := by rw [hst']
  have hlog : st'.cursorLog = st2.cursorLog := by rw [hst']
  have hap : st'.m_allocationPointer = st2.m_allocationPointer := by rw [hst']
  have hkd : st'.m_kernelDelta = st2.m_kernelDelta := by rw [hst']
  have hmb : st'.m_metadataBase = st2.m_metadataBase := by rw [hst']
  have hib : st'.m_imageBase = st2.m_imageBase := by rw [hst']
  have hl1 := hs1.log
  have hl2 := hs2.log
  simp only [List.nil_append] at hl1
  have hraw1 : ∀ e ∈ evs1, e.raw < U32 := fun e he =>
    hraw e (by rw [hlog, hl2, hl1]; simp [he])
  have hle1 := hs1.trace.le hraw1
  have hib1 := hs1.imageBase
  simp only at hle1 hib1
  obtain ⟨pre, post, himg, hpre⟩ := placeMetadataBlock_payload h2 (by rw [hib1]; exact hle1)
    (by rw [← hM]; exact hsmall)
    (fun e he => hraw e (by rw [hlog]; exact List.mem_of_mem_drop he))
  have hle2 : st2.m_imageBase ≤ st2.m_metadataBase := by
    rw [hmb2, hs2.imageBase, hib1]; exact hle1
  have hoff : ∀ f ∈ st2.m_metadataFixups, f.offset < st2.m_metadata.length := by
    intro f hf
    rw [← hF, hfix] at hf
    have := fixupsOf_offset_lt hzero hf
    rw [← hM, hws]
    simp only [List.flatMap_append, List.length_append]
    omega
  have hfin := applyFixups_payload h3 himg hpre hle2 hoff
  have hv : sub32 st2.m_allocationPointer st2.m_kernelDelta < U32 := sub32_lt _ _
  have hfold := foldl_set_fixupsOf _ hv ws [] (encodeWrite ⟨MODINFO_END, []⟩) hzero
  simp only [List.length_nil, List.nil_append] at hfold
  rw [← hF, hfix, ← hM, hws] at hfin
  simp only [List.flatMap_append, List.flatMap_cons, List.flatMap_nil, List.append_nil]
    at hfin
  rw [hfold] at hfin
  have hlen : (wordsToBytes ((ws.map (patchKernend
      (sub32 st2.m_allocationPointer st2.m_kernelDelta))).flatMap encodeWrite
      ++ encodeWrite ⟨MODINFO_END, []⟩)).length = 4 * st'.m_metadata.length := by
    rw [wordsToBytes_length, ← hfold, foldl_set_length, hws]
    simp
  rw [payloadMetadata, hfin, hmb, hib, ← hpre, List.append_assoc, List.drop_left,
    ← hlen, List.take_left, hap, hkd]
  simp only [List.flatMap_append, List.flatMap_cons, List.flatMap_nil, List.append_nil]
  apply packWords_wordsToBytes
  intro x hx
  rcases List.mem_append.mp hx with hx | hx
  · exact encodeWrite_lt hx
  · exact @encodeWrite_lt [⟨MODINFO_END, []⟩] x (by simpa using hx)


theorem placeMetadataBlock_pointer {st st' : Image} (h : placeMetadataBlock st = .ok st') :
    st'.m_allocationPointer
      = ((st.m_allocationPointer + metadataSizeOf st) % U32 + 4095) % U32 / 4096 * 4096 := by
  obtain ⟨img, -, hst⟩ := placeMetadataBlock_ok h
  have : st'.m_allocationPointer = (metadataPlaced st img).m_allocationPointer := by rw [hst]
  rw [this, metadataPlaced, align4096_pointer, setCursor_m_allocationPointer]

/-- Where the payload of an accepted layout ends, when the cursor does not wrap and the stream
is shorter than 4 GiB. -/
theorem layout_bounds {host : Host} {blueprint : Blueprint} {st st' : Image}
    (h : layout host blueprint st = .ok st')
    (hraw : ∀ e ∈ st'.cursorLog, e.raw < U32) (hsmall : 4 * st'.m_metadata.length < U32) :
    st'.m_imageBase ≤ st'.m_metadataBase
    ∧ st'.m_metadataBase + 4 * st'.m_metadata.length ≤ st'.m_allocationPointer
    ∧ st'.m_allocationPointer < U32
    ∧ st'.m_allocationPointer
        = (st'.m_metadataBase + 4 * st'.m_metadata.length + 4095) / 4096 * 4096
    ∧ st'.m_image.length = st'.m_allocationPointer - st'.m_imageBase := by
  obtain ⟨st1, st2, h1, h2, h3⟩ := layout_ok h
  obtain ⟨ws1, evs1, hs1, -⟩ := placeModules_step h1
  obtain ⟨evs2, hs2, -, hmb2, -, hlen2, hevs2⟩ := placeMetadataBlock_step h2
  have hptr := placeMetadataBlock_pointer h2
  obtain ⟨img, hst', hlen3⟩ := applyFixups_frame h3
  have hM : st'.m_metadata = st2.m_metadata := by rw [hst']
  have hlog : st'.cursorLog = st2.cursorLog := by rw [hst']
  have hap : st'.m_allocationPointer = st2.m_allocationPointer := by rw [hst']
  have hmb : st'.m_metadataBase = st2.m_metadataBase := by rw [hst']
  have hib : st'.m_imageBase = st2.m_imageBase := by rw [hst']
  have him : st'.m_image = img := by rw [hst']
  have hl1 := hs1.log
  have hl2 := hs2.log
  simp only [List.nil_append] at hl1
  have hraw1 : ∀ e ∈ evs1, e.raw < U32 := fun e he =>
    hraw e (by rw [hlog, hl2, hl1]; simp [he])
  have hraw2 : ∀ e ∈ evs2, e.raw < U32 := fun e he =>
    hraw e (by rw [hlog, hl2]; simp [he])
  have hle1 := hs1.trace.le hraw1
  have hib1 := hs1.imageBase
  simp only at hle1 hib1
  have hsz : metadataSizeOf st1 = 4 * st2.m_metadata.length := by
    have : st2.m_metadata = (writeMetadata MODINFO_END [] st1).m_metadata := by
      rw [hs2.metadata]; simp [writeMetadata, encodeWrite, packWords, MODINFO_END]
    rw [metadataSizeOf, ← this, Nat.mul_comm, Nat.mod_eq_of_lt (by rw [← hM]; exact hsmall)]
  rw [hevs2] at hraw2
  have hr1 := hraw2 ⟨st1.m_allocationPointer, st1.m_allocationPointer + metadataSizeOf st1,
    (st1.m_allocationPointer + metadataSizeOf st1) % U32⟩ (by simp)
  have hr2 := hraw2 ⟨(st1.m_allocationPointer + metadataSizeOf st1) % U32,
    (st1.m_allocationPointer + metadataSizeOf st1) % U32 + 4095, st2.m_allocationPointer⟩
    (by simp)
  have htr := hs2.trace
  rw [hevs2] at htr
  simp only [Trace] at htr
  have hle := htr.2.2.2.2.2.1 hr2
  have hlt := htr.2.2.2.2.1
  simp only at hr1 hr2 hle hlt
  rw [Nat.mod_eq_of_lt hr1] at hle hr2 hptr
  rw [Nat.mod_eq_of_lt hr2] at hptr
  rw [hsz] at hle hptr
  have hib2 : st2.m_imageBase = st1.m_imageBase := hs2.imageBase
  rw [hM, hap, hmb, hib, him, hlen3, hlen2, hmb2, hib2, hib1]
  refine ⟨hle1, hle, hlt, hptr, sub32_of_le (by omega) hlt⟩

theorem patchKernend_type (v : Nat) (w : Write) : (patchKernend v w).type = w.type := by
  unfold patchKernend
  split <;> rfl

theorem add32_sub32 {b : Nat} (kd : Nat) (hb : b < U32) : add32 (sub32 b kd) kd = b := by
  simp only [add32, sub32, U32] at *
  omega

/-- The records that the metadata block of the payload decodes to. -/
theorem payload_records {host : Host} {blueprint : Blueprint} {st pl : Image}
    (h : layout host blueprint st = .ok pl)
    (hm : st.m_metadata = []) (hf : st.m_metadataFixups = [])
    (hnames : ∀ m ∈ blueprint.modules, m.name.length + 1 < U32)
    (hraw : ∀ e ∈ pl.cursorLog, e.raw < U32) (hsmall : 4 * pl.m_metadata.length < U32) :
    ∃ (ws : List Write) (records : List Record),
      decodeRecords (payloadMetadata pl) = some records
      ∧ records.map (fun r => r.type) = blueprintRecordTypes blueprint
      ∧ (∀ r ∈ records, r.type = 0x8004 →
          r.payload = [sub32 pl.m_allocationPointer pl.m_kernelDelta])
      ∧ (∀ r ∈ records, r.type ≠ 0x8004 → r.type ≠ MODINFO_END →
          ∃ w ∈ ws, r.type = w.type ∧ r.payload = packWords w.data)
      ∧ ((∀ m ∈ blueprint.modules.tail, m_moduleTypes m.type ≠ some .ElfKernel) →
          ∀ w ∈ ws, AddrOk pl.m_imageBase pl.m_metadataBase pl.m_kernelDelta w) := by
  obtain ⟨ws, evs, hmeta, hfix, hlog, -, hib, hty, hlen, hzero, -, -, haddr⟩ := layout_step h
  have hws : pl.m_metadata = (ws ++ [(⟨MODINFO_END, []⟩ : Write)]).flatMap encodeWrite := by
    rw [hmeta, hm]; simp
  have hfix' : pl.m_metadataFixups = fixupsOf 0 ws := by
    rw [hfix, hf, hm]; simp
  have hpay := layout_payload h hraw hsmall ws hws hfix' hzero
  have hv : sub32 pl.m_allocationPointer pl.m_kernelDelta < U32 := sub32_lt _ _
  have hty' : (ws.map (patchKernend (sub32 pl.m_allocationPointer pl.m_kernelDelta))).map
      (fun w => w.type) = blueprint.modules.flatMap moduleRecordTypes := by
    rw [← hty, List.map_map]
    apply List.map_congr_left
    intro w _
    exact patchKernend_type _ w
  have hlen' : ∀ w ∈ ws.map (patchKernend (sub32 pl.m_allocationPointer pl.m_kernelDelta)),
      w.data.length < U32 := by
    intro w hw
    obtain ⟨w0, hw0, rfl⟩ := List.mem_map.mp hw
    unfold patchKernend
    split
    · simp only [le32_length]; decide
    · exact hlen hnames w0 hw0
  have hdec := decode_stream hty' hlen'
  rw [← hpay] at hdec
  refine ⟨ws, _, hdec, ?_, ?_, ?_, ?_⟩
  · rw [recordsOf_types]
    simp only [List.map_append, hty', blueprintRecordTypes, List.map_cons, List.map_nil]
  · intro r hr ht
    obtain ⟨w, hw, hrt, -, hrp⟩ := recordsOf_mem hr
    rcases List.mem_append.mp hw with hw | hw
    · obtain ⟨w0, hw0, rfl⟩ := List.mem_map.mp hw
      rw [patchKernend_type] at hrt
      have h0 : w0.type = 0x8004 := by rw [← hrt]; exact ht
      rw [hrp]
      simp only [patchKernend, if_pos h0]
      exact le32_of_lt _ hv
    · simp only [List.mem_singleton] at hw
      subst hw
      rw [ht] at hrt
      exact absurd hrt (by decide)
  · intro r hr ht hte
    obtain ⟨w, hw, hrt, -, hrp⟩ := recordsOf_mem hr
    rcases List.mem_append.mp hw with hw | hw
    · obtain ⟨w0, hw0, rfl⟩ := List.mem_map.mp hw
      rw [patchKernend_type] at hrt
      have h0 : ¬ w0.type = 0x8004 := by rw [← hrt]; exact ht
      refine ⟨w0, hw0, hrt, ?_⟩
      rw [hrp]
      simp only [patchKernend, if_neg h0]
    · simp only [List.mem_singleton] at hw
      subst hw
      exact absurd hrt hte
  · intro hk
    have := (haddr hk (by rw [← hlog]; exact hraw)).2.2
    rw [hib]
    exact this


/-- What `build` keeps of the state that `layout` leaves. -/
theorem build_layout {host : Host} {blueprint : Blueprint} {st st' : Image}
    (h : build host blueprint st = .ok st') :
    ∃ pl, layout host blueprint st = .ok pl
      ∧ pl.m_metadata = st'.m_metadata ∧ pl.m_kernelDelta = st'.m_kernelDelta
      ∧ ∀ e ∈ pl.cursorLog, e ∈ st'.cursorLog := by
  obtain ⟨pl, s2, h1, -, -⟩ := build_ok h
  obtain ⟨evs, hs, hkd⟩ := build_after_layout h1 h
  refine ⟨pl, h1, ?_, hkd.symm, ?_⟩
  · rw [hs.metadata]; simp
  · intro e he
    rw [hs.log]
    simp [he]

theorem kernend_record_exists {blueprint : Blueprint} {records : List Record}
    (hty : records.map (fun r => r.type) = blueprintRecordTypes blueprint)
    (hk : ∃ m ∈ blueprint.modules, ∃ md ∈ m.metadata, md.type = .KERNEND) :
    ∃ r ∈ records, r.type = 0x8004 := by
  obtain ⟨m, hm, md, hmd, hmt⟩ := hk
  have : 0x8004 ∈ blueprintRecordTypes blueprint := by
    simp only [blueprintRecordTypes, List.mem_append, List.mem_flatMap, moduleRecordTypes,
      List.mem_map]
    left
    exact ⟨m, hm, Or.inr ⟨md, hmd, by rw [hmt]; rfl⟩⟩
  rw [← hty] at this
  obtain ⟨r, hr, hrt⟩ := List.mem_map.mp this
  exact ⟨r, hr, hrt⟩

/-! ## The sample scenarios -/

/-- Scenario S1 is accepted, and what its build leaves. -/
theorem scenarioS1 :
    accepted (build sampleHost blueprintS1 {}) = true
    ∧ (resultOf (build sampleHost blueprintS1 {})).m_allocationPointer = 0x80002014
    ∧ (∀ e ∈ (resultOf (build sampleHost blueprintS1 {})).cursorLog, e.raw < U32)
    ∧ (resultOf (build sampleHost blueprintS1 {})).cursorLog.head?
        = some ⟨0x80000000, 0x800FFFFF, 0x80000000⟩
    ∧ (resultOf (build sampleHost blueprintS1 {})).m_kernelDelta = 0xC0000000
    ∧ 0x1000 + (builtS1.m_image.length + 4095) / 4096 * 4096 < U32
    ∧ builtS1.m_kickstart.length < U32
    ∧ builtS1.m_kickstartEntry = 0x80002000
    ∧ builtS1.m_image.length = 16
    ∧ builtS1.m_kickstart.length = 20
    ∧ (imagePhdr builtS1).p_paddr + (imagePhdr builtS1).p_memsz < U32
    ∧ imagePhdr builtS1 = ⟨PT_LOAD, 0x1000, 0x80001FF0, 0x80001FF0, 16, 16, 7, 0x1000⟩
    ∧ kickstartPhdr builtS1 = ⟨PT_LOAD, 0x2000, 0x80002000, 0x80002000, 20, 20, 7, 0x1000⟩
    ∧ ([{ p_type := PT_LOAD, p_offset := 0x1000,
            p_vaddr := add32 builtS1.m_imageBase builtS1.m_imageDisplacement,
            p_paddr := add32 builtS1.m_imageBase builtS1.m_imageDisplacement,
            p_filesz := builtS1.m_image.length, p_memsz := builtS1.m_image.length,
            p_flags := PF_R ||| PF_W ||| PF_X, p_align := 0x1000 },
          { p_type := PT_LOAD,
            p_offset := 0x1000 + (builtS1.m_image.length + 4095) / 4096 * 4096,
            p_vaddr := builtS1.m_kickstartBase, p_paddr := builtS1.m_kickstartBase,
            p_filesz := builtS1.m_kickstart.length,
            p_memsz := sub32 builtS1.m_allocationPointer builtS1.m_kickstartBase,
            p_flags := PF_R ||| PF_W ||| PF_X, p_align := 0x1000 }] : List Elf32_Phdr)
        = [⟨PT_LOAD, 0x1000, 0x80001FF0, 0x80001FF0, 16, 16, 7, 0x1000⟩,
            ⟨PT_LOAD, 0x2000, 0x80002000, 0x80002000, 20, 20, 7, 0x1000⟩] := by
  decide!

/-- Scenario S1 is accepted. -/
theorem buildS1_accepted :
    build sampleHost blueprintS1 {} = .ok (resultOf (build sampleHost blueprintS1 {})) :=
  accepted_eq _ scenarioS1.1

/-- Scenario S2 is accepted, and what its build leaves. -/
theorem scenarioS2 :
    accepted (build sampleHost blueprintS2 {}) = true
    ∧ (∀ e ∈ (resultOf (build sampleHost blueprintS2 {})).cursorLog, e.raw < U32)
    ∧ 4 * (resultOf (build sampleHost blueprintS2 {})).m_metadata.length < U32
    ∧ (resultOf (build sampleHost blueprintS2 {})).m_kernelDelta = 0xC0000000 := by
  decide!

/-- The payload layout of scenario S2 is accepted, and the records of its metadata block. -/
theorem layoutS2_decoded :
    accepted (layout sampleHost blueprintS2 {}) = true
    ∧ (resultOf (layout sampleHost blueprintS2 {})).m_metadataBase = 0x80001000
    ∧ 4 * (resultOf (layout sampleHost blueprintS2 {})).m_metadata.length = 76
    ∧ decodeRecords (payloadMetadata (resultOf (layout sampleHost blueprintS2 {})))
        = some [⟨0, 1, 2, [107]⟩, ⟨3, 2, 11, [543583333, 1852990827, 27749]⟩,
            ⟨8, 3, 4, [0xC0000000]⟩, ⟨11, 4, 4, [0x100]⟩,
            ⟨14, MODINFO_METADATA ||| MODINFOMD_KERNEND, 4, [0xC0002000]⟩, ⟨17, 0, 0, []⟩]
    ∧ (resultOf (layout sampleHost blueprintS2 {})).m_imageBase = 0x80000000
    ∧ (resultOf (layout sampleHost blueprintS2 {})).m_image.length = 0x2000
    ∧ (decodeRecords (payloadMetadata (resultOf (layout sampleHost blueprintS2 {})))).map
        (fun records => records.filter
          (fun r => r.type = MODINFO_METADATA ||| MODINFOMD_KERNEND))
        = some [⟨14, 0x8004, 4, [0xC0002000]⟩] := by
  decide!

/-- Scenario S2 is accepted. -/
theorem buildS2_accepted :
    build sampleHost blueprintS2 {} = .ok (resultOf (build sampleHost blueprintS2 {})) :=
  accepted_eq _ scenarioS2.1

theorem layoutS2_accepted :
    layout sampleHost blueprintS2 {} = .ok (resultOf (layout sampleHost blueprintS2 {})) :=
  accepted_eq _ layoutS2_decoded.1

theorem buildS2_no_wrap :
    ∀ e ∈ (resultOf (build sampleHost blueprintS2 {})).cursorLog, e.raw < U32 :=
  scenarioS2.2.1

theorem buildS2_small :
    4 * (resultOf (build sampleHost blueprintS2 {})).m_metadata.length < U32 :=
  scenarioS2.2.2.1

theorem buildS2_kernelDelta :
    (resultOf (build sampleHost blueprintS2 {})).m_kernelDelta = 0xC0000000 :=
  scenarioS2.2.2.2

/-! ## Where the errors of a build come from -/

theorem bind_error {α β : Type} (x : Except Error α) (f : α → Except Error β) (e : Error) :
    (x >>= f) = .error e ↔ x = .error e ∨ ∃ a, x = .ok a ∧ f a = .error e := by
  cases x <;> simp [bind, Except.bind]

theorem pure_error {α : Type} (a : α) (e : Error) :
    (pure a : Except Error α) = .error e ↔ False := by
  simp [pure, Except.pure]

theorem throw_error {α : Type} (e' e : Error) :
    (throw e' : Except Error α) = .error e ↔ e' = e := by
  simp [throw, throwThe, MonadExceptOf.throw]

theorem readAt_error {f : List Byte} {off n : Nat} {e : Error}
    (h : readAt f off n = .error e) : e = .ioError := by
  simp only [readAt] at h
  split at h
  · simp at h
  · split at h
    · simp at h
    · simpa using h.symm

theorem storeAt_error {v bs : List Byte} {target origin : Nat} {e : Error}
    (h : storeAt v target origin bs = .error e) : e = .outOfBounds := by
  simp only [storeAt] at h
  split at h
  · simp at h
  · split at h
    · simp at h
    · simpa using h.symm

theorem openFile_error {host : Host} {path : List Byte} {e : Error}
    (h : host.openFile path = .error e) : e = .ioError := by
  simp only [Host.openFile] at h
  split at h
  · simp at h
  · simpa using h.symm

theorem readSegment_error {f image : List Byte} {segment : Elf32_Phdr} {physaddr origin : Nat}
    {e : Error} (h : readSegment f segment image physaddr origin = .error e) :
    e = .ioError ∨ e = .outOfBounds := by
  simp only [readSegment] at h
  split at h
  · simp only [bind_error] at h
    rcases h with h | ⟨_, -, h⟩
    · exact Or.inl (readAt_error h)
    · exact Or.inr (storeAt_error h)
  · simp [pure_error] at h

theorem loadKernelSegments_error {f : List Byte} {imageBase kernelDelta : Nat}
    {phdr : List Elf32_Phdr} {image : List Byte} {limit : Nat} {e : Error}
    (h : loadKernelSegments f imageBase kernelDelta phdr image limit = .error e) :
    e = .ioError ∨ e = .outOfBounds := by
  induction phdr generalizing image limit with
  | nil => simp [loadKernelSegments] at h
  | cons segment rest ih =>
    simp only [loadKernelSegments] at h
    split at h
    · simp only [bind_error] at h
      rcases h with h | ⟨_, -, h⟩
      · exact readSegment_error h
      · exact ih h
    · exact ih h

/-- When the kernel loader stops with "Bad ELF identification". -/
theorem loadKernelBody_badElf (f : List Byte) (base : Nat) (st : Image) :
    loadKernelBody f base st = .error .badElf
      ↔ ∃ hdr, readAt f 0 sizeofEhdr = .ok hdr ∧ badElfHeader (parseEhdr hdr) = true := by
  simp only [loadKernelBody, bind_error, bind_ok]
  constructor
  · rintro (h | ⟨hdr, h1, h⟩)
    · exact absurd (readAt_error h) (by decide)
    · refine ⟨hdr, h1, ?_⟩
      by_cases hb : badElfHeader (parseEhdr hdr) = true
      · exact hb
      · rw [if_neg hb] at h
        simp only [bind_error, pure_error, pure_ok] at h
        rcases h with h | ⟨_, -, h | ⟨_, -, h | ⟨_, -, h⟩⟩⟩
        · simp [pure, Except.pure] at h
        · exact absurd (readAt_error h) (by decide)
        · rcases loadKernelSegments_error h with h | h <;> exact absurd h (by decide)
        · exact h.elim
  · rintro ⟨hdr, h1, hb⟩
    refine Or.inr ⟨hdr, h1, ?_⟩
    rw [if_pos hb]
    simp [bind, Except.bind, throw, throwThe, MonadExceptOf.throw]


theorem loadExecutableSegments_error {f : List Byte} {base : Nat}
    {phdr : List Elf32_Phdr} {image : List Byte} {limit allocationLimit : Nat} {e : Error}
    (h : loadExecutableSegments f base phdr image limit allocationLimit = .error e) :
    e = .ioError ∨ e = .outOfBounds := by
  induction phdr generalizing image limit allocationLimit with
  | nil => simp [loadExecutableSegments] at h
  | cons segment rest ih =>
    simp only [loadExecutableSegments] at h
    split at h
    · simp only [bind_error] at h
      rcases h with h | ⟨_, -, h⟩
      · exact readSegment_error h
      · exact ih h
    · exact ih h

theorem processImageRelocations_error {base : Nat} {relocs : List Reloc} {image : List Byte}
    {e : Error} (h : processImageRelocations base relocs image = .error e) :
    e = .outOfBounds ∨ ∃ r ∈ relocs, e = .unsupportedRelocation (ELF32_R_TYPE r.r_info) := by
  induction relocs generalizing image with
  | nil => simp [processImageRelocations] at h
  | cons reloc rest ih =>
    simp only [processImageRelocations] at h
    split at h
    · split at h
      · rcases ih h with h | ⟨r, hr, h⟩
        · exact Or.inl h
        · exact Or.inr ⟨r, by simp [hr], h⟩
      · exact Or.inl (by simpa using h.symm)
    · split at h
      · rcases ih h with h | ⟨r, hr, h⟩
        · exact Or.inl h
        · exact Or.inr ⟨r, by simp [hr], h⟩
      · exact Or.inr ⟨reloc, by simp, by simpa using h.symm⟩

theorem processSections_error {f : List Byte} {base : Nat} {shdr : List Elf32_Shdr}
    {image : List Byte} {e : Error} (h : processSections f base shdr image = .error e) :
    e ≠ .badElf := by
  induction shdr generalizing image with
  | nil => simp [processSections] at h
  | cons sec rest ih =>
    simp only [processSections] at h
    split at h
    · split at h
      · simp only [Except.error.injEq] at h
        subst h
        decide
      · simp only [bind_error] at h
        rcases h with h | ⟨_, -, h | ⟨_, -, h⟩⟩
        · rw [readAt_error h]; decide
        · rcases processImageRelocations_error h with h | ⟨r, -, h⟩ <;> rw [h] <;> simp
        · exact ih h
    · split at h
      · split at h
        · simp only [Except.error.injEq] at h
          subst h
          decide
        · simp only [bind_error] at h
          rcases h with h | ⟨_, -, h | ⟨_, -, h⟩⟩
          · rw [readAt_error h]; decide
          · rcases processImageRelocations_error h with h | ⟨r, -, h⟩ <;> rw [h] <;> simp
          · exact ih h
      · exact ih h

/-- When the loader of relocatable executables stops with "Bad ELF identification". -/
theorem loadExecutableAt_badElf (host : Host) (executable image : List Byte) (base : Nat) :
    loadExecutableAt host executable image base = .error .badElf
      ↔ ∃ f hdr, host.openFile executable = .ok f ∧ readAt f 0 sizeofEhdr = .ok hdr
          ∧ badElfHeader (parseEhdr hdr) = true := by
  simp only [loadExecutableAt, bind_error, bind_ok]
  constructor
  · rintro (h | ⟨f, hf, h | ⟨hdr, h1, h⟩⟩)
    · exact absurd (openFile_error h) (by decide)
    · exact absurd (readAt_error h) (by decide)
    · refine ⟨f, hdr, hf, h1, ?_⟩
      by_cases hb : badElfHeader (parseEhdr hdr) = true
      · exact hb
      · rw [if_neg hb] at h
        simp only [bind_error, pure_error, pure_ok] at h
        rcases h with h | ⟨_, -, h | ⟨_, -, h | ⟨_, -, h | ⟨_, -, h | ⟨_, -, h⟩⟩⟩⟩⟩
        · simp [pure, Except.pure] at h
        · exact absurd (readAt_error h) (by decide)
        · rcases loadExecutableSegments_error h with h | h <;> exact absurd h (by decide)
        · exact absurd (readAt_error h) (by decide)
        · exact absurd rfl (processSections_error h)
        · exact h.elim
  · rintro ⟨f, hdr, hf, h1, hb⟩
    refine Or.inr ⟨f, hf, Or.inr ⟨hdr, h1, ?_⟩⟩
    rw [if_pos hb]
    simp [bind, Except.bind, throw, throwThe, MonadExceptOf.throw]

/-- The header test, field by field. -/
theorem badElfHeader_iff (ehdr : Elf32_Ehdr) :
    badElfHeader ehdr = true
      ↔ ehdr.e_ident.take 7 ≠ [0x7F, 0x45, 0x4C, 0x46, 1, 1, 1]
        ∨ ehdr.e_type ≠ ET_EXEC ∨ ehdr.e_machine ≠ EM_ARM ∨ ehdr.e_version ≠ EV_CURRENT
        ∨ ehdr.e_phentsize ≠ sizeofPhdr := by
  have : ElfIdentification.take EI_PAD = [0x7F, 0x45, 0x4C, 0x46, 1, 1, 1] := by decide
  simp only [badElfHeader, this, Bool.or_eq_true, bne_iff_ne, ne_eq, EI_PAD]
  tauto


theorem stoul_error {s : List Byte} {e : Error} (h : stoul s = .error e) : e = .stoulError := by
  unfold stoul at h
  dsimp only at h
  split_ifs at h <;> exact (Except.error.inj h).symm

theorem placeMetadataEntry_error {host : Host} {metadata : ModuleMetadata} {st : Image}
    {e : Error} (h : placeMetadataEntry host metadata st = .error e) :
    e = .ioError ∨ e = .outOfBounds ∨ e = .stoulError := by
  simp only [placeMetadataEntry] at h
  split at h
  · simp only [bind_error, pure_error] at h
    rcases h with h | ⟨_, -, h | ⟨_, -, h | ⟨_, -, h⟩⟩⟩
    · exact Or.inl (openFile_error h)
    · exact Or.inl (readAt_error h)
    · exact Or.inr (Or.inl (storeAt_error h))
    · exact h.elim
  · simp [pure_error] at h
  · simp only [bind_error, pure_error] at h
    rcases h with h | ⟨_, -, h⟩
    · exact Or.inr (Or.inl (storeAt_error h))
    · exact h.elim
  · simp only [bind_error, pure_error] at h
    rcases h with h | ⟨_, -, h⟩
    · exact Or.inr (Or.inr (stoul_error h))
    · exact h.elim

theorem placeMetadataEntries_error {host : Host} {mds : List ModuleMetadata} {st : Image}
    {e : Error} (h : placeMetadataEntries host mds st = .error e) :
    e = .ioError ∨ e = .outOfBounds ∨ e = .stoulError := by
  induction mds generalizing st with
  | nil => simp [placeMetadataEntries] at h
  | cons md rest ih =>
    simp only [placeMetadataEntries, bind_error] at h
    rcases h with h | ⟨_, -, h⟩
    · exact placeMetadataEntry_error h
    · exact ih h

theorem loadModuleBody_error {info : ModuleType} {f : List Byte} {base : Nat} {st : Image}
    {e : Error} (h : loadModuleBody info f base st = .error e) :
    e = .ioError ∨ e = .outOfBounds ∨ e = .badElf := by
  cases info with
  | ElfKernel =>
    simp only [loadModuleBody, loadKernelBody, bind_error] at h
    rcases h with h | ⟨hdr, -, h⟩
    · exact Or.inl (readAt_error h)
    · split at h
      · simp only [bind_error, throw_error] at h
        rcases h with h | ⟨_, h, -⟩
        · exact Or.inr (Or.inr h.symm)
        · simp [throw, throwThe, MonadExceptOf.throw] at h
      · simp only [bind_error, pure_error, pure_ok] at h
        rcases h with h | ⟨_, -, h | ⟨_, -, h | ⟨_, -, h⟩⟩⟩
        · simp [pure, Except.pure] at h
        · exact Or.inl (readAt_error h)
        · rcases loadKernelSegments_error h with h | h
          · exact Or.inl h
          · exact Or.inr (Or.inl h)
        · exact h.elim
  | Binary =>
    simp only [loadModuleBody, loadBinaryBody, bind_error, pure_error] at h
    rcases h with h | ⟨_, -, h | ⟨_, -, h⟩⟩
    · exact Or.inl (readAt_error h)
    · exact Or.inr (Or.inl (storeAt_error h))
    · exact h.elim

/-- The errors of one iteration of the module loop: "Unknown module type" comes from the
lookup alone. -/
theorem placeModule_error {host : Host} {mod : Module} {st : Image} {e : Error}
    (h : placeModule host mod st = .error e) :
    (m_moduleTypes mod.type = none ∧ e = .unknownModuleType mod.type)
    ∨ (m_moduleTypes mod.type ≠ none
        ∧ (e = .ioError ∨ e = .outOfBounds ∨ e = .badElf ∨ e = .stoulError)) := by
  simp only [placeModule, bind_error] at h
  rcases h with h | ⟨s1, h1, h⟩
  · simp only [placeModuleBody, bind_error, pure_error] at h
    rcases h with h | ⟨info, hinfo, h⟩
    · simp only [lookupModuleType] at h
      split at h
      · simp at h
      · rename_i hnone
        exact Or.inl ⟨hnone, by simpa using h.symm⟩
    · have hty : m_moduleTypes mod.type ≠ none := by
        simp only [lookupModuleType] at hinfo
        split at hinfo
        · rename_i hsome
          rw [hsome]; simp
        · simp at hinfo
      refine Or.inr ⟨hty, ?_⟩
      rcases h with h | ⟨_, -, h | ⟨_, -, h⟩⟩
      · exact Or.inl (openFile_error h)
      · rcases loadModuleBody_error h with h | h | h
        · exact Or.inl h
        · exact Or.inr (Or.inl h)
        · exact Or.inr (Or.inr (Or.inl h))
      · exact h.elim
  · obtain ⟨info, -, -, -, hty, -⟩ := placeModuleBody_ok h1
    refine Or.inr ⟨by rw [hty]; simp, ?_⟩
    rcases placeMetadataEntries_error h with h | h | h
    · exact Or.inl h
    · exact Or.inr (Or.inl h)
    · exact Or.inr (Or.inr (Or.inr h))

theorem placeModules_append (host : Host) (a b : List Module) (st : Image) :
    placeModules host (a ++ b) st = placeModules host a st >>= placeModules host b := by
  induction a generalizing st with
  | nil => rfl
  | cons m a ih =>
    simp only [List.cons_append, placeModules]
    cases placeModule host m st with
    | error e => rfl
    | ok s => exact ih s


theorem placeModuleBody_unknown (host : Host) (mod : Module) (st : Image)
    (h : m_moduleTypes mod.type = none) :
    placeModuleBody host mod st = .error (.unknownModuleType mod.type) := by
  simp only [placeModuleBody, lookupModuleType, h]
  rfl

/-- A blueprint with a module of unknown type, the modules before it being placed. -/
theorem build_unknown {host : Host} {blueprint : Blueprint} {pre rest : List Module}
    {m : Module} {st s1 : Image} (hmods : blueprint.modules = pre ++ m :: rest)
    (hpre : placeModules host pre
      { st with
        m_imageBase := blueprint.imageBase % U32
        m_allocationPointer := blueprint.imageBase % U32
        m_image := []
        cursorLog := [] } = .ok s1)
    (h : m_moduleTypes m.type = none) :
    build host blueprint st = .error (.unknownModuleType m.type) := by
  have hm : placeModules host (m :: rest) s1 = .error (.unknownModuleType m.type) := by
    simp only [placeModules, placeModule, placeModuleBody_unknown host m s1 h]
    rfl
  have hl : layout host blueprint st = .error (.unknownModuleType m.type) := by
    simp only [layout, hmods, placeModules_append, hpre, ok_bind, hm]
    rfl
  simp only [build, hl]
  rfl

theorem alignAllocationPointer_frame (alignment : Nat) (st : Image) :
    (alignAllocationPointer alignment st).frame = st.frame := by
  unfold alignAllocationPointer Image.frame
  rfl
/-! ## The relocator -/

theorem getElem?_writeAt (v bs : List Byte) (off i : Nat) (h : off + bs.length ≤ v.length) :
    (writeAt v off bs)[i]?
      = if i < off then v[i]? else if i < off + bs.length then bs[i - off]? else v[i]? := by
  have hl : (v.take off).length = off := by simp; omega
  unfold writeAt
  by_cases h1 : i < off
  · rw [if_pos h1, List.append_assoc, List.getElem?_append_left (by omega),
      List.getElem?_take_of_lt h1]
  · rw [if_neg h1, List.append_assoc, List.getElem?_append_right (by omega), hl]
    by_cases h2 : i < off + bs.length
    · rw [if_pos h2, List.getElem?_append_left (by omega)]
    · rw [if_neg h2, List.getElem?_append_right (by omega), List.getElem?_drop]
      congr 1
      omega

theorem u32le_le32_append (x : Nat) (rest : List Byte) : u32le (le32 x ++ rest) = x % U32 := by
  simp only [u32le, le32, List.cons_append, List.nil_append, List.getD_cons_zero,
    List.getD_cons_succ, byteOf_val, U32]
  omega

theorem drop_writeAt (v bs : List Byte) (off : Nat) (h : off ≤ v.length) :
    (writeAt v off bs).drop off = bs ++ v.drop (off + bs.length) := by
  have hl : (v.take off).length = off := by simp; omega
  unfold writeAt
  rw [List.append_assoc, List.drop_append_of_le_length (by omega)]
  rw [List.drop_of_length_le (by omega)]
  rfl

theorem relocate_length (base : Nat) (image : List Byte) (r : Reloc)
    (h : ELF32_R_TYPE r.r_info = R_ARM_ABS32 → r.r_offset + 4 ≤ image.length) :
    (relocate base image r).length = image.length := by
  unfold relocate
  split
  · rename_i ht
    exact writeAt_length _ _ _ (by simpa [le32_length] using h ht)
  · rfl

theorem foldl_relocate_length (base : Nat) (relocs : List Reloc) (image : List Byte)
    (h : ∀ r ∈ relocs, ELF32_R_TYPE r.r_info = R_ARM_ABS32 → r.r_offset + 4 ≤ image.length) :
    (relocs.foldl (relocate base) image).length = image.length := by
  induction relocs generalizing image with
  | nil => rfl
  | cons r rest ih =>
    have hr := relocate_length base image r (h r (by simp))
    rw [List.foldl_cons, ih, hr]
    intro x hx
    rw [hr]
    exact h x (by simp [hx])

/-- With supported records and in-bounds offsets the relocator returns the fold of
`relocate` over the records. -/
theorem processImageRelocations_supported (base : Nat) (relocs : List Reloc)
    (image : List Byte)
    (hb : ∀ r ∈ relocs, ELF32_R_TYPE r.r_info = R_ARM_ABS32 → r.r_offset + 4 ≤ image.length)
    (hs : ∀ r ∈ relocs, supportedReloc r) :
    processImageRelocations base relocs image = .ok (relocs.foldl (relocate base) image) := by
  induction relocs generalizing image with
  | nil => rfl
  | cons r rest ih =>
    have hr := relocate_length base image r (hb r (by simp))
    have hrest : ∀ x ∈ rest, ELF32_R_TYPE x.r_info = R_ARM_ABS32 →
        x.r_offset + 4 ≤ (relocate base image r).length := by
      intro x hx
      rw [hr]
      exact hb x (by simp [hx])
    have ih' := ih (relocate base image r) hrest (fun x hx => hs x (by simp [hx]))
    simp only [processImageRelocations, List.foldl_cons]
    by_cases ht : ELF32_R_TYPE r.r_info = R_ARM_ABS32
    · rw [if_pos ht, if_pos (hb r (by simp) ht)]
      simp only [relocate, if_pos ht] at ih'
      simp only [relocate, if_pos ht]
      exact ih'
    · have hsr := hs r (by simp)
      simp only [supportedReloc] at hsr
      rw [if_neg ht, if_pos (by tauto)]
      simp only [relocate, if_neg ht] at ih'
      simp only [relocate, if_neg ht]
      exact ih'

/-- With in-bounds offsets and a record of another type the relocator throws. -/
theorem processImageRelocations_unsupported (base : Nat) (relocs : List Reloc)
    (image : List Byte)
    (hb : ∀ r ∈ relocs, ELF32_R_TYPE r.r_info = R_ARM_ABS32 → r.r_offset + 4 ≤ image.length)
    (hu : ∃ r ∈ relocs, ¬ supportedReloc r) :
    ∃ r ∈ relocs, ¬ supportedReloc r
      ∧ processImageRelocations base relocs image
          = .error (.unsupportedRelocation (ELF32_R_TYPE r.r_info)) := by
  induction relocs generalizing image with
  | nil => simp at hu
  | cons r rest ih =>
    by_cases hsr : supportedReloc r
    · have hr := relocate_length base image r (hb r (by simp))
      have hrest : ∀ x ∈ rest, ELF32_R_TYPE x.r_info = R_ARM_ABS32 →
          x.r_offset + 4 ≤ (relocate base image r).length := by
        intro x hx
        rw [hr]
        exact hb x (by simp [hx])
      have hu' : ∃ x ∈ rest, ¬ supportedReloc x := by
        obtain ⟨x, hx, hxs⟩ := hu
        rcases List.mem_cons.mp hx with rfl | hx
        · exact absurd hsr hxs
        · exact ⟨x, hx, hxs⟩
      obtain ⟨x, hx, hxs, hres⟩ := ih (relocate base image r) hrest hu'
      refine ⟨x, by simp [hx], hxs, ?_⟩
      simp only [processImageRelocations]
      by_cases ht : ELF32_R_TYPE r.r_info = R_ARM_ABS32
      · rw [if_pos ht, if_pos (hb r (by simp) ht)]
        simp only [relocate, if_pos ht] at hres
        exact hres
      · simp only [supportedReloc] at hsr
        rw [if_neg ht, if_pos (by tauto)]
        simp only [relocate, if_neg ht] at hres
        exact hres
    · refine ⟨r, by simp, hsr, ?_⟩
      simp only [supportedReloc, not_or] at hsr
      simp only [processImageRelocations, if_neg hsr.1]
      rw [if_neg (by tauto)]

theorem getElem?_relocate (base : Nat) (image : List Byte) (r : Reloc) (i : Nat)
    (hb : ELF32_R_TYPE r.r_info = R_ARM_ABS32 → r.r_offset + 4 ≤ image.length)
    (hi : ELF32_R_TYPE r.r_info = R_ARM_ABS32 → i < r.r_offset ∨ r.r_offset + 4 ≤ i) :
    (relocate base image r)[i]? = image[i]? := by
  unfold relocate
  split
  · rename_i ht
    rw [getElem?_writeAt _ _ _ _ (by simpa [le32_length] using hb ht)]
    rcases hi ht with h | h
    · rw [if_pos h]
    · rw [if_neg (by omega), if_neg (by simp [le32_length]; omega)]
  · rfl

theorem getElem?_foldl_relocate (base : Nat) (relocs : List Reloc) (image : List Byte)
    (i : Nat)
    (hb : ∀ r ∈ relocs, ELF32_R_TYPE r.r_info = R_ARM_ABS32 → r.r_offset + 4 ≤ image.length)
    (hi : ∀ r ∈ relocs, ELF32_R_TYPE r.r_info = R_ARM_ABS32 →
      i < r.r_offset ∨ r.r_offset + 4 ≤ i) :
    (relocs.foldl (relocate base) image)[i]? = image[i]? := by
  induction relocs generalizing image with
  | nil => rfl
  | cons r rest ih =>
    have hr := relocate_length base image r (hb r (by simp))
    rw [List.foldl_cons, ih, getElem?_relocate base image r i (hb r (by simp)) (hi r (by simp))]
    · intro x hx
      rw [hr]
      exact hb x (by simp [hx])
    · exact fun x hx => hi x (by simp [hx])

theorem u32le_relocate (base : Nat) (image : List Byte) (r : Reloc)
    (ht : ELF32_R_TYPE r.r_info = R_ARM_ABS32) (hb : r.r_offset + 4 ≤ image.length) :
    u32le ((relocate base image r).drop r.r_offset)
      = add32 (u32le (image.drop r.r_offset)) base := by
  simp only [relocate, if_pos ht]
  rw [drop_writeAt _ _ _ (by omega), u32le_le32_append]
  exact Nat.mod_eq_of_lt (add32_lt _ _)

theorem u32le_drop_congr (a b : List Byte) (o : Nat)
    (h : ∀ k, k < 4 → a[o + k]? = b[o + k]?) : u32le (a.drop o) = u32le (b.drop o) := by
  have h0 := h 0 (by decide)
  have h1 := h 1 (by decide)
  have h2 := h 2 (by decide)
  have h3 := h 3 (by decide)
  simp only [u32le, List.getD_eq_getElem?_getD, List.getElem?_drop, h0, h1, h2, h3]

theorem writeAt_writeAt_same (v a b : List Byte) (o : Nat) (hab : a.length = b.length)
    (h : o + a.length ≤ v.length) : writeAt (writeAt v o a) o b = writeAt v o b := by
  have hl := writeAt_length v o a h
  apply List.ext_getElem?
  intro i
  rw [getElem?_writeAt _ _ _ _ (by rw [hl, ← hab]; exact h),
    getElem?_writeAt _ _ _ _ h, getElem?_writeAt _ _ _ _ (by rw [← hab]; exact h)]
  by_cases h1 : i < o
  · simp [h1]
  · by_cases h2 : i < o + b.length
    · simp [h1, h2]
    · have h3 : ¬ i < o + a.length := by omega
      simp [h1, h2, h3]

theorem writeAt_comm (v a b : List Byte) (o1 o2 : Nat)
    (hd : o1 + a.length ≤ o2 ∨ o2 + b.length ≤ o1)
    (h1 : o1 + a.length ≤ v.length) (h2 : o2 + b.length ≤ v.length) :
    writeAt (writeAt v o1 a) o2 b = writeAt (writeAt v o2 b) o1 a := by
  have hl1 := writeAt_length v o1 a h1
  have hl2 := writeAt_length v o2 b h2
  apply List.ext_getElem?
  intro i
  rw [getElem?_writeAt _ _ _ _ (by rw [hl1]; exact h2), getElem?_writeAt _ _ _ _ h1,
    getElem?_writeAt _ _ _ _ (by rw [hl2]; exact h1), getElem?_writeAt _ _ _ _ h2]
  by_cases c1 : i < o1 <;> by_cases c2 : i < o1 + a.length <;> by_cases c3 : i < o2 <;>
    by_cases c4 : i < o2 + b.length
  all_goals simp [c1, c2, c3, c4]
  all_goals omega

theorem add32_add32 (w b c : Nat) : add32 (add32 w b) c = add32 w (b + c) := by
  simp only [add32, U32]
  omega

theorem add32_mod (w b : Nat) : add32 w (b % U32) = add32 w b := by
  simp only [add32, U32]
  omega

theorem relocate_mod (base : Nat) (image : List Byte) (r : Reloc) :
    relocate (base % U32) image r = relocate base image r := by
  simp only [relocate, add32_mod]

theorem relocate_relocate_same (b c : Nat) (image : List Byte) (r : Reloc)
    (hb : ELF32_R_TYPE r.r_info = R_ARM_ABS32 → r.r_offset + 4 ≤ image.length) :
    relocate c (relocate b image r) r = relocate (b + c) image r := by
  by_cases ht : ELF32_R_TYPE r.r_info = R_ARM_ABS32
  · have hw := u32le_relocate b image r ht (hb ht)
    have hlen : r.r_offset + (le32 (add32 (u32le (image.drop r.r_offset)) b)).length
        ≤ image.length := by simpa [le32_length] using hb ht
    conv_lhs => rw [relocate, if_pos ht, hw, add32_add32]
    simp only [relocate, if_pos ht]
    exact writeAt_writeAt_same _ _ _ _ (by simp [le32_length]) hlen
  · simp only [relocate, if_neg ht]

theorem relocate_comm (b c : Nat) (image : List Byte) (r1 r2 : Reloc)
    (h1 : ELF32_R_TYPE r1.r_info = R_ARM_ABS32 → r1.r_offset + 4 ≤ image.length)
    (h2 : ELF32_R_TYPE r2.r_info = R_ARM_ABS32 → r2.r_offset + 4 ≤ image.length)
    (hc : compatibleReloc r1 r2) :
    relocate c (relocate b image r1) r2 = relocate b (relocate c image r2) r1 := by
  by_cases t1 : ELF32_R_TYPE r1.r_info = R_ARM_ABS32
  · by_cases t2 : ELF32_R_TYPE r2.r_info = R_ARM_ABS32
    · have b1 := h1 t1
      have b2 := h2 t2
      rcases hc t1 t2 with he | hd
      · have hr : relocate c (relocate b image r1) r2 = relocate c (relocate b image r1) r1 := by
          simp only [relocate, if_pos t1, if_pos t2, he]
        have hr2 : relocate b (relocate c image r2) r1 = relocate b (relocate c image r1) r1 := by
          simp only [relocate, if_pos t1, if_pos t2, he]
        rw [hr, hr2, relocate_relocate_same b c image r1 h1,
          relocate_relocate_same c b image r1 h1, Nat.add_comm]
      · have e1 : u32le ((relocate b image r1).drop r2.r_offset)
            = u32le (image.drop r2.r_offset) := by
          apply u32le_drop_congr
          intro k hk
          exact getElem?_relocate b image r1 _ h1 (fun _ => by omega)
        have e2 : u32le ((relocate c image r2).drop r1.r_offset)
            = u32le (image.drop r1.r_offset) := by
          apply u32le_drop_congr
          intro k hk
          exact getElem?_relocate c image r2 _ h2 (fun _ => by omega)
        conv_lhs => rw [relocate, if_pos t2, e1]
        conv_rhs => rw [relocate, if_pos t1, e2]
        simp only [relocate, if_pos t1, if_pos t2]
        exact writeAt_comm _ _ _ _ _ (by simp [le32_length]; omega)
          (by simpa [le32_length] using b1) (by simpa [le32_length] using b2)
    · simp only [relocate, if_neg t2]
  · simp only [relocate, if_neg t1]

theorem foldl_relocate_comm (b c : Nat) (l : List Reloc) (image : List Byte) (r : Reloc)
    (hl : ∀ x ∈ l, ELF32_R_TYPE x.r_info = R_ARM_ABS32 → x.r_offset + 4 ≤ image.length)
    (hr : ELF32_R_TYPE r.r_info = R_ARM_ABS32 → r.r_offset + 4 ≤ image.length)
    (hc : ∀ x ∈ l, compatibleReloc x r) :
    relocate c (l.foldl (relocate b) image) r = l.foldl (relocate b) (relocate c image r) := by
  induction l generalizing image with
  | nil => rfl
  | cons x l ih =>
    have hx := relocate_length b image x (hl x (by simp))
    rw [List.foldl_cons, List.foldl_cons, ih (relocate b image x)
      (fun y hy => by rw [hx]; exact hl y (by simp [hy])) (by rw [hx]; exact hr)
      (fun y hy => hc y (by simp [hy])),
      relocate_comm b c image x r (hl x (by simp)) hr (hc x (by simp))]

/-- Relocating twice by `b` is relocating once by `b + b`, for records that do not
interfere. -/
theorem foldl_relocate_twice (b : Nat) (l : List Reloc) (image : List Byte)
    (hl : ∀ x ∈ l, ELF32_R_TYPE x.r_info = R_ARM_ABS32 → x.r_offset + 4 ≤ image.length)
    (hc : l.Pairwise compatibleReloc) :
    l.foldl (relocate b) (l.foldl (relocate b) image) = l.foldl (relocate (b + b)) image := by
  induction l generalizing image with
  | nil => rfl
  | cons r l ih =>
    have hr := relocate_length b image r (hl r (by simp))
    have hr2 := relocate_length b (relocate b image r) r (by rw [hr]; exact hl r (by simp))
    have hl1 : ∀ x ∈ l, ELF32_R_TYPE x.r_info = R_ARM_ABS32 →
        x.r_offset + 4 ≤ (relocate b image r).length :=
      fun y hy => by rw [hr]; exact hl y (by simp [hy])
    have hcr : ∀ x ∈ l, compatibleReloc x r := by
      intro x hx t1 t2
      have := (List.pairwise_cons.mp hc).1 x hx t2 t1
      omega
    rw [List.foldl_cons, List.foldl_cons, List.foldl_cons,
      foldl_relocate_comm b b l (relocate b image r) r hl1 (by rw [hr]; exact hl r (by simp)) hcr,
      ih (relocate b (relocate b image r) r)
        (fun y hy => by rw [hr2, hr]; exact hl y (by simp [hy])) (List.pairwise_cons.mp hc).2,
      relocate_relocate_same b b image r (hl r (by simp))]

theorem foldl_relocate_mod (b : Nat) (l : List Reloc) (image : List Byte) :
    l.foldl (relocate (b % U32)) image = l.foldl (relocate b) image := by
  induction l generalizing image with
  | nil => rfl
  | cons r l ih => rw [List.foldl_cons, List.foldl_cons, ih, relocate_mod]
/-! ## The payload buffer -/

theorem storeAt_inv {v v' bs : List Byte} {target origin : Nat}
    (h : storeAt v target origin bs = .ok v') :
    v'.length = v.length
    ∧ ((bs = [] ∧ v' = v)
      ∨ (bs ≠ [] ∧ origin ≤ target ∧ target - origin + bs.length ≤ v.length
          ∧ v' = writeAt v (target - origin) bs)) := by
  simp only [storeAt] at h
  split at h
  · rename_i hnil
    simp only [Except.ok.injEq] at h
    exact ⟨by rw [h], Or.inl ⟨hnil, h.symm⟩⟩
  · rename_i hne
    split at h
    · rename_i hb
      simp only [Except.ok.injEq] at h
      subst h
      exact ⟨writeAt_length _ _ _ hb.2, Or.inr ⟨hne, hb.1, hb.2, rfl⟩⟩
    · simp at h

theorem readAt_inv {f bytes : List Byte} {off n : Nat} (h : readAt f off n = .ok bytes) :
    bytes = (f.drop off).take n ∧ bytes.length = n ∧ (0 < n → off + n ≤ f.length) := by
  simp only [readAt] at h
  split at h
  · rename_i h0
    simp only [Except.ok.injEq] at h
    subst h0 h
    simp
  · split at h
    · rename_i hb
      simp only [Except.ok.injEq] at h
      subst h
      refine ⟨rfl, ?_, fun _ => hb⟩
      simp
      omega
    · simp at h

theorem getElem?_resize (v : List Byte) (n i : Nat) :
    (resize v n)[i]? = if i < n then (if i < v.length then v[i]? else some 0) else none := by
  unfold resize
  by_cases h1 : i < n
  · rw [if_pos h1]
    by_cases h2 : i < v.length
    · rw [if_pos h2, List.getElem?_append_left (by simp; omega), List.getElem?_take_of_lt h1]
    · have hl : (v.take n).length = v.length := by simp; omega
      rw [if_neg h2, List.getElem?_append_right (by omega), hl,
        List.getElem?_replicate, if_pos (by omega)]
  · rw [if_neg h1]
    apply List.getElem?_eq_none
    simp
    omega

/-- The bytes of a buffer after `if (size() < n) resize(n)`. -/
theorem getElem?_grow (v : List Byte) (n i : Nat) :
    (if v.length < n then resize v n else v)[i]?
      = if i < v.length then v[i]? else if i < n then some 0 else none := by
  split
  · rw [getElem?_resize]
    by_cases h1 : i < v.length
    · simp [h1]; omega
    · simp [h1]
  · by_cases h1 : i < v.length
    · simp [h1]
    · rw [if_neg h1, if_neg (by omega)]
      exact List.getElem?_eq_none (by omega)

theorem length_grow (v : List Byte) (n : Nat) :
    (if v.length < n then resize v n else v).length = max v.length n := by
  split
  · rw [resize_length]; omega
  · omega

/-- What the file read of one segment does to the buffer. -/
theorem readSegment_inv {f image image' : List Byte} {segment : Elf32_Phdr}
    {physaddr origin : Nat} (h : readSegment f segment image physaddr origin = .ok image') :
    image'.length = image.length
    ∧ (0 < segment.p_filesz →
        origin ≤ physaddr ∧ physaddr - origin + segment.p_filesz ≤ image.length
        ∧ segment.p_offset + segment.p_filesz ≤ f.length)
    ∧ ∀ i, image'[i]?
        = if 0 < segment.p_filesz ∧ physaddr - origin ≤ i
            ∧ i < physaddr - origin + segment.p_filesz
          then f[segment.p_offset + (i - (physaddr - origin))]? else image[i]? := by
  simp only [readSegment] at h
  split at h
  · rename_i hpos
    simp only [bind_ok] at h
    obtain ⟨bytes, hread, hstore⟩ := h
    obtain ⟨hb, hbl, hbf⟩ := readAt_inv hread
    obtain ⟨hlen, hcase⟩ := storeAt_inv hstore
    have hne : bytes ≠ [] := by
      intro hnil
      rw [hnil] at hbl
      simp at hbl
      omega
    rcases hcase with ⟨hnil, -⟩ | ⟨-, ho, hbound, hv⟩
    · exact absurd hnil hne
    · rw [hbl] at hbound
      refine ⟨hlen, fun _ => ⟨ho, hbound, hbf hpos⟩, fun i => ?_⟩
      rw [hv, getElem?_writeAt _ _ _ _ (by rw [hbl]; exact hbound), hbl]
      by_cases h1 : i < physaddr - origin
      · rw [if_pos h1, if_neg (by omega)]
      · rw [if_neg h1]
        by_cases h2 : i < physaddr - origin + segment.p_filesz
        · rw [if_pos h2, if_pos ⟨hpos, by omega, h2⟩, hb, List.getElem?_take_of_lt (by omega),
            List.getElem?_drop]
        · rw [if_neg h2, if_neg (by omega)]
  · rename_i hz
    simp only [pure_ok] at h
    subst h
    refine ⟨rfl, fun hp => absurd hp hz, fun i => ?_⟩
    rw [if_neg (by omega)]

theorem kernelLimit_le (kd : Nat) (phdr : List Elf32_Phdr) (limit : Nat) :
    limit ≤ kernelLimit kd phdr limit := by
  induction phdr generalizing limit with
  | nil => exact le_refl _
  | cons s rest ih =>
    simp only [kernelLimit, List.foldl_cons] at ih ⊢
    split
    · exact le_trans (le_max_left _ _) (ih _)
    · exact ih _

theorem kernelLimit_lt (kd : Nat) (phdr : List Elf32_Phdr) (limit : Nat) (h : limit < U32) :
    kernelLimit kd phdr limit < U32 := by
  induction phdr generalizing limit with
  | nil => exact h
  | cons s rest ih =>
    simp only [kernelLimit, List.foldl_cons] at ih ⊢
    split
    · exact ih _ (max_lt h (add32_lt _ _))
    · exact ih _ h

theorem kernelLimit_mem (kd : Nat) (phdr : List Elf32_Phdr) (limit : Nat) (s : Elf32_Phdr)
    (hs : s ∈ phdr) (ht : s.p_type = PT_LOAD) :
    add32 (add32 s.p_vaddr kd) s.p_memsz ≤ kernelLimit kd phdr limit := by
  induction phdr generalizing limit with
  | nil => simp at hs
  | cons x rest ih =>
    rcases List.mem_cons.mp hs with rfl | hs
    · simp only [kernelLimit, List.foldl_cons, if_pos ht]
      exact le_trans (le_max_right _ _) (kernelLimit_le kd rest _)
    · simp only [kernelLimit, List.foldl_cons]
      exact ih _ hs

theorem kernelLimit_none (kd : Nat) (phdr : List Elf32_Phdr) (limit : Nat)
    (h : ∀ s ∈ phdr, s.p_type ≠ PT_LOAD) : kernelLimit kd phdr limit = limit := by
  induction phdr generalizing limit with
  | nil => rfl
  | cons x rest ih =>
    simp only [kernelLimit, List.foldl_cons, if_neg (h x (by simp))]
    exact ih _ (fun s hs => h s (by simp [hs]))

/-- The limit and the length of the buffer after the loop over the program headers of a
kernel. -/
theorem loadKernelSegments_length {f : List Byte} {ib kd : Nat} {phdr : List Elf32_Phdr}
    {image image' : List Byte} {limit limit' : Nat}
    (h : loadKernelSegments f ib kd phdr image limit = .ok (image', limit'))
    (hib : ib ≤ limit) (hl : limit < U32) :
    limit' = kernelLimit kd phdr limit
    ∧ (((∀ s ∈ phdr, s.p_type ≠ PT_LOAD) ∧ image'.length = image.length)
      ∨ ((∃ s ∈ phdr, s.p_type = PT_LOAD) ∧ image'.length = max image.length (limit' - ib))) := by
  induction phdr generalizing image limit with
  | nil =>
    simp only [loadKernelSegments, Except.ok.injEq, Prod.mk.injEq] at h
    obtain ⟨rfl, rfl⟩ := h
    exact ⟨rfl, Or.inl ⟨by simp, rfl⟩⟩
  | cons s rest ih =>
    simp only [loadKernelSegments] at h
    by_cases ht : s.p_type = PT_LOAD
    · rw [if_pos ht] at h
      simp only [bind_ok] at h
      obtain ⟨image2, hread, hloop⟩ := h
      obtain ⟨hlen2, -, -⟩ := readSegment_inv hread
      have hm : limit ≤ max limit (add32 (add32 s.p_vaddr kd) s.p_memsz) := le_max_left _ _
      have hm2 : max limit (add32 (add32 s.p_vaddr kd) s.p_memsz) < U32 :=
        max_lt hl (add32_lt _ _)
      obtain ⟨hlim, hcase⟩ := ih hloop (le_trans hib hm) hm2
      have hsub : sub32 (max limit (add32 (add32 s.p_vaddr kd) s.p_memsz)) ib
          = max limit (add32 (add32 s.p_vaddr kd) s.p_memsz) - ib :=
        sub32_of_le (le_trans hib hm) hm2
      rw [length_grow, hsub] at hlen2
      have hmono := kernelLimit_le kd rest (max limit (add32 (add32 s.p_vaddr kd) s.p_memsz))
      refine ⟨by simp only [kernelLimit, List.foldl_cons, if_pos ht]; exact hlim,
        Or.inr ⟨⟨s, by simp, ht⟩, ?_⟩⟩
      rw [← hlim] at hmono
      rcases hcase with ⟨hno, hsame⟩ | ⟨-, hmax⟩
      · rw [hsame, hlen2]
        have : limit' = max limit (add32 (add32 s.p_vaddr kd) s.p_memsz) := by
          rw [hlim]
          exact kernelLimit_none kd rest _ hno
        omega
      · rw [hmax, hlen2]
        omega
    · rw [if_neg ht] at h
      obtain ⟨hlim, hcase⟩ := ih h hib hl
      refine ⟨by simp only [kernelLimit, List.foldl_cons, if_neg ht]; exact hlim, ?_⟩
      rcases hcase with ⟨hno, hsame⟩ | ⟨⟨x, hx, hxt⟩, hmax⟩
      · refine Or.inl ⟨?_, hsame⟩
        intro x hx
        rcases List.mem_cons.mp hx with rfl | hx
        · exact ht
        · exact hno x hx
      · exact Or.inr ⟨⟨x, by simp [hx], hxt⟩, hmax⟩

/-- The kernel loader, in terms of the program headers of the file. -/
theorem loadKernelBody_inv {f : List Byte} {base : Nat} {st st' : Image} {size : Nat}
    (h : loadKernelBody f base st = .ok (st', size)) :
    ∃ image limit,
      loadKernelSegments f st.m_imageBase st.m_kernelDelta (programHeadersOf f) st.m_image base
        = .ok (image, limit)
      ∧ st' = { st with
          m_kernelEntryPoint := (parseEhdr (f.take sizeofEhdr)).e_entry, m_image := image }
      ∧ size = sub32 limit base := by
  simp only [loadKernelBody, bind_ok, pure_ok, Prod.mk.injEq] at h
  obtain ⟨hdr, hhdr, h⟩ := h
  obtain ⟨rfl, -, -⟩ := readAt_inv hhdr
  rw [List.drop_zero] at h
  split at h
  · simp [throw_ok, bind_ok] at h
  · simp only [bind_ok, pure_ok, Prod.mk.injEq] at h
    obtain ⟨_, -, ph, hph, ⟨img, limit⟩, hseg, h1, h2⟩ := h
    obtain ⟨rfl, -, -⟩ := readAt_inv hph
    exact ⟨img, limit, hseg, h1.symm, h2.symm⟩

/-- The loader of an "md_image" module: the buffer is resized to the end of the file bytes,
which are copied to `base`. -/
theorem loadBinaryBody_inv {f : List Byte} {base : Nat} {st st' : Image} {size : Nat}
    (h : loadBinaryBody f base st = .ok (st', size)) :
    size = f.length % U32
    ∧ st' = { st with m_image := st'.m_image }
    ∧ st'.m_image.length = sub32 (add32 base size) st.m_imageBase := by
  simp only [loadBinaryBody, bind_ok, pure_ok, Prod.mk.injEq] at h
  obtain ⟨bytes, -, img, hstore, h1, h2⟩ := h
  obtain ⟨hlen, -⟩ := storeAt_inv hstore
  subst h1 h2
  exact ⟨rfl, rfl, by rw [hlen, resize_length]⟩

/-- The parts of `placeModuleBody`. -/
theorem placeModuleBody_inv {host : Host} {mod : Module} {st st' : Image}
    (h : placeModuleBody host mod st = .ok st') :
    ∃ info f s1 size, m_moduleTypes mod.type = some info
      ∧ host.files mod.fileName = some f
      ∧ loadModuleBody info f (beforeBody host mod info st).m_allocationPointer
          (beforeBody host mod info st) = .ok (s1, size)
      ∧ st' = writeMetadata32 MODINFO_SIZE size
          (writeMetadata32 MODINFO_ADDR
            (sub32 (beforeBody host mod info st).m_allocationPointer s1.m_kernelDelta)
            (alignAllocationPointer 4096
              (s1.setCursor ((beforeBody host mod info st).m_allocationPointer + size)))) := by
  simp only [placeModuleBody, bind_ok] at h
  obtain ⟨info, hinfo, f, hf, ⟨s1, size⟩, hbody, h⟩ := h
  have hty : m_moduleTypes mod.type = some info := by
    simp only [lookupModuleType] at hinfo
    split at hinfo <;> simp_all
  have hfile : host.files mod.fileName = some f := by
    simp only [Host.openFile] at hf
    split at hf <;> simp_all
  simp only [pure_ok] at h
  refine ⟨info, f, s1, size, hty, hfile, hbody, ?_⟩
  rw [← h]
  rfl

theorem beforeBody_frame (host : Host) (mod : Module) (info : ModuleType) (st : Image) :
    (beforeBody host mod info st).m_image = st.m_image
    ∧ (beforeBody host mod info st).m_imageBase = st.m_imageBase := by
  cases info <;> simp [beforeBody, alignKernel]

theorem beforeBody_binary (host : Host) (mod : Module) (st : Image) :
    (beforeBody host mod .Binary st).m_allocationPointer = st.m_allocationPointer
    ∧ (beforeBody host mod .Binary st).cursorLog = st.cursorLog
    ∧ (beforeBody host mod .Binary st).m_kernelDelta = st.m_kernelDelta := by
  simp [beforeBody, alignKernel]

theorem beforeBody_kernel (host : Host) (mod : Module) (st : Image) :
    (beforeBody host mod .ElfKernel st).m_allocationPointer
      = (alignAllocationPointer 0x00100000 st).m_allocationPointer
    ∧ (beforeBody host mod .ElfKernel st).cursorLog
      = st.cursorLog ++ [⟨st.m_allocationPointer, st.m_allocationPointer + 1048575,
          (alignAllocationPointer 0x00100000 st).m_allocationPointer⟩]
    ∧ (beforeBody host mod .ElfKernel st).m_kernelDelta
      = sub32 (alignAllocationPointer 0x00100000 st).m_allocationPointer host.KERNEL_VADDR := by
  have e2 : (1048576 + (U32 - 1)) % U32 = 1048575 := by decide
  refine ⟨?_, ?_, ?_⟩
  · simp only [beforeBody, alignKernel, if_true]
    exact alignAllocationPointer_congr _ _ _ (by simp)
  · simp only [beforeBody, alignKernel, if_true, alignAllocationPointer_cursorLog, e2]
    simp
    exact alignAllocationPointer_congr _ _ _ (by simp)
  · simp only [beforeBody, alignKernel, if_true]
    rw [alignAllocationPointer_congr _ _ st (by simp)]

/-- The state after the body of a module is placed, in terms of the loader of its type:
`base` and `size` are the local variables of the C++ code. The buffer is the one the loader
leaves; the cursor goes to `base + size` and then up to the next multiple of `0x1000`. -/
theorem placeModuleBody_body {host : Host} {mod : Module} {st st' : Image}
    (h : placeModuleBody host mod st = .ok st') :
    ∃ info f s1 size base, m_moduleTypes mod.type = some info
      ∧ host.files mod.fileName = some f
      ∧ base = (beforeBody host mod info st).m_allocationPointer
      ∧ loadModuleBody info f base (beforeBody host mod info st) = .ok (s1, size)
      ∧ st'.m_image = s1.m_image
      ∧ st'.m_imageBase = st.m_imageBase
      ∧ st'.m_kernelDelta = (beforeBody host mod info st).m_kernelDelta
      ∧ st'.cursorLog = (beforeBody host mod info st).cursorLog
          ++ [⟨base, base + size, add32 base size⟩,
              ⟨add32 base size, add32 base size + 4095, st'.m_allocationPointer⟩]
      ∧ Trace base [⟨base, base + size, add32 base size⟩,
              ⟨add32 base size, add32 base size + 4095, st'.m_allocationPointer⟩]
          st'.m_allocationPointer := by
  obtain ⟨info, f, s1, size, hty, hf, hbody, rfl⟩ := placeModuleBody_inv h
  have e2 : (4096 + (U32 - 1)) % U32 = 4095 := by decide
  have hs1 : s1.m_allocationPointer = (beforeBody host mod info st).m_allocationPointer
      ∧ s1.cursorLog = (beforeBody host mod info st).cursorLog
      ∧ s1.m_imageBase = (beforeBody host mod info st).m_imageBase
      ∧ s1.m_kernelDelta = (beforeBody host mod info st).m_kernelDelta := by
    cases info with
    | ElfKernel =>
      obtain ⟨-, img, ep, hst⟩ := loadKernelBody_ok hbody
      rw [hst]
      exact ⟨rfl, rfl, rfl, rfl⟩
    | Binary =>
      obtain ⟨-, img, hst⟩ := loadBinaryBody_ok hbody
      rw [hst]
      exact ⟨rfl, rfl, rfl, rfl⟩
  obtain ⟨h1, h2, h3, h4⟩ := hs1
  refine ⟨info, f, s1, size, _, hty, hf, rfl, hbody, ?_, ?_, ?_, ?_, ?_⟩
  · simp [writeMetadata32, writeMetadata, alignAllocationPointer, Image.setCursor]
  · rw [← (beforeBody_frame host mod info st).2, ← h3]
    simp [writeMetadata32, writeMetadata, alignAllocationPointer, Image.setCursor]
  · rw [← h4]
    simp [writeMetadata32, writeMetadata, alignAllocationPointer, Image.setCursor]
  · simp only [writeMetadata32_cursorLog, alignAllocationPointer_cursorLog, e2,
      writeMetadata32_m_allocationPointer]
    simp [Image.setCursor, h1, h2, add32]
  · have h5 := (Step.setCursor s1 ((beforeBody host mod info st).m_allocationPointer + size)
      (by rw [h1]; exact Nat.le_add_right _ _)).trace
    have h6 := (Step.align 12 (by decide)
      (s1.setCursor ((beforeBody host mod info st).m_allocationPointer + size))).trace
    have e12 : (2 : Nat) ^ 12 = 4096 := by norm_num
    rw [e12, e2] at h6
    have := h5.append h6
    simpa [h1, add32] using this

/-- A DTB or ENVIRONMENT entry: the buffer is resized to the end of the `n` bytes copied at
the cursor, which goes to the end of the bytes and then up to the next multiple of `0x1000`. -/
theorem placeMetadataEntry_blob {host : Host} {md : ModuleMetadata} {st st' : Image}
    (h : placeMetadataEntry host md st = .ok st')
    (hmd : md.type = .DTB ∨ md.type = .ENVIRONMENT) :
    ∃ n, st'.m_image.length = sub32 (add32 st.m_allocationPointer n) st.m_imageBase
      ∧ st'.m_imageBase = st.m_imageBase
      ∧ st'.cursorLog = st.cursorLog
          ++ [⟨st.m_allocationPointer, st.m_allocationPointer + n,
                add32 st.m_allocationPointer n⟩,
              ⟨add32 st.m_allocationPointer n, add32 st.m_allocationPointer n + 4095,
                st'.m_allocationPointer⟩]
      ∧ Trace st.m_allocationPointer
          [⟨st.m_allocationPointer, st.m_allocationPointer + n,
                add32 st.m_allocationPointer n⟩,
              ⟨add32 st.m_allocationPointer n, add32 st.m_allocationPointer n + 4095,
                st'.m_allocationPointer⟩]
          st'.m_allocationPointer := by
  have e2 : (4096 + (U32 - 1)) % U32 = 4095 := by decide
  have e12 : (2 : Nat) ^ 12 = 4096 := by norm_num
  have key : ∀ (img : List Byte) (n type : Nat),
      img.length = sub32 (add32 st.m_allocationPointer n) st.m_imageBase →
      st' = writeMetadata32 type (sub32 st.m_allocationPointer st.m_kernelDelta)
        (alignAllocationPointer 4096
          (Image.setCursor { st with m_image := img } (st.m_allocationPointer + n))) →
      ∃ n, st'.m_image.length = sub32 (add32 st.m_allocationPointer n) st.m_imageBase
      ∧ st'.m_imageBase = st.m_imageBase
      ∧ st'.cursorLog = st.cursorLog
          ++ [⟨st.m_allocationPointer, st.m_allocationPointer + n,
                add32 st.m_allocationPointer n⟩,
              ⟨add32 st.m_allocationPointer n, add32 st.m_allocationPointer n + 4095,
                st'.m_allocationPointer⟩]
      ∧ Trace st.m_allocationPointer
          [⟨st.m_allocationPointer, st.m_allocationPointer + n,
                add32 st.m_allocationPointer n⟩,
              ⟨add32 st.m_allocationPointer n, add32 st.m_allocationPointer n + 4095,
                st'.m_allocationPointer⟩]
          st'.m_allocationPointer := by
    intro img n type hlen hst
    subst hst
    refine ⟨n, by simpa using hlen, by simp, ?_, ?_⟩
    · simp only [writeMetadata32_cursorLog, alignAllocationPointer_cursorLog, e2,
        writeMetadata32_m_allocationPointer]
      simp [Image.setCursor, add32]
    · have h5 := (Step.setCursor { st with m_image := img } (st.m_allocationPointer + n)
        (Nat.le_add_right _ _)).trace
      have h6 := (Step.align 12 (by decide)
        (Image.setCursor { st with m_image := img } (st.m_allocationPointer + n))).trace
      rw [e12, e2] at h6
      have := h5.append h6
      simpa [add32] using this
  rcases hmd with hmt | hmt
  · simp only [placeMetadataEntry, hmt, bind_ok, pure_ok] at h
    obtain ⟨f, -, bytes, -, img, hstore, h⟩ := h
    obtain ⟨hlen, -⟩ := storeAt_inv hstore
    exact key img (f.length % U32) _ (by rw [hlen, resize_length]) h.symm
  · simp only [placeMetadataEntry, hmt, bind_ok, pure_ok] at h
    obtain ⟨img, hstore, h⟩ := h
    obtain ⟨hlen, -⟩ := storeAt_inv hstore
    exact key img ((environmentBlock md.keyValuePairs).length % U32) _
      (by rw [hlen, resize_length]) h.symm

/-- A KERNEND or HOWTO entry leaves the buffer, the cursor and its history alone. -/
theorem placeMetadataEntry_record {host : Host} {md : ModuleMetadata} {st st' : Image}
    (h : placeMetadataEntry host md st = .ok st')
    (hmd : md.type = .KERNEND ∨ md.type = .HOWTO) :
    st'.m_image = st.m_image ∧ st'.m_imageBase = st.m_imageBase
      ∧ st'.m_allocationPointer = st.m_allocationPointer
      ∧ st'.cursorLog = st.cursorLog := by
  rcases hmd with hmt | hmt
  · simp only [placeMetadataEntry, hmt, pure_ok] at h
    subst h
    simp
  · simp only [placeMetadataEntry, hmt, bind_ok, pure_ok] at h
    obtain ⟨v, -, rfl⟩ := h
    simp

/-- The body of an "elf kernel" module placed when the cursor is at or above the image base
and its 1 MiB alignment does not wrap: `base` is the aligned cursor, `limit` the end of the
kernel, the buffer is the one the loop over the program headers leaves. -/
theorem placeKernelBody_payload {host : Host} {mod : Module} {st st' : Image}
    (h : placeModuleBody host mod st = .ok st')
    (hk : m_moduleTypes mod.type = some .ElfKernel)
    (hib : st.m_imageBase ≤ st.m_allocationPointer)
    (hw : st.m_allocationPointer + 1048575 < U32) :
    ∃ f base limit, host.files mod.fileName = some f
      ∧ base = (alignAllocationPointer 0x00100000 st).m_allocationPointer
      ∧ st.m_allocationPointer ≤ base ∧ base ≤ limit ∧ limit < U32
      ∧ st'.m_kernelDelta = sub32 base host.KERNEL_VADDR
      ∧ st'.m_imageBase = st.m_imageBase
      ∧ loadKernelSegments f st.m_imageBase (sub32 base host.KERNEL_VADDR) (programHeadersOf f)
          st.m_image base = .ok (st'.m_image, limit)
      ∧ limit = kernelLimit (sub32 base host.KERNEL_VADDR) (programHeadersOf f) base
      ∧ st'.cursorLog = st.cursorLog
          ++ [⟨st.m_allocationPointer, st.m_allocationPointer + 1048575, base⟩,
              ⟨base, limit, limit⟩, ⟨limit, limit + 4095, st'.m_allocationPointer⟩]
      ∧ (limit + 4095 < U32 → limit ≤ st'.m_allocationPointer) := by
  obtain ⟨info, f, s1, size, base, hty, hf, hbase, hbody, himg, hibs, hkd, hlog, htr⟩ :=
    placeModuleBody_body h
  rw [hk] at hty
  obtain rfl := Option.some.inj hty
  obtain ⟨hb1, hb2, hb3⟩ := beforeBody_kernel host mod st
  obtain ⟨hf1, hf2⟩ := beforeBody_frame host mod .ElfKernel st
  rw [hb1] at hbase
  have hg := align_good 20 (by decide) st
  have e20 : (2 : Nat) ^ 20 = 0x00100000 := by norm_num
  have e2 : (1048576 + (U32 - 1)) % U32 = 1048575 := by decide
  rw [e20, e2, ← hbase] at hg
  have hle : st.m_allocationPointer ≤ base := hg.2 hw
  simp only [loadModuleBody] at hbody
  obtain ⟨image, limit, hseg, hs1, hsize⟩ := loadKernelBody_inv hbody
  rw [hf1, hf2, hb3, ← hbase] at hseg
  obtain ⟨hlim, -⟩ := loadKernelSegments_length hseg (le_trans hib hle) hg.1
  have hl1 : base ≤ limit := by rw [hlim]; exact kernelLimit_le _ _ _
  have hl2 : limit < U32 := by rw [hlim]; exact kernelLimit_lt _ _ _ hg.1
  have hsz : size = limit - base := by rw [hsize]; exact sub32_of_le hl1 hl2
  have hadd : add32 base size = limit := by
    rw [add32, hsz, Nat.add_sub_cancel' hl1]
    exact Nat.mod_eq_of_lt hl2
  have hbs : base + size = limit := by rw [hsz]; omega
  rw [hadd, hbs] at hlog htr
  have hi : st'.m_image = image := by rw [himg, hs1]
  refine ⟨f, base, limit, hf, hbase, hle, hl1, hl2, ?_, hibs, ?_, hlim, ?_, ?_⟩
  · rw [hkd, hb3, hbase]
  · rw [hi]; exact hseg
  · rw [hlog, hb2, ← hbase]
    simp
  · intro hno
    simp only [Trace] at htr
    exact htr.2.2.2.2.2.1 hno

theorem sub32_add32_of_le {a n b : Nat} (h : b ≤ a) (hn : a + n < U32) :
    sub32 (add32 a n) b = a + n - b := by
  rw [add32, Nat.mod_eq_of_lt hn]
  exact sub32_of_le (by omega) hn

/-- A metadata entry keeps the payload buffer below the cursor. -/
theorem placeMetadataEntry_fits {host : Host} {md : ModuleMetadata} {st st' : Image}
    (h : placeMetadataEntry host md st = .ok st') (hfit : PayloadFits st)
    (hw : ∀ e ∈ st'.cursorLog, e.raw < U32) : PayloadFits st' := by
  have hcases : (md.type = .DTB ∨ md.type = .ENVIRONMENT)
      ∨ (md.type = .KERNEND ∨ md.type = .HOWTO) := by
    cases md.type <;> simp
  rcases hcases with hmd | hmd
  · obtain ⟨n, hlen, hibs, hlog, htr⟩ := placeMetadataEntry_blob h hmd
    have w1 := hw ⟨st.m_allocationPointer, st.m_allocationPointer + n,
      add32 st.m_allocationPointer n⟩ (by rw [hlog]; simp)
    have w2 := hw ⟨add32 st.m_allocationPointer n, add32 st.m_allocationPointer n + 4095,
      st'.m_allocationPointer⟩ (by rw [hlog]; simp)
    simp only at w1 w2
    simp only [Trace] at htr
    have h2 := htr.2.2.2.2.2.1 w2
    have hadd : add32 st.m_allocationPointer n = st.m_allocationPointer + n := by
      rw [add32, Nat.mod_eq_of_lt w1]
    rw [hadd] at h2
    rw [sub32_add32_of_le hfit.1 w1] at hlen
    unfold PayloadFits
    rw [hibs, hlen]
    have := hfit.1
    omega
  · obtain ⟨h1, h2, h3, -⟩ := placeMetadataEntry_record h hmd
    unfold PayloadFits
    rw [h1, h2, h3]
    exact hfit

theorem placeMetadataEntries_fits {host : Host} {mds : List ModuleMetadata} {st st' : Image}
    (h : placeMetadataEntries host mds st = .ok st') (hfit : PayloadFits st)
    (hw : ∀ e ∈ st'.cursorLog, e.raw < U32) : PayloadFits st' := by
  induction mds generalizing st with
  | nil =>
    simp only [placeMetadataEntries, Except.ok.injEq] at h
    subst h
    exact hfit
  | cons md rest ih =>
    simp only [placeMetadataEntries, bind_ok] at h
    obtain ⟨s1, h1, h2⟩ := h
    obtain ⟨ws, evs, hs, -⟩ := placeMetadataEntries_step h2
    exact ih h2 (placeMetadataEntry_fits h1 hfit
      (fun e he => hw e (by rw [hs.log]; simp [he])))

/-- The body of a module keeps the payload buffer below the cursor. -/
theorem placeModuleBody_fits {host : Host} {mod : Module} {st st' : Image}
    (h : placeModuleBody host mod st = .ok st') (hfit : PayloadFits st)
    (hw : ∀ e ∈ st'.cursorLog, e.raw < U32) : PayloadFits st' := by
  obtain ⟨info, f, s1, size, base, hty, hf, hbase, hbody, himg, hibs, hkd, hlog, htr⟩ :=
    placeModuleBody_body h
  cases info with
  | ElfKernel =>
    have hlog1 := (beforeBody_kernel host mod st).2.1
    have w0 := hw ⟨st.m_allocationPointer, st.m_allocationPointer + 1048575,
      (alignAllocationPointer 0x00100000 st).m_allocationPointer⟩
      (by rw [hlog, hlog1]; simp)
    simp only at w0
    obtain ⟨f, base, limit, -, -, hle, hl1, hl2, -, hibs, hseg, -, hlog, hup⟩ :=
      placeKernelBody_payload h hty hfit.1 w0
    have w2 := hw ⟨limit, limit + 4095, st'.m_allocationPointer⟩ (by rw [hlog]; simp)
    simp only at w2
    have h2 := hup w2
    obtain ⟨-, hc⟩ := loadKernelSegments_length hseg (le_trans hfit.1 hle)
      (lt_of_le_of_lt hl1 hl2)
    unfold PayloadFits
    rw [hibs]
    have := hfit.1
    have := hfit.2
    rcases hc with ⟨-, hc⟩ | ⟨-, hc⟩
    · rw [hc]; omega
    · rw [hc]; omega
  | Binary =>
    obtain ⟨hb1, hb2, hb3⟩ := beforeBody_binary host mod st
    rw [hb1] at hbase
    subst hbase
    simp only [loadModuleBody] at hbody
    obtain ⟨-, -, hlen⟩ := loadBinaryBody_inv hbody
    rw [(beforeBody_frame host mod .Binary st).2] at hlen
    have w1 := hw ⟨st.m_allocationPointer, st.m_allocationPointer + size,
      add32 st.m_allocationPointer size⟩ (by rw [hlog]; simp)
    have w2 := hw ⟨add32 st.m_allocationPointer size, add32 st.m_allocationPointer size + 4095,
      st'.m_allocationPointer⟩ (by rw [hlog]; simp)
    simp only at w1 w2
    simp only [Trace] at htr
    have h2 := htr.2.2.2.2.2.1 w2
    have hadd : add32 st.m_allocationPointer size = st.m_allocationPointer + size := by
      rw [add32, Nat.mod_eq_of_lt w1]
    rw [hadd] at h2
    rw [sub32_add32_of_le hfit.1 w1] at hlen
    unfold PayloadFits
    rw [hibs, himg, hlen]
    have := hfit.1
    omega

theorem placeModule_fits {host : Host} {mod : Module} {st st' : Image}
    (h : placeModule host mod st = .ok st') (hfit : PayloadFits st)
    (hw : ∀ e ∈ st'.cursorLog, e.raw < U32) : PayloadFits st' := by
  simp only [placeModule, bind_ok] at h
  obtain ⟨s1, h1, h2⟩ := h
  obtain ⟨ws, evs, hs, -⟩ := placeMetadataEntries_step h2
  exact placeMetadataEntries_fits h2 (placeModuleBody_fits h1 hfit
    (fun e he => hw e (by rw [hs.log]; simp [he]))) hw

/-- The module loop keeps the payload buffer below the cursor, as long as the cursor does
not wrap. -/
theorem placeModules_fits {host : Host} {mods : List Module} {st st' : Image}
    (h : placeModules host mods st = .ok st') (hfit : PayloadFits st)
    (hw : ∀ e ∈ st'.cursorLog, e.raw < U32) : PayloadFits st' := by
  induction mods generalizing st with
  | nil =>
    simp only [placeModules, Except.ok.injEq] at h
    subst h
    exact hfit
  | cons m rest ih =>
    simp only [placeModules, bind_ok] at h
    obtain ⟨s1, h1, h2⟩ := h
    obtain ⟨ws, evs, hs, -⟩ := placeModules_step h2
    exact ih h2 (placeModule_fits h1 hfit
      (fun e he => hw e (by rw [hs.log]; simp [he])))

theorem kernelPlacedS1_ok :
    placeModuleBody sampleHost sampleModule startS1 = .ok kernelPlacedS1 :=
  accepted_eq _ (by decide!)

/-- The states of the module loop before and after the body of one module of the list. -/
theorem placeModules_split {host : Host} {pre rest : List Module} {m : Module} {s s' : Image}
    (h : placeModules host (pre ++ m :: rest) s = .ok s') :
    ∃ s1 s2 s3, placeModules host pre s = .ok s1 ∧ placeModuleBody host m s1 = .ok s2
      ∧ placeMetadataEntries host m.metadata s2 = .ok s3
      ∧ placeModules host rest s3 = .ok s' := by
  rw [placeModules_append, bind_ok] at h
  obtain ⟨s1, h1, h2⟩ := h
  simp only [placeModules, placeModule, bind_ok] at h2
  obtain ⟨s3, ⟨s2, hb, he⟩, hr⟩ := h2
  exact ⟨s1, s2, s3, h1, hb, he, hr⟩

theorem getLast?_two {α : Type} (l : List α) (a b : α) : (l ++ [a, b]).getLast? = some b := by
  have : l ++ [a, b] = (l ++ [a]) ++ [b] := by simp
  rw [this, List.getLast?_concat]
/-! ## The segments of a kernel -/

theorem u32le_lt (bs : List Byte) : u32le bs < U32 := by
  unfold u32le
  have h0 := (bs.getD 0 0).isLt
  have h1 := (bs.getD 1 0).isLt
  have h2 := (bs.getD 2 0).isLt
  have h3 := (bs.getD 3 0).isLt
  simp only [U32]
  omega

theorem loadKernelSegments_length_le {f : List Byte} {ib kd : Nat} {phdr : List Elf32_Phdr}
    {image image' : List Byte} {limit limit' : Nat}
    (h : loadKernelSegments f ib kd phdr image limit = .ok (image', limit'))
    (hib : ib ≤ limit) (hl : limit < U32) : image.length ≤ image'.length := by
  obtain ⟨-, hc⟩ := loadKernelSegments_length h hib hl
  rcases hc with ⟨-, hc⟩ | ⟨-, hc⟩ <;> omega

/-- The bytes of the buffer that no segment of the kernel is read into: they are the bytes
of before the loop, and zero where the loop made the buffer longer. -/
theorem loadKernelSegments_outside {f : List Byte} {ib kd : Nat} {phdr : List Elf32_Phdr}
    {image image' : List Byte} {limit limit' : Nat}
    (h : loadKernelSegments f ib kd phdr image limit = .ok (image', limit'))
    (hib : ib ≤ limit) (hl : limit < U32) (i : Nat)
    (hi : ∀ p ∈ phdr, ¬ inFileRange p (add32 p.p_vaddr kd) ib i) :
    image'[i]? = if i < image.length then image[i]?
      else if i < image'.length then some 0 else none := by
  induction phdr generalizing image limit with
  | nil =>
    simp only [loadKernelSegments, Except.ok.injEq, Prod.mk.injEq] at h
    obtain ⟨rfl, rfl⟩ := h
    by_cases h1 : i < image.length
    · simp [h1]
    · simp [h1]
      omega
  | cons s rest ih =>
    simp only [loadKernelSegments] at h
    by_cases ht : s.p_type = PT_LOAD
    · rw [if_pos ht] at h
      simp only [bind_ok] at h
      obtain ⟨image2, hread, hloop⟩ := h
      obtain ⟨hlen2, -, hget⟩ := readSegment_inv hread
      have hm : limit ≤ max limit (add32 (add32 s.p_vaddr kd) s.p_memsz) := le_max_left _ _
      have hm2 : max limit (add32 (add32 s.p_vaddr kd) s.p_memsz) < U32 :=
        max_lt hl (add32_lt _ _)
      have hrec := ih hloop (le_trans hib hm) hm2 (fun p hp => hi p (by simp [hp]))
      have hmono := loadKernelSegments_length_le hloop (le_trans hib hm) hm2
      have hnot := hi s (by simp)
      have h2 := hget i
      rw [if_neg (by
        intro hc
        exact hnot ⟨ht, hc.1, hc.2.1, hc.2.2⟩), getElem?_grow] at h2
      rw [length_grow] at hlen2
      rw [hrec, h2, hlen2]
      by_cases h1 : i < image.length
      · rw [if_pos h1, if_pos (by omega), if_pos h1]
      · rw [if_neg h1, if_neg h1]
        by_cases h3 : i < sub32 (max limit (add32 (add32 s.p_vaddr kd) s.p_memsz)) ib
        · rw [if_pos h3, if_pos (by omega), if_pos (by omega)]
        · rw [if_neg h3, if_neg (by omega)]
    · rw [if_neg ht] at h
      exact ih h hib hl (fun p hp => hi p (by simp [hp]))

/-- The bytes of a segment of the kernel whose file range no later segment is read into:
they are in bounds of the buffer and of the file, and they are the bytes of the file. -/
theorem loadKernelSegments_inside {f : List Byte} {ib kd : Nat} {phdr : List Elf32_Phdr}
    {image image' : List Byte} {limit limit' : Nat}
    (h : loadKernelSegments f ib kd phdr image limit = .ok (image', limit'))
    (hib : ib ≤ limit) (hl : limit < U32)
    (hdis : phdr.Pairwise (fun a b =>
      ∀ i, inFileRange a (add32 a.p_vaddr kd) ib i → ¬ inFileRange b (add32 b.p_vaddr kd) ib i))
    (p : Elf32_Phdr) (hp : p ∈ phdr) (ht : p.p_type = PT_LOAD) (hf : 0 < p.p_filesz) :
    ib ≤ add32 p.p_vaddr kd
    ∧ add32 p.p_vaddr kd - ib + p.p_filesz ≤ image'.length
    ∧ p.p_offset + p.p_filesz ≤ f.length
    ∧ ∀ k, k < p.p_filesz → image'[add32 p.p_vaddr kd - ib + k]? = f[p.p_offset + k]? := by
  induction phdr generalizing image limit with
  | nil => simp at hp
  | cons s rest ih =>
    simp only [loadKernelSegments] at h
    rw [List.pairwise_cons] at hdis
    by_cases hts : s.p_type = PT_LOAD
    · rw [if_pos hts] at h
      simp only [bind_ok] at h
      obtain ⟨image2, hread, hloop⟩ := h
      have hm : limit ≤ max limit (add32 (add32 s.p_vaddr kd) s.p_memsz) := le_max_left _ _
      have hm2 : max limit (add32 (add32 s.p_vaddr kd) s.p_memsz) < U32 :=
        max_lt hl (add32_lt _ _)
      rcases List.mem_cons.mp hp with rfl | hp
      · obtain ⟨hlen2, hb, hget⟩ := readSegment_inv hread
        obtain ⟨hb1, hb2, hb3⟩ := hb hf
        have hmono := loadKernelSegments_length_le hloop (le_trans hib hm) hm2
        rw [← hlen2] at hb2
        refine ⟨hb1, by omega, hb3, fun k hk => ?_⟩
        have hout := loadKernelSegments_outside hloop (le_trans hib hm) hm2
          (add32 p.p_vaddr kd - ib + k)
          (fun q hq => hdis.1 q hq _ ⟨ht, hf, by omega, by omega⟩)
        rw [hout, if_pos (by omega), hget, if_pos ⟨hf, by omega, by omega⟩]
        congr 2
        omega
      · exact ih hloop (le_trans hib hm) hm2 hdis.2 hp
    · rw [if_neg hts] at h
      rcases List.mem_cons.mp hp with rfl | hp
      · exact absurd ht hts
      · exact ih h hib hl hdis.2 hp

/-- The end of a kernel is the image base of the loop or the end of one of its segments. -/
theorem kernelLimit_cases (kd : Nat) (phdr : List Elf32_Phdr) (limit : Nat) :
    kernelLimit kd phdr limit = limit
    ∨ ∃ p ∈ phdr, p.p_type = PT_LOAD
        ∧ kernelLimit kd phdr limit = add32 (add32 p.p_vaddr kd) p.p_memsz := by
  induction phdr generalizing limit with
  | nil => exact Or.inl rfl
  | cons s rest ih =>
    simp only [kernelLimit, List.foldl_cons] at ih ⊢
    by_cases hts : s.p_type = PT_LOAD
    · rw [if_pos hts]
      rcases ih (max limit (add32 (add32 s.p_vaddr kd) s.p_memsz)) with h | ⟨p, hp, hpt, h⟩
      · rw [h]
        rcases le_total limit (add32 (add32 s.p_vaddr kd) s.p_memsz) with hle | hle
        · exact Or.inr ⟨s, by simp, hts, max_eq_right hle⟩
        · exact Or.inl (max_eq_left hle)
      · exact Or.inr ⟨p, by simp [hp], hpt, h⟩
    · rw [if_neg hts]
      rcases ih limit with h | ⟨p, hp, hpt, h⟩
      · exact Or.inl h
      · exact Or.inr ⟨p, by simp [hp], hpt, h⟩

/-- The SIZE record of an "elf kernel" module: the stream ends with it, and it carries the
end of the kernel minus its physical base. -/
theorem placeKernelBody_record {host : Host} {mod : Module} {st st' : Image}
    (h : placeModuleBody host mod st = .ok st')
    (hk : m_moduleTypes mod.type = some .ElfKernel)
    (hib : st.m_imageBase ≤ st.m_allocationPointer)
    (hw : st.m_allocationPointer + 1048575 < U32) :
    ∃ ws, st'.m_metadata = ws ++ [ MODINFO_SIZE, 4,
      kernelLimit st'.m_kernelDelta
          (programHeadersOf ((host.files mod.fileName).getD []))
          (alignAllocationPointer 0x00100000 st).m_allocationPointer
        - (alignAllocationPointer 0x00100000 st).m_allocationPointer] := by
  obtain ⟨f, base, limit, hf, hbase, hle, hl1, hl2, hkd, hibs, hseg, hlim, hlog, hup⟩ :=
    placeKernelBody_payload h hk hib hw
  obtain ⟨info, f2, s1, size, hinfo, hf2, hbody, hst⟩ := placeModuleBody_inv h
  rw [hk] at hinfo
  obtain rfl := Option.some.inj hinfo
  rw [hf] at hf2
  obtain rfl := Option.some.inj hf2
  obtain ⟨hb1, hb2, hb3⟩ := beforeBody_kernel host mod st
  obtain ⟨hf1, hf2⟩ := beforeBody_frame host mod .ElfKernel st
  simp only [loadModuleBody] at hbody
  obtain ⟨image, limit2, hseg2, hs1, hsize⟩ := loadKernelBody_inv hbody
  rw [hf1, hf2, hb3, hb1, ← hbase] at hseg2
  rw [hseg] at hseg2
  have hl : limit = limit2 := (Prod.mk.inj (Except.ok.inj hseg2)).2
  rw [hb1, ← hbase, ← hl] at hsize
  have hsz : size = limit - base := by rw [hsize]; exact sub32_of_le hl1 hl2
  have hlt : size < U32 := by rw [hsize]; exact sub32_lt _ _
  rw [hkd, hf, Option.getD_some, ← hbase, ← hlim, hst,
    writeMetadata32_m_metadata _ _ _ hlt, hsz]
  exact ⟨_, rfl⟩

/-- The physical address of a segment at or above `KERNEL_VADDR`. -/
theorem physaddr_eq {base kv v : Nat} (hkv : kv ≤ v) (hv : base + (v - kv) < U32)
    (hvl : v < U32) : add32 v (sub32 base kv) = base + (v - kv) := by
  have hkv2 : kv % U32 = kv := Nat.mod_eq_of_lt (by omega)
  simp only [add32, sub32, hkv2]
  simp only [U32] at *
  omega

theorem programHeadersOf_vaddr_lt (f : List Byte) (p : Elf32_Phdr)
    (hp : p ∈ programHeadersOf f) : p.p_vaddr < U32 := by
  simp only [programHeadersOf, List.mem_map] at hp
  obtain ⟨bs, -, rfl⟩ := hp
  exact u32le_lt _

theorem segmentsDisjoint_symm : Symmetric segmentsDisjoint := by
  intro a b hab hb ha
  exact (hab ha hb).symm

/-- The physical addresses of the `PT_LOAD` segments of a kernel whose segments are at or
above `KERNEL_VADDR` and do not wrap. -/
theorem kernel_physaddr {f : List Byte} {base kv : Nat}
    (hvs : ∀ p ∈ programHeadersOf f, p.p_type = PT_LOAD →
      kv ≤ p.p_vaddr ∧ base + (p.p_vaddr - kv) + max p.p_filesz p.p_memsz < U32)
    (q : Elf32_Phdr) (hq : q ∈ programHeadersOf f) (hqt : q.p_type = PT_LOAD) :
    add32 q.p_vaddr (sub32 base kv) = base + (q.p_vaddr - kv)
    ∧ add32 (add32 q.p_vaddr (sub32 base kv)) q.p_memsz = base + (q.p_vaddr - kv) + q.p_memsz
    ∧ kv ≤ q.p_vaddr
    ∧ base + (q.p_vaddr - kv) + q.p_filesz < U32
    ∧ base + (q.p_vaddr - kv) + q.p_memsz < U32 := by
  obtain ⟨k1, k2⟩ := hvs q hq hqt
  have hl := le_max_left q.p_filesz q.p_memsz
  have hr := le_max_right q.p_filesz q.p_memsz
  have e1 := physaddr_eq k1 (by omega : base + (q.p_vaddr - kv) < U32)
    (programHeadersOf_vaddr_lt f q hq)
  refine ⟨e1, ?_, k1, by omega, by omega⟩
  rw [e1, add32]
  exact Nat.mod_eq_of_lt (by omega)

/-- Segments that do not overlap are read into disjoint parts of the buffer. -/
theorem kernel_fileRanges {f : List Byte} {base kv ib : Nat} (hib : ib ≤ base)
    (hvs : ∀ p ∈ programHeadersOf f, p.p_type = PT_LOAD →
      kv ≤ p.p_vaddr ∧ base + (p.p_vaddr - kv) + max p.p_filesz p.p_memsz < U32)
    (hdis : (programHeadersOf f).Pairwise segmentsDisjoint) :
    (programHeadersOf f).Pairwise (fun a b =>
      ∀ i, inFileRange a (add32 a.p_vaddr (sub32 base kv)) ib i →
        ¬ inFileRange b (add32 b.p_vaddr (sub32 base kv)) ib i) := by
  refine List.Pairwise.imp_of_mem ?_ hdis
  intro a b ha hb hab i hia hib
  obtain ⟨ka1, -, ka3, ka4, -⟩ := kernel_physaddr hvs a ha hia.1
  obtain ⟨kb1, -, kb3, kb4, -⟩ := kernel_physaddr hvs b hb hib.1
  have hd := hab hia.1 hib.1
  obtain ⟨-, -, a3, a4⟩ := hia
  obtain ⟨-, -, b3, b4⟩ := hib
  rw [ka1] at a3 a4
  rw [kb1] at b3 b4
  have := le_max_left a.p_filesz a.p_memsz
  have := le_max_left b.p_filesz b.p_memsz
  omega

/-- The bytes between the file data and the end of a segment of the kernel are zero. -/
theorem loadKernelSegments_zero {f : List Byte} {base kv ib limit : Nat}
    {image image' : List Byte}
    (hseg : loadKernelSegments f ib (sub32 base kv) (programHeadersOf f) image base
      = .ok (image', limit))
    (hib : ib ≤ base) (hl : base < U32) (hlen : image.length ≤ base - ib)
    (hvs : ∀ p ∈ programHeadersOf f, p.p_type = PT_LOAD →
      kv ≤ p.p_vaddr ∧ base + (p.p_vaddr - kv) + max p.p_filesz p.p_memsz < U32)
    (hdis : (programHeadersOf f).Pairwise segmentsDisjoint)
    (p : Elf32_Phdr) (hp : p ∈ programHeadersOf f) (hpt : p.p_type = PT_LOAD) (i : Nat)
    (hi1 : base + (p.p_vaddr - kv) - ib + p.p_filesz ≤ i)
    (hi2 : i < base + (p.p_vaddr - kv) + p.p_memsz - ib) :
    image'[i]? = some 0 := by
  obtain ⟨hlim, hc⟩ := loadKernelSegments_length hseg hib hl
  have hlen2 : image'.length = max image.length (limit - ib) := by
    rcases hc with ⟨hnone, -⟩ | ⟨-, hlen⟩
    · exact absurd hpt (hnone p hp)
    · exact hlen
  clear hc
  have hlp := kernelLimit_mem (sub32 base kv) (programHeadersOf f) base p hp hpt
  rw [← hlim, (kernel_physaddr hvs p hp hpt).2.1] at hlp
  obtain ⟨-, -, kp3, -, -⟩ := kernel_physaddr hvs p hp hpt
  have hout := loadKernelSegments_outside hseg hib hl i (by
    intro q hq hqr
    obtain ⟨qt, qf, q3, q4⟩ := hqr
    obtain ⟨kq1, -, kq3, -, -⟩ := kernel_physaddr hvs q hq qt
    rw [kq1] at q3 q4
    by_cases hqp : q = p
    · subst hqp
      omega
    · have hd := hdis.forall segmentsDisjoint_symm hq hp hqp qt hpt
      have := le_max_left q.p_filesz q.p_memsz
      have := le_max_right p.p_filesz p.p_memsz
      omega)
  rw [hout, if_neg (by omega), if_pos (by rw [hlen2]; omega)]

/-- The file bytes of a segment of the kernel, in the buffer after the loop. -/
theorem loadKernelSegments_bytes {f : List Byte} {base kv ib limit : Nat}
    {image image' : List Byte}
    (hseg : loadKernelSegments f ib (sub32 base kv) (programHeadersOf f) image base
      = .ok (image', limit))
    (hib : ib ≤ base) (hl : base < U32)
    (hvs : ∀ p ∈ programHeadersOf f, p.p_type = PT_LOAD →
      kv ≤ p.p_vaddr ∧ base + (p.p_vaddr - kv) + max p.p_filesz p.p_memsz < U32)
    (hdis : (programHeadersOf f).Pairwise segmentsDisjoint)
    (p : Elf32_Phdr) (hp : p ∈ programHeadersOf f) (hpt : p.p_type = PT_LOAD) :
    base + (p.p_vaddr - kv) - ib + p.p_filesz ≤ image'.length
    ∧ ∀ k, k < p.p_filesz → p.p_offset + k < f.length
        ∧ image'[base + (p.p_vaddr - kv) - ib + k]? = f[p.p_offset + k]? := by
  obtain ⟨kp1, kp2, kp3, kp4, kp5⟩ := kernel_physaddr hvs p hp hpt
  by_cases hfz : 0 < p.p_filesz
  · obtain ⟨i1, i2, i3, i4⟩ := loadKernelSegments_inside hseg hib hl
      (kernel_fileRanges hib hvs hdis) p hp hpt hfz
    rw [kp1] at i2 i4
    exact ⟨i2, fun k hk => ⟨by omega, i4 k hk⟩⟩
  · have hz : p.p_filesz = 0 := by omega
    obtain ⟨hlim, hc⟩ := loadKernelSegments_length hseg hib hl
    have hlen2 : image'.length = max image.length (limit - ib) := by
      rcases hc with ⟨hnone, -⟩ | ⟨-, hlen⟩
      · exact absurd hpt (hnone p hp)
      · exact hlen
    clear hc
    have hlp := kernelLimit_mem (sub32 base kv) (programHeadersOf f) base p hp hpt
    rw [← hlim, kp2] at hlp
    exact ⟨by rw [hlen2, hz]; omega, fun k hk => absurd hk (by omega)⟩

/-- The size of a kernel: 0 without a `PT_LOAD` segment, else the end of the segment that
ends last, minus the base. -/
theorem kernelLimit_size {f : List Byte} {base kv : Nat} (hl : base < U32)
    (hvs : ∀ p ∈ programHeadersOf f, p.p_type = PT_LOAD →
      kv ≤ p.p_vaddr ∧ base + (p.p_vaddr - kv) + max p.p_filesz p.p_memsz < U32) :
    ((∀ p ∈ programHeadersOf f, p.p_type ≠ PT_LOAD) →
      kernelLimit (sub32 base kv) (programHeadersOf f) base - base = 0)
    ∧ ((∃ p ∈ programHeadersOf f, p.p_type = PT_LOAD) →
        ∃ p ∈ programHeadersOf f, p.p_type = PT_LOAD
          ∧ kernelLimit (sub32 base kv) (programHeadersOf f) base - base
              = sub32 (add32 (add32 p.p_vaddr (sub32 base kv)) p.p_memsz) base
          ∧ ∀ q ∈ programHeadersOf f, q.p_type = PT_LOAD →
              add32 (add32 q.p_vaddr (sub32 base kv)) q.p_memsz
                ≤ add32 (add32 p.p_vaddr (sub32 base kv)) p.p_memsz) := by
  have hl1 := kernelLimit_le (sub32 base kv) (programHeadersOf f) base
  have hl2 := kernelLimit_lt (sub32 base kv) (programHeadersOf f) base hl
  refine ⟨fun hnone => ?_, fun hex => ?_⟩
  · rw [kernelLimit_none _ _ _ hnone]
    omega
  · obtain ⟨p0, hp0, hpt0⟩ := hex
    rcases kernelLimit_cases (sub32 base kv) (programHeadersOf f) base
      with hc1 | ⟨p, hp, hpt, hc2⟩
    · have hq := kernelLimit_mem (sub32 base kv) (programHeadersOf f) base p0 hp0 hpt0
      obtain ⟨-, k2, -, -, -⟩ := kernel_physaddr hvs p0 hp0 hpt0
      have hend0 : add32 (add32 p0.p_vaddr (sub32 base kv)) p0.p_memsz = base := by
        rw [hc1] at hq
        rw [k2] at hq ⊢
        omega
      refine ⟨p0, hp0, hpt0, ?_, fun q hq hqt => ?_⟩
      · rw [hend0, sub32_of_le (le_refl _) hl, hc1]
      · rw [hend0]
        have := kernelLimit_mem (sub32 base kv) (programHeadersOf f) base q hq hqt
        rw [hc1] at this
        exact this
    · refine ⟨p, hp, hpt, ?_, fun q hq hqt => ?_⟩
      · rw [← hc2, sub32_of_le hl1 hl2]
      · rw [← hc2]
        exact kernelLimit_mem (sub32 base kv) (programHeadersOf f) base q hq hqt

/-- Scenario S4 is accepted, and what the placement of its kernel leaves. -/
theorem scenarioS4 :
    accepted (build hostS4 blueprintS4 {}) = true
    ∧ accepted (placeModuleBody hostS4 moduleS4 startS4) = true
    ∧ (∀ e ∈ kernelPlacedS4.cursorLog, e.raw < U32)
    ∧ startS4.m_allocationPointer = 0x80000000
    ∧ kernelPlacedS4.m_image.take 0x20
        = List.replicate 0x10 0xAA ++ List.replicate 0x10 0
    ∧ (kernelPlacedS4.m_image.drop 0x100).take 8 = List.replicate 8 0xBB
    ∧ kernelPlacedS4.m_metadata.drop (kernelPlacedS4.m_metadata.length - 3)
        = [ MODINFO_SIZE, 4, 0x108] := by
  decide!

theorem buildS4_accepted :
    build hostS4 blueprintS4 {} = .ok (resultOf (build hostS4 blueprintS4 {})) :=
  accepted_eq _ scenarioS4.1

theorem kernelPlacedS4_ok :
    placeModuleBody hostS4 moduleS4 startS4 = .ok kernelPlacedS4 :=
  accepted_eq _ scenarioS4.2.1

theorem programHeadersS4 :
    programHeadersOf sampleKernel2
      = [⟨PT_LOAD, 116, 0xC0000000, 0xC0000000, 0x10, 0x20, 7, 4096⟩,
          ⟨PT_LOAD, 132, 0xC0000100, 0xC0000100, 8, 8, 7, 4096⟩] := by decide!
/-! ## The segments of an executable -/

theorem fileLimit_append (base : Nat) (a b : List Elf32_Phdr) (limit : Nat) :
    fileLimit base (a ++ b) limit = fileLimit base b (fileLimit base a limit) := by
  simp [fileLimit, List.foldl_append]

/-- The parts of `loadExecutable`: the file, the entry, the loop over the program headers
and the loop over the section headers. -/
theorem loadExecutable_inv {host : Host} {executable image0 image : List Byte}
    {st st' : Image} {entry : Nat}
    (h : loadExecutable host executable image0 st = .ok (st', image, entry)) :
    ∃ f loaded limit allocationLimit,
      host.files executable = some f
      ∧ entry = add32 (parseEhdr (f.take sizeofEhdr)).e_entry st.m_allocationPointer
      ∧ loadExecutableSegments f st.m_allocationPointer (programHeadersOf f) image0
          st.m_allocationPointer st.m_allocationPointer = .ok (loaded, limit, allocationLimit)
      ∧ processSections f st.m_allocationPointer (sectionHeadersOf f) loaded = .ok image
      ∧ st' = st.setCursor allocationLimit := by
  obtain ⟨allocationLimit, -, hat, hst⟩ := loadExecutable_ok h
  simp only [loadExecutableAt, bind_ok] at hat
  obtain ⟨f, hf, hdr, hhdr, hat⟩ := hat
  have hfile : host.files executable = some f := by
    simp only [Host.openFile] at hf
    split at hf <;> simp_all
  obtain ⟨rfl, -, -⟩ := readAt_inv hhdr
  rw [List.drop_zero] at hat
  split at hat
  · simp [throw_ok, bind_ok] at hat
  · simp only [bind_ok, pure_ok, Prod.mk.injEq] at hat
    obtain ⟨_, -, ph, hph, ⟨loaded, limit, al⟩, hseg, sh, hsh, img2, hsec, h1, h2, h3⟩ := hat
    obtain ⟨rfl, -, -⟩ := readAt_inv hph
    obtain ⟨rfl, -, -⟩ := readAt_inv hsh
    subst h1 h2 h3
    exact ⟨f, loaded, limit, al, hfile, rfl, hseg, hsec, hst⟩

/-- The allocation limit of `loadExecutable` follows the last `PT_LOAD` segment: `b.elf`, whose
first segment has `0x1000` bytes of memory at `p_paddr = 0` and whose second segment has 4
bytes of memory at `p_paddr = 0x20`, loaded at `0x80002000`, leaves the cursor at
`0x80002024`. -/
theorem allocationLimit_last_segment :
    programHeadersOf bssExecutable
      = [⟨PT_LOAD, 0, 0, 0, 0, 0x1000, 7, 4096⟩, ⟨PT_LOAD, 0, 0x20, 0x20, 0, 4, 7, 4096⟩]
    ∧ loadExecutable hostS5 (str ("b.elf")) [] stateS5
      = .ok (stateS5.setCursor 0x80002024, List.replicate 0x20 0, 0x80002000) := by
  exact ⟨by decide!, by decide!⟩

theorem Trace.lt {p q : Nat} {evs : List CursorEvent} (h : Trace p evs q) (hp : p < U32) :
    q < U32 := by
  induction evs generalizing p with
  | nil => simp only [Trace] at h; omega
  | cons e evs ih =>
    simp only [Trace] at h
    exact ih h.2.2.2 h.2.1

theorem kickstartHeader_fixed {s s' : Image} (h : s'.fixed = s.fixed) (w4 : Nat) :
    kickstartHeader s' w4 = kickstartHeader s w4 := by
  have h1 : s'.m_metadataBase = s.m_metadataBase := by
    have := congrArg Image.m_metadataBase h
    exact this
  have h2 : s'.m_kernelDelta = s.m_kernelDelta := by
    have := congrArg Image.m_kernelDelta h
    exact this
  have h3 : s'.m_kernelEntryPoint = s.m_kernelEntryPoint := by
    have := congrArg Image.m_kernelEntryPoint h
    exact this
  have h4 : s'.m_imageBase = s.m_imageBase := by
    have := congrArg Image.m_imageBase h
    exact this
  have h5 : s'.m_imageDisplacement = s.m_imageDisplacement := by
    have := congrArg Image.m_imageDisplacement h
    exact this
  simp only [kickstartHeader, h1, h2, h3, h4, h5]

theorem loadExecutable_fixed {host : Host} {executable image image' : List Byte}
    {st st' : Image} {entry : Nat}
    (h : loadExecutable host executable image st = .ok (st', image', entry)) :
    st'.fixed = st.fixed ∧ st'.m_kickstart = st.m_kickstart := by
  obtain ⟨al, -, -, rfl⟩ := loadExecutable_ok h
  exact ⟨rfl, rfl⟩

theorem alignAllocationPointer_fixed (a : Nat) (st : Image) :
    (alignAllocationPointer a st).fixed = st.fixed := by
  simp [Image.fixed]

theorem stageInitModules_fixed {host : Host} {moduleTable : Nat} {mods : List (List Byte)}
    {index index' : Nat} {st st' : Image}
    (h : stageInitModules host moduleTable mods index st = .ok (st', index')) :
    st'.fixed = st.fixed ∧ index' = index + mods.length := by
  induction mods generalizing index st with
  | nil =>
    simp only [stageInitModules, Except.ok.injEq, Prod.mk.injEq] at h
    obtain ⟨rfl, rfl⟩ := h
    exact ⟨rfl, rfl⟩
  | cons m rest ih =>
    simp only [stageInitModules, bind_ok] at h
    obtain ⟨⟨st1, imageData, imageEntry⟩, h1, k1, -, k2, -, h2⟩ := h
    obtain ⟨hf1, -⟩ := loadExecutable_fixed h1
    obtain ⟨hf2, hi⟩ := ih h2
    refine ⟨?_, by rw [hi, List.length_cons]; omega⟩
    rw [hf2]
    show st1.fixed = st.fixed
    rw [hf1, alignAllocationPointer_fixed]

theorem writeAt_prefix (p r bs : List Byte) :
    writeAt (p ++ r) p.length bs = p ++ bs ++ r.drop bs.length := by
  simp [writeAt, List.take_append_eq_append_take, List.drop_append_eq_append_drop]

/-- The four stores of `writeKickstartInfo`: they need 16 bytes, and they put the first four
words of the header in front of the rest of the buffer. -/
theorem writeKickstartInfo_inv {st st' : Image} (h : writeKickstartInfo st = .ok st') :
    16 ≤ st.m_kickstart.length
    ∧ st' = { st with
        m_kickstart := (kickstartHeader st 0).take 16 ++ st.m_kickstart.drop 16 } := by
  simp only [writeKickstartInfo, bind_ok, pure_ok] at h
  obtain ⟨k0, h0, k1, h1, k2, h2, k3, h3, rfl⟩ := h
  have hne : ∀ x, le32 x ≠ [] := fun x => by simp [le32]
  have hlen : ∀ x, (le32 x).length = 4 := fun x => rfl
  obtain ⟨l0, c0⟩ := storeAt_inv h0
  obtain ⟨l1, c1⟩ := storeAt_inv h1
  obtain ⟨l2, c2⟩ := storeAt_inv h2
  obtain ⟨l3, c3⟩ := storeAt_inv h3
  rcases c0 with ⟨e, -⟩ | ⟨-, -, b0, e0⟩
  · exact absurd e (hne _)
  rcases c1 with ⟨e, -⟩ | ⟨-, -, b1, e1⟩
  · exact absurd e (hne _)
  rcases c2 with ⟨e, -⟩ | ⟨-, -, b2, e2⟩
  · exact absurd e (hne _)
  rcases c3 with ⟨e, -⟩ | ⟨-, -, b3, e3⟩
  · exact absurd e (hne _)
  rw [hlen] at b0 b1 b2 b3
  have hl : 16 ≤ st.m_kickstart.length := by omega
  refine ⟨hl, ?_⟩
  congr 1
  rw [e3, e2, e1, e0]
  have w0 := writeAt_prefix [] st.m_kickstart (le32 (sub32 st.m_metadataBase st.m_kernelDelta))
  have w1 := writeAt_prefix (le32 (sub32 st.m_metadataBase st.m_kernelDelta))
    (st.m_kickstart.drop 4) (le32 (add32 st.m_kernelEntryPoint st.m_kernelDelta))
  have w2 := writeAt_prefix (le32 (sub32 st.m_metadataBase st.m_kernelDelta)
      ++ le32 (add32 st.m_kernelEntryPoint st.m_kernelDelta))
    (st.m_kickstart.drop 8) (le32 (add32 st.m_imageBase st.m_imageDisplacement))
  have w3 := writeAt_prefix (le32 (sub32 st.m_metadataBase st.m_kernelDelta)
      ++ le32 (add32 st.m_kernelEntryPoint st.m_kernelDelta)
      ++ le32 (add32 st.m_imageBase st.m_imageDisplacement))
    (st.m_kickstart.drop 12) (le32 st.m_imageBase)
  simp only [List.nil_append, List.length_nil, List.length_append, hlen, List.drop_drop,
    List.append_assoc] at w0 w1 w2 w3
  simp only [Nat.sub_zero]
  rw [w0, w1, w2, w3]
  simp [kickstartHeader, le32]

/-- The store of the fifth word after the four stores of `writeKickstartInfo`: it needs 20
bytes, and it leaves the header in front of the rest of the loaded buffer. -/
theorem storeAt_word4 {st : Image} {loaded k : List Byte} {w4 : Nat}
    (hl : 16 ≤ loaded.length)
    (h : storeAt ((kickstartHeader st 0).take 16 ++ loaded.drop 16) 16 0 (le32 w4) = .ok k) :
    20 ≤ loaded.length ∧ k = kickstartHeader st w4 ++ loaded.drop 20 := by
  have hp : ((kickstartHeader st 0).take 16).length = 16 := by simp [kickstartHeader, le32]
  have hlen : (le32 w4).length = 4 := rfl
  obtain ⟨-, c⟩ := storeAt_inv h
  rcases c with ⟨e, -⟩ | ⟨-, -, b, e⟩
  · exact absurd e (by simp [le32])
  · rw [List.length_append, hp, List.length_drop, hlen] at b
    refine ⟨by omega, ?_⟩
    have w := writeAt_prefix ((kickstartHeader st 0).take 16) (loaded.drop 16) (le32 w4)
    rw [hp, hlen, List.drop_drop] at w
    rw [e, Nat.sub_zero, w]
    simp [kickstartHeader, le32]

theorem reserveModuleTable_inv {blueprint : Blueprint} {s s' : Image}
    (h : reserveModuleTable blueprint s = .ok s') :
    ∃ k, storeAt s.m_kickstart 16 0 (le32 s.m_allocationPointer) = .ok k
      ∧ s' = Image.setCursor
          { s with
            m_kickstart := resize k (sub32 s.m_allocationPointer s.m_kickstartBase
              + 4 * (blueprint.initModules.length + 1)) }
          (s.m_allocationPointer + 4 * (blueprint.initModules.length + 1)) := by
  simp only [reserveModuleTable, bind_ok, pure_ok] at h
  obtain ⟨k, hk, rfl⟩ := h
  exact ⟨k, hk, rfl⟩

theorem loadKickstart_inv {host : Host} {blueprint : Blueprint} {st sa : Image}
    (h : loadKickstart host blueprint st = .ok sa) :
    ∃ s2 loaded entry,
      loadExecutable host blueprint.kickstart st.m_kickstart
        { st with m_kickstartBase := st.m_allocationPointer } = .ok (s2, loaded, entry)
      ∧ sa = { s2 with m_kickstart := loaded, m_kickstartEntry := entry } := by
  simp only [loadKickstart, bind_ok, pure_ok] at h
  obtain ⟨⟨s2, loaded, entry⟩, h1, h2⟩ := h
  exact ⟨s2, loaded, entry, h1, h2.symm⟩

/-- The parts of the kickstart stage. -/
theorem stageKickstart_inv {host : Host} {blueprint : Blueprint} {st st' : Image}
    (h : stageKickstart host blueprint st = .ok st') :
    ∃ s2 loaded entry,
      loadExecutable host blueprint.kickstart st.m_kickstart
        { st with m_kickstartBase := st.m_allocationPointer } = .ok (s2, loaded, entry)
      ∧ 16 ≤ loaded.length
      ∧ (blueprint.initModules = [] →
          ∃ k, storeAt (headerWritten st s2 loaded entry).m_kickstart 16 0 (le32 0) = .ok k
            ∧ st' = { headerWritten st s2 loaded entry with m_kickstart := k })
      ∧ (blueprint.initModules ≠ [] →
          ∃ sT sM index k,
            reserveModuleTable blueprint
              (alignAllocationPointer 4 (headerWritten st s2 loaded entry)) = .ok sT
            ∧ stageInitModules host
                (alignAllocationPointer 4 (headerWritten st s2 loaded entry)).m_allocationPointer
                blueprint.initModules 0 sT = .ok (sM, index)
            ∧ storeAt sM.m_kickstart
                ((alignAllocationPointer 4
                  (headerWritten st s2 loaded entry)).m_allocationPointer + 4 * index)
                sM.m_kickstartBase (le32 0) = .ok k
            ∧ st' = { sM with m_kickstart := k }) := by
  simp only [stageKickstart, bind_ok] at h
  obtain ⟨sa, ha, sb, hb, h⟩ := h
  obtain ⟨s2, loaded, entry, h1, hsa⟩ := loadKickstart_inv ha
  obtain ⟨hl, hsb⟩ := writeKickstartInfo_inv hb
  obtain ⟨hfix, -⟩ := loadExecutable_fixed h1
  have hH : kickstartHeader sa 0 = kickstartHeader st 0 := by
    have e1 : kickstartHeader sa 0 = kickstartHeader s2 0 := by rw [hsa]; rfl
    have e2 := kickstartHeader_fixed hfix 0
    rw [e1, e2]
    rfl
  have hk : sa.m_kickstart = loaded := by rw [hsa]
  have hsb2 : sb = headerWritten st s2 loaded entry := by
    rw [hsb, hH, hk, hsa]
    rfl
  rw [hk] at hl
  rw [hsb2] at h
  refine ⟨s2, loaded, entry, h1, hl, fun he => ?_, fun hne => ?_⟩
  · rw [if_pos he] at h
    simp only [bind_ok, pure_ok] at h
    obtain ⟨k, hk, h⟩ := h
    exact ⟨k, hk, h.symm⟩
  · rw [if_neg hne] at h
    simp only [bind_ok, pure_ok] at h
    obtain ⟨sT, hT, ⟨sM, index⟩, hM, k, hk, h⟩ := h
    exact ⟨sT, sM, index, k, hT, hM, hk, h.symm⟩

theorem headerWritten_fixed (st s2 : Image) (loaded : List Byte) (entry : Nat) :
    (headerWritten st s2 loaded entry).fixed = { s2.fixed with m_kickstartEntry := entry } :=
  rfl

/-- The kickstart stage leaves the fields of the state alone, the cursor, the kickstart
buffer, `m_kickstartBase` and `m_kickstartEntry` apart. -/
theorem stageKickstart_fixed {host : Host} {blueprint : Blueprint} {st st' : Image}
    (h : stageKickstart host blueprint st = .ok st') :
    ∃ f, host.files blueprint.kickstart = some f
      ∧ st'.fixed = { st.fixed with
          m_kickstartBase := st.m_allocationPointer
          m_kickstartEntry :=
            add32 (parseEhdr (f.take sizeofEhdr)).e_entry st.m_allocationPointer } := by
  obtain ⟨s2, loaded, entry, h1, hl, he, hne⟩ := stageKickstart_inv h
  obtain ⟨hfix, -⟩ := loadExecutable_fixed h1
  obtain ⟨f, -, -, -, hf, hentry, -, -, -⟩ := loadExecutable_inv h1
  have hW := headerWritten_fixed st s2 loaded entry
  rw [hfix] at hW
  have key : st'.fixed = { st.fixed with
      m_kickstartBase := st.m_allocationPointer, m_kickstartEntry := entry } := by
    by_cases hi : blueprint.initModules = []
    · obtain ⟨k, -, rfl⟩ := he hi
      exact hW
    · obtain ⟨sT, sM, index, k, hT, hM, -, rfl⟩ := hne hi
      obtain ⟨hfM, -⟩ := stageInitModules_fixed hM
      obtain ⟨k2, -, hsT⟩ := reserveModuleTable_inv hT
      have hfT : sT.fixed
          = (alignAllocationPointer 4 (headerWritten st s2 loaded entry)).fixed := by
        rw [hsT]
        rfl
      rw [alignAllocationPointer_fixed, hW] at hfT
      show sM.fixed = _
      rw [hfM, hfT]
      rfl
  rw [hentry] at key
  exact ⟨f, hf, key⟩

/-- The fields of the state of an accepted build that `writeElf` reads are 32-bit values. -/
theorem build_fields {host : Host} {blueprint : Blueprint} {st st' : Image}
    (h : build host blueprint st = .ok st') :
    st'.m_imageBase < U32 ∧ st'.m_kickstartBase < U32 ∧ st'.m_kickstartEntry < U32 := by
  obtain ⟨l, c, hl, hc, hk⟩ := build_ok h
  obtain ⟨ws, evs, -, -, -, htr, hib, -⟩ := layout_step hl
  obtain ⟨hsc, -, -⟩ := compressPayload_step hc
  obtain ⟨f, -, hfix⟩ := stageKickstart_fixed hk
  have hlap : l.m_allocationPointer < U32 := htr.lt (Nat.mod_lt _ (by decide))
  have hcap : c.m_allocationPointer = l.m_allocationPointer := by
    have := hsc.trace
    simp only [Trace] at this
    exact this.symm
  have h1 : st'.m_imageBase = c.m_imageBase := by
    have := congrArg Image.m_imageBase hfix
    exact this
  have h2 : st'.m_kickstartBase = c.m_allocationPointer := by
    have := congrArg Image.m_kickstartBase hfix
    exact this
  have h3 : st'.m_kickstartEntry
      = add32 (parseEhdr (f.take sizeofEhdr)).e_entry c.m_allocationPointer := by
    have := congrArg Image.m_kickstartEntry hfix
    exact this
  refine ⟨?_, by rw [h2, hcap]; exact hlap, by rw [h3]; exact add32_lt _ _⟩
  rw [h1, hsc.imageBase, hib]
  exact Nat.mod_lt _ (by decide)

theorem take_resize (v : List Byte) (n m : Nat) (h1 : n ≤ m) (h2 : n ≤ v.length) :
    (resize v m).take n = v.take n := by
  unfold resize
  rw [List.take_append_of_le_length (by rw [List.length_take]; omega), List.take_take,
    Nat.min_eq_left h1]

theorem take_writeAt (v : List Byte) (off : Nat) (bs : List Byte) (n : Nat) (h1 : n ≤ off)
    (h2 : off + bs.length ≤ v.length) : (writeAt v off bs).take n = v.take n := by
  unfold writeAt
  rw [List.append_assoc, List.take_append_of_le_length (by rw [List.length_take]; omega),
    List.take_take, Nat.min_eq_left h1]

/-- A store at or behind the offset `n` leaves the first `n` bytes alone. -/
theorem take_storeAt {v v' bs : List Byte} {target origin n : Nat}
    (h : storeAt v target origin bs = .ok v') (hn : origin + n ≤ target) :
    v'.take n = v.take n := by
  obtain ⟨-, c⟩ := storeAt_inv h
  rcases c with ⟨-, e⟩ | ⟨-, h1, h2, e⟩
  · rw [e]
  · rw [e]
    exact take_writeAt _ _ _ _ (by omega) h2

/-- The init-module loop leaves the first `n` bytes of the kickstart buffer alone, when they
end at or below the module table and the cursor does not wrap. -/
theorem stageInitModules_prefix {host : Host} {table : Nat} {mods : List (List Byte)}
    {index index' : Nat} {s s' : Image} {n : Nat}
    (h : stageInitModules host table mods index s = .ok (s', index'))
    (hw : ∀ e ∈ s'.cursorLog, e.raw < U32)
    (hkb : s.m_kickstartBase + n ≤ table) (hap : table ≤ s.m_allocationPointer)
    (hlen : n ≤ s.m_kickstart.length) :
    s'.m_kickstart.take n = s.m_kickstart.take n ∧ n ≤ s'.m_kickstart.length
      ∧ s'.m_kickstartBase = s.m_kickstartBase := by
  induction mods generalizing index s with
  | nil =>
    simp only [stageInitModules, Except.ok.injEq, Prod.mk.injEq] at h
    obtain ⟨rfl, -⟩ := h
    exact ⟨rfl, hlen, rfl⟩
  | cons m rest ih =>
    simp only [stageInitModules, bind_ok] at h
    obtain ⟨⟨s1, imageData, imageEntry⟩, h1, k1, hk1, k2, hk2, h2⟩ := h
    obtain ⟨al, hle, -, hs1⟩ := loadExecutable_ok h1
    obtain ⟨evs, hstep, -⟩ := stageInitModules_step h2
    have hlog := hstep.log
    simp only at hlog hk1 hk2
    have e7 : (8 + (U32 - 1)) % U32 = 7 := by decide
    have hlog1 : s1.cursorLog = s.cursorLog
        ++ [⟨s.m_allocationPointer, s.m_allocationPointer + 7,
              (alignAllocationPointer 8 s).m_allocationPointer⟩,
            ⟨(alignAllocationPointer 8 s).m_allocationPointer, al, al % U32⟩] := by
      rw [hs1, setCursor_cursorLog, alignAllocationPointer_cursorLog, e7]
      simp
    have w1 := hw ⟨s.m_allocationPointer, s.m_allocationPointer + 7,
      (alignAllocationPointer 8 s).m_allocationPointer⟩ (by rw [hlog, hlog1]; simp)
    have w2 := hw ⟨(alignAllocationPointer 8 s).m_allocationPointer, al, al % U32⟩
      (by rw [hlog, hlog1]; simp)
    simp only at w1 w2
    have hg := (align_good 3 (by decide) s).2
    have e8 : (2 : Nat) ^ 3 = 8 := by norm_num
    rw [e8, e7] at hg
    have hbase := hg w1
    have hap1 : s1.m_allocationPointer = al := by
      rw [hs1, setCursor_m_allocationPointer, Nat.mod_eq_of_lt w2]
    have hkb1 : s1.m_kickstartBase = s.m_kickstartBase := by
      rw [hs1]; simp
    have hks1 : s1.m_kickstart = s.m_kickstart := by
      rw [hs1]; simp
    rw [hap1, hkb1, hks1] at hk1
    rw [hkb1] at hk2
    have hsubl : sub32 al s.m_kickstartBase = al - s.m_kickstartBase :=
      sub32_of_le (by omega) w2
    have hsubb : sub32 (alignAllocationPointer 8 s).m_allocationPointer s.m_kickstartBase
        = (alignAllocationPointer 8 s).m_allocationPointer - s.m_kickstartBase :=
      sub32_of_le (by omega) (by omega)
    rw [hsubl, hsubb] at hk1
    have t0 := take_resize s.m_kickstart n (al - s.m_kickstartBase) (by omega) hlen
    have t1 := take_storeAt hk1 (by omega : 0 + n
      ≤ (alignAllocationPointer 8 s).m_allocationPointer - s.m_kickstartBase)
    have t2 := take_storeAt hk2 (by omega : s.m_kickstartBase + n ≤ table + 4 * index)
    have l1 := (storeAt_inv hk1).1
    have l2 := (storeAt_inv hk2).1
    rw [resize_length] at l1
    obtain ⟨i1, i2, i3⟩ := ih h2 (by simpa [hkb1] using hkb)
      (by simp only [hap1]; omega) (by simp only; omega)
    simp only at i1 i2 i3
    refine ⟨by rw [i1, t2, t1, t0], i2, by rw [i3, hkb1]⟩

theorem kickstartHeader_stage {host : Host} {blueprint : Blueprint} {c st' : Image}
    (h : stageKickstart host blueprint c = .ok st') (w4 : Nat) :
    kickstartHeader st' w4 = kickstartHeader c w4 := by
  obtain ⟨f, -, hfix⟩ := stageKickstart_fixed h
  have h1 : st'.m_metadataBase = c.m_metadataBase := by
    have := congrArg Image.m_metadataBase hfix
    exact this
  have h2 : st'.m_kernelDelta = c.m_kernelDelta := by
    have := congrArg Image.m_kernelDelta hfix
    exact this
  have h3 : st'.m_kernelEntryPoint = c.m_kernelEntryPoint := by
    have := congrArg Image.m_kernelEntryPoint hfix
    exact this
  have h4 : st'.m_imageBase = c.m_imageBase := by
    have := congrArg Image.m_imageBase hfix
    exact this
  have h5 : st'.m_imageDisplacement = c.m_imageDisplacement := by
    have := congrArg Image.m_imageDisplacement hfix
    exact this
  simp only [kickstartHeader, h1, h2, h3, h4, h5]

theorem kickstartHeader_length (st : Image) (w4 : Nat) : (kickstartHeader st w4).length = 20 := by
  simp [kickstartHeader, le32]

/-- The kickstart buffer after the stage without init modules: the header with a fifth word
of 0, then the loaded image from the offset 20 on. -/
theorem stageKickstart_plain {host : Host} {blueprint : Blueprint} {c st' : Image}
    (h : stageKickstart host blueprint c = .ok st') (hi : blueprint.initModules = []) :
    ∃ s2 loaded entry,
      loadExecutable host blueprint.kickstart c.m_kickstart
        { c with m_kickstartBase := c.m_allocationPointer } = .ok (s2, loaded, entry)
      ∧ 20 ≤ loaded.length
      ∧ st'.m_kickstart = kickstartHeader st' 0 ++ loaded.drop 20 := by
  obtain ⟨s2, loaded, entry, h1, hl, he, -⟩ := stageKickstart_inv h
  obtain ⟨k, hk, hst⟩ := he hi
  have hk2 : storeAt ((kickstartHeader c 0).take 16 ++ loaded.drop 16) 16 0 (le32 0)
      = .ok k := hk
  obtain ⟨h20, hkk⟩ := storeAt_word4 hl hk2
  refine ⟨s2, loaded, entry, h1, h20, ?_⟩
  rw [kickstartHeader_stage h, ← hkk, hst]

/-- The kickstart buffer after the stage with init modules, when the cursor does not wrap:
the first `n` bytes are those of the header followed by the loaded image from the offset 20
on, for every `n` from 20 up to the length of the loaded image such that the cursor after
the load is at `n` or more bytes from the base of the kickstart. -/
theorem stageKickstart_table {host : Host} {blueprint : Blueprint} {c st' : Image}
    (h : stageKickstart host blueprint c = .ok st') (hi : blueprint.initModules ≠ []) :
    ∃ s2 loaded entry,
      loadExecutable host blueprint.kickstart c.m_kickstart
        { c with m_kickstartBase := c.m_allocationPointer } = .ok (s2, loaded, entry)
      ∧ 20 ≤ loaded.length
      ∧ ((∀ e ∈ st'.cursorLog, e.raw < U32) →
          ∀ n, 20 ≤ n → n ≤ loaded.length →
            c.m_allocationPointer + n ≤ s2.m_allocationPointer →
            st'.m_kickstart.take n
              = (kickstartHeader st' (alignAllocationPointer 4 s2).m_allocationPointer
                  ++ loaded.drop 20).take n) := by
  obtain ⟨s2, loaded, entry, h1, hl, -, hne⟩ := stageKickstart_inv h
  obtain ⟨sT, sM, index, k, hT, hM, hk, hst⟩ := hne hi
  obtain ⟨k4, hk4, hsT⟩ := reserveModuleTable_inv hT
  obtain ⟨al, hle, -, hs2⟩ := loadExecutable_ok h1
  have htab : (alignAllocationPointer 4 (headerWritten c s2 loaded entry)).m_allocationPointer
      = (alignAllocationPointer 4 s2).m_allocationPointer :=
    alignAllocationPointer_congr _ _ _ rfl
  have hk4b : storeAt ((kickstartHeader c 0).take 16 ++ loaded.drop 16) 16 0
      (le32 (alignAllocationPointer 4 s2).m_allocationPointer) = .ok k4 := by
    rw [← htab, ← hk4]
    simp [headerWritten]
  obtain ⟨h20, hkk⟩ := storeAt_word4 hl hk4b
  refine ⟨s2, loaded, entry, h1, h20, ?_⟩
  intro hw n hn1 hn2 hn3
  have e3 : (4 + (U32 - 1)) % U32 = 3 := by decide
  have e4 : (2 : Nat) ^ 2 = 4 := by norm_num
  -- the fields of the states of the stage
  have hkb2 : s2.m_kickstartBase = c.m_allocationPointer := by rw [hs2]; rfl
  have hlog2 : s2.cursorLog = c.cursorLog ++ [⟨c.m_allocationPointer, al, al % U32⟩] := by
    rw [hs2]; rfl
  have hap2 : s2.m_allocationPointer = al % U32 := by rw [hs2]; rfl
  have hkbA : (alignAllocationPointer 4 (headerWritten c s2 loaded entry)).m_kickstartBase
      = c.m_allocationPointer := by
    rw [alignAllocationPointer_m_kickstartBase]
    exact hkb2
  have hlogA : (alignAllocationPointer 4 (headerWritten c s2 loaded entry)).cursorLog
      = c.cursorLog ++ [⟨c.m_allocationPointer, al, al % U32⟩,
          ⟨s2.m_allocationPointer, s2.m_allocationPointer + 3,
            (alignAllocationPointer 4 s2).m_allocationPointer⟩] := by
    have hapW : (headerWritten c s2 loaded entry).m_allocationPointer
        = s2.m_allocationPointer := rfl
    have hlogW : (headerWritten c s2 loaded entry).cursorLog = s2.cursorLog := rfl
    rw [alignAllocationPointer_cursorLog, e3, htab, hapW, hlogW, hlog2]
    simp
  have hksA : (alignAllocationPointer 4 (headerWritten c s2 loaded entry)).m_kickstart
      = (kickstartHeader c 0).take 16 ++ loaded.drop 16 := by
    rw [alignAllocationPointer_m_kickstart]
    rfl
  generalize alignAllocationPointer 4 (headerWritten c s2 loaded entry) = sA
    at hT hM hk hk4 hsT htab hkbA hlogA hksA
  rw [htab] at hM hk hsT
  rw [hkbA] at hsT
  have hgood := align_good 2 (by decide) s2
  rw [e4, e3] at hgood
  generalize (alignAllocationPointer 4 s2).m_allocationPointer = T
    at hM hk hsT htab hlogA hkk hk4b hgood ⊢
  have hksT : sT.m_kickstart = resize k4
      (sub32 T c.m_allocationPointer + 4 * (blueprint.initModules.length + 1)) := by
    rw [hsT]; rfl
  have hapT : sT.m_allocationPointer
      = (T + 4 * (blueprint.initModules.length + 1)) % U32 := by
    rw [hsT]; rfl
  have hkbT : sT.m_kickstartBase = c.m_allocationPointer := by
    rw [hsT]; rfl
  have hlogT : sT.cursorLog = sA.cursorLog
      ++ [⟨T, T + 4 * (blueprint.initModules.length + 1),
          (T + 4 * (blueprint.initModules.length + 1)) % U32⟩] := by
    rw [hsT, setCursor_cursorLog]
  obtain ⟨evs, hstep, -⟩ := stageInitModules_step hM
  have hlogM := hstep.log
  have hlog' : st'.cursorLog = sM.cursorLog := by rw [hst]
  rw [hlog', hlogM, hlogT, hlogA] at hw
  have w1 := hw ⟨c.m_allocationPointer, al, al % U32⟩ (by simp)
  have w2 := hw ⟨s2.m_allocationPointer, s2.m_allocationPointer + 3, T⟩ (by simp)
  have w3 := hw ⟨T, T + 4 * (blueprint.initModules.length + 1),
    (T + 4 * (blueprint.initModules.length + 1)) % U32⟩ (by simp)
  simp only at w1 w2 w3
  have hwM : ∀ e ∈ sM.cursorLog, e.raw < U32 := by
    rw [hlogM, hlogT, hlogA]
    exact hw
  rw [hap2, Nat.mod_eq_of_lt w1] at hn3 w2 hgood
  have hT1 := hgood.2 w2
  have hT2 := hgood.1
  have hsub : sub32 T c.m_allocationPointer = T - c.m_allocationPointer :=
    sub32_of_le (by omega) hT2
  rw [hsub] at hksT
  rw [Nat.mod_eq_of_lt w3] at hapT
  have hk4l : k4.length = loaded.length := by
    rw [hkk, List.length_append, kickstartHeader_length, List.length_drop]
    omega
  have t0 : sT.m_kickstart.take n = k4.take n := by
    rw [hksT]
    exact take_resize _ _ _ (by omega) (by omega)
  obtain ⟨i1, i2, i3⟩ := stageInitModules_prefix (n := n) hM hwM
    (by rw [hkbT]; omega) (by rw [hapT]; omega)
    (by rw [hksT, resize_length]; omega)
  have t2 := take_storeAt (n := n) hk (by rw [i3, hkbT]; omega)
  have hks' : st'.m_kickstart = k := by rw [hst]
  rw [hks', t2, i1, t0, hkk, kickstartHeader_stage h]

/-- Scenario S6 is accepted, and what its build leaves. -/
theorem scenarioS6 :
    accepted (build hostS6 blueprintS6 {}) = true
    ∧ builtS6.m_kickstart = [8, 32, 0, 128, 0, 0, 0, 0]
    ∧ sub32 builtS6.m_metadataBase builtS6.m_kernelDelta = 0xC0001000 := by
  decide!

/-- Scenario S7 is accepted, and what its stages leave. -/
theorem scenarioS7 :
    accepted (build hostS6 blueprintS7 {}) = true
    ∧ accepted (layout hostS6 blueprintS7 {}) = true
    ∧ accepted (compressPayload hostS6 layoutS7) = true
    ∧ loadExecutable hostS6 blueprintS7.kickstart payloadS7.m_kickstart
        { payloadS7 with m_kickstartBase := payloadS7.m_allocationPointer } = .ok kickLoadS7
    ∧ (∀ e ∈ builtS7.cursorLog, e.raw < U32)
    ∧ builtS7.m_kickstartBase + 20 ≤ kickLoadS7.1.m_allocationPointer
    ∧ (alignAllocationPointer 4 kickLoadS7.1).m_allocationPointer = 0x80002014
    ∧ builtS7.m_kickstart.take 20
        = le32 0xC0001000 ++ le32 0x80000000 ++ le32 0x80001FF0 ++ le32 0x80000000
          ++ le32 0x80002014 := by
  decide!

theorem builtS6_ok : build hostS6 blueprintS6 {} = .ok builtS6 := accepted_eq _ scenarioS6.1

theorem builtS7_ok : build hostS6 blueprintS7 {} = .ok builtS7 := accepted_eq _ scenarioS7.1

theorem layoutS7_ok : layout hostS6 blueprintS7 {} = .ok layoutS7 :=
  accepted_eq _ scenarioS7.2.1

theorem payloadS7_ok : compressPayload hostS6 layoutS7 = .ok payloadS7 :=
  accepted_eq _ scenarioS7.2.2.1

theorem compressPayload_inv {host : Host} {l c : Image} (h : compressPayload host l = .ok c) :
    c.m_imageDisplacement = sub32 l.m_image.length c.m_image.length := by
  simp only [compressPayload, bind_ok] at h
  obtain ⟨out, -, h⟩ := h
  split at h
  · exact absurd h (by simp)
  · split at h
    · exact absurd h (by simp)
    · simp only [pure_ok] at h
      rw [← h]

theorem kickLoadS7_ok :
    loadExecutable hostS6 blueprintS7.kickstart payloadS7.m_kickstart
      { payloadS7 with m_kickstartBase := payloadS7.m_allocationPointer } = .ok kickLoadS7 :=
  scenarioS7.2.2.2.1
/-! ## The output file -/

theorem u16le_le16_append (x : Nat) (rest : List Byte) : u16le (le16 x ++ rest) = x % 65536 := by
  simp only [u16le, le16, List.cons_append, List.nil_append, List.getD_cons_zero,
    List.getD_cons_succ, byteOf_val]
  omega

/-- A write at or behind the end of the stream: the gap is zero. -/
theorem writeStream_eq (out : List Byte) (pos : Nat) (bs : List Byte) (h : out.length ≤ pos)
    (hne : bs ≠ []) :
    writeStream out pos bs = out ++ List.replicate (pos - out.length) 0 ++ bs := by
  have hpos : 0 < bs.length := List.length_pos.mpr hne
  simp only [writeStream, if_neg hne, if_pos (by omega : out.length < pos + bs.length)]
  have hr : resize out (pos + bs.length)
      = (out ++ List.replicate (pos - out.length) 0) ++ List.replicate bs.length 0 := by
    simp only [resize, List.take_of_length_le (by omega : out.length ≤ pos + bs.length),
      List.append_assoc, List.append_cancel_left_eq, ← List.replicate_add]
    congr 1
    omega
  have hl : (out ++ List.replicate (pos - out.length) (0 : Byte)).length = pos := by
    simp
    omega
  rw [hr]
  have := writeAt_prefix (out ++ List.replicate (pos - out.length) 0)
    (List.replicate bs.length 0) bs
  rw [hl] at this
  rw [this]
  simp

/-- A write behind the first `n` bytes of the stream leaves them alone. -/
theorem writeStream_take (out : List Byte) (pos : Nat) (bs : List Byte) (n : Nat)
    (h : out.length ≤ pos) (hn : n ≤ out.length) :
    (writeStream out pos bs).take n = out.take n := by
  by_cases hne : bs = []
  · simp [writeStream, hne]
  · rw [writeStream_eq out pos bs h hne, List.append_assoc,
      List.take_append_of_le_length hn]

/-- The bytes written are in the stream at the position of the write. -/
theorem writeStream_drop (out : List Byte) (pos : Nat) (bs : List Byte)
    (h : out.length ≤ pos) :
    ((writeStream out pos bs).drop pos).take bs.length = bs := by
  by_cases hne : bs = []
  · simp [hne]
  · have hl : (out ++ List.replicate (pos - out.length) (0 : Byte)).length = pos := by
      simp
      omega
    rw [writeStream_eq out pos bs h hne]
    have := List.drop_left (out ++ List.replicate (pos - out.length) (0 : Byte)) bs
    rw [hl] at this
    rw [this, List.take_length]

theorem writeStream_length (out : List Byte) (pos : Nat) (bs : List Byte)
    (h : out.length ≤ pos) :
    (writeStream out pos bs).length = if bs = [] then out.length else pos + bs.length := by
  by_cases hne : bs = []
  · simp [writeStream, hne]
  · rw [writeStream_eq out pos bs h hne, if_neg hne]
    simp
    omega

theorem ehdrImage_length (e : Elf32_Ehdr) : (ehdrImage e).length = 52 := by
  simp [ehdrImage, le16, le32]

theorem phdrImage_length (p : Elf32_Phdr) : (phdrImage p).length = 32 := by
  simp [phdrImage, le32]

theorem u32le_le32 (x : Nat) (rest : List Byte) (h : x < U32) : u32le (le32 x ++ rest) = x := by
  rw [u32le_le32_append, Nat.mod_eq_of_lt h]

/-- Reading back the header that `writeElf` writes. -/
theorem parseEhdr_outputEhdr (st : Image) (rest : List Byte) :
    parseEhdr (ehdrImage (outputEhdr st) ++ rest) = outputEhdr st := by
  have h : ehdrImage (outputEhdr st) ++ rest
      = ElfIdentification ++ (le16 ET_EXEC ++ (le16 EM_ARM ++ (le32 EV_CURRENT
        ++ (le32 (st.m_kickstartEntry % U32) ++ (le32 sizeofEhdr ++ (le32 0 ++ (le32 0
        ++ (le16 sizeofEhdr ++ (le16 sizeofPhdr ++ (le16 2 ++ (le16 0 ++ (le16 0
        ++ (le16 0 ++ rest))))))))))))) := by
    simp [ehdrImage, outputEhdr, ElfIdentification]
  rw [h]
  have d16 : ∀ l : List Byte, (ElfIdentification ++ l).drop 16 = l := fun l => rfl
  have t16 : ∀ l : List Byte, (ElfIdentification ++ l).take 16 = ElfIdentification :=
    fun l => rfl
  have d2 : ∀ (x : Nat) (l : List Byte), (le16 x ++ l).drop 2 = l := fun x l => rfl
  have d4 : ∀ (x : Nat) (l : List Byte), (le32 x ++ l).drop 4 = l := fun x l => rfl
  have e18 : ∀ l : List Byte, l.drop 18 = (l.drop 16).drop 2 := fun l => by simp
  have e20 : ∀ l : List Byte, l.drop 20 = (l.drop 18).drop 2 := fun l => by simp
  have e24 : ∀ l : List Byte, l.drop 24 = (l.drop 20).drop 4 := fun l => by simp
  have e28 : ∀ l : List Byte, l.drop 28 = (l.drop 24).drop 4 := fun l => by simp
  have e32 : ∀ l : List Byte, l.drop 32 = (l.drop 28).drop 4 := fun l => by simp
  have e36 : ∀ l : List Byte, l.drop 36 = (l.drop 32).drop 4 := fun l => by simp
  have e40 : ∀ l : List Byte, l.drop 40 = (l.drop 36).drop 4 := fun l => by simp
  have e42 : ∀ l : List Byte, l.drop 42 = (l.drop 40).drop 2 := fun l => by simp
  have e44 : ∀ l : List Byte, l.drop 44 = (l.drop 42).drop 2 := fun l => by simp
  have e46 : ∀ l : List Byte, l.drop 46 = (l.drop 44).drop 2 := fun l => by simp
  have e48 : ∀ l : List Byte, l.drop 48 = (l.drop 46).drop 2 := fun l => by simp
  have e50 : ∀ l : List Byte, l.drop 50 = (l.drop 48).drop 2 := fun l => by simp
  unfold parseEhdr
  rw [e50, e48, e46, e44, e42, e40, e36, e32, e28, e24, e20, e18]
  simp only [d16, t16, d2, d4, u16le_le16_append, u32le_le32_append]
  simp [outputEhdr, ET_EXEC, EM_ARM, EV_CURRENT, sizeofEhdr, sizeofPhdr]

/-- Reading back a program header whose fields are 32-bit values. -/
theorem parsePhdr_phdrImage (p : Elf32_Phdr) (rest : List Byte)
    (h : p.p_type < U32 ∧ p.p_offset < U32 ∧ p.p_vaddr < U32 ∧ p.p_paddr < U32
      ∧ p.p_filesz < U32 ∧ p.p_memsz < U32 ∧ p.p_flags < U32 ∧ p.p_align < U32) :
    parsePhdr (phdrImage p ++ rest) = p := by
  obtain ⟨h1, h2, h3, h4, h5, h6, h7, h8⟩ := h
  have hh : phdrImage p ++ rest
      = le32 p.p_type ++ (le32 p.p_offset ++ (le32 p.p_vaddr ++ (le32 p.p_paddr
        ++ (le32 p.p_filesz ++ (le32 p.p_memsz ++ (le32 p.p_flags
        ++ (le32 p.p_align ++ rest))))))) := by
    simp [phdrImage]
  rw [hh]
  have d4 : ∀ (x : Nat) (l : List Byte), (le32 x ++ l).drop 4 = l := fun x l => rfl
  have e8 : ∀ l : List Byte, l.drop 8 = (l.drop 4).drop 4 := fun l => by simp
  have e12 : ∀ l : List Byte, l.drop 12 = (l.drop 8).drop 4 := fun l => by simp
  have e16 : ∀ l : List Byte, l.drop 16 = (l.drop 12).drop 4 := fun l => by simp
  have e20 : ∀ l : List Byte, l.drop 20 = (l.drop 16).drop 4 := fun l => by simp
  have e24 : ∀ l : List Byte, l.drop 24 = (l.drop 20).drop 4 := fun l => by simp
  have e28 : ∀ l : List Byte, l.drop 28 = (l.drop 24).drop 4 := fun l => by simp
  unfold parsePhdr
  rw [e28, e24, e20, e16, e12, e8]
  simp only [d4, u32le_le32 _ _ h1, u32le_le32 _ _ h2, u32le_le32 _ _ h3, u32le_le32 _ _ h4,
    u32le_le32 _ _ h5, u32le_le32 _ _ h6, u32le_le32 _ _ h7, u32le_le32 _ _ h8]

/-- The position of the kickstart in the output file, when it fits 32 bits. -/
theorem kickstartDataPos_eq (st : Image)
    (hsize : 0x1000 + (st.m_image.length + 4095) / 4096 * 4096 < U32) :
    st.m_image.length < U32
    ∧ kickstartDataPos st = 0x1000 + (st.m_image.length + 4095) / 4096 * 4096 := by
  have hle : st.m_image.length ≤ (st.m_image.length + 4095) / 4096 * 4096 := by omega
  have h1 : st.m_image.length < U32 := by omega
  have h2 : st.m_image.length + 4095 < U32 := by
    simp only [U32] at *
    omega
  refine ⟨h1, ?_⟩
  have hm := land_mask 12 (st.m_image.length + 4095) (by decide) h2
  have e : (4294967296 : Nat) - 1 - (2 ^ 12 - 1) = U32 - 1 - 4095 := by decide
  have e2 : (2 : Nat) ^ 12 = 4096 := by norm_num
  rw [e, e2] at hm
  rw [kickstartDataPos, Nat.mod_eq_of_lt h1, Nat.mod_eq_of_lt h2, hm]

theorem records_two (a b rest : List Byte) (ha : a.length = 32) (hb : b.length = 32) :
    records sizeofPhdr 2 (a ++ b ++ rest) = [a, b] := by
  have h1 : (a ++ (b ++ rest)).take 32 = a := by
    rw [List.take_append_of_le_length (by omega), List.take_of_length_le (by omega)]
  have h2 : ((a ++ (b ++ rest)).drop 32).take 32 = b := by
    have := List.drop_left a (b ++ rest)
    rw [ha] at this
    rw [this, List.take_append_of_le_length (by omega), List.take_of_length_le (by omega)]
  simp only [records, sizeofPhdr, List.range, List.range.loop, List.map_cons, List.map_nil,
    List.append_assoc, Nat.zero_mul, Nat.one_mul, List.drop_zero, h1, h2]

/-- The output of `writeElf` for a state whose fields are 32-bit values, when the position of
the kickstart in the file and the length of the kickstart fit 32 bits. -/
theorem writeElf_parse (st : Image) (hke : st.m_kickstartEntry < U32)
    (hkb : st.m_kickstartBase < U32)
    (hsize : 0x1000 + (st.m_image.length + 4095) / 4096 * 4096 < U32)
    (hks : st.m_kickstart.length < U32) :
    parseEhdr ((writeElf st).take sizeofEhdr)
      = { e_ident := ElfIdentification, e_type := ET_EXEC, e_machine := EM_ARM,
          e_version := EV_CURRENT, e_entry := st.m_kickstartEntry, e_phoff := sizeofEhdr,
          e_shoff := 0, e_flags := 0, e_ehsize := sizeofEhdr, e_phentsize := sizeofPhdr,
          e_phnum := 2, e_shentsize := 0, e_shnum := 0, e_shstrndx := 0 }
    ∧ programHeadersOf (writeElf st)
      = [{ p_type := PT_LOAD, p_offset := 0x1000,
            p_vaddr := add32 st.m_imageBase st.m_imageDisplacement,
            p_paddr := add32 st.m_imageBase st.m_imageDisplacement,
            p_filesz := st.m_image.length, p_memsz := st.m_image.length,
            p_flags := PF_R ||| PF_W ||| PF_X, p_align := 0x1000 },
          { p_type := PT_LOAD,
            p_offset := 0x1000 + (st.m_image.length + 4095) / 4096 * 4096,
            p_vaddr := st.m_kickstartBase, p_paddr := st.m_kickstartBase,
            p_filesz := st.m_kickstart.length,
            p_memsz := sub32 st.m_allocationPointer st.m_kickstartBase,
            p_flags := PF_R ||| PF_W ||| PF_X, p_align := 0x1000 }]
    ∧ ((writeElf st).drop 0x1000).take st.m_image.length = st.m_image
    ∧ ((writeElf st).drop (0x1000 + (st.m_image.length + 4095) / 4096 * 4096)).take
        st.m_kickstart.length = st.m_kickstart := by
  obtain ⟨hsz, hpos⟩ := kickstartDataPos_eq st hsize
  have hle : st.m_image.length ≤ (st.m_image.length + 4095) / 4096 * 4096 := by omega
  have hp0 : imagePhdr st
      = { p_type := PT_LOAD, p_offset := 0x1000,
          p_vaddr := add32 st.m_imageBase st.m_imageDisplacement,
          p_paddr := add32 st.m_imageBase st.m_imageDisplacement,
          p_filesz := st.m_image.length, p_memsz := st.m_image.length,
          p_flags := PF_R ||| PF_W ||| PF_X, p_align := 0x1000 } := by
    simp only [imagePhdr, Nat.mod_eq_of_lt hsz]
  have hp1 : kickstartPhdr st
      = { p_type := PT_LOAD,
          p_offset := 0x1000 + (st.m_image.length + 4095) / 4096 * 4096,
          p_vaddr := st.m_kickstartBase, p_paddr := st.m_kickstartBase,
          p_filesz := st.m_kickstart.length,
          p_memsz := sub32 st.m_allocationPointer st.m_kickstartBase,
          p_flags := PF_R ||| PF_W ||| PF_X, p_align := 0x1000 } := by
    simp only [kickstartPhdr, hpos, Nat.mod_eq_of_lt hsize, Nat.mod_eq_of_lt hkb,
      Nat.mod_eq_of_lt hks]
  have he : outputEhdr st
      = { e_ident := ElfIdentification, e_type := ET_EXEC, e_machine := EM_ARM,
          e_version := EV_CURRENT, e_entry := st.m_kickstartEntry, e_phoff := sizeofEhdr,
          e_shoff := 0, e_flags := 0, e_ehsize := sizeofEhdr, e_phentsize := sizeofPhdr,
          e_phnum := 2, e_shentsize := 0, e_shnum := 0, e_shstrndx := 0 } := by
    simp only [outputEhdr, Nat.mod_eq_of_lt hke]
  -- the three writes
  have hH : (ehdrImage (outputEhdr st)
      ++ (phdrImage (imagePhdr st) ++ phdrImage (kickstartPhdr st))).length = 116 := by
    simp [ehdrImage_length, phdrImage_length]
  have ht0 : st.m_image.take (imagePhdr st).p_filesz = st.m_image := by
    rw [hp0]
    exact List.take_of_length_le (le_refl _)
  have ht1 : st.m_kickstart.take (kickstartPhdr st).p_filesz = st.m_kickstart := by
    rw [hp1]
    exact List.take_of_length_le (le_refl _)
  have ho0 : (imagePhdr st).p_offset = 0x1000 := by rw [hp0]
  have ho1 : (kickstartPhdr st).p_offset
      = 0x1000 + (st.m_image.length + 4095) / 4096 * 4096 := by rw [hp1]
  have hout : writeElf st
      = writeStream
          (writeStream (ehdrImage (outputEhdr st)
            ++ (phdrImage (imagePhdr st) ++ phdrImage (kickstartPhdr st))) 0x1000 st.m_image)
          (0x1000 + (st.m_image.length + 4095) / 4096 * 4096) st.m_kickstart := by
    simp only [writeElf, ht0, ht1, ho0, ho1]
  have hw1 := writeStream_length (ehdrImage (outputEhdr st)
      ++ (phdrImage (imagePhdr st) ++ phdrImage (kickstartPhdr st))) 0x1000 st.m_image
      (by rw [hH]; decide)
  have hw1le : (writeStream (ehdrImage (outputEhdr st)
      ++ (phdrImage (imagePhdr st) ++ phdrImage (kickstartPhdr st))) 0x1000 st.m_image).length
      ≤ 0x1000 + (st.m_image.length + 4095) / 4096 * 4096 := by
    rw [hw1, hH]
    split <;> omega
  have hw1ge : 116 ≤ (writeStream (ehdrImage (outputEhdr st)
      ++ (phdrImage (imagePhdr st) ++ phdrImage (kickstartPhdr st))) 0x1000 st.m_image).length := by
    rw [hw1, hH]
    split <;> omega
  have hpre : (writeElf st).take 116 = ehdrImage (outputEhdr st)
      ++ (phdrImage (imagePhdr st) ++ phdrImage (kickstartPhdr st)) := by
    rw [hout, writeStream_take _ _ _ 116 hw1le hw1ge,
      writeStream_take _ _ _ 116 (by rw [hH]; decide) (by rw [hH]),
      List.take_of_length_le (by rw [hH])]
  have hsplit : writeElf st = ehdrImage (outputEhdr st)
      ++ (phdrImage (imagePhdr st) ++ phdrImage (kickstartPhdr st))
      ++ (writeElf st).drop 116 := by
    rw [← hpre, List.take_append_drop]
  have hhdr : parseEhdr ((writeElf st).take sizeofEhdr) = outputEhdr st := by
    have : (writeElf st).take sizeofEhdr = ehdrImage (outputEhdr st) ++ [] := by
      rw [hsplit, List.append_assoc,
        List.take_append_of_le_length (by rw [ehdrImage_length]; decide),
        List.take_of_length_le (by rw [ehdrImage_length]; decide), List.append_nil]
    rw [this, parseEhdr_outputEhdr]
  refine ⟨by rw [hhdr, he], ?_, ?_, ?_⟩
  · have hph : ((writeElf st).drop 52).take (2 * sizeofPhdr)
        = phdrImage (imagePhdr st) ++ phdrImage (kickstartPhdr st) ++ [] := by
      have hd := List.drop_left (ehdrImage (outputEhdr st))
        ((phdrImage (imagePhdr st) ++ phdrImage (kickstartPhdr st)) ++ (writeElf st).drop 116)
      rw [ehdrImage_length] at hd
      rw [hsplit, List.append_assoc, hd,
        List.take_append_of_le_length (by simp [phdrImage_length, sizeofPhdr]),
        List.take_of_length_le (by simp [phdrImage_length, sizeofPhdr]), List.append_nil]
    have hb0 : ∀ (p : Elf32_Phdr), p = imagePhdr st → p.p_type < U32 ∧ p.p_offset < U32
        ∧ p.p_vaddr < U32 ∧ p.p_paddr < U32 ∧ p.p_filesz < U32 ∧ p.p_memsz < U32
        ∧ p.p_flags < U32 ∧ p.p_align < U32 := by
      intro p hp
      rw [hp, hp0]
      exact ⟨(by decide : PT_LOAD < U32), (by decide : 4096 < U32), add32_lt _ _,
        add32_lt _ _, hsz, hsz, (by decide : PF_R ||| PF_W ||| PF_X < U32),
        (by decide : 4096 < U32)⟩
    have hb1 : ∀ (p : Elf32_Phdr), p = kickstartPhdr st → p.p_type < U32 ∧ p.p_offset < U32
        ∧ p.p_vaddr < U32 ∧ p.p_paddr < U32 ∧ p.p_filesz < U32 ∧ p.p_memsz < U32
        ∧ p.p_flags < U32 ∧ p.p_align < U32 := by
      intro p hp
      rw [hp, hp1]
      exact ⟨(by decide : PT_LOAD < U32), hsize, hkb, hkb, hks, sub32_lt _ _,
        (by decide : PF_R ||| PF_W ||| PF_X < U32), (by decide : 4096 < U32)⟩
    have r0 := parsePhdr_phdrImage (imagePhdr st) [] (hb0 _ rfl)
    have r1 := parsePhdr_phdrImage (kickstartPhdr st) [] (hb1 _ rfl)
    rw [List.append_nil] at r0 r1
    have hnum : (outputEhdr st).e_phnum = 2 := rfl
    have hoff : (outputEhdr st).e_phoff = 52 := rfl
    rw [programHeadersOf, hhdr, hnum, hoff]
    rw [hph, records_two _ _ _ (phdrImage_length _) (phdrImage_length _)]
    rw [List.map_cons, List.map_cons, List.map_nil, r0, r1, hp0, hp1]
  · by_cases hnil : st.m_image = []
    · simp [hnil]
    · have h2 := writeStream_drop (ehdrImage (outputEhdr st)
          ++ (phdrImage (imagePhdr st) ++ phdrImage (kickstartPhdr st))) 0x1000 st.m_image
          (by rw [hH]; decide)
      rw [if_neg hnil] at hw1
      generalize writeStream (ehdrImage (outputEhdr st)
          ++ (phdrImage (imagePhdr st) ++ phdrImage (kickstartPhdr st))) 0x1000 st.m_image
          = w1 at hout hw1 hw1le h2
      have h1 := writeStream_take w1 (0x1000 + (st.m_image.length + 4095) / 4096 * 4096)
        st.m_kickstart (0x1000 + st.m_image.length) hw1le (le_of_eq hw1.symm)
      rw [← hout, List.take_of_length_le (le_of_eq hw1)] at h1
      have h3 : ((writeElf st).drop 0x1000).take st.m_image.length
          = ((writeElf st).take (0x1000 + st.m_image.length)).drop 0x1000 := by
        rw [List.drop_take, Nat.add_sub_cancel_left]
      rw [h3, h1]
      have h4 : (w1.drop 0x1000).length = st.m_image.length := by
        rw [List.length_drop, hw1]
        omega
      rw [← h4, List.take_length] at h2
      exact h2
  · rw [hout]
    exact writeStream_drop _ _ _ hw1le

/-- The two program headers of the file are `phdrs[0]` and `phdrs[1]` of `writeElf`. -/
theorem writeElf_programHeaders (st : Image) (hke : st.m_kickstartEntry < U32)
    (hkb : st.m_kickstartBase < U32)
    (hsize : 0x1000 + (st.m_image.length + 4095) / 4096 * 4096 < U32)
    (hks : st.m_kickstart.length < U32) :
    programHeadersOf (writeElf st) = [imagePhdr st, kickstartPhdr st] := by
  obtain ⟨-, hph, -, -⟩ := writeElf_parse st hke hkb hsize hks
  obtain ⟨hsz, hpos⟩ := kickstartDataPos_eq st hsize
  rw [hph]
  simp only [imagePhdr, kickstartPhdr, hpos, Nat.mod_eq_of_lt hsz, Nat.mod_eq_of_lt hsize,
    Nat.mod_eq_of_lt hkb, Nat.mod_eq_of_lt hks]

/-- The length of the file: the kickstart is its last part. -/
theorem writeElf_length (st : Image) (hkb : st.m_kickstartBase < U32)
    (hsize : 0x1000 + (st.m_image.length + 4095) / 4096 * 4096 < U32)
    (hks : st.m_kickstart.length < U32) (hne : st.m_kickstart ≠ []) :
    (writeElf st).length
      = 0x1000 + (st.m_image.length + 4095) / 4096 * 4096 + st.m_kickstart.length := by
  obtain ⟨hsz, hpos⟩ := kickstartDataPos_eq st hsize
  have hle : st.m_image.length ≤ (st.m_image.length + 4095) / 4096 * 4096 := by omega
  have hf0 : (imagePhdr st).p_filesz = st.m_image.length := by
    simp only [imagePhdr, Nat.mod_eq_of_lt hsz]
  have hf1 : (kickstartPhdr st).p_filesz = st.m_kickstart.length := by
    simp only [kickstartPhdr, Nat.mod_eq_of_lt hks]
  have ho0 : (imagePhdr st).p_offset = 0x1000 := rfl
  have ho1 : (kickstartPhdr st).p_offset
      = 0x1000 + (st.m_image.length + 4095) / 4096 * 4096 := by
    simp only [kickstartPhdr, hpos, Nat.mod_eq_of_lt hsize]
  have hH : (ehdrImage (outputEhdr st)
      ++ (phdrImage (imagePhdr st) ++ phdrImage (kickstartPhdr st))).length = 116 := by
    simp [ehdrImage_length, phdrImage_length]
  have ht0 : st.m_image.take (imagePhdr st).p_filesz = st.m_image := by
    rw [hf0]
    exact List.take_of_length_le (le_refl _)
  have ht1 : st.m_kickstart.take (kickstartPhdr st).p_filesz = st.m_kickstart := by
    rw [hf1]
    exact List.take_of_length_le (le_refl _)
  have hout : writeElf st
      = writeStream
          (writeStream (ehdrImage (outputEhdr st)
            ++ (phdrImage (imagePhdr st) ++ phdrImage (kickstartPhdr st))) 0x1000 st.m_image)
          (0x1000 + (st.m_image.length + 4095) / 4096 * 4096) st.m_kickstart := by
    simp only [writeElf, ht0, ht1, ho0, ho1]
  have hw1 := writeStream_length (ehdrImage (outputEhdr st)
      ++ (phdrImage (imagePhdr st) ++ phdrImage (kickstartPhdr st))) 0x1000 st.m_image
      (by rw [hH]; decide)
  have hw1le : (writeStream (ehdrImage (outputEhdr st)
      ++ (phdrImage (imagePhdr st) ++ phdrImage (kickstartPhdr st))) 0x1000 st.m_image).length
      ≤ 0x1000 + (st.m_image.length + 4095) / 4096 * 4096 := by
    rw [hw1, hH]
    split <;> omega
  rw [hout, writeStream_length _ _ _ hw1le, if_neg hne]

theorem builtS1_ok : build sampleHost blueprintS1 {} = .ok builtS1 := buildS1_accepted
theorem lexLoop_append {σ : Type} (processLine : List (List Byte) → σ → Except BlueprintError σ)
    (a b : List Byte) (lx : Lexer σ) :
    lexLoop processLine (a ++ b) lx = lexLoop processLine a lx >>= lexLoop processLine b := by
  induction a generalizing lx with
  | nil => rfl
  | cons c a ih =>
    simp only [List.cons_append, lexLoop]
    cases lexStep processLine c lx with
    | error e => rfl
    | ok lx1 => exact ih lx1

theorem lexLoop_cons {σ : Type} (processLine : List (List Byte) → σ → Except BlueprintError σ)
    (c : Byte) (rest : List Byte) (lx : Lexer σ) :
    lexLoop processLine (c :: rest) lx
      = lexStep processLine c lx >>= lexLoop processLine rest := rfl

/-- Inside quotes the escaped characters of `t` are appended to the token buffer. -/
theorem lexLoop_escapeToken {σ : Type}
    (processLine : List (List Byte) → σ → Except BlueprintError σ)
    (t rest : List Byte) (toks : List (List Byte)) (buf : List Byte) (act : Bool) (ctx : σ) :
    lexLoop processLine (escapeToken t ++ rest) ⟨.String, toks, buf, act, ctx⟩
      = lexLoop processLine rest ⟨.String, toks, buf ++ t, act, ctx⟩ := by
  induction t generalizing buf with
  | nil => simp [escapeToken]
  | cons b t ih =>
    have hcons : escapeToken (b :: t) = (if b = 34 ∨ b = 92 then [92, b] else [b])
        ++ escapeToken t := by
      simp [escapeToken]
    rw [hcons]
    have key : lexLoop processLine ((if b = 34 ∨ b = 92 then [92, b] else [b])
          ++ (escapeToken t ++ rest)) ⟨.String, toks, buf, act, ctx⟩
        = lexLoop processLine (escapeToken t ++ rest) ⟨.String, toks, buf ++ [b], act, ctx⟩ := by
      by_cases hb : b = 34 ∨ b = 92
      · rw [if_pos hb]
        simp only [List.cons_append, List.nil_append]
        rw [lexLoop_cons]
        have e1 : lexStep processLine 92 ⟨.String, toks, buf, act, ctx⟩
            = .ok ⟨.Escaped, toks, buf, act, ctx⟩ := by
          simp [lexStep, pure, Except.pure]
        rw [e1]
        show lexLoop processLine (b :: (escapeToken t ++ rest)) ⟨.Escaped, toks, buf, act, ctx⟩
          = _
        rw [lexLoop_cons]
        have e2 : lexStep processLine b ⟨.Escaped, toks, buf, act, ctx⟩
            = .ok ⟨.String, toks, buf ++ [b], act, ctx⟩ := by
          simp [lexStep, pure, Except.pure]
        rw [e2]
        rfl
      · rw [if_neg hb]
        have h1 : b ≠ 34 := fun h => hb (Or.inl h)
        have h2 : b ≠ 92 := fun h => hb (Or.inr h)
        simp only [List.cons_append, List.nil_append, lexLoop_cons]
        simp [lexStep, h1, h2, pure, Except.pure, bind, Except.bind]
    rw [List.append_assoc, key, ih]
    simp

/-- Outside quotes a quoted token is appended to the token buffer, which becomes active. -/
theorem lexLoop_quoteToken {σ : Type}
    (processLine : List (List Byte) → σ → Except BlueprintError σ)
    (t rest : List Byte) (toks : List (List Byte)) (buf : List Byte) (act : Bool) (ctx : σ) :
    lexLoop processLine (quoteToken t ++ rest) ⟨.Normal, toks, buf, act, ctx⟩
      = lexLoop processLine rest ⟨.Normal, toks, buf ++ t, true, ctx⟩ := by
  have h1 : quoteToken t ++ rest = 34 :: (escapeToken t ++ (34 :: rest)) := by
    simp [quoteToken]
  rw [h1, lexLoop_cons]
  have h2 : lexStep processLine 34 ⟨.Normal, toks, buf, act, ctx⟩
      = .ok ⟨.String, toks, buf, true, ctx⟩ := by
    simp [lexStep, pure, Except.pure]
  rw [h2]
  show lexLoop processLine (escapeToken t ++ (34 :: rest)) ⟨.String, toks, buf, true, ctx⟩ = _
  rw [lexLoop_escapeToken, lexLoop_cons]
  have h3 : lexStep processLine 34 ⟨.String, toks, buf ++ t, true, ctx⟩
      = .ok ⟨.Normal, toks, buf ++ t, true, ctx⟩ := by
    simp [lexStep, pure, Except.pure]
  rw [h3]
  rfl

theorem quoteTokens_cons_cons (t u : List Byte) (ts : List (List Byte)) :
    quoteTokens (t :: u :: ts) = quoteToken t ++ (32 :: quoteTokens (u :: ts)) := by
  simp [quoteTokens, List.intercalate, List.intersperse]

theorem quoteTokens_single (t : List Byte) : quoteTokens [t] = quoteToken t := by
  simp [quoteTokens, List.intercalate, List.intersperse]

/-- The quoted tokens of a non-empty list, read outside quotes with an empty token buffer:
all but the last are pushed, the last is in the buffer. -/
theorem lexLoop_quoteTokens {σ : Type}
    (processLine : List (List Byte) → σ → Except BlueprintError σ)
    (t : List Byte) (ts : List (List Byte)) (rest : List Byte) (toks : List (List Byte))
    (ctx : σ) :
    lexLoop processLine (quoteTokens (t :: ts) ++ rest) ⟨.Normal, toks, [], false, ctx⟩
      = lexLoop processLine rest
          ⟨.Normal, toks ++ (t :: ts).dropLast, (t :: ts).getLast (by simp), true, ctx⟩ := by
  induction ts generalizing t toks with
  | nil =>
    rw [quoteTokens_single, lexLoop_quoteToken]
    simp
  | cons u ts ih =>
    rw [quoteTokens_cons_cons, List.append_assoc, lexLoop_quoteToken, List.cons_append,
      lexLoop_cons]
    have h : lexStep processLine 32 ⟨.Normal, toks, [] ++ t, true, ctx⟩
        = .ok ⟨.Normal, toks ++ [t], [], false, ctx⟩ := by
      simp [lexStep, flushToken, show isSpace 32 = true from by decide, pure, Except.pure]
    rw [h]
    show lexLoop processLine (quoteTokens (u :: ts) ++ rest) ⟨.Normal, toks ++ [t], [], false, ctx⟩
      = _
    rw [ih]
    simp [List.dropLast, List.getLast]

/-- Outside quotes a newline after an active token buffer hands the tokens to the line
handler. -/
theorem lexStep_newline {σ : Type}
    (processLine : List (List Byte) → σ → Except BlueprintError σ)
    (toks : List (List Byte)) (buf : List Byte) (ctx : σ) :
    lexStep processLine 10 ⟨.Normal, toks, buf, true, ctx⟩
      = (processLine (toks ++ [buf]) ctx).map (fun c => ⟨.Normal, [], [], false, c⟩) := by
  simp only [lexStep, flushToken, endLine]
  simp only [show ((10 : Byte) = 34) = False from by decide, show ((10 : Byte) = 59) = False
    from by decide, if_false, show isSpace 10 = true from by decide, if_true]
  simp only [ne_eq, List.append_eq_nil, and_false, not_false_eq_true, if_true,
    List.cons_ne_self, reduceCtorEq]
  cases processLine (toks ++ [buf]) ctx <;> rfl

/-- A comment: outside quotes, a `';'` followed by characters other than the newline and
then a newline is read as that newline alone. -/
theorem lexLoop_comment {σ : Type}
    (processLine : List (List Byte) → σ → Except BlueprintError σ)
    (c rest : List Byte) (lx : Lexer σ) (hn : lx.lexerState = .Normal) (hc : (10 : Byte) ∉ c) :
    lexLoop processLine ([59] ++ c ++ [10] ++ rest) lx
      = lexLoop processLine ([10] ++ rest) lx := by
  obtain ⟨mode, toks, buf, act, ctx⟩ := lx
  simp only at hn
  subst hn
  have h1 : lexStep processLine 59 ⟨.Normal, toks, buf, act, ctx⟩
      = .ok ⟨.Comment, toks, buf, act, ctx⟩ := by
    simp [lexStep, pure, Except.pure]
  have h2 : ∀ c : List Byte, (10 : Byte) ∉ c →
      lexLoop processLine (c ++ (10 :: rest)) ⟨.Comment, toks, buf, act, ctx⟩
        = lexLoop processLine (10 :: rest) ⟨.Comment, toks, buf, act, ctx⟩ := by
    intro c hc
    induction c with
    | nil => rfl
    | cons x c ih =>
      have hx : x ≠ 10 := fun h => hc (by simp [h])
      rw [List.cons_append, lexLoop_cons]
      have : lexStep processLine x ⟨.Comment, toks, buf, act, ctx⟩
          = .ok ⟨.Comment, toks, buf, act, ctx⟩ := by
        simp [lexStep, hx, pure, Except.pure]
      rw [this]
      exact ih (fun h => hc (by simp [h]))
  have h3 : lexStep processLine 10 ⟨.Comment, toks, buf, act, ctx⟩
      = lexStep processLine 10 ⟨.Normal, toks, buf, act, ctx⟩ := by
    have hsp : isSpace 10 = true := by decide
    cases act <;> by_cases ht : toks = [] <;>
      simp [lexStep, flushToken, endLine, ht, hsp, pure, Except.pure, bind, Except.bind] <;>
      cases processLine _ ctx <;> rfl
  simp only [List.cons_append, List.nil_append, List.append_assoc]
  rw [lexLoop_cons, h1]
  show lexLoop processLine (c ++ (10 :: rest)) ⟨.Comment, toks, buf, act, ctx⟩ = _
  rw [h2 c hc, lexLoop_cons, lexLoop_cons, h3]

/-- The loop of `parse` over the quoted tokens of a non-empty list followed by a newline,
started outside quotes with nothing pending: the line handler gets the tokens, once. -/
theorem lexLoop_quoteLine {σ : Type}
    (processLine : List (List Byte) → σ → Except BlueprintError σ)
    (ts : List (List Byte)) (h : ts ≠ []) (pre : List Byte) (ctx : σ)
    (hpre : ∀ toks buf, lexLoop processLine (pre ++ [10]) ⟨.Normal, toks, buf, true, ctx⟩
      = lexLoop processLine [10] ⟨.Normal, toks, buf, true, ctx⟩) :
    lexLoop processLine (quoteTokens ts ++ (pre ++ [10])) ⟨.Normal, [], [], false, ctx⟩
      = (processLine ts ctx).map (fun c => ⟨.Normal, [], [], false, c⟩) := by
  obtain ⟨t, ts, rfl⟩ := List.exists_cons_of_ne_nil h
  rw [lexLoop_quoteTokens, hpre, lexLoop_cons, lexStep_newline, List.nil_append,
    List.dropLast_append_getLast]
  cases processLine (t :: ts) ctx <;> rfl

theorem parse_of_lexLoop {σ : Type}
    (processLine : List (List Byte) → σ → Except BlueprintError σ)
    (text : List Byte) (ctx : σ) (r : Except BlueprintError σ)
    (h : lexLoop processLine text ⟨.Normal, [], [], false, ctx⟩
      = r.map (fun c => ⟨.Normal, [], [], false, c⟩)) :
    parse processLine text ctx = r := by
  unfold parse
  rw [h]
  cases r <;> rfl
theorem fixupHandler_bytes (f : MetadataFixup) (st : Image) :
    f.handler.bytes st = le32 (sub32 st.m_allocationPointer st.m_kernelDelta) := by
  cases f.handler
  rfl

/-- The fixup pass is one in-bounds write of four bytes per fixup of the list. -/
theorem applyFixups_writes {fixups : List MetadataFixup} {st st' : Image}
    (h : applyFixups fixups st = .ok st') :
    st'.m_image = fixupWrites st fixups
    ∧ ∀ f ∈ fixups, st.m_imageBase ≤ st.m_metadataBase + f.offset * 4
        ∧ fixupPos st f + 4 ≤ st.m_image.length := by
  induction fixups generalizing st with
  | nil =>
    simp only [applyFixups, Except.ok.injEq] at h
    subst h
    exact ⟨rfl, by simp⟩
  | cons f rest ih =>
    simp only [applyFixups, bind_ok] at h
    obtain ⟨img1, h1, h2⟩ := h
    rw [fixupHandler_bytes] at h1
    obtain ⟨hlen, hc⟩ := storeAt_inv h1
    have hne : le32 (sub32 st.m_allocationPointer st.m_kernelDelta) ≠ [] := by simp [le32]
    rcases hc with ⟨hnil, -⟩ | ⟨-, hle, hb, himg⟩
    · exact absurd hnil hne
    · have hpos : st.m_metadataBase + f.offset * 4 - st.m_imageBase = fixupPos st f := rfl
      rw [hpos] at hb himg
      rw [le32_length] at hb
      obtain ⟨i1, i2⟩ := @ih { st with m_image := img1 } h2
      refine ⟨?_, ?_⟩
      · rw [i1, himg]
        rfl
      · intro g hg
        rcases List.mem_cons.mp hg with rfl | hg
        · exact ⟨hle, hb⟩
        · have := i2 g hg
          simp only at this
          rw [hlen] at this
          exact this

/-- A byte that lies in the four bytes of no fixup is the same after the pass. -/
theorem fixupWrites_outside (st : Image) (fixups : List MetadataFixup) (img : List Byte) (i : Nat)
    (hb : ∀ f ∈ fixups, fixupPos st f + 4 ≤ img.length)
    (ho : ∀ f ∈ fixups, i < fixupPos st f ∨ fixupPos st f + 4 ≤ i) :
    (fixups.foldl (fun img f => writeAt img (fixupPos st f)
        (le32 (sub32 st.m_allocationPointer st.m_kernelDelta))) img)[i]? = img[i]? := by
  induction fixups generalizing img with
  | nil => rfl
  | cons f rest ih =>
    simp only [List.foldl_cons]
    have hf := hb f (by simp)
    have hlen : (writeAt img (fixupPos st f)
        (le32 (sub32 st.m_allocationPointer st.m_kernelDelta))).length = img.length :=
      writeAt_length _ _ _ (by rw [le32_length]; exact hf)
    rw [ih _ (fun g hg => by rw [hlen]; exact hb g (by simp [hg]))
      (fun g hg => ho g (by simp [hg])),
      getElem?_writeAt _ _ _ _ (by rw [le32_length]; exact hf), le32_length]
    rcases ho f (by simp) with h1 | h1
    · rw [if_pos h1]
    · rw [if_neg (by omega), if_neg (by omega)]

/-- The four bytes of every fixup hold the written value after the pass. -/
theorem fixupWrites_inside (st : Image) (fixups : List MetadataFixup) (img : List Byte)
    (hb : ∀ f ∈ fixups, fixupPos st f + 4 ≤ img.length)
    (p : Nat) (hp : p + 4 ≤ img.length)
    (hw : (∃ f ∈ fixups, fixupPos st f = p)
      ∨ (img.drop p).take 4 = le32 (sub32 st.m_allocationPointer st.m_kernelDelta))
    (hsep : ∀ f ∈ fixups, fixupPos st f = p ∨ fixupPos st f + 4 ≤ p ∨ p + 4 ≤ fixupPos st f) :
    ((fixups.foldl (fun img f => writeAt img (fixupPos st f)
        (le32 (sub32 st.m_allocationPointer st.m_kernelDelta))) img).drop p).take 4
      = le32 (sub32 st.m_allocationPointer st.m_kernelDelta) := by
  induction fixups generalizing img with
  | nil =>
    rcases hw with ⟨f, hf, -⟩ | hw
    · simp at hf
    · exact hw
  | cons f rest ih =>
    simp only [List.foldl_cons]
    have hf := hb f (by simp)
    have hlen : (writeAt img (fixupPos st f)
        (le32 (sub32 st.m_allocationPointer st.m_kernelDelta))).length = img.length :=
      writeAt_length _ _ _ (by rw [le32_length]; exact hf)
    apply ih _ (fun g hg => by rw [hlen]; exact hb g (by simp [hg])) (by rw [hlen]; exact hp)
    · rcases hsep f (by simp) with h1 | h1
      · right
        apply List.ext_getElem?
        intro j
        rw [List.getElem?_take, List.getElem?_drop,
          getElem?_writeAt _ _ _ _ (by rw [le32_length]; exact hf), le32_length, h1]
        by_cases hj : j < 4
        · rw [if_pos hj, if_neg (by omega), if_pos (by omega)]
          congr 1
          omega
        · rw [if_neg hj, List.getElem?_eq_none (by rw [le32_length]; omega)]
      · rcases hw with ⟨g, hg, hgp⟩ | hw
        · rcases List.mem_cons.mp hg with rfl | hg
          · omega
          · exact Or.inl ⟨g, hg, hgp⟩
        · right
          refine Eq.trans ?_ hw
          apply List.ext_getElem?
          intro j
          rw [List.getElem?_take, List.getElem?_take, List.getElem?_drop, List.getElem?_drop,
            getElem?_writeAt _ _ _ _ (by rw [le32_length]; exact hf), le32_length]
          by_cases hj : j < 4
          · rw [if_pos hj, if_pos hj]
            rcases h1 with h1 | h1
            · rw [if_neg (by omega), if_neg (by omega)]
            · rw [if_pos (by omega)]
          · rw [if_neg hj, if_neg hj]
    · exact fun g hg => hsep g (by simp [hg])

theorem fixupsOf_offset_ge {start : Nat} {ws : List Write} {f : MetadataFixup}
    (h : f ∈ fixupsOf start ws) : start + 2 ≤ f.offset := by
  induction ws generalizing start with
  | nil => simp [fixupsOf] at h
  | cons w ws ih =>
    simp only [fixupsOf, List.mem_append] at h
    rcases h with h | h
    · by_cases ht : w.type = 0x8004
      · rw [if_pos ht] at h
        simp only [List.mem_singleton] at h
        subst h
        exact le_refl _
      · simp [if_neg ht] at h
    · have := ih h
      omega

/-- Every fixup that a sequence of writes registers points at the payload word of a KERNEND
record: the two words before it are the type `0x8004` and the size 4, and the word itself
is the zero placeholder. -/
theorem fixupsOf_record {start : Nat} {ws : List Write} {f : MetadataFixup}
    (hk : ∀ w ∈ ws, w.type = 0x8004 → w.data = [0, 0, 0, 0])
    (h : f ∈ fixupsOf start ws) :
    ∃ k, f.offset = start + k + 2
      ∧ (ws.flatMap encodeWrite)[k]? = some 0x8004
      ∧ (ws.flatMap encodeWrite)[k + 1]? = some 4
      ∧ (ws.flatMap encodeWrite)[k + 2]? = some 0 := by
  induction ws generalizing start with
  | nil => simp [fixupsOf] at h
  | cons w ws ih =>
    simp only [fixupsOf, List.mem_append] at h
    rcases h with h | h
    · by_cases ht : w.type = 0x8004
      · have hd := hk w (by simp) ht
        rw [if_pos ht] at h
        simp only [List.mem_singleton] at h
        subst h
        have he : encodeWrite w = [0x8004, 4, 0] := by
          simp only [encodeWrite, ht, hd]
          decide
        refine ⟨0, rfl, ?_, ?_, ?_⟩ <;> simp [List.flatMap_cons, he]
      · simp [if_neg ht] at h
    · obtain ⟨k, hk1, hk2, hk3, hk4⟩ := ih (fun x hx => hk x (by simp [hx])) h
      refine ⟨(encodeWrite w).length + k, by omega, ?_, ?_, ?_⟩
      · rw [List.flatMap_cons, List.getElem?_append_right (by omega)]
        simpa using hk2
      · rw [List.flatMap_cons, List.getElem?_append_right (by omega)]
        rw [show (encodeWrite w).length + k + 1 - (encodeWrite w).length = k + 1 by omega]
        exact hk3
      · rw [List.flatMap_cons, List.getElem?_append_right (by omega)]
        rw [show (encodeWrite w).length + k + 2 - (encodeWrite w).length = k + 2 by omega]
        exact hk4

/-- The offsets of the registered fixups increase, so no word is registered twice. -/
theorem fixupsOf_increasing (start : Nat) (ws : List Write) :
    ((fixupsOf start ws).map (fun f => f.offset)).Pairwise (fun a b => a < b) := by
  induction ws generalizing start with
  | nil => simp [fixupsOf]
  | cons w ws ih =>
    simp only [fixupsOf, List.map_append]
    rw [List.pairwise_append]
    refine ⟨?_, ih _, ?_⟩
    · by_cases ht : w.type = 0x8004
      · simp [if_pos ht]
      · simp [if_neg ht]
    · intro a ha b hb
      by_cases ht : w.type = 0x8004
      · rw [if_pos ht] at ha
        simp only [List.map_cons, List.map_nil, List.mem_singleton] at ha
        obtain ⟨g, hg, rfl⟩ := List.mem_map.mp hb
        have := fixupsOf_offset_ge hg
        have hl := encodeWrite_length w
        omega
      · simp [if_neg ht] at ha

/-- The state in which `layout` enters the fixup pass, and what it holds when the `Image`
is new: the stream is the encoded writes, the fixups are those of its KERNEND records. -/
theorem layout_before_fixups {host : Host} {blueprint : Blueprint} {st pl : Image}
    (h : layout host blueprint st = .ok pl)
    (hm : st.m_metadata = []) (hf : st.m_metadataFixups = []) :
    ∃ st1 s ws,
      placeModules host blueprint.modules
          { st with
            m_imageBase := blueprint.imageBase % U32
            m_allocationPointer := blueprint.imageBase % U32
            m_image := []
            cursorLog := [] } = .ok st1
      ∧ placeMetadataBlock st1 = .ok s
      ∧ applyFixups s.m_metadataFixups s = .ok pl
      ∧ s.m_metadata = (ws ++ [(⟨MODINFO_END, []⟩ : Write)]).flatMap encodeWrite
      ∧ s.m_metadataFixups = fixupsOf 0 ws
      ∧ (∀ w ∈ ws, w.type = 0x8004 → w.data = [0, 0, 0, 0]) := by
  obtain ⟨st1, s, h1, h2, h3⟩ := layout_ok h
  obtain ⟨ws, evs1, hs1, -, -, hzero, -⟩ := placeModules_step h1
  obtain ⟨evs2, hs2, -⟩ := placeMetadataBlock_step h2
  have hs := hs1.trans hs2
  have hfix : fixupsOf 0 (ws ++ [(⟨MODINFO_END, []⟩ : Write)]) = fixupsOf 0 ws := by
    rw [fixupsOf_append]
    simp [fixupsOf, MODINFO_END]
  refine ⟨st1, s, ws, h1, h2, h3, ?_, ?_, hzero⟩
  · have := hs.metadata
    simpa [hm] using this
  · have := hs.fixups
    simp only [hm, hf, List.length_nil, List.nil_append, hfix] at this
    exact this

theorem getElem?_wordsToBytes (ws : List Nat) (k j : Nat) (w : Nat) (hj : j < 4)
    (hk : ws[k]? = some w) : (wordsToBytes ws)[4 * k + j]? = (le32 w)[j]? := by
  induction ws generalizing k with
  | nil => simp at hk
  | cons w0 ws ih =>
    rw [wordsToBytes_cons]
    cases k with
    | zero =>
      simp only [List.getElem?_cons_zero, Option.some.injEq] at hk
      subst hk
      rw [List.getElem?_append_left (by rw [le32_length]; omega),
        show 4 * 0 + j = j by omega]
    | succ k =>
      simp only [List.getElem?_cons_succ] at hk
      rw [List.getElem?_append_right (by rw [le32_length]; omega), le32_length,
        show 4 * (k + 1) + j - 4 = 4 * k + j by omega]
      exact ih k hk

/-- The words of the stream stand in the payload that `placeMetadataBlock` leaves, from
`m_metadataBase` on, when the stream is shorter than 4 GiB. -/
theorem placeMetadataBlock_words {st s : Image} (h : placeMetadataBlock st = .ok s)
    (hsmall : 4 * s.m_metadata.length < U32) (k w : Nat) (hk : s.m_metadata[k]? = some w)
    (hin : s.m_metadataBase + k * 4 - s.m_imageBase + 4 ≤ s.m_image.length) :
    s.m_imageBase ≤ s.m_metadataBase
    ∧ (s.m_image.drop (s.m_metadataBase + k * 4 - s.m_imageBase)).take 4 = le32 w := by
  obtain ⟨img, hst, hs⟩ := placeMetadataBlock_ok h
  obtain ⟨evs, hstep, -, hmb, -, -, -⟩ := placeMetadataBlock_step h
  have hM : s.m_metadata = (writeMetadata MODINFO_END [] st).m_metadata := by rw [hs]; rfl
  have hib : s.m_imageBase = st.m_imageBase := hstep.imageBase
  have himg : s.m_image = resize img (sub32 (metadataPlaced st img).m_allocationPointer
      st.m_imageBase) := by rw [hs]
  have hsz : metadataSizeOf st = 4 * s.m_metadata.length := by
    rw [metadataSizeOf, ← hM, Nat.mul_comm, Nat.mod_eq_of_lt hsmall]
  have hklt : k < s.m_metadata.length := by
    by_contra hc
    rw [List.getElem?_eq_none (by omega)] at hk
    exact absurd hk (by simp)
  have hbytes : (wordsToBytes (writeMetadata MODINFO_END [] st).m_metadata).take (metadataSizeOf st)
      = wordsToBytes s.m_metadata := by
    rw [hsz, ← hM]
    exact List.take_of_length_le (by rw [wordsToBytes_length])
  rw [hbytes] at hst
  obtain ⟨hlen, hc⟩ := storeAt_inv hst
  have hne : wordsToBytes s.m_metadata ≠ [] := by
    intro he
    have := congrArg List.length he
    rw [wordsToBytes_length] at this
    simp only [List.length_nil] at this
    omega
  rcases hc with ⟨hnil, -⟩ | ⟨-, hle, hb, hw⟩
  · exact absurd hnil hne
  · rw [wordsToBytes_length] at hb
    rw [hmb, hib]
    refine ⟨hle, ?_⟩
    rw [hmb, hib] at hin
    apply List.ext_getElem?
    intro j
    rw [List.getElem?_take, List.getElem?_drop]
    by_cases hj : j < 4
    · rw [if_pos hj, himg, getElem?_resize]
      have hn : st.m_allocationPointer + k * 4 - st.m_imageBase + j
          < sub32 (metadataPlaced st img).m_allocationPointer st.m_imageBase := by
        have : s.m_image.length
            = sub32 (metadataPlaced st img).m_allocationPointer st.m_imageBase := by
          rw [himg]
          simp [resize]
          omega
        omega
      have hl : st.m_allocationPointer + k * 4 - st.m_imageBase + j < img.length := by
        rw [hlen]
        omega
      rw [if_pos hn, if_pos hl, hw,
        getElem?_writeAt _ _ _ _ (by rw [wordsToBytes_length]; exact hb),
        if_neg (by omega), wordsToBytes_length, if_pos (by omega),
        show st.m_allocationPointer + k * 4 - st.m_imageBase + j
          - (st.m_allocationPointer - st.m_imageBase) = 4 * k + j by omega]
      exact getElem?_wordsToBytes _ k j w hj hk
    · rw [if_neg hj, List.getElem?_eq_none (by rw [le32_length]; omega)]

theorem take_drop_congr (a b : List Byte) (p n : Nat) (h : ∀ j, j < n → a[p + j]? = b[p + j]?) :
    (a.drop p).take n = (b.drop p).take n := by
  apply List.ext_getElem?
  intro j
  rw [List.getElem?_take, List.getElem?_take, List.getElem?_drop, List.getElem?_drop]
  by_cases hj : j < n
  · rw [if_pos hj, if_pos hj]
    exact h j hj
  · rw [if_neg hj, if_neg hj]

/-- What the payload layout of scenario S2 leaves. -/
theorem layoutS2_values :
    layoutS2.m_metadataFixups = [⟨16, .kernend⟩]
    ∧ layoutS2.m_allocationPointer = 0x80002000
    ∧ layoutS2.m_metadataBase = 0x80001000
    ∧ layoutS2.m_imageBase = 0x80000000
    ∧ (layoutS2.m_image.drop 0x1040).take 4 = le32 0xC0002000
    ∧ (layoutS2.m_image.drop 0x1038).take 8 = le32 0x8004 ++ le32 4 := by
  decide!

theorem layoutS2_ok : layout sampleHost blueprintS2 {} = .ok layoutS2 := layoutS2_accepted

theorem builtS2_ok : build sampleHost blueprintS2 {} = .ok builtS2 := buildS2_accepted

/-- The three builds of scenario S9 are accepted, and what they leave. -/
theorem scenarioS9 :
    accepted (build hostS9 blueprintS9 {}) = true
    ∧ accepted (build hostS9 blueprintS9 builtS9) = true
    ∧ accepted (build hostS9 blueprintS9 staleS9) = true
    ∧ rebuiltS9.m_metadata = builtS9.m_metadata ++ builtS9.m_metadata
    ∧ builtS9.m_metadataFixups = [⟨16, .kernend⟩]
    ∧ rebuiltS9.m_metadataFixups = [⟨16, .kernend⟩, ⟨35, .kernend⟩]
    ∧ rebuiltS9.m_image ≠ builtS9.m_image
    ∧ builtS9.m_metadata ≠ builtS9b.m_metadata
    ∧ builtS9.m_image ≠ builtS9b.m_image := by
  decide!

theorem builtS9_ok : build hostS9 blueprintS9 {} = .ok builtS9 :=
  accepted_eq _ scenarioS9.1

theorem rebuiltS9_ok : build hostS9 blueprintS9 builtS9 = .ok rebuiltS9 :=
  accepted_eq _ scenarioS9.2.1

theorem builtS9b_ok : build hostS9 blueprintS9 staleS9 = .ok builtS9b :=
  accepted_eq _ scenarioS9.2.2.1

/-- Without an "elf kernel" module the layout leaves `m_kernelDelta` as it found it. -/
theorem layout_kernelDelta {host : Host} {blueprint : Blueprint} {st pl : Image}
    (h : layout host blueprint st = .ok pl)
    (hk : ∀ m ∈ blueprint.modules, m_moduleTypes m.type ≠ some .ElfKernel) :
    pl.m_kernelDelta = st.m_kernelDelta := by
  obtain ⟨st1, s, h1, h2, h3⟩ := layout_ok h
  obtain ⟨ws, evs1, -, -, -, -, hkd1, -⟩ := placeModules_step h1
  obtain ⟨evs2, -, hkd2, -⟩ := placeMetadataBlock_step h2
  obtain ⟨img, hpl, -⟩ := applyFixups_frame h3
  rw [hpl]
  show s.m_kernelDelta = _
  rw [hkd2, hkd1 hk]

/-- The end of the compressed payload is the kickstart base, mod 2^32. -/
theorem build_payload_end {host : Host} {blueprint : Blueprint} {st st' : Image}
    (h : build host blueprint st = .ok st') :
    (st'.m_imageBase + st'.m_imageDisplacement + st'.m_image.length) % U32 = st'.m_kickstartBase
    ∧ st'.m_kickstartBase < U32 ∧ st'.m_imageBase < U32 := by
  obtain ⟨l, c, hl, hc, hk⟩ := build_ok h
  obtain ⟨ws, evs, -, -, -, htr, hib, -, -, -, -, hlen, -⟩ := layout_step hl
  obtain ⟨hsc, -, -⟩ := compressPayload_step hc
  obtain ⟨f, -, hfix⟩ := stageKickstart_fixed hk
  have hlap : l.m_allocationPointer < U32 := htr.lt (Nat.mod_lt _ (by decide))
  have hlib : l.m_imageBase < U32 := by rw [hib]; exact Nat.mod_lt _ (by decide)
  have hcap : c.m_allocationPointer = l.m_allocationPointer := by
    have := hsc.trace
    simp only [Trace] at this
    exact this.symm
  have hcib : c.m_imageBase = l.m_imageBase := hsc.imageBase
  have hkb : st'.m_kickstartBase = c.m_allocationPointer := by
    have := congrArg Image.m_kickstartBase hfix
    exact this
  have hdisp : st'.m_imageDisplacement = c.m_imageDisplacement := by
    have := congrArg Image.m_imageDisplacement hfix
    exact this
  have himg : st'.m_image = c.m_image := by
    have := congrArg Image.m_image hfix
    exact this
  have hbase : st'.m_imageBase = c.m_imageBase := by
    have := congrArg Image.m_imageBase hfix
    exact this
  have hd := compressPayload_inv hc
  rw [hkb, hdisp, himg, hbase, hcap, hcib, hd, hlen]
  refine ⟨?_, hlap, hlib⟩
  generalize c.m_image.length = n
  simp only [sub32, U32] at *
  omega

/-- What the build of scenario S1 leaves for the two segments. -/
theorem builtS1_segments :
    (imagePhdr builtS1).p_paddr + (imagePhdr builtS1).p_memsz < U32
    ∧ imagePhdr builtS1 = ⟨PT_LOAD, 0x1000, 0x80001FF0, 0x80001FF0, 16, 16, 7, 0x1000⟩
    ∧ kickstartPhdr builtS1 = ⟨PT_LOAD, 0x2000, 0x80002000, 0x80002000, 20, 20, 7, 0x1000⟩ := by
  obtain ⟨-, -, -, -, -, -, -, -, -, -, h1, h2, h3, -⟩ := scenarioS1
  exact ⟨h1, h2, h3⟩

/-! # The claims -/

/-- C2. `writeMetadata(t, d, n)` keeps the words already in the stream and appends
the type word `t`, the size word `n` (as the `uint32_t` it is stored in, `n % 2^32`),
and `ceil(n/4)` data words that hold the bytes of `d` in little-endian order
followed by zero padding; for `n = 0` only the two header words are appended;
`writeMetadata32(t, v)` appends `t, 4, v`. -/
theorem writeMetadata_appends (t : Nat) (d : List Byte) (st : Image) (ht : t < U32) :
    (writeMetadata t d st).m_metadata = st.m_metadata ++ [t, d.length % U32] ++ packWords d
    ∧ ((writeMetadata t d st).m_metadata.length = st.m_metadata.length + (2 + (d.length + 3) / 4))
    ∧ wordsToBytes (packWords d) = d ++ List.replicate ((d.length + 3) / 4 * 4 - d.length) 0
    ∧ (d.length = 0 → (writeMetadata t d st).m_metadata = st.m_metadata ++ [t, 0])
    ∧ (∀ v, v < U32 → (writeMetadata32 t v st).m_metadata = st.m_metadata ++ [t, 4, v]) := by
  have htm : t % U32 = t := Nat.mod_eq_of_lt ht
  refine ⟨?_, ?_, wordsToBytes_packWords d, ?_, ?_⟩
  · simp [writeMetadata, htm]
  · simp [writeMetadata, packWords_length]
    omega
  · intro h0
    have : d = [] := List.length_eq_zero.mp h0
    subst this
    simp [writeMetadata, htm, packWords]
  · intro v hv
    simp [writeMetadata32, writeMetadata, htm, le32_of_lt v hv]
    simp [le32]

/-- C2 at a concrete input: the record of the name "k". -/
theorem writeMetadata_appends_witness :
    (writeMetadata MODINFO_NAME (str ("k") ++ [0]) { m_metadata := [7] }).m_metadata
      = [7] ++ [ MODINFO_NAME, 2 % U32] ++ packWords (str ("k") ++ [0]) :=
  (writeMetadata_appends MODINFO_NAME (str ("k") ++ [0]) { m_metadata := [7] } (by decide)).1

/-- C5 (the code at the failing inputs). A HOWTO entry is parsed by `std::stoul` with its
default base 10: the strings "0x10", "020" and "10" give the record payloads 0, 20 and 10,
so a `0x` prefix stops the parse after the leading zero and a leading `0` is not octal. -/
theorem howto_parsed_in_base_ten (host : Host) (st : Image) :
    stoul (str ("0x10")) = .ok 0 ∧ stoul (str ("020")) = .ok 20 ∧ stoul (str ("10")) = .ok 10
    ∧ placeMetadataEntry host { type := .HOWTO, singleValue := str ("0x10") } st
        = .ok (writeMetadata32 0x8001 0 st)
    ∧ (writeMetadata32 0x8001 0 st).m_metadata = st.m_metadata ++ [0x8001, 4, 0] := by
  refine ⟨by decide!, by decide!, by decide!, ?_, ?_⟩
  · have h : stoul (str ("0x10")) = .ok 0 := by decide!
    simp only [placeMetadataEntry, h, bind, Except.bind, pure, Except.pure]
    rfl
  · rw [writeMetadata32_m_metadata _ _ _ (by decide)]
    rfl

/-- C6 (as stated, refuted). The key `a\0b` has no `'='` and the value `c` has no NUL,
yet the environment block of the pair does not read back as the pair. -/
theorem environment_roundtrip_counterexample :
    (∀ kv ∈ [(([97, 0, 98] : List Byte), ([99] : List Byte))],
        (∀ b ∈ kv.1, b ≠ 61) ∧ ∀ b ∈ kv.2, b ≠ 0)
    ∧ decodeEnvironment (environmentBlock [([97, 0, 98], [99])]) ≠ [([97, 0, 98], [99])] := by
  decide!

/-- C6 (amended). For every list of pairs with no `'='` and no NUL byte in any key and no
NUL byte in any value, the environment block that `build` constructs (key, `'='`, value,
NUL for each pair in order, then one more NUL) reads back as exactly the input list when it
is split on NUL and each piece is split on its first `'='`. -/
theorem environment_roundtrip (pairs : List (List Byte × List Byte))
    (h : ∀ kv ∈ pairs, (∀ b ∈ kv.1, b ≠ 61 ∧ b ≠ 0) ∧ ∀ b ∈ kv.2, b ≠ 0) :
    decodeEnvironment (environmentBlock pairs) = pairs :=
  decodeEnvironment_block pairs h

/-- C6 (amended) on scenario S3: the pairs `foo=bar`, `a=b`, whose block is `foo=bar\0a=b\0\0`. -/
theorem environment_roundtrip_witness :
    environmentBlock [(str ("foo"), str ("bar")), (str ("a"), str ("b"))]
      = str ("foo=bar") ++ [0] ++ str ("a=b") ++ [0, 0]
    ∧ decodeEnvironment (environmentBlock [(str ("foo"), str ("bar")), (str ("a"), str ("b"))])
      = [(str ("foo"), str ("bar")), (str ("a"), str ("b"))] :=
  ⟨by decide!, environment_roundtrip _ (by decide!)⟩

/-- C8. For every state the module loop can be in (every image base, every cursor value) and
every "elf kernel" module that is placed, the physical base of the module, which is the
allocation pointer after the 1 MiB alignment bump, from which `m_kernelDelta` is computed and
which the MODINFO_ADDR record is derived from, is a multiple of `0x100000`. -/
theorem kernel_base_aligned (host : Host) (mod : Module) (st st' : Image)
    (hk : mod.type = str ("elf kernel")) (h : placeModuleBody host mod st = .ok st') :
    ∃ base size,
      base = (alignAllocationPointer 0x00100000 st).m_allocationPointer
      ∧ base % 0x100000 = 0
      ∧ st'.m_kernelDelta = sub32 base host.KERNEL_VADDR
      ∧ st'.m_metadata = st.m_metadata
          ++ ([ MODINFO_NAME, (mod.name ++ [0]).length % U32] ++ packWords (mod.name ++ [0]))
          ++ ([ MODINFO_TYPE, (mod.type ++ [0]).length % U32] ++ packWords (mod.type ++ [0]))
          ++ [ MODINFO_ADDR, 4, sub32 base st'.m_kernelDelta, MODINFO_SIZE, 4, size] := by
  obtain ⟨info, img, ep, size, hty, hsz, -, rfl⟩ := placeModuleBody_ok h
  have hinfo : info = .ElfKernel := by
    rw [hk] at hty
    have : m_moduleTypes (str ("elf kernel")) = some .ElfKernel := by decide
    rw [this] at hty
    exact (Option.some.inj hty).symm
  subst hinfo
  refine ⟨_, size, rfl, ?_, ?_, ?_⟩
  · rw [align1M_pointer]
    exact Nat.mul_mod_left _ _
  · simp [alignKernel]
    rfl
  · rw [writeMetadata32_m_metadata _ _ _ hsz, writeMetadata32_m_metadata _ _ _ (sub32_lt _ _)]
    simp [alignKernel, MODINFO_ADDR, MODINFO_SIZE, MODINFO_NAME, MODINFO_TYPE]
    rfl

/-- C8 on the sample kernel module, placed when the cursor is at `0x800FFC00`: its base is
`0x80100000`. -/
theorem kernel_base_aligned_witness :
    placeModuleBody sampleHost sampleModule sampleState
      = .ok (resultOf (placeModuleBody sampleHost sampleModule sampleState))
    ∧ ∃ base size,
      base = (alignAllocationPointer 0x00100000 sampleState).m_allocationPointer
      ∧ base % 0x100000 = 0
      ∧ (resultOf (placeModuleBody sampleHost sampleModule sampleState)).m_kernelDelta
          = sub32 base sampleHost.KERNEL_VADDR
      ∧ (resultOf (placeModuleBody sampleHost sampleModule sampleState)).m_metadata
          = sampleState.m_metadata
          ++ ([ MODINFO_NAME, (sampleModule.name ++ [0]).length % U32]
            ++ packWords (sampleModule.name ++ [0]))
          ++ ([ MODINFO_TYPE, (sampleModule.type ++ [0]).length % U32]
            ++ packWords (sampleModule.type ++ [0]))
          ++ [ MODINFO_ADDR, 4, sub32 base
              (resultOf (placeModuleBody sampleHost sampleModule sampleState)).m_kernelDelta,
            MODINFO_SIZE, 4, size] :=
  ⟨accepted_eq _ (by decide!),
    kernel_base_aligned sampleHost _ _ _ (by decide) (accepted_eq _ (by decide!))⟩

/-- C1. For every blueprint that `build` accepts, starting from an empty metadata stream
(module names shorter than 4 GiB, so that their length fits the 32-bit size word): decoding
the metadata stream as records (type word, size word, `ceil(size/4)` payload words) consumes
it exactly; the record types are, for each module in blueprint order, NAME, TYPE, ADDR,
SIZE and then one record per metadata entry of the module in blueprint order (DTB `0x8010`,
KERNEND `0x8004`, ENVIRONMENT `0x8002`, HOWTO `0x8001`), followed by one MODINFO_END record;
that record has size 0, is the last record, and no other record has type MODINFO_END. -/
theorem metadata_record_order (host : Host) (blueprint : Blueprint) (st st' : Image)
    (h : build host blueprint st = .ok st') (hempty : st.m_metadata = [])
    (hnames : ∀ m ∈ blueprint.modules, m.name.length + 1 < U32) :
    ∃ records last, decodeRecords st'.m_metadata = some records
      ∧ records.map (fun r => r.type) = blueprintRecordTypes blueprint
      ∧ records.getLast? = some last
      ∧ last.type = MODINFO_END ∧ last.size = 0 ∧ last.payload = []
      ∧ ∀ r ∈ records.dropLast, r.type ≠ MODINFO_END := by
  obtain ⟨st1, st2, h1, -, -⟩ := build_ok h
  obtain ⟨evs, hs, -⟩ := build_after_layout h1 h
  obtain ⟨ws, evs1, hmeta, -, -, -, -, hty, hlen, -⟩ := layout_step h1
  have hstream : st'.m_metadata = (ws ++ [(⟨MODINFO_END, []⟩ : Write)]).flatMap encodeWrite := by
    rw [hs.metadata, hmeta, hempty]
    simp
  have hrec := recordsOf_append 0 ws [(⟨MODINFO_END, []⟩ : Write)]
  simp only [recordsOf] at hrec
  refine ⟨recordsOf 0 (ws ++ [(⟨MODINFO_END, []⟩ : Write)]),
    (⟨0 + (ws.flatMap encodeWrite).length, MODINFO_END, 0, []⟩ : Record),
    ?_, ?_, ?_, rfl, rfl, rfl, ?_⟩
  · rw [hstream]
    exact decode_stream hty (hlen hnames)
  · rw [recordsOf_types]
    simp [blueprintRecordTypes, hty]
  · rw [hrec]
    simp [packWords]
  · rw [hrec]
    simp only [List.dropLast_concat]
    intro r hr
    obtain ⟨w, hw, hrt, -, -⟩ := recordsOf_mem hr
    have : w.type ∈ ws.map (fun w => w.type) := List.mem_map_of_mem _ hw
    rw [hty] at this
    rw [hrt]
    exact (moduleRecordTypes_mem this).1

/-- C1 on scenario S2 (one kernel module with a KERNEND entry): the record types are
NAME, TYPE, ADDR, SIZE, `0x8004`, END. -/
theorem metadata_record_order_witness :
    (build sampleHost blueprintS2 {} = .ok (resultOf (build sampleHost blueprintS2 {}))
      ∧ ({} : Image).m_metadata = []
      ∧ ∀ m ∈ blueprintS2.modules, m.name.length + 1 < U32)
    ∧ blueprintRecordTypes blueprintS2 = [1, 2, 3, 4, 0x8004, 0]
    ∧ ∃ records last,
      decodeRecords (resultOf (build sampleHost blueprintS2 {})).m_metadata = some records
      ∧ records.map (fun r => r.type) = blueprintRecordTypes blueprintS2
      ∧ records.getLast? = some last
      ∧ last.type = MODINFO_END ∧ last.size = 0 ∧ last.payload = []
      ∧ ∀ r ∈ records.dropLast, r.type ≠ MODINFO_END :=
  ⟨⟨buildS2_accepted, rfl, by decide⟩, by decide,
    metadata_record_order sampleHost blueprintS2 {} _ buildS2_accepted rfl
      (by decide)⟩

/-- C9. The allocation pointer is a multiple of `0x1000` in the state that each placement
block of `build` ends in: after a module body has been placed (lines 44-126), after a DTB
entry, after an ENVIRONMENT entry, after the metadata block (lines 203-216); hence also
after every non-empty run of the module loop and at the end of the layout of every accepted
blueprint. -/
theorem cursor_aligned_after_placement (host : Host) (st st' : Image)
    (h : (∃ mod, placeModuleBody host mod st = .ok st')
      ∨ (∃ md, md.type = .DTB ∧ placeMetadataEntry host md st = .ok st')
      ∨ (∃ md, md.type = .ENVIRONMENT ∧ placeMetadataEntry host md st = .ok st')
      ∨ placeMetadataBlock st = .ok st'
      ∨ (∃ mods, mods ≠ [] ∧ placeModules host mods st = .ok st')
      ∨ (∃ blueprint, layout host blueprint st = .ok st')) :
    st'.m_allocationPointer % 0x1000 = 0 := by
  rcases h with ⟨mod, h⟩ | ⟨md, hmd, h⟩ | ⟨md, hmd, h⟩ | h | ⟨mods, hne, h⟩ | ⟨blueprint, h⟩
  · obtain ⟨_, _, _, _, _, _, _, _, _, _, hal, _⟩ := placeModuleBody_step h
    exact hal
  · obtain ⟨_, _, _, _, _, haddr, _⟩ := placeMetadataEntry_step h
    exact (haddr (Or.inl hmd)).2
  · obtain ⟨_, _, _, _, _, haddr, _⟩ := placeMetadataEntry_step h
    exact (haddr (Or.inr hmd)).2
  · obtain ⟨_, _, _, _, hal, _⟩ := placeMetadataBlock_step h
    exact hal
  · obtain ⟨_, _, _, _, _, _, _, _, hal⟩ := placeModules_step h
    exact hal hne
  · obtain ⟨_, _, _, _, _, _, _, _, _, _, hal, _⟩ := layout_step h
    exact hal

/-- C9 on the sample kernel module: the cursor goes from `0x800FFC00` to `0x80101000`. -/
theorem cursor_aligned_after_placement_witness :
    placeModuleBody sampleHost sampleModule sampleState
      = .ok (resultOf (placeModuleBody sampleHost sampleModule sampleState))
    ∧ (resultOf (placeModuleBody sampleHost sampleModule sampleState)).m_allocationPointer
      = 0x80101000
    ∧ (resultOf (placeModuleBody sampleHost sampleModule sampleState)).m_allocationPointer
        % 0x1000 = 0 :=
  ⟨accepted_eq _ (by decide!), by decide!,
    cursor_aligned_after_placement sampleHost sampleState _
      (Or.inl ⟨sampleModule, accepted_eq _ (by decide!)⟩)⟩

/-- C10 (amended). For every accepted blueprint the cursor history of `build` starts at the
image base, each step starts where the one before ended, and every step whose 32-bit
computation does not wrap leaves the allocation pointer greater than or equal to its previous
value; the computation is `p + (a - 1)` for an alignment bump to the power of two `a` and
`p + n` for an advance by `n`, and an executable load never decreases a 32-bit pointer. -/
theorem cursor_never_decreases_unless_wrapped (host : Host) (blueprint : Blueprint)
    (st st' : Image) (h : build host blueprint st = .ok st') :
    Trace (blueprint.imageBase % U32) st'.cursorLog st'.m_allocationPointer
    ∧ (∀ e ∈ st'.cursorLog, e.raw < U32 → e.before ≤ e.after)
    ∧ (∀ k, k < 32 → ∀ s : Image, s.m_allocationPointer + (2 ^ k - 1) < U32 →
        s.m_allocationPointer ≤ (alignAllocationPointer (2 ^ k) s).m_allocationPointer)
    ∧ (∀ (s : Image) (n : Nat), s.m_allocationPointer + n < U32 →
        s.m_allocationPointer ≤ (s.setCursor (s.m_allocationPointer + n)).m_allocationPointer)
    ∧ (∀ (s s' : Image) (executable image image' : List Byte) (entry : Nat),
        s.m_allocationPointer < U32 →
        loadExecutable host executable image s = .ok (s', image', entry) →
        s.m_allocationPointer ≤ s'.m_allocationPointer) := by
  obtain ⟨st1, st2, h1, -, -⟩ := build_ok h
  obtain ⟨evs, hs, -⟩ := build_after_layout h1 h
  obtain ⟨ws, evs1, -, -, hlog, htr, -⟩ := layout_step h1
  have htrace : Trace (blueprint.imageBase % U32) st'.cursorLog st'.m_allocationPointer := by
    rw [hs.log, hlog]
    exact htr.append hs.trace
  refine ⟨htrace, fun e he => (htrace.good e he).2, ?_, ?_, ?_⟩
  · intro k hk s hw
    have hg := (align_good k hk s).2
    have hpos : 0 < 2 ^ k := Nat.two_pow_pos k
    have hlt : 2 ^ k < 2 ^ 32 := Nat.pow_lt_pow_right (by decide) hk
    have h32 : (2 : Nat) ^ 32 = 4294967296 := by norm_num
    have hmask : (2 ^ k + (U32 - 1)) % U32 = 2 ^ k - 1 := by
      simp only [U32]
      omega
    rw [hmask] at hg
    exact hg hw
  · intro s n hw
    simp only [setCursor_m_allocationPointer, Nat.mod_eq_of_lt hw]
    omega
  · intro s s' executable image image' entry hs' hl
    exact loadExecutable_monotone hs' hl

/-- C10 (amended) on scenario S1: no step of the build wraps, and the cursor goes from
`0x80000000` up to the end of the kickstart at `0x80002014`. -/
theorem cursor_never_decreases_unless_wrapped_witness :
    build sampleHost blueprintS1 {} = .ok (resultOf (build sampleHost blueprintS1 {}))
    ∧ (resultOf (build sampleHost blueprintS1 {})).m_allocationPointer = 0x80002014
    ∧ (∀ e ∈ (resultOf (build sampleHost blueprintS1 {})).cursorLog, e.raw < U32)
    ∧ ∀ e ∈ (resultOf (build sampleHost blueprintS1 {})).cursorLog,
        e.raw < U32 → e.before ≤ e.after :=
  ⟨buildS1_accepted, scenarioS1.2.1, scenarioS1.2.2.1,
    (cursor_never_decreases_unless_wrapped sampleHost blueprintS1 {} _
      buildS1_accepted).2.1⟩

/-- C10 (counterexample). The build of a blueprint with image base `0xFFF00000`, one kernel
module and two init modules is accepted; the first init module ends at `0xFFFFFFFC`, and the
`alignAllocationPointer(8)` before the second one takes the allocation pointer from
`0xFFFFFFFC` down to `0`, where the build ends. -/
theorem cursor_decreases_counterexample :
    ∃ s', build wrapHost wrapBlueprint {} = .ok s'
      ∧ (⟨0xFFFFFFFC, 0x100000003, 0⟩ : CursorEvent) ∈ s'.cursorLog
      ∧ s'.m_allocationPointer = 0
      ∧ ¬ (∀ e ∈ s'.cursorLog, e.before ≤ e.after) := by
  obtain ⟨s', hb, hlog, hap⟩ := wrap_build
  refine ⟨s', hb, hlog, hap, fun hall => ?_⟩
  have := hall _ hlog
  exact absurd this (by decide)

/-- C7 (counterexample). Scenario S1 is the blueprint of the claim: image base `0x80000000`,
`KERNEL_VADDR = 0xC0000000`, one "elf kernel" module whose ELF has the one `PT_LOAD` segment
at vaddr `0xC0000000` with filesz = memsz = `0x100`. Its build is accepted; the 1 MiB
alignment of the kernel leaves the cursor at `0x80000000`, and `m_kernelDelta` is
`0xC0000000`, not `0x80100000 - 0xC0000000`. -/
theorem kernel_base_counterexample :
    blueprintS1.imageBase = 0x80000000 ∧ sampleHost.KERNEL_VADDR = 0xC0000000
    ∧ blueprintS1.modules.map (fun m => (m.type, sampleHost.files m.fileName))
        = [(str ("elf kernel"), some sampleKernel)]
    ∧ (records sizeofPhdr (parseEhdr sampleKernel).e_phnum
          (sampleKernel.drop (parseEhdr sampleKernel).e_phoff)).map parsePhdr
        = [⟨PT_LOAD, 84, 0xC0000000, 0xC0000000, 0x100, 0x100, 7, 4096⟩]
    ∧ build sampleHost blueprintS1 {} = .ok (resultOf (build sampleHost blueprintS1 {}))
    ∧ (resultOf (build sampleHost blueprintS1 {})).cursorLog.head?
        = some ⟨0x80000000, 0x800FFFFF, 0x80000000⟩
    ∧ (resultOf (build sampleHost blueprintS1 {})).m_kernelDelta = 0xC0000000
    ∧ (resultOf (build sampleHost blueprintS1 {})).m_kernelDelta
        ≠ sub32 0x80100000 0xC0000000 :=
  ⟨rfl, rfl, by decide!, by decide!, buildS1_accepted, scenarioS1.2.2.2.1,
    scenarioS1.2.2.2.2.1, by rw [scenarioS1.2.2.2.2.1]; decide!⟩

/-- C7 (amended). For a blueprint with IMAGE_BASE `0x80000000` whose first module is an
"elf kernel" (`KERNEL_VADDR = 0xC0000000`), every accepted build places the kernel at the
physical base `0x80000000`, which is the image base, a multiple of 1 MiB already: the first
step of the cursor is the 1 MiB alignment from `0x80000000` to `0x80000000`. The module loop
sets `m_kernelDelta` to `0x80000000 - 0xC0000000 = 0xC0000000` (mod 2^32), the build ends with
that value when no later module is an "elf kernel", and the MODINFO_ADDR record of the kernel,
the third record of the stream, carries `0xC0000000`. -/
theorem kernel_placed_at_image_base (host : Host) (blueprint : Blueprint) (m : Module)
    (rest : List Module) (st st' : Image)
    (hib : blueprint.imageBase = 0x80000000) (hmods : blueprint.modules = m :: rest)
    (hk : m.type = str ("elf kernel")) (hkv : host.KERNEL_VADDR = 0xC0000000)
    (hempty : st.m_metadata = []) (h : build host blueprint st = .ok st') :
    ∃ size evs tail,
      st'.cursorLog = ⟨0x80000000, 0x800FFFFF, 0x80000000⟩ :: evs
      ∧ (∃ s1,
          placeModuleBody host m
            { st with
              m_imageBase := 0x80000000
              m_allocationPointer := 0x80000000
              m_image := []
              cursorLog := [] } = .ok s1
          ∧ s1.m_kernelDelta = 0xC0000000)
      ∧ sub32 0x80000000 0xC0000000 = 0xC0000000
      ∧ ((∀ m' ∈ rest, m_moduleTypes m'.type ≠ some .ElfKernel) →
          st'.m_kernelDelta = 0xC0000000)
      ∧ st'.m_metadata
          = ([ MODINFO_NAME, (m.name ++ [0]).length % U32] ++ packWords (m.name ++ [0]))
          ++ ([ MODINFO_TYPE, (m.type ++ [0]).length % U32] ++ packWords (m.type ++ [0]))
          ++ [ MODINFO_ADDR, 4, 0xC0000000, MODINFO_SIZE, 4, size] ++ tail := by
  have hty : m_moduleTypes m.type = some .ElfKernel := by rw [hk]; decide
  obtain ⟨base, size, evs, ws, hbase, hsz, hlog, hmeta, ⟨s1, hs1, hkd1⟩, hkd⟩ :=
    first_kernel_build hmods hty h
  have hb : base = 0x80000000 := by rw [hbase, hib]; decide
  have hibm : blueprint.imageBase % U32 = 0x80000000 := by rw [hib]; decide
  have hd : sub32 0x80000000 0xC0000000 = 0xC0000000 := by decide
  rw [hb, hkv, hd] at hkd1 hkd hmeta
  rw [hd] at hmeta
  rw [hb, hibm] at hlog
  rw [hibm] at hs1
  refine ⟨size, evs, ws.flatMap encodeWrite, hlog, ⟨s1, hs1, hkd1⟩, hd, hkd, ?_⟩
  rw [hmeta, hempty]
  have h1 : packWords (le32 3221225472) = [3221225472] := le32_of_lt _ (by decide)
  have h2 : packWords (le32 size) = [size] := le32_of_lt _ hsz
  have hl : ∀ x, (le32 x).length = 4 := fun _ => rfl
  simp [encodeWrite, h1, h2, hl, MODINFO_NAME, MODINFO_TYPE, MODINFO_ADDR, MODINFO_SIZE, U32]

/-- C7 (amended) on scenario S1. -/
theorem kernel_placed_at_image_base_witness :
    build sampleHost blueprintS1 {} = .ok (resultOf (build sampleHost blueprintS1 {}))
    ∧ ∃ size evs tail,
      (resultOf (build sampleHost blueprintS1 {})).cursorLog
        = ⟨0x80000000, 0x800FFFFF, 0x80000000⟩ :: evs
      ∧ (∃ s1,
          placeModuleBody sampleHost sampleModule
            { ({} : Image) with
              m_imageBase := 0x80000000
              m_allocationPointer := 0x80000000
              m_image := []
              cursorLog := [] } = .ok s1
          ∧ s1.m_kernelDelta = 0xC0000000)
      ∧ sub32 0x80000000 0xC0000000 = 0xC0000000
      ∧ ((∀ m' ∈ ([] : List Module), m_moduleTypes m'.type ≠ some .ElfKernel) →
          (resultOf (build sampleHost blueprintS1 {})).m_kernelDelta = 0xC0000000)
      ∧ (resultOf (build sampleHost blueprintS1 {})).m_metadata
          = ([ MODINFO_NAME, (sampleModule.name ++ [0]).length % U32]
              ++ packWords (sampleModule.name ++ [0]))
          ++ ([ MODINFO_TYPE, (sampleModule.type ++ [0]).length % U32]
              ++ packWords (sampleModule.type ++ [0]))
          ++ [ MODINFO_ADDR, 4, 0xC0000000, MODINFO_SIZE, 4, size] ++ tail :=
  ⟨buildS1_accepted,
    kernel_placed_at_image_base sampleHost blueprintS1 sampleModule [] {} _ rfl rfl rfl rfl rfl
      buildS1_accepted⟩

/-- C3 (counterexample). Scenario S2 (one kernel module with a KERNEND entry, image base
`0x80000000`) is accepted. Its metadata block lies at `0x80001000` and is 76 bytes long, and
`m_kernelDelta` is `0xC0000000`; the KERNEND record of the block carries `0xC0002000`, which
is the cursor after the 4 KiB bump minus `m_kernelDelta`, and not
`0x80001000 + 76 - 0xC0000000 = 0xC000104C`. -/
theorem kernend_payload_counterexample :
    build sampleHost blueprintS2 {} = .ok (resultOf (build sampleHost blueprintS2 {}))
    ∧ layout sampleHost blueprintS2 {} = .ok (resultOf (layout sampleHost blueprintS2 {}))
    ∧ (resultOf (layout sampleHost blueprintS2 {})).m_metadataBase = 0x80001000
    ∧ 4 * (resultOf (layout sampleHost blueprintS2 {})).m_metadata.length = 76
    ∧ (resultOf (build sampleHost blueprintS2 {})).m_kernelDelta = 0xC0000000
    ∧ decodeRecords (payloadMetadata (resultOf (layout sampleHost blueprintS2 {})))
        = some [⟨0, 1, 2, [107]⟩, ⟨3, 2, 11, [543583333, 1852990827, 27749]⟩,
            ⟨8, 3, 4, [0xC0000000]⟩, ⟨11, 4, 4, [0x100]⟩,
            ⟨14, MODINFO_METADATA ||| MODINFOMD_KERNEND, 4, [0xC0002000]⟩, ⟨17, 0, 0, []⟩]
    ∧ sub32 (add32 0x80001000 76) 0xC0000000 = 0xC000104C
    ∧ 0xC0002000 ≠ sub32 (add32 0x80001000 76) 0xC0000000 :=
  ⟨buildS2_accepted, layoutS2_accepted, layoutS2_decoded.2.1, layoutS2_decoded.2.2.1,
    buildS2_kernelDelta, layoutS2_decoded.2.2.2.1, by decide, by decide⟩

/-- C3 (amended). For every accepted blueprint, built by a fresh `Image` (module names
shorter than 4 GiB, no 32-bit wrap of the cursor, a metadata stream shorter than 4 GiB): the
metadata block inside the uncompressed payload decodes to the records of the blueprint, and
the payload of every MODINFO_METADATA|MODINFOMD_KERNEND record in it (there is one when the
blueprint has a KERNEND entry) is the cursor after the 4 KiB bump that follows the metadata
write, minus `m_kernelDelta` (mod 2^32): that cursor is `m_metadataBase + metadataSize`
rounded up to a multiple of 4096, which is the end of the payload. -/
theorem kernend_payload_after_bump (host : Host) (blueprint : Blueprint) (st st' : Image)
    (h : build host blueprint st = .ok st')
    (hm : st.m_metadata = []) (hf : st.m_metadataFixups = [])
    (hnames : ∀ m ∈ blueprint.modules, m.name.length + 1 < U32)
    (hraw : ∀ e ∈ st'.cursorLog, e.raw < U32)
    (hsmall : 4 * st'.m_metadata.length < U32) :
    ∃ pl records,
      layout host blueprint st = .ok pl
      ∧ pl.m_metadata = st'.m_metadata ∧ pl.m_kernelDelta = st'.m_kernelDelta
      ∧ decodeRecords (payloadMetadata pl) = some records
      ∧ records.map (fun r => r.type) = blueprintRecordTypes blueprint
      ∧ ((∃ m ∈ blueprint.modules, ∃ md ∈ m.metadata, md.type = .KERNEND) →
          ∃ r ∈ records, r.type = MODINFO_METADATA ||| MODINFOMD_KERNEND)
      ∧ (∀ r ∈ records, r.type = MODINFO_METADATA ||| MODINFOMD_KERNEND →
          r.payload = [sub32
            ((pl.m_metadataBase + 4 * pl.m_metadata.length + 4095) / 4096 * 4096)
            st'.m_kernelDelta])
      ∧ pl.m_allocationPointer
          = (pl.m_metadataBase + 4 * pl.m_metadata.length + 4095) / 4096 * 4096
      ∧ pl.m_allocationPointer = pl.m_imageBase + pl.m_image.length := by
  obtain ⟨pl, h1, hmeta, hkd, hlog⟩ := build_layout h
  have hraw' : ∀ e ∈ pl.cursorLog, e.raw < U32 := fun e he => hraw e (hlog e he)
  have hsmall' : 4 * pl.m_metadata.length < U32 := by rw [hmeta]; exact hsmall
  obtain ⟨ws, records, hdec, hty, hk, -, -⟩ := payload_records h1 hm hf hnames hraw' hsmall'
  obtain ⟨hb1, hb2, hb3, hb4, hb5⟩ := layout_bounds h1 hraw' hsmall'
  have he : MODINFO_METADATA ||| MODINFOMD_KERNEND = 0x8004 := by decide
  refine ⟨pl, records, h1, hmeta, hkd, hdec, hty, ?_, ?_, hb4, ?_⟩
  · intro hex
    rw [he]
    exact kernend_record_exists hty hex
  · intro r hr ht
    rw [he] at ht
    rw [← hb4, ← hkd]
    exact hk r hr ht
  · omega

/-- C3 (amended) on scenario S2: the KERNEND record carries
`0x80002000 - 0xC0000000 = 0xC0002000`. -/
theorem kernend_payload_after_bump_witness :
    (build sampleHost blueprintS2 {} = .ok (resultOf (build sampleHost blueprintS2 {}))
      ∧ (∀ e ∈ (resultOf (build sampleHost blueprintS2 {})).cursorLog, e.raw < U32)
      ∧ 4 * (resultOf (build sampleHost blueprintS2 {})).m_metadata.length < U32)
    ∧ sub32 ((0x80001000 + 76 + 4095) / 4096 * 4096) 0xC0000000 = 0xC0002000
    ∧ ∃ pl records,
      layout sampleHost blueprintS2 {} = .ok pl
      ∧ pl.m_metadata = (resultOf (build sampleHost blueprintS2 {})).m_metadata
      ∧ pl.m_kernelDelta = (resultOf (build sampleHost blueprintS2 {})).m_kernelDelta
      ∧ decodeRecords (payloadMetadata pl) = some records
      ∧ records.map (fun r => r.type) = blueprintRecordTypes blueprintS2
      ∧ ((∃ m ∈ blueprintS2.modules, ∃ md ∈ m.metadata, md.type = .KERNEND) →
          ∃ r ∈ records, r.type = MODINFO_METADATA ||| MODINFOMD_KERNEND)
      ∧ (∀ r ∈ records, r.type = MODINFO_METADATA ||| MODINFOMD_KERNEND →
          r.payload = [sub32
            ((pl.m_metadataBase + 4 * pl.m_metadata.length + 4095) / 4096 * 4096)
            (resultOf (build sampleHost blueprintS2 {})).m_kernelDelta])
      ∧ pl.m_allocationPointer
          = (pl.m_metadataBase + 4 * pl.m_metadata.length + 4095) / 4096 * 4096
      ∧ pl.m_allocationPointer = pl.m_imageBase + pl.m_image.length :=
  ⟨⟨buildS2_accepted, buildS2_no_wrap, buildS2_small⟩, by decide,
    kernend_payload_after_bump sampleHost blueprintS2 {} _ buildS2_accepted rfl rfl
      (by decide) buildS2_no_wrap buildS2_small⟩


/-- C4 (counterexample). Scenario S2 (kernel module first, with a KERNEND entry) is accepted;
its payload starts at `0x80000000` and is `0x2000` bytes long, and `m_kernelDelta` is
`0xC0000000`. The KERNEND record of the metadata block carries `v = 0xC0002000`, and
`v + kernelDelta = 0x80002000` is the end of the payload, not an address below it. -/
theorem metadata_address_counterexample :
    build sampleHost blueprintS2 {} = .ok (resultOf (build sampleHost blueprintS2 {}))
    ∧ blueprintS2.modules.map (fun m => m.type) = [str ("elf kernel")]
    ∧ layout sampleHost blueprintS2 {} = .ok (resultOf (layout sampleHost blueprintS2 {}))
    ∧ (resultOf (layout sampleHost blueprintS2 {})).m_imageBase = 0x80000000
    ∧ (resultOf (layout sampleHost blueprintS2 {})).m_image.length = 0x2000
    ∧ (resultOf (build sampleHost blueprintS2 {})).m_kernelDelta = 0xC0000000
    ∧ (decodeRecords (payloadMetadata (resultOf (layout sampleHost blueprintS2 {})))).map
        (fun records => records.filter
          (fun r => r.type = MODINFO_METADATA ||| MODINFOMD_KERNEND))
        = some [⟨14, 0x8004, 4, [0xC0002000]⟩]
    ∧ add32 0xC0002000 0xC0000000 = 0x80002000
    ∧ ¬ (add32 0xC0002000 0xC0000000 < 0x80000000 + 0x2000) :=
  ⟨buildS2_accepted, by decide!, layoutS2_accepted, layoutS2_decoded.2.2.2.2.1,
    layoutS2_decoded.2.2.2.2.2.1, buildS2_kernelDelta, layoutS2_decoded.2.2.2.2.2.2,
    by decide, by decide⟩

/-- C4 (amended). For every accepted blueprint in which no module after the first is an
"elf kernel", built by a fresh `Image` (module names shorter than 4 GiB, no 32-bit wrap of
the cursor, a metadata stream shorter than 4 GiB): every value `v` that a MODINFO_ADDR,
MODINFOMD_DTBP or MODINFOMD_ENVP record of the payload's metadata block carries satisfies
`imageBase <= v + kernelDelta < imageBase + uncompressedPayloadSize` (the sum mod 2^32), and
the value of a MODINFOMD_KERNEND record satisfies
`v + kernelDelta = imageBase + uncompressedPayloadSize`: it is the end of the payload. -/
theorem metadata_addresses_in_payload (host : Host) (blueprint : Blueprint) (st st' : Image)
    (h : build host blueprint st = .ok st')
    (hm : st.m_metadata = []) (hf : st.m_metadataFixups = [])
    (hnames : ∀ m ∈ blueprint.modules, m.name.length + 1 < U32)
    (hraw : ∀ e ∈ st'.cursorLog, e.raw < U32)
    (hsmall : 4 * st'.m_metadata.length < U32)
    (hkernel : ∀ m ∈ blueprint.modules.tail, m_moduleTypes m.type ≠ some .ElfKernel) :
    ∃ pl records,
      layout host blueprint st = .ok pl
      ∧ pl.m_kernelDelta = st'.m_kernelDelta
      ∧ pl.m_imageBase = blueprint.imageBase % U32
      ∧ decodeRecords (payloadMetadata pl) = some records
      ∧ records.map (fun r => r.type) = blueprintRecordTypes blueprint
      ∧ (∀ r ∈ records,
          (r.type = MODINFO_ADDR ∨ r.type = MODINFO_METADATA ||| MODINFOMD_DTBP
            ∨ r.type = MODINFO_METADATA ||| MODINFOMD_ENVP) →
          ∃ v, r.payload = [v]
            ∧ pl.m_imageBase ≤ add32 v st'.m_kernelDelta
            ∧ add32 v st'.m_kernelDelta < pl.m_imageBase + pl.m_image.length)
      ∧ (∀ r ∈ records, r.type = MODINFO_METADATA ||| MODINFOMD_KERNEND →
          ∃ v, r.payload = [v]
            ∧ add32 v st'.m_kernelDelta = pl.m_imageBase + pl.m_image.length) := by
  obtain ⟨pl, h1, hmeta, hkd, hlog⟩ := build_layout h
  have hraw' : ∀ e ∈ pl.cursorLog, e.raw < U32 := fun e he => hraw e (hlog e he)
  have hsmall' : 4 * pl.m_metadata.length < U32 := by rw [hmeta]; exact hsmall
  obtain ⟨ws, records, hdec, hty, hk, hother, haddr⟩ :=
    payload_records h1 hm hf hnames hraw' hsmall'
  obtain ⟨hb1, hb2, hb3, hb4, hb5⟩ := layout_bounds h1 hraw' hsmall'
  obtain ⟨ws0, -, hmeta0, -, -, -, hib, -⟩ := layout_step h1
  have hpos : 2 ≤ pl.m_metadata.length := by
    rw [hmeta0]
    simp only [List.flatMap_append, List.length_append, List.flatMap_cons, List.flatMap_nil,
      encodeWrite, packWords, List.length_cons, List.length_nil, List.append_nil]
    omega
  have e1 : MODINFO_METADATA ||| MODINFOMD_KERNEND = 0x8004 := by decide
  have e2 : MODINFO_METADATA ||| MODINFOMD_DTBP = 0x8010 := by decide
  have e3 : MODINFO_METADATA ||| MODINFOMD_ENVP = 0x8002 := by decide
  rw [e1, e2, e3]
  refine ⟨pl, records, h1, hkd, hib, hdec, hty, ?_, ?_⟩
  · intro r hr ht
    have hne : r.type ≠ 0x8004 := by
      rcases ht with ht | ht | ht <;> rw [ht] <;> decide
    have hne0 : r.type ≠ MODINFO_END := by
      rcases ht with ht | ht | ht <;> rw [ht] <;> decide
    obtain ⟨w, hw, hrt, hrp⟩ := hother r hr hne hne0
    obtain ⟨b, hlo, hhi, hdata⟩ := haddr hkernel w hw (by rw [← hrt]; exact ht)
    have hb : b < U32 := by omega
    refine ⟨sub32 b pl.m_kernelDelta, ?_, ?_, ?_⟩
    · rw [hrp, hdata]
      exact le32_of_lt _ (sub32_lt _ _)
    · rw [← hkd, add32_sub32 _ hb]
      exact hlo
    · rw [← hkd, add32_sub32 _ hb]
      omega
  · intro r hr ht
    refine ⟨_, hk r hr ht, ?_⟩
    rw [← hkd, add32_sub32 _ hb3]
    omega

/-- C4 (amended) on scenario S2, whose metadata block has an ADDR and a KERNEND record. -/
theorem metadata_addresses_in_payload_witness :
    (build sampleHost blueprintS2 {} = .ok (resultOf (build sampleHost blueprintS2 {}))
      ∧ (∀ e ∈ (resultOf (build sampleHost blueprintS2 {})).cursorLog, e.raw < U32)
      ∧ 4 * (resultOf (build sampleHost blueprintS2 {})).m_metadata.length < U32
      ∧ ∀ m ∈ blueprintS2.modules.tail, m_moduleTypes m.type ≠ some .ElfKernel)
    ∧ ∃ pl records,
      layout sampleHost blueprintS2 {} = .ok pl
      ∧ pl.m_kernelDelta = (resultOf (build sampleHost blueprintS2 {})).m_kernelDelta
      ∧ pl.m_imageBase = blueprintS2.imageBase % U32
      ∧ decodeRecords (payloadMetadata pl) = some records
      ∧ records.map (fun r => r.type) = blueprintRecordTypes blueprintS2
      ∧ (∀ r ∈ records,
          (r.type = MODINFO_ADDR ∨ r.type = MODINFO_METADATA ||| MODINFOMD_DTBP
            ∨ r.type = MODINFO_METADATA ||| MODINFOMD_ENVP) →
          ∃ v, r.payload = [v]
            ∧ pl.m_imageBase ≤ add32 v (resultOf (build sampleHost blueprintS2 {})).m_kernelDelta
            ∧ add32 v (resultOf (build sampleHost blueprintS2 {})).m_kernelDelta
                < pl.m_imageBase + pl.m_image.length)
      ∧ (∀ r ∈ records, r.type = MODINFO_METADATA ||| MODINFOMD_KERNEND →
          ∃ v, r.payload = [v]
            ∧ add32 v (resultOf (build sampleHost blueprintS2 {})).m_kernelDelta
                = pl.m_imageBase + pl.m_image.length) :=
  ⟨⟨buildS2_accepted, buildS2_no_wrap, buildS2_small, by decide⟩,
    metadata_addresses_in_payload sampleHost blueprintS2 {} _ buildS2_accepted
      rfl rfl (by decide) buildS2_no_wrap buildS2_small (by decide)⟩

/-- C11. For every power of two `a = 2^k` that a `uint32_t` holds and every cursor value `p`
with `p + a - 1 < 2^32`, `alignAllocationPointer(a)` sets the cursor to the smallest multiple
of `a` that is not below `p`: the result is a multiple of `a`, lies in `[p, p + a)`, is below
every other multiple of `a` from `p` on, and is `p` itself when `p` is a multiple of `a`. No
other field of the layout state changes. -/
theorem align_next_multiple (k : Nat) (hk : k < 32) (st : Image)
    (h : st.m_allocationPointer + 2 ^ k - 1 < U32) :
    2 ^ k ∣ (alignAllocationPointer (2 ^ k) st).m_allocationPointer
    ∧ st.m_allocationPointer ≤ (alignAllocationPointer (2 ^ k) st).m_allocationPointer
    ∧ (alignAllocationPointer (2 ^ k) st).m_allocationPointer < st.m_allocationPointer + 2 ^ k
    ∧ (∀ m, 2 ^ k ∣ m → st.m_allocationPointer ≤ m →
        (alignAllocationPointer (2 ^ k) st).m_allocationPointer ≤ m)
    ∧ (2 ^ k ∣ st.m_allocationPointer →
        (alignAllocationPointer (2 ^ k) st).m_allocationPointer = st.m_allocationPointer)
    ∧ (alignAllocationPointer (2 ^ k) st).frame = st.frame := by
  have hpos : 0 < 2 ^ k := Nat.two_pow_pos k
  have hq : (alignAllocationPointer (2 ^ k) st).m_allocationPointer
      = (st.m_allocationPointer + (2 ^ k - 1)) / 2 ^ k * 2 ^ k := by
    rw [alignAllocationPointer_pointer k hk, Nat.mod_eq_of_lt (by omega)]
  rw [hq]
  generalize 2 ^ k = a at hpos h ⊢
  generalize st.m_allocationPointer = p at h ⊢
  have hle : (p + (a - 1)) / a * a ≤ p + (a - 1) := Nat.div_mul_le_self _ _
  have hlt : p + (a - 1) < (p + (a - 1)) / a * a + a := Nat.lt_div_mul_add hpos
  have hleast : ∀ m, a ∣ m → p ≤ m → (p + (a - 1)) / a * a ≤ m := by
    rintro m ⟨c, rfl⟩ hp
    rw [Nat.mul_comm a c]
    apply Nat.mul_le_mul_right
    have h2 : p + (a - 1) < (c + 1) * a := by
      have : (c + 1) * a = a * c + a := by ring
      omega
    exact Nat.le_of_lt_succ ((Nat.div_lt_iff_lt_mul hpos).mpr h2)
  refine ⟨Nat.dvd_mul_left _ _, by omega, by omega, hleast, ?_, alignAllocationPointer_frame _ _⟩
  intro hd
  have := hleast p hd (le_refl _)
  omega

/-- C11 at `p = 0x80000100`, `a = 4096`: the cursor becomes `0x80001000`. -/
theorem align_next_multiple_witness :
    sampleAlignState.m_allocationPointer + 2 ^ 12 - 1 < U32
    ∧ (alignAllocationPointer (2 ^ 12) sampleAlignState).m_allocationPointer = 0x80001000
    ∧ 2 ^ 12 ∣ (alignAllocationPointer (2 ^ 12) sampleAlignState).m_allocationPointer
    ∧ sampleAlignState.m_allocationPointer
        ≤ (alignAllocationPointer (2 ^ 12) sampleAlignState).m_allocationPointer :=
  ⟨by decide, by decide,
    (align_next_multiple 12 (by decide) sampleAlignState (by decide)).1,
    (align_next_multiple 12 (by decide) sampleAlignState (by decide)).2.1⟩

/-- C17. When the type string of a module is neither "elf kernel" nor "md_image" and the
modules before it are placed, `build` stops with the error "Unknown module type" that names
the type. The iteration of that module stops there whatever the file system holds, so no
file of the module is opened. An iteration for a module of a known type never stops with
this error. -/
theorem unknown_module_type (host : Host) (blueprint : Blueprint) (pre rest : List Module)
    (m : Module) (st s1 : Image) (hmods : blueprint.modules = pre ++ m :: rest)
    (hpre : placeModules host pre
      { st with
        m_imageBase := blueprint.imageBase % U32
        m_allocationPointer := blueprint.imageBase % U32
        m_image := []
        cursorLog := [] } = .ok s1)
    (hty : m.type ≠ str ("elf kernel") ∧ m.type ≠ str ("md_image")) :
    build host blueprint st = .error (.unknownModuleType m.type)
    ∧ (∀ host' : Host, placeModuleBody host' m s1 = .error (.unknownModuleType m.type))
    ∧ (∀ (host' : Host) (m' : Module) (s : Image) (t : List Byte),
        m'.type = str ("elf kernel") ∨ m'.type = str ("md_image") →
        placeModule host' m' s ≠ .error (.unknownModuleType t)) := by
  have hnone : m_moduleTypes m.type = none := by
    simp only [m_moduleTypes, if_neg hty.1, if_neg hty.2]
  refine ⟨build_unknown hmods hpre hnone, fun host' => placeModuleBody_unknown host' m s1 hnone,
    ?_⟩
  intro host' m' s t hk herr
  have hsome : m_moduleTypes m'.type ≠ none := by
    rcases hk with hk | hk <;> rw [hk] <;> decide
  rcases placeModule_error herr with ⟨hn, -⟩ | ⟨-, he⟩
  · exact hsome hn
  · rcases he with he | he | he | he <;> exact absurd he (by simp)

/-- C17 on the blueprint whose only module has the type "zzz". -/
theorem unknown_module_type_witness :
    build sampleHost blueprintZ {} = .error (.unknownModuleType (str ("zzz"))) :=
  (unknown_module_type sampleHost blueprintZ [] []
    { name := str ("k"), type := str ("zzz"), fileName := str ("no such file") } {} _ rfl rfl
    (by decide)).1

/-- C18. The kernel loader of `build` and `loadExecutable` stop with "Bad ELF identification"
exactly when the 52 header bytes can be read and the header fails the same test: the first
seven bytes of `e_ident` differ from `0x7F 'E' 'L' 'F'`, ELFCLASS32, ELFDATA2LSB, EV_CURRENT,
or `e_type` is not ET_EXEC, or `e_machine` is not EM_ARM, or `e_version` is not EV_CURRENT,
or `e_phentsize` is not `sizeof(Elf32_Phdr)`. The test reads nothing else of the header. -/
theorem elf_header_check (host : Host) (f executable image : List Byte) (base : Nat)
    (st : Image) :
    (loadKernelBody f base st = .error .badElf
      ↔ ∃ hdr, readAt f 0 sizeofEhdr = .ok hdr
          ∧ ((parseEhdr hdr).e_ident.take 7 ≠ [0x7F, 0x45, 0x4C, 0x46, 1, 1, 1]
            ∨ (parseEhdr hdr).e_type ≠ ET_EXEC ∨ (parseEhdr hdr).e_machine ≠ EM_ARM
            ∨ (parseEhdr hdr).e_version ≠ EV_CURRENT
            ∨ (parseEhdr hdr).e_phentsize ≠ sizeofPhdr))
    ∧ (loadExecutableAt host executable image base = .error .badElf
      ↔ ∃ file hdr, host.openFile executable = .ok file ∧ readAt file 0 sizeofEhdr = .ok hdr
          ∧ ((parseEhdr hdr).e_ident.take 7 ≠ [0x7F, 0x45, 0x4C, 0x46, 1, 1, 1]
            ∨ (parseEhdr hdr).e_type ≠ ET_EXEC ∨ (parseEhdr hdr).e_machine ≠ EM_ARM
            ∨ (parseEhdr hdr).e_version ≠ EV_CURRENT
            ∨ (parseEhdr hdr).e_phentsize ≠ sizeofPhdr))
    ∧ (∀ a b : Elf32_Ehdr, a.e_ident.take 7 = b.e_ident.take 7 → a.e_type = b.e_type →
        a.e_machine = b.e_machine → a.e_version = b.e_version →
        a.e_phentsize = b.e_phentsize → badElfHeader a = badElfHeader b) := by
  refine ⟨?_, ?_, ?_⟩
  · rw [loadKernelBody_badElf]
    simp only [badElfHeader_iff]
  · rw [loadExecutableAt_badElf]
    simp only [badElfHeader_iff]
  · intro a b h1 h2 h3 h4 h5
    have ha := badElfHeader_iff a
    have hb := badElfHeader_iff b
    rw [h1, h2, h3, h4, h5] at ha
    cases hx : badElfHeader a <;> cases hy : badElfHeader b <;> simp_all

/-- C13. For every image, every base and every list of relocation records whose
`R_ARM_ABS32` offsets are in bounds: `processImageRelocations` stops with an
unsupported-relocation error exactly when some record has a type other than `R_ARM_ABS32`,
`R_ARM_REL32`, `R_ARM_CALL`, `R_ARM_PREL31`; otherwise it returns the image obtained by
processing the records in order, where an `R_ARM_ABS32` record replaces the little-endian
word at `r_offset` by that word plus `base` (mod 2^32) and leaves every byte outside these
four alone, and a record of another supported type changes nothing. The length of the image
does not change, nor does a byte outside the words of the `R_ARM_ABS32` records. -/
theorem relocations_in_order (base : Nat) (relocs : List Reloc) (image : List Byte)
    (hb : ∀ r ∈ relocs, ELF32_R_TYPE r.r_info = R_ARM_ABS32 → r.r_offset + 4 ≤ image.length) :
    ((∃ t, processImageRelocations base relocs image = .error (.unsupportedRelocation t))
      ↔ ∃ r ∈ relocs, ¬ supportedReloc r)
    ∧ ((∀ r ∈ relocs, supportedReloc r) →
        processImageRelocations base relocs image = .ok (relocs.foldl (relocate base) image))
    ∧ (∀ (img : List Byte) (r : Reloc), ELF32_R_TYPE r.r_info = R_ARM_ABS32 →
        r.r_offset + 4 ≤ img.length →
        u32le ((relocate base img r).drop r.r_offset) = add32 (u32le (img.drop r.r_offset)) base
        ∧ (relocate base img r).length = img.length
        ∧ ∀ i, i < r.r_offset ∨ r.r_offset + 4 ≤ i → (relocate base img r)[i]? = img[i]?)
    ∧ (∀ (img : List Byte) (r : Reloc), ELF32_R_TYPE r.r_info ≠ R_ARM_ABS32 →
        relocate base img r = img)
    ∧ (relocs.foldl (relocate base) image).length = image.length
    ∧ (∀ i, (∀ r ∈ relocs, ELF32_R_TYPE r.r_info = R_ARM_ABS32 →
          i < r.r_offset ∨ r.r_offset + 4 ≤ i) →
        (relocs.foldl (relocate base) image)[i]? = image[i]?) := by
  refine ⟨⟨?_, ?_⟩, processImageRelocations_supported base relocs image hb, ?_, ?_,
    foldl_relocate_length base relocs image hb,
    fun i hi => getElem?_foldl_relocate base relocs image i hb hi⟩
  · rintro ⟨t, ht⟩
    by_contra hall
    have hs : ∀ r ∈ relocs, supportedReloc r := by
      intro r hr
      by_contra hn
      exact hall ⟨r, hr, hn⟩
    rw [processImageRelocations_supported base relocs image hb hs] at ht
    simp at ht
  · intro hu
    obtain ⟨r, -, -, hres⟩ := processImageRelocations_unsupported base relocs image hb hu
    exact ⟨_, hres⟩
  · intro img r ht hbr
    exact ⟨u32le_relocate base img r ht hbr, relocate_length base img r (fun _ => hbr),
      fun i hi => getElem?_relocate base img r i (fun _ => hbr) (fun _ => hi)⟩
  · intro img r ht
    simp only [relocate, if_neg ht]

/-- C13 on one `R_ARM_ABS32` record at offset `0x30` over a zero word, base `0x80002000`:
the word becomes the base. -/
theorem relocations_in_order_witness :
    (∀ r ∈ [(⟨0x30, R_ARM_ABS32⟩ : Reloc)], ELF32_R_TYPE r.r_info = R_ARM_ABS32 →
      r.r_offset + 4 ≤ (List.replicate 0x34 (0 : Byte)).length)
    ∧ processImageRelocations 0x80002000 [⟨0x30, R_ARM_ABS32⟩] (List.replicate 0x34 0)
        = .ok ([(⟨0x30, R_ARM_ABS32⟩ : Reloc)].foldl (relocate 0x80002000)
            (List.replicate 0x34 0))
    ∧ u32le (([(⟨0x30, R_ARM_ABS32⟩ : Reloc)].foldl (relocate 0x80002000)
        (List.replicate 0x34 0)).drop 0x30) = 0x80002000
    ∧ ([(⟨0x30, R_ARM_ABS32⟩ : Reloc)].foldl (relocate 0x80002000)
        (List.replicate 0x34 0)).take 0x30 = List.replicate 0x30 0 :=
  ⟨by decide,
    (relocations_in_order 0x80002000 [⟨0x30, R_ARM_ABS32⟩] (List.replicate 0x34 0)
      (by decide)).2.1 (by decide),
    by decide, by decide⟩

/-- C14 (counterexample). Two `R_ARM_ABS32` records at the offsets 0 and 1, in bounds of the
five bytes `00 00 00 FF 00`, base `0x00800000`: relocating twice leaves `00 00 00 00 02`,
relocating once with the doubled base leaves `00 00 00 00 01`. -/
theorem relocating_twice_counterexample :
    (∀ r ∈ [(⟨0, R_ARM_ABS32⟩ : Reloc), ⟨1, R_ARM_ABS32⟩],
      supportedReloc r ∧ r.r_offset + 4 ≤ ([0, 0, 0, 0xFF, 0] : List Byte).length)
    ∧ (processImageRelocations 0x00800000 [⟨0, R_ARM_ABS32⟩, ⟨1, R_ARM_ABS32⟩]
          [0, 0, 0, 0xFF, 0]
        >>= processImageRelocations 0x00800000 [⟨0, R_ARM_ABS32⟩, ⟨1, R_ARM_ABS32⟩])
        = .ok [0, 0, 0, 0, 2]
    ∧ processImageRelocations ((2 * 0x00800000) % U32) [⟨0, R_ARM_ABS32⟩, ⟨1, R_ARM_ABS32⟩]
        [0, 0, 0, 0xFF, 0] = .ok [0, 0, 0, 0, 1] := by
  decide

/-- C14 (amended). For every image, every base `b` and every list of relocation records of
the supported types with in-bounds offsets in which the words of any two `R_ARM_ABS32`
records are the same word or do not overlap: applying `processImageRelocations` twice with
base `b` gives the image that applying it once with base `2b` (mod 2^32) gives; a record of
one of the three other types changes nothing in either case. -/
theorem relocating_twice (b : Nat) (relocs : List Reloc) (image : List Byte)
    (hs : ∀ r ∈ relocs, supportedReloc r)
    (hb : ∀ r ∈ relocs, ELF32_R_TYPE r.r_info = R_ARM_ABS32 → r.r_offset + 4 ≤ image.length)
    (hc : relocs.Pairwise compatibleReloc) :
    (processImageRelocations b relocs image >>= processImageRelocations b relocs)
      = processImageRelocations ((2 * b) % U32) relocs image
    ∧ (∃ image', processImageRelocations ((2 * b) % U32) relocs image = .ok image')
    ∧ (∀ (c : Nat) (img : List Byte) (r : Reloc), ELF32_R_TYPE r.r_info ≠ R_ARM_ABS32 →
        relocate c img r = img) := by
  have h1 := processImageRelocations_supported b relocs image hb hs
  have hlen := foldl_relocate_length b relocs image hb
  have h2 := processImageRelocations_supported b relocs (relocs.foldl (relocate b) image)
    (fun r hr => by rw [hlen]; exact hb r hr) hs
  have h3 := processImageRelocations_supported ((2 * b) % U32) relocs image hb hs
  refine ⟨?_, ⟨_, h3⟩, ?_⟩
  · rw [h1, ok_bind, h2, h3, foldl_relocate_mod, foldl_relocate_twice b relocs image hb hc,
      Nat.two_mul]
  · intro c img r ht
    simp only [relocate, if_neg ht]

/-- C14 (amended) on two `R_ARM_ABS32` records at the offsets 0 and 4 and an `R_ARM_CALL`
record, base `0x80000001`. -/
theorem relocating_twice_witness :
    (processImageRelocations 0x80000001 [⟨0, R_ARM_ABS32⟩, ⟨4, R_ARM_ABS32⟩, ⟨2, R_ARM_CALL⟩]
        [1, 0, 0, 0, 0xFF, 0xFF, 0xFF, 0xFF]
      >>= processImageRelocations 0x80000001
        [⟨0, R_ARM_ABS32⟩, ⟨4, R_ARM_ABS32⟩, ⟨2, R_ARM_CALL⟩])
      = processImageRelocations ((2 * 0x80000001) % U32)
        [⟨0, R_ARM_ABS32⟩, ⟨4, R_ARM_ABS32⟩, ⟨2, R_ARM_CALL⟩]
        [1, 0, 0, 0, 0xFF, 0xFF, 0xFF, 0xFF]
    ∧ processImageRelocations ((2 * 0x80000001) % U32)
        [⟨0, R_ARM_ABS32⟩, ⟨4, R_ARM_ABS32⟩, ⟨2, R_ARM_CALL⟩]
        [1, 0, 0, 0, 0xFF, 0xFF, 0xFF, 0xFF] = .ok [3, 0, 0, 0, 1, 0, 0, 0] :=
  ⟨(relocating_twice 0x80000001 [⟨0, R_ARM_ABS32⟩, ⟨4, R_ARM_ABS32⟩, ⟨2, R_ARM_CALL⟩]
      [1, 0, 0, 0, 0xFF, 0xFF, 0xFF, 0xFF] (by decide) (by decide) (by decide)).1,
    by decide⟩

/-- C12 (counterexample). Scenario S1 is accepted; the body of its kernel, `0x100` bytes, is
placed at the image base `0x80000000`. In the state after that placement step the cursor is
`0x80001000`, so that `allocationPointer - imageBase` is `0x1000`, and the payload buffer
is `0x100` bytes long. -/
theorem payload_length_counterexample :
    build sampleHost blueprintS1 {} = .ok (resultOf (build sampleHost blueprintS1 {}))
    ∧ blueprintS1.modules = [sampleModule]
    ∧ ∃ s2,
        placeModuleBody sampleHost sampleModule
          { ({} : Image) with
            m_imageBase := blueprintS1.imageBase % U32
            m_allocationPointer := blueprintS1.imageBase % U32
            m_image := []
            cursorLog := [] } = .ok s2
        ∧ s2.m_imageBase = 0x80000000
        ∧ s2.m_allocationPointer = 0x80001000
        ∧ sub32 s2.m_allocationPointer s2.m_imageBase = 0x1000
        ∧ s2.m_image.length = 0x100
        ∧ s2.m_image.length ≠ sub32 s2.m_allocationPointer s2.m_imageBase :=
  ⟨buildS1_accepted, rfl, _, accepted_eq _ (by decide!), by decide!, by decide!, by decide!,
    by decide!, by decide!⟩

/-- C12 (amended). For every accepted blueprint: after the metadata block is placed the
length of the payload buffer equals `allocationPointer - imageBase` (mod 2^32). After a DTB,
an environment block or the body of an "md_image" module, placed in any state, the last step
of the cursor is the round-up to a multiple of `0x1000` and the length of the payload buffer
equals the cursor before that round-up minus `imageBase` (mod 2^32). After the body of an
"elf kernel" module of the blueprint, as long as the cursor has not wrapped, the same holds
when the kernel has a `PT_LOAD` segment, and the length is the one before the body when it
has none. -/
theorem payload_length_after_placement (host : Host) (blueprint : Blueprint) (st st' : Image)
    (h : build host blueprint st = .ok st') :
    (∃ s1 s2,
        placeModules host blueprint.modules
          { st with
            m_imageBase := blueprint.imageBase % U32
            m_allocationPointer := blueprint.imageBase % U32
            m_image := []
            cursorLog := [] } = .ok s1
        ∧ placeMetadataBlock s1 = .ok s2
        ∧ s2.m_image.length = sub32 s2.m_allocationPointer s2.m_imageBase)
    ∧ (∀ md s s', placeMetadataEntry host md s = .ok s' →
        md.type = .DTB ∨ md.type = .ENVIRONMENT →
        ∃ e, s'.cursorLog.getLast? = some e ∧ e.raw = e.before + 4095
          ∧ e.after = s'.m_allocationPointer
          ∧ s'.m_image.length = sub32 e.before s'.m_imageBase)
    ∧ (∀ m s s', placeModuleBody host m s = .ok s' → m.type = str ("md_image") →
        ∃ e, s'.cursorLog.getLast? = some e ∧ e.raw = e.before + 4095
          ∧ e.after = s'.m_allocationPointer
          ∧ s'.m_image.length = sub32 e.before s'.m_imageBase)
    ∧ (∀ pre m rest, blueprint.modules = pre ++ m :: rest → m.type = str ("elf kernel") →
        ∃ s1 s2 f,
          placeModules host pre
            { st with
              m_imageBase := blueprint.imageBase % U32
              m_allocationPointer := blueprint.imageBase % U32
              m_image := []
              cursorLog := [] } = .ok s1
          ∧ placeModuleBody host m s1 = .ok s2
          ∧ host.files m.fileName = some f
          ∧ ((∀ e ∈ s2.cursorLog, e.raw < U32) →
              ∃ e, s2.cursorLog.getLast? = some e ∧ e.raw = e.before + 4095
                ∧ e.after = s2.m_allocationPointer
                ∧ ((∃ p ∈ programHeadersOf f, p.p_type = PT_LOAD) →
                    s2.m_image.length = sub32 e.before s2.m_imageBase)
                ∧ ((∀ p ∈ programHeadersOf f, p.p_type ≠ PT_LOAD) →
                    s2.m_image.length = s1.m_image.length))) := by
  obtain ⟨l1, l2, hl, -, -⟩ := build_ok h
  obtain ⟨s1, s2, h1, h2, -⟩ := layout_ok hl
  refine ⟨⟨s1, s2, h1, h2, (placeMetadataBlock_step h2).choose_spec.2.2.2.2.1⟩, ?_, ?_, ?_⟩
  · intro md s s' hmd hty
    obtain ⟨n, hlen, hibs, hlog, -⟩ := placeMetadataEntry_blob hmd hty
    exact ⟨_, by rw [hlog, getLast?_two], rfl, rfl, by rw [hlen, hibs]⟩
  · intro m s s' hm hty
    obtain ⟨info, f, s1, size, base, hinfo, hf, hbase, hbody, himg, hibs, hkd, hlog, htr⟩ :=
      placeModuleBody_body hm
    have hb : m_moduleTypes m.type = some .Binary := by rw [hty]; decide
    rw [hb] at hinfo
    obtain rfl := Option.some.inj hinfo
    simp only [loadModuleBody] at hbody
    obtain ⟨-, -, hlen⟩ := loadBinaryBody_inv hbody
    rw [(beforeBody_frame host m .Binary s).2] at hlen
    exact ⟨_, by rw [hlog, getLast?_two], rfl, rfl, by rw [himg, hlen, hibs]⟩
  · intro pre m rest hmods hty
    rw [hmods] at h1
    obtain ⟨p1, p2, p3, hp1, hp2, -, -⟩ := placeModules_split h1
    have hk : m_moduleTypes m.type = some .ElfKernel := by rw [hty]; decide
    obtain ⟨info, f, b1, size0, base0, hinfo, hf, -, -, -, -, -, hlog0, -⟩ :=
      placeModuleBody_body hp2
    rw [hk] at hinfo
    obtain rfl := Option.some.inj hinfo
    refine ⟨p1, p2, f, hp1, hp2, hf, fun hw => ?_⟩
    obtain ⟨info, base, size, evs1, evs2, -, -, hsb, -⟩ := placeModuleBody_step hp2
    have hfit : PayloadFits p1 := by
      refine placeModules_fits hp1 ⟨le_refl _, Nat.zero_le _⟩ (fun e he => hw e ?_)
      rw [hsb.log]
      simp [he]
    have w0 := hw ⟨p1.m_allocationPointer, p1.m_allocationPointer + 1048575,
      (alignAllocationPointer 0x00100000 p1).m_allocationPointer⟩
      (by rw [hlog0, (beforeBody_kernel host m p1).2.1]; simp)
    simp only at w0
    obtain ⟨f2, base, limit, hf2, -, hle, hl1, hl2, -, hibs, hseg, -, hlog, -⟩ :=
      placeKernelBody_payload hp2 hk hfit.1 w0
    rw [hf] at hf2
    obtain rfl := Option.some.inj hf2
    obtain ⟨-, hc⟩ := loadKernelSegments_length hseg (le_trans hfit.1 hle)
      (lt_of_le_of_lt hl1 hl2)
    have hsub : sub32 limit p1.m_imageBase = limit - p1.m_imageBase :=
      sub32_of_le (le_trans hfit.1 (le_trans hle hl1)) hl2
    refine ⟨⟨limit, limit + 4095, p2.m_allocationPointer⟩, by rw [hlog]; simp, rfl,
      rfl, fun hex => ?_, fun hno => ?_⟩
    · rcases hc with ⟨hnone, -⟩ | ⟨-, hlen⟩
      · obtain ⟨p, hp, hpt⟩ := hex
        exact absurd hpt (hnone p hp)
      · rw [hlen, hibs, hsub]
        have := hfit.1
        have := hfit.2
        omega
    · rcases hc with ⟨-, hlen⟩ | ⟨⟨p, hp, hpt⟩, -⟩
      · exact hlen
      · exact absurd hpt (hno p hp)

/-- C12 (amended) on scenario S1: after the body of the kernel, `0x100` bytes placed at the
image base `0x80000000`, the cursor has gone from `0x80000100` up to `0x80001000` and the
payload buffer is `0x100` bytes long. -/
theorem payload_length_after_placement_witness :
    build sampleHost blueprintS1 {} = .ok (resultOf (build sampleHost blueprintS1 {}))
    ∧ (∃ p ∈ programHeadersOf sampleKernel, p.p_type = PT_LOAD)
    ∧ placeModuleBody sampleHost sampleModule startS1 = .ok kernelPlacedS1
    ∧ kernelPlacedS1.cursorLog.getLast? = some ⟨0x80000100, 0x800010FF, 0x80001000⟩
    ∧ kernelPlacedS1.m_image.length = sub32 0x80000100 kernelPlacedS1.m_imageBase
    ∧ kernelPlacedS1.m_image.length = 0x100 := by
  refine ⟨buildS1_accepted, by decide!, kernelPlacedS1_ok, by decide!, ?_, by decide!⟩
  obtain ⟨-, -, -, hk⟩ :=
    payload_length_after_placement sampleHost blueprintS1 {} _ buildS1_accepted
  obtain ⟨s1, s2, f, h1, h2, hf, himp⟩ := hk [] sampleModule [] rfl rfl
  simp only [placeModules, Except.ok.injEq] at h1
  have hs1 : s1 = startS1 := h1.symm
  rw [hs1, kernelPlacedS1_ok] at h2
  have hs2 : kernelPlacedS1 = s2 := Except.ok.inj h2
  have hf2 : sampleKernel = f := Option.some.inj hf
  rw [← hs2, ← hf2] at himp
  obtain ⟨e, he, -, -, hlen, -⟩ := himp (by decide!)
  have he2 : kernelPlacedS1.cursorLog.getLast?
      = some ⟨0x80000100, 0x800010FF, 0x80001000⟩ := by decide!
  rw [he2] at he
  rw [← Option.some.inj he] at hlen
  exact hlen (by decide!)

/-- C19. For every "elf kernel" module of an accepted blueprint, `f` being its file and `base`
its physical base (the cursor after the 1 MiB alignment): when the cursor has not wrapped up
to the end of the placement of the body, every `PT_LOAD` segment has
`p_vaddr >= KERNEL_VADDR` and a physical range `base + (p_vaddr - KERNEL_VADDR)
+ max(p_filesz, p_memsz)` below 2^32, and the ranges `[p_vaddr, p_vaddr + max(p_filesz,
p_memsz))` of the `PT_LOAD` segments are pairwise disjoint, then after the body is placed
`m_kernelDelta = base - KERNEL_VADDR` and, for each `PT_LOAD` segment, with
`off = p_vaddr + kernelDelta - imageBase` (32-bit): `off + p_filesz` is within the payload,
the `p_filesz` bytes of the payload at `off` are the bytes of the file at `p_offset` (all of
them inside the file), and the payload bytes from `off + p_filesz` up to
`p_vaddr + kernelDelta + p_memsz - imageBase` are zero. The stream ends with the record
`MODINFO_SIZE, 4, size`, where `size` is 0 when there is no `PT_LOAD` segment and otherwise
`p_vaddr + kernelDelta + p_memsz - base` for a `PT_LOAD` segment whose
`p_vaddr + kernelDelta + p_memsz` is the largest. -/
theorem kernel_segments_loaded (host : Host) (blueprint : Blueprint) (st st' : Image)
    (pre rest : List Module) (m : Module)
    (h : build host blueprint st = .ok st')
    (hmods : blueprint.modules = pre ++ m :: rest)
    (hk : m.type = str ("elf kernel")) :
    ∃ s1 s2 f base,
      placeModules host pre
        { st with
          m_imageBase := blueprint.imageBase % U32
          m_allocationPointer := blueprint.imageBase % U32
          m_image := []
          cursorLog := [] } = .ok s1
      ∧ placeModuleBody host m s1 = .ok s2
      ∧ host.files m.fileName = some f
      ∧ base = (alignAllocationPointer 0x00100000 s1).m_allocationPointer
      ∧ ((∀ e ∈ s2.cursorLog, e.raw < U32) →
          (∀ p ∈ programHeadersOf f, p.p_type = PT_LOAD →
            host.KERNEL_VADDR ≤ p.p_vaddr
            ∧ base + (p.p_vaddr - host.KERNEL_VADDR) + max p.p_filesz p.p_memsz < U32) →
          (programHeadersOf f).Pairwise segmentsDisjoint →
          s2.m_kernelDelta = sub32 base host.KERNEL_VADDR
          ∧ (∀ p ∈ programHeadersOf f, p.p_type = PT_LOAD →
              sub32 (add32 p.p_vaddr s2.m_kernelDelta) s2.m_imageBase + p.p_filesz
                ≤ s2.m_image.length
              ∧ (∀ k, k < p.p_filesz →
                  p.p_offset + k < f.length
                  ∧ s2.m_image[sub32 (add32 p.p_vaddr s2.m_kernelDelta) s2.m_imageBase + k]?
                    = f[p.p_offset + k]?)
              ∧ (∀ i, sub32 (add32 p.p_vaddr s2.m_kernelDelta) s2.m_imageBase + p.p_filesz ≤ i →
                  i < sub32 (add32 (add32 p.p_vaddr s2.m_kernelDelta) p.p_memsz) s2.m_imageBase →
                  s2.m_image[i]? = some 0))
          ∧ ∃ ws size, s2.m_metadata = ws ++ [ MODINFO_SIZE, 4, size]
              ∧ ((∀ p ∈ programHeadersOf f, p.p_type ≠ PT_LOAD) → size = 0)
              ∧ ((∃ p ∈ programHeadersOf f, p.p_type = PT_LOAD) →
                  ∃ p ∈ programHeadersOf f, p.p_type = PT_LOAD
                    ∧ size = sub32 (add32 (add32 p.p_vaddr s2.m_kernelDelta) p.p_memsz) base
                    ∧ ∀ q ∈ programHeadersOf f, q.p_type = PT_LOAD →
                        add32 (add32 q.p_vaddr s2.m_kernelDelta) q.p_memsz
                          ≤ add32 (add32 p.p_vaddr s2.m_kernelDelta) p.p_memsz)) := by
  obtain ⟨l1, l2, hl, -, -⟩ := build_ok h
  obtain ⟨t1, t2, h1, -, -⟩ := layout_ok hl
  rw [hmods] at h1
  obtain ⟨p1, p2, p3, hp1, hp2, -, -⟩ := placeModules_split h1
  have hkt : m_moduleTypes m.type = some .ElfKernel := by rw [hk]; decide
  obtain ⟨info, f, b1, size0, base0, hinfo, hf, -, -, -, -, -, hlog0, -⟩ :=
    placeModuleBody_body hp2
  rw [hkt] at hinfo
  obtain rfl := Option.some.inj hinfo
  refine ⟨p1, p2, f, _, hp1, hp2, hf, rfl, ?_⟩
  intro hw hvs hdis
  obtain ⟨info, base1, size1, evs1, evs2, -, -, hsb, -⟩ := placeModuleBody_step hp2
  have hfit : PayloadFits p1 := by
    refine placeModules_fits hp1 ⟨le_refl _, Nat.zero_le _⟩ (fun e he => hw e ?_)
    rw [hsb.log]
    simp [he]
  have w0 := hw ⟨p1.m_allocationPointer, p1.m_allocationPointer + 1048575,
    (alignAllocationPointer 0x00100000 p1).m_allocationPointer⟩
    (by rw [hlog0, (beforeBody_kernel host m p1).2.1]; simp)
  simp only at w0
  obtain ⟨f2, base, limit, hf2, hbase, hle, hl1, hl2, hkd, hibs, hseg, hlim, hlog, -⟩ :=
    placeKernelBody_payload hp2 hkt hfit.1 w0
  obtain ⟨ws, hrec⟩ := placeKernelBody_record hp2 hkt hfit.1 w0
  rw [hf] at hf2 hrec
  obtain rfl := Option.some.inj hf2
  rw [Option.getD_some, hkd, ← hbase] at hrec
  rw [← hbase] at hvs ⊢
  have hib : p1.m_imageBase ≤ base := le_trans hfit.1 hle
  have hbl : base < U32 := lt_of_le_of_lt hl1 hl2
  have hlen1 : p1.m_image.length ≤ base - p1.m_imageBase := by
    have := hfit.2
    omega
  have hoff : ∀ p ∈ programHeadersOf f, p.p_type = PT_LOAD →
      sub32 (add32 p.p_vaddr p2.m_kernelDelta) p2.m_imageBase
        = base + (p.p_vaddr - host.KERNEL_VADDR) - p1.m_imageBase
      ∧ sub32 (add32 (add32 p.p_vaddr p2.m_kernelDelta) p.p_memsz) p2.m_imageBase
        = base + (p.p_vaddr - host.KERNEL_VADDR) + p.p_memsz - p1.m_imageBase := by
    intro p hp hpt
    obtain ⟨kp1, kp2, kp3, kp4, kp5⟩ := kernel_physaddr hvs p hp hpt
    rw [hkd, hibs, kp2, kp1]
    exact ⟨sub32_of_le (by omega) (by omega), sub32_of_le (by omega) (by omega)⟩
  refine ⟨hkd, ?_, ws, _, hrec, ?_⟩
  · intro p hp hpt
    rw [(hoff p hp hpt).1, (hoff p hp hpt).2]
    obtain ⟨b1, b2⟩ := loadKernelSegments_bytes hseg hib hbl hvs hdis p hp hpt
    exact ⟨b1, b2, loadKernelSegments_zero hseg hib hbl hlen1 hvs hdis p hp hpt⟩
  · rw [hkd]
    exact kernelLimit_size hbl hvs

/-- C19 on scenario S4, a kernel with the segments (offset 116, vaddr `0xC0000000`, filesz
`0x10`, memsz `0x20`) and (offset 132, vaddr `0xC0000100`, filesz 8, memsz 8), placed at
the base `0x80000000`, which is the image base: the payload starts with the `0x10` bytes
`0xAA` of the file, followed by `0x10` zero bytes, it holds the 8 bytes `0xBB` at the
offset `0x100`, and the SIZE record carries `0x108`. -/
theorem kernel_segments_loaded_witness :
    build hostS4 blueprintS4 {} = .ok (resultOf (build hostS4 blueprintS4 {}))
    ∧ placeModuleBody hostS4 moduleS4 startS4 = .ok kernelPlacedS4
    ∧ programHeadersOf sampleKernel2
      = [⟨PT_LOAD, 116, 0xC0000000, 0xC0000000, 0x10, 0x20, 7, 4096⟩,
          ⟨PT_LOAD, 132, 0xC0000100, 0xC0000100, 8, 8, 7, 4096⟩]
    ∧ (∀ e ∈ kernelPlacedS4.cursorLog, e.raw < U32)
    ∧ (programHeadersOf sampleKernel2).Pairwise segmentsDisjoint
    ∧ kernelPlacedS4.m_kernelDelta = sub32 0x80000000 0xC0000000
    ∧ (∀ p ∈ programHeadersOf sampleKernel2, p.p_type = PT_LOAD →
        sub32 (add32 p.p_vaddr kernelPlacedS4.m_kernelDelta) kernelPlacedS4.m_imageBase
            + p.p_filesz ≤ kernelPlacedS4.m_image.length
        ∧ (∀ k, k < p.p_filesz →
            p.p_offset + k < sampleKernel2.length
            ∧ kernelPlacedS4.m_image[sub32 (add32 p.p_vaddr kernelPlacedS4.m_kernelDelta)
                  kernelPlacedS4.m_imageBase + k]?
                = sampleKernel2[p.p_offset + k]?)
        ∧ (∀ i, sub32 (add32 p.p_vaddr kernelPlacedS4.m_kernelDelta)
                  kernelPlacedS4.m_imageBase + p.p_filesz ≤ i →
            i < sub32 (add32 (add32 p.p_vaddr kernelPlacedS4.m_kernelDelta) p.p_memsz)
                  kernelPlacedS4.m_imageBase →
            kernelPlacedS4.m_image[i]? = some 0))
    ∧ kernelPlacedS4.m_image.take 0x20
        = List.replicate 0x10 0xAA ++ List.replicate 0x10 0
    ∧ (kernelPlacedS4.m_image.drop 0x100).take 8 = List.replicate 8 0xBB
    ∧ kernelPlacedS4.m_metadata.drop (kernelPlacedS4.m_metadata.length - 3)
        = [ MODINFO_SIZE, 4, 0x108] := by
  obtain ⟨-, -, hw, hst, t1, t2, t3⟩ := scenarioS4
  have hdis : (programHeadersOf sampleKernel2).Pairwise segmentsDisjoint := by
    rw [programHeadersS4]
    decide
  refine ⟨buildS4_accepted, kernelPlacedS4_ok, programHeadersS4, hw, hdis, ?_⟩
  obtain ⟨s1, s2, f, base, h1, h2, hf, hbase, himp⟩ :=
    kernel_segments_loaded hostS4 blueprintS4 {} _ [] [] moduleS4 buildS4_accepted rfl rfl
  simp only [placeModules, Except.ok.injEq] at h1
  have hs1 : s1 = startS4 := h1.symm
  rw [hs1, kernelPlacedS4_ok] at h2
  have hs2 : kernelPlacedS4 = s2 := Except.ok.inj h2
  have hf2 : sampleKernel2 = f := Option.some.inj hf
  have hb : base = 0x80000000 := by rw [hbase, hs1]; exact hst
  rw [← hs2, ← hf2, hb] at himp
  obtain ⟨hkd, hseg, -⟩ := himp hw (by rw [programHeadersS4]; decide) hdis
  exact ⟨hkd, hseg, t1, t2, t3⟩

/-- C16. For every built `Image` whose kickstart position `0x1000 + compressedSize` rounded up
to a multiple of `0x1000` and whose kickstart length fit 32 bits, the file that `writeElf`
emits reads back as: an ELF header with the identification of `Image.cpp`, type `ET_EXEC`,
machine `EM_ARM`, version `EV_CURRENT`, `e_entry = m_kickstartEntry`,
`e_phoff = sizeof(Elf32_Ehdr)`, `e_phentsize = sizeof(Elf32_Phdr)`, `e_phnum = 2` and no
sections; at `e_phoff` two `PT_LOAD` program headers with flags `PF_R | PF_W | PF_X` and
`p_align = 0x1000`, the first with `p_offset = 0x1000`, `p_vaddr = p_paddr = m_imageBase +
m_imageDisplacement` (32-bit sum), `p_filesz = p_memsz = m_image.size()`, the second with
`p_offset = 0x1000 + (m_image.size() + 4095) / 4096 * 4096`, `p_vaddr = p_paddr =
m_kickstartBase`, `p_filesz = m_kickstart.size()`, `p_memsz = m_allocationPointer -
m_kickstartBase` (32-bit difference). The headers end at or before `0x1000`, the payload
ends at or before the offset of the kickstart, and the file holds the payload and the
kickstart at the two offsets. -/
theorem writeElf_output (host : Host) (blueprint : Blueprint) (st0 st : Image)
    (h : build host blueprint st0 = .ok st)
    (hsize : 0x1000 + (st.m_image.length + 4095) / 4096 * 4096 < U32)
    (hks : st.m_kickstart.length < U32) :
    parseEhdr ((writeElf st).take sizeofEhdr)
      = { e_ident := ElfIdentification, e_type := ET_EXEC, e_machine := EM_ARM,
          e_version := EV_CURRENT, e_entry := st.m_kickstartEntry, e_phoff := sizeofEhdr,
          e_shoff := 0, e_flags := 0, e_ehsize := sizeofEhdr, e_phentsize := sizeofPhdr,
          e_phnum := 2, e_shentsize := 0, e_shnum := 0, e_shstrndx := 0 }
    ∧ programHeadersOf (writeElf st)
      = [{ p_type := PT_LOAD, p_offset := 0x1000,
            p_vaddr := add32 st.m_imageBase st.m_imageDisplacement,
            p_paddr := add32 st.m_imageBase st.m_imageDisplacement,
            p_filesz := st.m_image.length, p_memsz := st.m_image.length,
            p_flags := PF_R ||| PF_W ||| PF_X, p_align := 0x1000 },
          { p_type := PT_LOAD,
            p_offset := 0x1000 + (st.m_image.length + 4095) / 4096 * 4096,
            p_vaddr := st.m_kickstartBase, p_paddr := st.m_kickstartBase,
            p_filesz := st.m_kickstart.length,
            p_memsz := sub32 st.m_allocationPointer st.m_kickstartBase,
            p_flags := PF_R ||| PF_W ||| PF_X, p_align := 0x1000 }]
    ∧ sizeofEhdr + 2 * sizeofPhdr ≤ 0x1000
    ∧ 0x1000 + st.m_image.length ≤ 0x1000 + (st.m_image.length + 4095) / 4096 * 4096
    ∧ ((writeElf st).drop 0x1000).take st.m_image.length = st.m_image
    ∧ ((writeElf st).drop (0x1000 + (st.m_image.length + 4095) / 4096 * 4096)).take
        st.m_kickstart.length = st.m_kickstart := by
  obtain ⟨-, hkb, hke⟩ := build_fields h
  obtain ⟨h1, h2, h3, h4⟩ := writeElf_parse st hke hkb hsize hks
  exact ⟨h1, h2, by decide, by omega, h3, h4⟩

/-- C16 on scenario S1: a compressed payload of 16 bytes for `0x80001FF0` and a kickstart of
20 bytes at `0x80002000`; the file is `0x2014` bytes long, with the payload at `0x1000` and
the kickstart at `0x2000`. -/
theorem writeElf_output_witness :
    build sampleHost blueprintS1 {} = .ok builtS1
    ∧ 0x1000 + (builtS1.m_image.length + 4095) / 4096 * 4096 < U32
    ∧ builtS1.m_kickstart.length < U32
    ∧ (parseEhdr ((writeElf builtS1).take sizeofEhdr)).e_entry = 0x80002000
    ∧ programHeadersOf (writeElf builtS1)
      = [⟨PT_LOAD, 0x1000, 0x80001FF0, 0x80001FF0, 16, 16, 7, 0x1000⟩,
          ⟨PT_LOAD, 0x2000, 0x80002000, 0x80002000, 20, 20, 7, 0x1000⟩]
    ∧ (writeElf builtS1).length = 0x2014
    ∧ ((writeElf builtS1).drop 0x1000).take builtS1.m_image.length = builtS1.m_image
    ∧ ((writeElf builtS1).drop
          (0x1000 + (builtS1.m_image.length + 4095) / 4096 * 4096)).take
        builtS1.m_kickstart.length = builtS1.m_kickstart := by
  obtain ⟨-, -, -, -, -, hsize, hks, hentry, hil, hkl, -, -, -, hph⟩ := scenarioS1
  obtain ⟨h1, h2, -, -, h5, h6⟩ :=
    writeElf_output sampleHost blueprintS1 {} builtS1 builtS1_ok hsize hks
  obtain ⟨-, hkb, -⟩ := build_fields builtS1_ok
  have hne : builtS1.m_kickstart ≠ [] := by
    intro he
    rw [he] at hkl
    exact absurd hkl (by decide)
  have hlen := writeElf_length builtS1 hkb hsize hks hne
  rw [hil, hkl] at hlen
  have hent : (parseEhdr ((writeElf builtS1).take sizeofEhdr)).e_entry
      = builtS1.m_kickstartEntry := by
    rw [h1]
  refine ⟨builtS1_ok, hsize, hks, hent.trans hentry, ?_, hlen, h5, h6⟩
  rw [h2]
  exact hph

/-- C15 (counterexample). Scenario S6 is accepted: its kickstart has one segment of 20 file
bytes and a memory size of 0, and there is one init module. The kickstart buffer of the
built image is the 8 bytes `08 20 00 80 00 00 00 00`, the module table: its first word is
`0x80002008`, the entry of the init module, where the claim has `metadataBase - kernelDelta =
0xC0001000`, and it has no third, fourth and fifth word. -/
theorem kickstart_header_counterexample :
    build hostS6 blueprintS6 {} = .ok builtS6
    ∧ blueprintS6.initModules = [str ("m2.elf")]
    ∧ programHeadersOf shortKickstart = [⟨PT_LOAD, 0, 0, 0, 20, 0, 7, 4096⟩]
    ∧ builtS6.m_kickstart = [8, 32, 0, 128, 0, 0, 0, 0]
    ∧ sub32 builtS6.m_metadataBase builtS6.m_kernelDelta = 0xC0001000
    ∧ u32le builtS6.m_kickstart = 0x80002008
    ∧ ∀ w4, builtS6.m_kickstart.take 20 ≠ kickstartHeader builtS6 w4 := by
  have hk : builtS6.m_kickstart = [8, 32, 0, 128, 0, 0, 0, 0] := scenarioS6.2.1
  refine ⟨builtS6_ok, rfl, by decide!, hk, scenarioS6.2.2, by rw [hk]; decide,
    fun w4 hc => ?_⟩
  have := congrArg List.length hc
  rw [hk, kickstartHeader_length] at this
  exact absurd this (by decide)

/-- C15 (amended). For every accepted blueprint, `l` being the state at the end of the payload
layout, `c` the state after compression and `loaded` the buffer into which `loadExecutable`
loads the kickstart, leaving the cursor at `s2.m_allocationPointer`: `m_kickstartBase` is
the allocation pointer of `l`, `m_imageDisplacement` is the length of the payload of `l`
minus the length of the compressed payload (mod 2^32), and `loaded` has at least 20 bytes.
When `initModules` is empty the kickstart buffer is the five little-endian words
`metadataBase - kernelDelta`, `kernelEntryPoint + kernelDelta`, `imageBase +
imageDisplacement`, `imageBase`, 0 (all mod 2^32) followed by the loaded image from the
offset 20 on. When `initModules` is not empty and no cursor step of the build wraps, then
for every `n` from 20 up to the length of `loaded` such that the cursor after the load is at
least `kickstartBase + n`, the first `n` bytes of the kickstart buffer are the first `n`
bytes of those five words, the fifth being the module-table address (the cursor after the
load, rounded up to a multiple of 4), followed by the loaded image from the offset 20 on. -/
theorem kickstart_header (host : Host) (blueprint : Blueprint) (st st' : Image)
    (h : build host blueprint st = .ok st') :
    ∃ l c s2 loaded entry,
      layout host blueprint st = .ok l
      ∧ compressPayload host l = .ok c
      ∧ loadExecutable host blueprint.kickstart c.m_kickstart
          { c with m_kickstartBase := c.m_allocationPointer } = .ok (s2, loaded, entry)
      ∧ st'.m_kickstartBase = l.m_allocationPointer
      ∧ st'.m_imageDisplacement = sub32 l.m_image.length st'.m_image.length
      ∧ 20 ≤ loaded.length
      ∧ (blueprint.initModules = [] →
          st'.m_kickstart = kickstartHeader st' 0 ++ loaded.drop 20)
      ∧ (blueprint.initModules ≠ [] → (∀ e ∈ st'.cursorLog, e.raw < U32) →
          ∀ n, 20 ≤ n → n ≤ loaded.length →
            st'.m_kickstartBase + n ≤ s2.m_allocationPointer →
            st'.m_kickstart.take n
              = (kickstartHeader st' (alignAllocationPointer 4 s2).m_allocationPointer
                  ++ loaded.drop 20).take n) := by
  obtain ⟨l, c, hl, hc, hk⟩ := build_ok h
  obtain ⟨hsc, -, -⟩ := compressPayload_step hc
  obtain ⟨f, -, hfix⟩ := stageKickstart_fixed hk
  have hcap : c.m_allocationPointer = l.m_allocationPointer := by
    have := hsc.trace
    simp only [Trace] at this
    exact this.symm
  have hkb : st'.m_kickstartBase = c.m_allocationPointer := by
    have := congrArg Image.m_kickstartBase hfix
    exact this
  have hdisp : st'.m_imageDisplacement = c.m_imageDisplacement := by
    have := congrArg Image.m_imageDisplacement hfix
    exact this
  have himg : st'.m_image = c.m_image := by
    have := congrArg Image.m_image hfix
    exact this
  have hd : st'.m_imageDisplacement = sub32 l.m_image.length st'.m_image.length := by
    rw [hdisp, himg]
    exact compressPayload_inv hc
  by_cases hi : blueprint.initModules = []
  · obtain ⟨s2, loaded, entry, h1, h20, hks⟩ := stageKickstart_plain hk hi
    exact ⟨l, c, s2, loaded, entry, hl, hc, h1, by rw [hkb, hcap], hd, h20, fun _ => hks,
      fun hne => absurd hi hne⟩
  · obtain ⟨s2, loaded, entry, h1, h20, hks⟩ := stageKickstart_table hk hi
    refine ⟨l, c, s2, loaded, entry, hl, hc, h1, by rw [hkb, hcap], hd, h20,
      fun he => absurd he hi, fun _ hw n hn1 hn2 hn3 => hks hw n hn1 hn2 ?_⟩
    rw [← hkb]
    exact hn3

/-- C15 (amended) on scenario S7, which has one init module and a kickstart of 20 bytes
loaded at `0x80002000`: the cursor after the load is `0x80002014`, which is the module
table, and the first 20 bytes of the kickstart buffer are the words `0xC0001000`,
`0x80000000`, `0x80001FF0`, `0x80000000`, `0x80002014`. -/
theorem kickstart_header_witness :
    build hostS6 blueprintS7 {} = .ok builtS7
    ∧ blueprintS7.initModules ≠ []
    ∧ (∀ e ∈ builtS7.cursorLog, e.raw < U32)
    ∧ builtS7.m_kickstartBase = layoutS7.m_allocationPointer
    ∧ builtS7.m_kickstartBase + 20 ≤ kickLoadS7.1.m_allocationPointer
    ∧ builtS7.m_kickstart.take 20 = kickstartHeader builtS7 0x80002014
    ∧ kickstartHeader builtS7 0x80002014
        = le32 0xC0001000 ++ le32 0x80000000 ++ le32 0x80001FF0 ++ le32 0x80000000
          ++ le32 0x80002014 := by
  obtain ⟨-, -, -, -, hw, hcur, hT, hbytes⟩ := scenarioS7
  have hne : blueprintS7.initModules ≠ [] := by decide
  obtain ⟨l, c, s2, loaded, entry, hl, hc, h1, hkb, -, h20, -, htab⟩ :=
    kickstart_header hostS6 blueprintS7 {} builtS7 builtS7_ok
  have el : layoutS7 = l := Except.ok.inj (layoutS7_ok.symm.trans hl)
  rw [← el] at hc hkb
  have ec : payloadS7 = c := Except.ok.inj (payloadS7_ok.symm.trans hc)
  rw [← ec] at h1
  have e2 : kickLoadS7 = (s2, loaded, entry) := Except.ok.inj (kickLoadS7_ok.symm.trans h1)
  have es : kickLoadS7.1 = s2 := congrArg (fun r => r.1) e2
  rw [← es] at htab
  have key := htab hne hw 20 (le_refl _) h20 hcur
  have hlen : (kickstartHeader builtS7 0x80002014).take 20 = kickstartHeader builtS7 0x80002014 :=
    List.take_of_length_le (by rw [kickstartHeader_length])
  rw [hT, List.take_append_of_le_length (by rw [kickstartHeader_length]), hlen] at key
  exact ⟨builtS7_ok, hne, hw, hkb, hcur, key, key.symm.trans hbytes⟩

/-- C23. For every non-empty list `ts` of byte strings and every line handler, `parse` on
the text of the quoted tokens (each between double quotes with a `'\'` before every `'"'`
and `'\'`, joined by single spaces, ended by a newline) calls the line handler once, on
the tokens `ts`, and ends without a lexer error: with the handler that records its lines
the result is the one line `ts`. The strings are arbitrary, so blanks, newlines and `';'`
inside the quotes are literal and `""` is the empty token. Outside quotes, a `';'`, the
characters up to the next newline and that newline are read as the newline alone, from
every state of the lexer; so a comment after the last quoted token leaves the line as it
is. -/
theorem quoted_line_lexed {σ : Type}
    (processLine : List (List Byte) → σ → Except BlueprintError σ) (ctx : σ)
    (ts : List (List Byte)) (h : ts ≠ []) :
    parse processLine (quoteLine ts) ctx = processLine ts ctx
    ∧ parse recordLine (quoteLine ts) [] = .ok [ts]
    ∧ (∀ (c rest : List Byte) (lx : Lexer σ), lx.lexerState = .Normal → (10 : Byte) ∉ c →
        lexLoop processLine ([59] ++ c ++ [10] ++ rest) lx
          = lexLoop processLine ([10] ++ rest) lx)
    ∧ (∀ c : List Byte, (10 : Byte) ∉ c →
        parse processLine (quoteTokens ts ++ ([59] ++ c ++ [10])) ctx = processLine ts ctx) := by
  refine ⟨?_, ?_, fun c rest lx hn hc => lexLoop_comment processLine c rest lx hn hc, ?_⟩
  · apply parse_of_lexLoop
    have := lexLoop_quoteLine processLine ts h [] ctx (fun _ _ => rfl)
    simpa [quoteLine] using this
  · have : parse recordLine (quoteLine ts) [] = recordLine ts [] := by
      apply parse_of_lexLoop
      have := lexLoop_quoteLine recordLine ts h [] [] (fun _ _ => rfl)
      simpa [quoteLine] using this
    rw [this]
    rfl
  · intro c hc
    apply parse_of_lexLoop
    have := lexLoop_quoteLine processLine ts h ([59] ++ c) ctx (fun toks buf => by
      have := lexLoop_comment processLine c [] ⟨.Normal, toks, buf, true, ctx⟩ rfl hc
      simpa using this)
    simpa using this

/-- C23 on the tokens `a b`, the empty string and `x;"\` followed by a newline: the text is
`"a b" "" "x;\"\\<newline>"` and a newline, and the lexer gives one line with these three
tokens; with the comment `;c` after the last quote it gives the same line. -/
theorem quoted_line_lexed_witness :
    quoteLine [[97, 32, 98], [], [120, 59, 34, 92, 10]]
      = [34, 97, 32, 98, 34, 32, 34, 34, 32, 34, 120, 59, 92, 34, 92, 92, 10, 34, 10]
    ∧ parse recordLine
        [34, 97, 32, 98, 34, 32, 34, 34, 32, 34, 120, 59, 92, 34, 92, 92, 10, 34, 10] []
      = .ok [[[97, 32, 98], [], [120, 59, 34, 92, 10]]]
    ∧ parse recordLine
        [34, 97, 32, 98, 34, 32, 34, 34, 32, 34, 120, 59, 92, 34, 92, 92, 10, 34, 59, 99, 10] []
      = .ok [[[97, 32, 98], [], [120, 59, 34, 92, 10]]] := by
  have hq : quoteLine [[97, 32, 98], [], [120, 59, 34, 92, 10]]
      = [34, 97, 32, 98, 34, 32, 34, 34, 32, 34, 120, 59, 92, 34, 92, 92, 10, 34, 10] := by
    decide
  obtain ⟨h1, -, -, h4⟩ := quoted_line_lexed recordLine []
    [[97, 32, 98], [], [120, 59, 34, 92, 10]] (by decide)
  rw [hq] at h1
  have h5 := h4 [99] (by decide)
  exact ⟨hq, h1, h5⟩

/-- C21. For every accepted blueprint built by a new `Image` (empty stream, empty fixup
list), `s` being the state in which `build` enters the fixup pass and `pl` the state after
it: the pass changes no field but the payload, so the allocation pointer is the same, and
the payload keeps its length; the payload after the pass is the payload before it with one
write of four bytes per registered fixup, in registration order, at the index
`m_metadataBase + 4 * offset - m_imageBase` (which is `m_metadataBase - m_imageBase + 4 *
offset`, the subtraction not going below 0), and no offset is registered twice. Every
registered offset is an index of the metadata stream at which the two words before are the
type `0x8004` and the size 4 of a KERNEND record, the word itself being the zero
placeholder; its four bytes lie inside the payload and hold `m_allocationPointer -
m_kernelDelta` (mod 2^32) after the pass. Every byte of the payload outside the four bytes
of each fixup is the same before and after the pass. When the stream is shorter than 4 GiB
(the block in the payload is then the whole stream), the eight bytes before the four bytes
of each fixup are the words `0x8004` and 4 in the payload, before and after the pass. -/
theorem fixup_pass (host : Host) (blueprint : Blueprint) (st st' : Image)
    (h : build host blueprint st = .ok st')
    (hm : st.m_metadata = []) (hf : st.m_metadataFixups = []) :
    ∃ st1 s pl,
      placeModules host blueprint.modules
          { st with
            m_imageBase := blueprint.imageBase % U32
            m_allocationPointer := blueprint.imageBase % U32
            m_image := []
            cursorLog := [] } = .ok st1
      ∧ placeMetadataBlock st1 = .ok s
      ∧ applyFixups s.m_metadataFixups s = .ok pl
      ∧ layout host blueprint st = .ok pl
      ∧ pl = { s with m_image := pl.m_image }
      ∧ pl.m_allocationPointer = s.m_allocationPointer
      ∧ pl.m_image.length = s.m_image.length
      ∧ pl.m_image = fixupWrites s s.m_metadataFixups
      ∧ (s.m_metadataFixups.map (fun f => f.offset)).Nodup
      ∧ (∀ f ∈ s.m_metadataFixups,
          2 ≤ f.offset ∧ f.offset < s.m_metadata.length
          ∧ s.m_metadata[f.offset - 2]? = some 0x8004
          ∧ s.m_metadata[f.offset - 1]? = some 4
          ∧ s.m_metadata[f.offset]? = some 0
          ∧ s.m_imageBase ≤ s.m_metadataBase + 4 * f.offset
          ∧ fixupPos s f = s.m_metadataBase + 4 * f.offset - s.m_imageBase
          ∧ fixupPos s f + 4 ≤ s.m_image.length
          ∧ (pl.m_image.drop (fixupPos s f)).take 4
              = le32 (sub32 s.m_allocationPointer s.m_kernelDelta))
      ∧ (∀ i, (∀ f ∈ s.m_metadataFixups, i < fixupPos s f ∨ fixupPos s f + 4 ≤ i) →
          pl.m_image[i]? = s.m_image[i]?)
      ∧ (4 * s.m_metadata.length < U32 → ∀ f ∈ s.m_metadataFixups,
          s.m_imageBase ≤ s.m_metadataBase
          ∧ fixupPos s f = s.m_metadataBase - s.m_imageBase + 4 * f.offset
          ∧ (s.m_image.drop (fixupPos s f - 8)).take 8 = le32 0x8004 ++ le32 4
          ∧ (pl.m_image.drop (fixupPos s f - 8)).take 8 = le32 0x8004 ++ le32 4) := by
  obtain ⟨pl, -, hl, -, -⟩ := build_ok h
  obtain ⟨st1, s, ws, h1, h2, h3, hM, hF, hzero⟩ := layout_before_fixups hl hm hf
  obtain ⟨img, hpl, hlen⟩ := applyFixups_frame h3
  obtain ⟨hw, hb⟩ := applyFixups_writes h3
  have himg : pl.m_image = img := by rw [hpl]
  have hinc := fixupsOf_increasing 0 ws
  rw [← hF] at hinc
  have hrec : ∀ f ∈ s.m_metadataFixups,
      2 ≤ f.offset ∧ f.offset < s.m_metadata.length
      ∧ s.m_metadata[f.offset - 2]? = some 0x8004
      ∧ s.m_metadata[f.offset - 1]? = some 4
      ∧ s.m_metadata[f.offset]? = some 0 := by
    intro f hfm
    have hfm' := hfm
    rw [hF] at hfm'
    obtain ⟨k, hk1, hk2, hk3, hk4⟩ := fixupsOf_record hzero hfm'
    have hlt := fixupsOf_offset_lt hzero hfm'
    have hstream : ∀ j, j < (ws.flatMap encodeWrite).length →
        s.m_metadata[j]? = (ws.flatMap encodeWrite)[j]? := by
      intro j hj
      rw [hM, List.flatMap_append, List.getElem?_append_left hj]
    have hk : k + 2 < (ws.flatMap encodeWrite).length := by omega
    have e2 : f.offset - 2 = k := by omega
    have e1 : f.offset - 1 = k + 1 := by omega
    have e0 : f.offset = k + 2 := by omega
    refine ⟨by omega, ?_, ?_, ?_, ?_⟩
    · rw [hM, List.flatMap_append, List.length_append]
      omega
    · rw [e2, hstream k (by omega)]
      exact hk2
    · rw [e1, hstream (k + 1) (by omega)]
      exact hk3
    · rw [e0, hstream (k + 2) hk]
      exact hk4
  have hout : ∀ i, (∀ f ∈ s.m_metadataFixups, i < fixupPos s f ∨ fixupPos s f + 4 ≤ i) →
      pl.m_image[i]? = s.m_image[i]? := by
    intro i ho
    rw [hw]
    exact fixupWrites_outside s s.m_metadataFixups s.m_image i (fun g hg => (hb g hg).2) ho
  refine ⟨st1, s, pl, h1, h2, h3, hl, ?_, ?_, ?_, hw, ?_, ?_, hout, ?_⟩
  · rw [himg]
    exact hpl
  · rw [hpl]
  · rw [himg]
    exact hlen
  · exact hinc.imp (fun hab => Nat.ne_of_lt hab)
  · intro f hfm
    obtain ⟨r1, r2, r3, r4, r5⟩ := hrec f hfm
    obtain ⟨hb1, hb2⟩ := hb f hfm
    refine ⟨r1, r2, r3, r4, r5, by omega, ?_, hb2, ?_⟩
    · unfold fixupPos
      omega
    · rw [hw]
      apply fixupWrites_inside s s.m_metadataFixups s.m_image
        (fun g hg => (hb g hg).2) (fixupPos s f) hb2 (Or.inl ⟨f, hfm, rfl⟩)
      intro g hg
      obtain ⟨hg1, -⟩ := hb g hg
      unfold fixupPos
      omega
  · intro hsmall f hfm
    obtain ⟨r1, r2, r3, r4, r5⟩ := hrec f hfm
    obtain ⟨hb1, hb2⟩ := hb f hfm
    have hp : fixupPos s f = s.m_metadataBase + f.offset * 4 - s.m_imageBase := rfl
    obtain ⟨hib, w1⟩ := placeMetadataBlock_words h2 hsmall (f.offset - 2) 0x8004 r3
      (by rw [hp] at hb2; omega)
    obtain ⟨-, w2⟩ := placeMetadataBlock_words h2 hsmall (f.offset - 1) 4 r4
      (by rw [hp] at hb2; omega)
    have p1 : s.m_metadataBase + (f.offset - 2) * 4 - s.m_imageBase = fixupPos s f - 8 := by
      rw [hp]
      omega
    have p2 : s.m_metadataBase + (f.offset - 1) * 4 - s.m_imageBase = fixupPos s f - 8 + 4 := by
      rw [hp]
      omega
    rw [p1] at w1
    rw [p2] at w2
    have hbefore : (s.m_image.drop (fixupPos s f - 8)).take 8 = le32 0x8004 ++ le32 4 := by
      rw [← w1, ← w2]
      rw [show (8 : Nat) = 4 + 4 from rfl, List.take_add, List.drop_drop]
    refine ⟨hib, by rw [hp]; omega, hbefore, ?_⟩
    rw [← hbefore]
    apply take_drop_congr
    intro j hj
    apply hout
    intro g hg
    obtain ⟨g1, g2, g3, g4, g5⟩ := hrec g hg
    obtain ⟨hg1, -⟩ := hb g hg
    have hpg : fixupPos s g = s.m_metadataBase + g.offset * 4 - s.m_imageBase := rfl
    have hne1 : g.offset ≠ f.offset - 1 := by
      intro he
      rw [he, r4] at g5
      exact absurd g5 (by decide)
    have hne2 : g.offset ≠ f.offset - 2 := by
      intro he
      rw [he, r3] at g5
      exact absurd g5 (by decide)
    rw [hpg, hp]
    omega

/-- C21 on scenario S2 (one kernel module with a KERNEND entry, image base `0x80000000`):
the one fixup has the offset 16 and its bytes are the four bytes from `0x1040` of the
payload; they hold `0x80002000 - 0xC0000000 = 0xC0002000` after the pass, the eight bytes
before them are the words `0x8004` and 4, the cursor is `0x80002000` before and after the
pass, and every other byte of the payload is the same before and after. -/
theorem fixup_pass_witness :
    build sampleHost blueprintS2 {} = .ok builtS2
    ∧ layoutS2.m_metadataFixups = [⟨16, .kernend⟩]
    ∧ (layoutS2.m_image.drop 0x1040).take 4 = le32 0xC0002000
    ∧ (layoutS2.m_image.drop 0x1038).take 8 = le32 0x8004 ++ le32 4
    ∧ layoutS2.m_allocationPointer = 0x80002000
    ∧ ∃ st1 s,
        placeMetadataBlock st1 = .ok s
        ∧ applyFixups s.m_metadataFixups s = .ok layoutS2
        ∧ s.m_metadataFixups = [⟨16, .kernend⟩]
        ∧ s.m_allocationPointer = 0x80002000
        ∧ layoutS2.m_image = fixupWrites s [⟨16, .kernend⟩]
        ∧ ∀ i, (i < 0x1040 ∨ 0x1044 ≤ i) → layoutS2.m_image[i]? = s.m_image[i]? := by
  obtain ⟨st1, s, pl, -, h2, h3, hl, hpl, hap, -, hw, -, -, hout, -⟩ :=
    fixup_pass sampleHost blueprintS2 {} builtS2 builtS2_ok rfl rfl
  have e : layoutS2 = pl := Except.ok.inj (layoutS2_ok.symm.trans hl)
  rw [← e] at h3 hpl hap hw hout
  obtain ⟨hfx, hcur, hmb, hib, hb1, hb2⟩ := layoutS2_values
  have sfx : s.m_metadataFixups = layoutS2.m_metadataFixups := by rw [hpl]
  have smb : s.m_metadataBase = layoutS2.m_metadataBase := by rw [hpl]
  have sib : s.m_imageBase = layoutS2.m_imageBase := by rw [hpl]
  rw [hfx] at sfx
  rw [hmb] at smb
  rw [hib] at sib
  rw [sfx] at hw hout
  refine ⟨builtS2_ok, hfx, hb1, hb2, hcur, st1, s, h2, h3, sfx,
    by rw [← hap, hcur], hw, ?_⟩
  intro i hi
  apply hout
  intro f hf
  simp only [List.mem_singleton] at hf
  subst hf
  simp only [fixupPos, smb, sib]
  omega

/-- C22 (the code at the failing inputs). `build` assigns `m_imageBase` and
`m_allocationPointer` and clears `m_image`, and it resets nothing else: for every prior state
of the `Image`, the metadata stream of an accepted build is the prior stream followed by the
records of the blueprint, the fixup list is the prior list followed by the fixups of these
records, and `m_kernelDelta` is the prior value when no module of the blueprint is an
"elf kernel". -/
theorem build_keeps_prior_state (host : Host) (blueprint : Blueprint) (st st' : Image)
    (h : build host blueprint st = .ok st') :
    ∃ ws,
      st'.m_metadata = st.m_metadata ++ (ws ++ [(⟨MODINFO_END, []⟩ : Write)]).flatMap encodeWrite
      ∧ ws.map (fun w => w.type) = blueprint.modules.flatMap moduleRecordTypes
      ∧ st'.m_metadataFixups = st.m_metadataFixups ++ fixupsOf st.m_metadata.length ws
      ∧ ((∀ m ∈ blueprint.modules, m_moduleTypes m.type ≠ some .ElfKernel) →
          st'.m_kernelDelta = st.m_kernelDelta) := by
  obtain ⟨pl, -, hl, -, -⟩ := build_ok h
  obtain ⟨evs, hs, hkd⟩ := build_after_layout hl h
  obtain ⟨ws, evs1, hmeta, hfix, -, -, -, hty, -⟩ := layout_step hl
  refine ⟨ws, ?_, hty, ?_, ?_⟩
  · rw [hs.metadata, hmeta]
    simp
  · rw [hs.fixups, hfix]
    simp [fixupsOf]
  · intro hk
    rw [hkd]
    exact layout_kernelDelta hl hk

/-- C22 at the failing inputs. Scenario S9 built twice by the same `Image`: the second build
is accepted, its stream is the stream of the first build twice, its fixup list has the fixup
of the first build and a new one, and its payload (which the encoder of this host stores as
it is) differs from that of the first build. Scenario S9 built by an `Image` whose
`m_kernelDelta` held `0x1000`: the build ends with `m_kernelDelta = 0x1000`, where the build
that started with 0 ends with 0, and the streams and the payloads of the two differ. -/
theorem build_keeps_prior_state_witness :
    build hostS9 blueprintS9 {} = .ok builtS9
    ∧ build hostS9 blueprintS9 builtS9 = .ok rebuiltS9
    ∧ (∃ ws, rebuiltS9.m_metadata
        = builtS9.m_metadata ++ (ws ++ [(⟨MODINFO_END, []⟩ : Write)]).flatMap encodeWrite)
    ∧ rebuiltS9.m_metadata = builtS9.m_metadata ++ builtS9.m_metadata
    ∧ builtS9.m_metadataFixups = [⟨16, .kernend⟩]
    ∧ rebuiltS9.m_metadataFixups = [⟨16, .kernend⟩, ⟨35, .kernend⟩]
    ∧ rebuiltS9.m_image ≠ builtS9.m_image
    ∧ build hostS9 blueprintS9 staleS9 = .ok builtS9b
    ∧ staleS9.m_kernelDelta = 0x1000
    ∧ builtS9.m_kernelDelta = 0
    ∧ builtS9b.m_kernelDelta = 0x1000
    ∧ builtS9.m_metadata ≠ builtS9b.m_metadata
    ∧ builtS9.m_image ≠ builtS9b.m_image := by
  obtain ⟨ws, hm, _, _, _⟩ :=
    build_keeps_prior_state hostS9 blueprintS9 builtS9 rebuiltS9 rebuiltS9_ok
  obtain ⟨_, _, _, _, hk⟩ :=
    build_keeps_prior_state hostS9 blueprintS9 staleS9 builtS9b builtS9b_ok
  obtain ⟨_, _, _, _, hk0⟩ :=
    build_keeps_prior_state hostS9 blueprintS9 {} builtS9 builtS9_ok
  have hno : ∀ m ∈ blueprintS9.modules, m_moduleTypes m.type ≠ some .ElfKernel := by decide
  obtain ⟨-, -, -, e1, e3, e4, e5, e6, e10⟩ := scenarioS9
  have e7 : staleS9.m_kernelDelta = 0x1000 := rfl
  have e8 : builtS9.m_kernelDelta = 0 := (hk0 hno).trans rfl
  have e9 : builtS9b.m_kernelDelta = 0x1000 := (hk hno).trans e7
  exact ⟨builtS9_ok, rebuiltS9_ok, ⟨ws, hm⟩, e1, e3, e4, e5, builtS9b_ok, e7, e8, e9, e6, e10⟩

/-- C24 (counterexample). Scenario S8 is accepted: image base 0, a payload of `0x1000` bytes
for which the encoder gives `0x1010` bytes, and a kickstart with `p_memsz = 0xFFFFEFFF`.
`writeElf` gives the payload segment `p_paddr = 0xFFFFFFF0`, `p_memsz = 0x1010` and the
kickstart segment `p_paddr = 0x1000`, `p_memsz = 0xFFFFEFFF`: the payload segment ends at
`0x100001000`, which is `0x1000` only mod 2^32, and the address `0xFFFFFFF0` lies in both
segments. -/
theorem segments_overlap_counterexample :
    build hostS8 blueprintS8 {} = .ok builtS8
    ∧ builtS8.m_imageBase = 0
    ∧ builtS8.m_imageDisplacement = 0xFFFFFFF0
    ∧ builtS8.m_image.length = 0x1010
    ∧ builtS8.m_kickstartBase = 0x1000
    ∧ programHeadersOf (writeElf builtS8) = [imagePhdr builtS8, kickstartPhdr builtS8]
    ∧ imagePhdr builtS8 = ⟨PT_LOAD, 0x1000, 0xFFFFFFF0, 0xFFFFFFF0, 0x1010, 0x1010, 7, 0x1000⟩
    ∧ kickstartPhdr builtS8 = ⟨PT_LOAD, 0x3000, 0x1000, 0x1000, 20, 0xFFFFEFFF, 7, 0x1000⟩
    ∧ (imagePhdr builtS8).p_paddr + (imagePhdr builtS8).p_memsz = 0x100001000
    ∧ (imagePhdr builtS8).p_paddr + (imagePhdr builtS8).p_memsz
        ≠ (kickstartPhdr builtS8).p_paddr
    ∧ inSegment (imagePhdr builtS8) 0xFFFFFFF0
    ∧ inSegment (kickstartPhdr builtS8) 0xFFFFFFF0 := by
  have h : accepted (build hostS8 blueprintS8 {}) = true
      ∧ builtS8.m_imageBase = 0
      ∧ builtS8.m_imageDisplacement = 0xFFFFFFF0
      ∧ builtS8.m_image.length = 0x1010
      ∧ builtS8.m_kickstartBase = 0x1000
      ∧ 0x1000 + (builtS8.m_image.length + 4095) / 4096 * 4096 < U32
      ∧ builtS8.m_kickstart.length < U32
      ∧ imagePhdr builtS8 = ⟨PT_LOAD, 0x1000, 0xFFFFFFF0, 0xFFFFFFF0, 0x1010, 0x1010, 7, 0x1000⟩
      ∧ kickstartPhdr builtS8 = ⟨PT_LOAD, 0x3000, 0x1000, 0x1000, 20, 0xFFFFEFFF, 7, 0x1000⟩
      ∧ (imagePhdr builtS8).p_paddr + (imagePhdr builtS8).p_memsz = 0x100001000
      ∧ (imagePhdr builtS8).p_paddr + (imagePhdr builtS8).p_memsz
          ≠ (kickstartPhdr builtS8).p_paddr
      ∧ inSegment (imagePhdr builtS8) 0xFFFFFFF0
      ∧ inSegment (kickstartPhdr builtS8) 0xFFFFFFF0 := by decide!
  obtain ⟨h0, h1, h2, h3, h4, hsize, hks, h5⟩ := h
  have hb : build hostS8 blueprintS8 {} = .ok builtS8 := accepted_eq _ h0
  obtain ⟨-, hkb, hke⟩ := build_fields hb
  exact ⟨hb, h1, h2, h3, h4, writeElf_programHeaders builtS8 hke hkb hsize hks, h5⟩

/-- C24 (amended). After every accepted build, for any size of the encoder output:
`imageBase + imageDisplacement + compressedSize = kickstartBase` mod 2^32, and for the two
program headers of `writeElf`, `p_paddr + p_memsz` of the payload segment is `p_paddr` of the
kickstart segment mod 2^32. When `p_paddr + p_memsz` of the payload segment is below 2^32,
it is `p_paddr` of the kickstart segment exactly: the payload segment ends where the
kickstart segment begins, and no address lies in both. The two headers are those of the
file when the position of the kickstart in the file and its length fit 32 bits. -/
theorem payload_ends_at_kickstart (host : Host) (blueprint : Blueprint) (st st' : Image)
    (h : build host blueprint st = .ok st') :
    (st'.m_imageBase + st'.m_imageDisplacement + st'.m_image.length) % U32 = st'.m_kickstartBase
    ∧ ((imagePhdr st').p_paddr + (imagePhdr st').p_memsz) % U32 = (kickstartPhdr st').p_paddr
    ∧ ((imagePhdr st').p_paddr + (imagePhdr st').p_memsz < U32 →
        (imagePhdr st').p_paddr + (imagePhdr st').p_memsz = (kickstartPhdr st').p_paddr
        ∧ ∀ a, ¬ (inSegment (imagePhdr st') a ∧ inSegment (kickstartPhdr st') a))
    ∧ (0x1000 + (st'.m_image.length + 4095) / 4096 * 4096 < U32 →
        st'.m_kickstart.length < U32 →
        programHeadersOf (writeElf st') = [imagePhdr st', kickstartPhdr st']) := by
  obtain ⟨h1, hkb, hib⟩ := build_payload_end h
  obtain ⟨-, -, hke⟩ := build_fields h
  have hp : (imagePhdr st').p_paddr = add32 st'.m_imageBase st'.m_imageDisplacement := rfl
  have hm : (imagePhdr st').p_memsz = st'.m_image.length % U32 := rfl
  have hk : (kickstartPhdr st').p_paddr = st'.m_kickstartBase % U32 := rfl
  have h2 : ((imagePhdr st').p_paddr + (imagePhdr st').p_memsz) % U32
      = (kickstartPhdr st').p_paddr := by
    rw [hp, hm, hk, Nat.mod_eq_of_lt hkb, ← h1]
    simp only [add32, U32]
    omega
  refine ⟨h1, h2, ?_, ?_⟩
  · intro hlt
    rw [Nat.mod_eq_of_lt hlt] at h2
    refine ⟨h2, ?_⟩
    rintro a ⟨⟨-, a2⟩, ⟨b1, -⟩⟩
    omega
  · intro hsize hks
    obtain ⟨-, hph, -, -⟩ := writeElf_parse st' hke hkb hsize hks
    obtain ⟨hsz, hpos⟩ := kickstartDataPos_eq st' hsize
    rw [hph]
    simp only [imagePhdr, kickstartPhdr, hpos, Nat.mod_eq_of_lt hsz, Nat.mod_eq_of_lt hsize,
      Nat.mod_eq_of_lt hkb, Nat.mod_eq_of_lt hks]

/-- C24 (amended) on scenario S1: the payload segment is the 16 bytes from `0x80001FF0`, the
kickstart segment starts at `0x80002000`, and no address lies in both. -/
theorem payload_ends_at_kickstart_witness :
    build sampleHost blueprintS1 {} = .ok builtS1
    ∧ (imagePhdr builtS1).p_paddr + (imagePhdr builtS1).p_memsz < U32
    ∧ imagePhdr builtS1 = ⟨PT_LOAD, 0x1000, 0x80001FF0, 0x80001FF0, 16, 16, 7, 0x1000⟩
    ∧ kickstartPhdr builtS1 = ⟨PT_LOAD, 0x2000, 0x80002000, 0x80002000, 20, 20, 7, 0x1000⟩
    ∧ (imagePhdr builtS1).p_paddr + (imagePhdr builtS1).p_memsz
        = (kickstartPhdr builtS1).p_paddr
    ∧ ∀ a, ¬ (inSegment (imagePhdr builtS1) a ∧ inSegment (kickstartPhdr builtS1) a) := by
  obtain ⟨hlt, e1, e2⟩ := builtS1_segments
  obtain ⟨-, -, h3, -⟩ := payload_ends_at_kickstart sampleHost blueprintS1 {} builtS1 builtS1_ok
  exact ⟨builtS1_ok, hlt, e1, e2, (h3 hlt).1, (h3 hlt).2⟩

end BSDBootImageBuilder
